import Mathlib

/-!
# Voxelius: chunk mesher and overworld generator

A shallow embedding of the coordinate helpers (`voxel_coord.cc`), of the chunk
mesher (`chunk_mesher.cc`, `chunk_quad.hh`: the build step, `finalize`, the
event handlers, `update` and `deinit`) and of the overworld generator
(`overworld.cc`), followed by the properties proved about them.

Conventions.
* Machine integers are mathematical integers.  The operations of the embedded
  functions that can leave the 64-bit range are wrapped explicitly with
  `wrap64`; shifts, remainders and comparisons are exact on every input.
* Declarations of this repository that are not part of the sources at hand
  (constants, enumerations, small helpers) carry a doc comment that starts with
  `Modelled from the spec:`.
* External library functions (noise, random generator, checksum, registries)
  are parameters.
* The mesher runs its builds on pool threads.  The scheduler is a state machine
  whose steps are the calls of the main thread, one iteration of a build, and
  the changes the rest of the program makes to the world; the order in which
  the registry yields the flagged entities and the rehashes of the worker map
  are inputs.
-/

namespace Voxelius

/-! ## Constants and coordinate types -/

/-- Modelled from the spec: the chunk size is a power of two, `2 ^ CHUNK_SIZE_LOG2`;
the declaration of the exponent is absent, the value is 4 (chunk size 16). -/
def CHUNK_SIZE_LOG2 : Nat := 4

/-- Modelled from the spec: edge length of a chunk, `1 << CHUNK_SIZE_LOG2`. -/
def CHUNK_SIZE : Nat := 2 ^ CHUNK_SIZE_LOG2

/-- Modelled from the spec: number of cells of one horizontal layer of a chunk. -/
def CHUNK_AREA : Nat := CHUNK_SIZE * CHUNK_SIZE

/-- Modelled from the spec: number of cells of a chunk, `chunk_size³`. -/
def CHUNK_VOLUME : Nat := CHUNK_SIZE * CHUNK_SIZE * CHUNK_SIZE

/-- An integer triple; `VoxelCoord`, `ChunkCoord` and `LocalCoord` are all
three-component integer vectors indexed `[0]`, `[1]`, `[2]`. -/
structure Vec3i where
  x : Int
  y : Int
  z : Int
  deriving DecidableEq, Repr

namespace Vec3i

/-- Component access `v[i]`. -/
def get (v : Vec3i) (i : Fin 3) : Int :=
  match i with
  | 0 => v.x
  | 1 => v.y
  | 2 => v.z

/-- Componentwise sum. -/
def add (a b : Vec3i) : Vec3i := ⟨a.x + b.x, a.y + b.y, a.z + b.z⟩

/-- Componentwise difference. -/
def sub (a b : Vec3i) : Vec3i := ⟨a.x - b.x, a.y - b.y, a.z - b.z⟩

end Vec3i

abbrev VoxelCoord := Vec3i
abbrev ChunkCoord := Vec3i
abbrev LocalCoord := Vec3i

/-- Reduction of an integer to the signed 64-bit range (two's complement). -/
def wrap64 (a : Int) : Int := (a + 2 ^ 63) % 2 ^ 64 - 2 ^ 63

namespace cxpr

/-- Modelled from the spec: `cxpr::mod_signed`, the signed modulo normalised to a
non-negative remainder: the C++ remainder `x % m` (truncated), plus `m` when it
is negative. -/
def mod_signed (x m : Int) : Int :=
  let result := Int.tmod x m
  if result < 0 then result + m else result

/-- Modelled from the spec: `cxpr::clamp`, the value limited to `[lo, hi]`. -/
def clamp (x lo hi : Int) : Int :=
  if x < lo then lo else if x > hi then hi else x

/-- Modelled from the spec: `cxpr::abs`, the absolute value. -/
def abs (x : Int) : Int := if x < 0 then -x else x

/-- Modelled from the spec: `cxpr::range`, the closed range test `lo ≤ x ≤ hi`. -/
def range (x lo hi : Int) : Bool := decide (lo ≤ x) && decide (x ≤ hi)

end cxpr

namespace VoxelCoord

/-- The function `VoxelCoord::to_chunk`: an arithmetic right shift per axis. -/
def to_chunk (vvec : VoxelCoord) : ChunkCoord :=
  ⟨vvec.x >>> CHUNK_SIZE_LOG2, vvec.y >>> CHUNK_SIZE_LOG2, vvec.z >>> CHUNK_SIZE_LOG2⟩

/-- The function `VoxelCoord::to_local`: the normalised remainder per axis. -/
def to_local (vvec : VoxelCoord) : LocalCoord :=
  ⟨cxpr.mod_signed vvec.x CHUNK_SIZE, cxpr.mod_signed vvec.y CHUNK_SIZE,
   cxpr.mod_signed vvec.z CHUNK_SIZE⟩

end VoxelCoord

namespace ChunkCoord

/-- Modelled from the spec: `ChunkCoord::to_voxel`, the voxel at local position
`lvec` of chunk `cvec`, `chunk * chunk_size + local` on every axis (the shift
`cvec << CHUNK_SIZE_LOG2` plus the local offset). -/
def to_voxel (cvec : ChunkCoord) (lvec : LocalCoord) : VoxelCoord :=
  ⟨lvec.x + cvec.x * 2 ^ CHUNK_SIZE_LOG2, lvec.y + cvec.y * 2 ^ CHUNK_SIZE_LOG2,
   lvec.z + cvec.z * 2 ^ CHUNK_SIZE_LOG2⟩

/-- Modelled from the spec: `ChunkCoord::dir_north`, the unit step towards +z. -/
def dir_north : ChunkCoord := ⟨0, 0, 1⟩
/-- Modelled from the spec: `ChunkCoord::dir_south`, the unit step towards -z. -/
def dir_south : ChunkCoord := ⟨0, 0, -1⟩
/-- Modelled from the spec: `ChunkCoord::dir_east`, the unit step towards -x. -/
def dir_east : ChunkCoord := ⟨-1, 0, 0⟩
/-- Modelled from the spec: `ChunkCoord::dir_west`, the unit step towards +x. -/
def dir_west : ChunkCoord := ⟨1, 0, 0⟩
/-- Modelled from the spec: `ChunkCoord::dir_up`, the unit step towards +y. -/
def dir_up : ChunkCoord := ⟨0, 1, 0⟩
/-- Modelled from the spec: `ChunkCoord::dir_down`, the unit step towards -y. -/
def dir_down : ChunkCoord := ⟨0, -1, 0⟩

end ChunkCoord

namespace LocalCoord

/-- Modelled from the spec: `LocalCoord::from_index`, the local coordinate of a
cell of the dense voxel array (x runs fastest, then z, then y). -/
def from_index (index : Nat) : LocalCoord :=
  ⟨((index % CHUNK_SIZE : Nat) : Int), (((index / CHUNK_SIZE) / CHUNK_SIZE : Nat) : Int),
   (((index / CHUNK_SIZE) % CHUNK_SIZE : Nat) : Int)⟩

/-- Modelled from the spec: `LocalCoord::to_index`, the array index of a local
coordinate, inverse of `from_index` on the cells of a chunk. -/
def to_index (lvec : LocalCoord) : Nat :=
  ((lvec.y * CHUNK_SIZE + lvec.z) * CHUNK_SIZE + lvec.x).toNat

/-- Modelled from the spec: `dir_north`, the unit step towards +z. -/
def dir_north : LocalCoord := ⟨0, 0, 1⟩
/-- Modelled from the spec: `dir_south`, the unit step towards -z. -/
def dir_south : LocalCoord := ⟨0, 0, -1⟩
/-- Modelled from the spec: `dir_east`, the unit step towards -x. -/
def dir_east : LocalCoord := ⟨-1, 0, 0⟩
/-- Modelled from the spec: `dir_west`, the unit step towards +x. -/
def dir_west : LocalCoord := ⟨1, 0, 0⟩
/-- Modelled from the spec: `dir_up`, the unit step towards +y. -/
def dir_up : LocalCoord := ⟨0, 1, 0⟩
/-- Modelled from the spec: `dir_down`, the unit step towards -y. -/
def dir_down : LocalCoord := ⟨0, -1, 0⟩

end LocalCoord

/-! ## Voxel definitions -/

/-- A voxel identifier (an unsigned 16-bit value in the source). -/
abbrev VoxelID := Nat

/-- Modelled from the spec: `NULL_VOXEL`, the sentinel for an empty cell; it is
the value a value-initialised `VoxelStorage` holds in every cell. -/
def NULL_VOXEL : VoxelID := 0

/-- The type `VoxelStorage`: a dense array of `CHUNK_VOLUME` voxel ids, read
here as the map from the array index to the id stored there. -/
abbrev VoxelStorage := Nat → VoxelID

/-- Modelled from the spec: the voxel shape type (cube, cross, others). -/
inductive VoxelType where
  | Cube | Cross | Model
  deriving DecidableEq, Repr

/-- Modelled from the spec: the faces a voxel definition keeps textures for. -/
inductive VoxelFace where
  | CubeNorth | CubeSouth | CubeEast | CubeWest | CubeTop | CubeBottom
  | CrossNESW | CrossNWSE
  deriving DecidableEq, Repr

/-- Modelled from the spec: the facing of a quad, a 4-bit enumeration. -/
inductive VoxelFacing where
  | FACING_NORTH | FACING_SOUTH | FACING_EAST | FACING_WEST | FACING_UP | FACING_DOWN
  | FACING_NESW | FACING_NWSE
  deriving DecidableEq, Repr

/-- Modelled from the spec: the integer value of a facing, as
`static_cast<std::uint32_t>(facing)` reads it. -/
def VoxelFacing.code : VoxelFacing → Nat
  | .FACING_NORTH => 0
  | .FACING_SOUTH => 1
  | .FACING_EAST => 2
  | .FACING_WEST => 3
  | .FACING_UP => 4
  | .FACING_DOWN => 5
  | .FACING_NESW => 6
  | .FACING_NWSE => 7

/-- Modelled from the spec: the texture of one face; `paths_size` stands for
`paths.size()`, the number of variants (or of animation frames). -/
structure VoxelTexture where
  paths_size : Nat
  cached_offset : Nat
  cached_plane : Nat
  deriving DecidableEq, Repr

/-- Modelled from the spec: the static definition of a voxel type; `textures`
is indexed by the face. -/
structure VoxelInfo where
  type : VoxelType
  animated : Bool
  blending : Bool
  textures : VoxelFace → VoxelTexture

/-- Modelled from the spec: the visibility mask, one bit per cube face. -/
abbrev VoxelVis := Nat

/-- Modelled from the spec: bit of the north face in a visibility mask. -/
def VIS_NORTH : VoxelVis := 1 <<< 0
/-- Modelled from the spec: bit of the south face in a visibility mask. -/
def VIS_SOUTH : VoxelVis := 1 <<< 1
/-- Modelled from the spec: bit of the east face in a visibility mask. -/
def VIS_EAST : VoxelVis := 1 <<< 2
/-- Modelled from the spec: bit of the west face in a visibility mask. -/
def VIS_WEST : VoxelVis := 1 <<< 3
/-- Modelled from the spec: bit of the top face in a visibility mask. -/
def VIS_UP : VoxelVis := 1 <<< 4
/-- Modelled from the spec: bit of the bottom face in a visibility mask. -/
def VIS_DOWN : VoxelVis := 1 <<< 5

/-- The external services the build step reads: `voxel_def::find`,
`voxel_atlas::plane_count()` and `crc64::get` over the eight bytes of a signed
64-bit value. -/
structure Services where
  find : VoxelID → Option VoxelInfo
  plane_count : Nat
  crc64 : Int → Nat

/-! ## Packed quads (`chunk_quad.hh`) -/

/-- A three-component float vector; every value the mesher builds is a small
dyadic rational, which a float holds exactly. -/
structure Vec3f where
  x : ℚ
  y : ℚ
  z : ℚ
  deriving DecidableEq

/-- A two-component float vector. -/
structure Vec2f where
  x : ℚ
  y : ℚ
  deriving DecidableEq

/-- Modelled from the spec: `LocalCoord::to_vec3f`, the components as floats. -/
def LocalCoord.to_vec3f (lvec : LocalCoord) : Vec3f :=
  ⟨(lvec.x : ℚ), (lvec.y : ℚ), (lvec.z : ℚ)⟩

/-- The conversion `static_cast<std::uint32_t>(f)` of a non-negative float:
the integer part, in 32 bits. -/
def f32_to_u32 (q : ℚ) : Nat := (Rat.floor q).toNat % 2 ^ 32

/-- The type `ChunkQuad`: two 32-bit words. -/
structure ChunkQuad where
  word0 : Nat
  word1 : Nat
  deriving DecidableEq, Repr

/-- The function `make_chunk_quad`. -/
def make_chunk_quad (position : Vec3f) (size : Vec2f) (facing : VoxelFacing)
    (texture frames : Nat) : ChunkQuad :=
  let r0 : Nat := 0x00000000
  let r1 : Nat := 0x00000000
  let r0 := r0 ||| ((0x000000FF &&& f32_to_u32 (position.x * 16)) <<< 24)
  let r0 := r0 ||| ((0x000000FF &&& f32_to_u32 (position.y * 16)) <<< 16)
  let r0 := r0 ||| ((0x000000FF &&& f32_to_u32 (position.z * 16)) <<< 8)
  let r0 := r0 ||| ((0x0000000F &&& f32_to_u32 (size.x * 16 - 1)) <<< 4)
  let r0 := r0 ||| (0x0000000F &&& f32_to_u32 (size.y * 16 - 1))
  let r1 := r1 ||| ((0x0000000F &&& facing.code) <<< 28)
  let r1 := r1 ||| ((0x000007FF &&& (texture % 2 ^ 32)) <<< 17)
  let r1 := r1 ||| ((0x0000001F &&& (frames % 2 ^ 32)) <<< 12)
  ⟨r0, r1⟩

/-! ## The build step (`chunk_mesher.cc`) -/

/-- An element of a `QuadBuilder`: the packed quad, together with the position
and the face that the pushing call was given.  The last two fields are a record
of where the quad comes from; they are not part of the packed data. -/
structure BuiltQuad where
  quad : ChunkQuad
  pos : Vec3f
  face : VoxelFace
  deriving DecidableEq

abbrev QuadBuilder := List BuiltQuad

abbrev CachedChunkCoord := Nat
def CPOS_ITSELF : CachedChunkCoord := 0x0000
def CPOS_NORTH : CachedChunkCoord := 0x0001
def CPOS_SOUTH : CachedChunkCoord := 0x0002
def CPOS_EAST : CachedChunkCoord := 0x0003
def CPOS_WEST : CachedChunkCoord := 0x0004
def CPOS_TOP : CachedChunkCoord := 0x0005
def CPOS_BOTTOM : CachedChunkCoord := 0x0006
def NUM_CACHED_CPOS : Nat := 7

/-- The structure `WorkerContext`, without the future: `cache` maps a slot to
the snapshot held there. -/
structure WorkerContext where
  cache : CachedChunkCoord → VoxelStorage
  quads_nb : List QuadBuilder
  quads_b : List QuadBuilder
  is_cancelled : Bool
  coord : ChunkCoord

/-- A value-initialised `WorkerContext`: seven storages of `NULL_VOXEL`, no quad
builders, not cancelled, coordinate zero. -/
def WorkerContext.fresh : WorkerContext :=
  ⟨fun _ _ => NULL_VOXEL, [], [], false, ⟨0, 0, 0⟩⟩

/-- The function `get_cached_cpos`. -/
def get_cached_cpos (pivot cpos : ChunkCoord) : CachedChunkCoord :=
  let nx : Int → CachedChunkCoord := fun k => if k = 0 then CPOS_WEST else if k = 1 then 0 else CPOS_EAST
  let ny : Int → CachedChunkCoord := fun k => if k = 0 then CPOS_BOTTOM else if k = 1 then 0 else CPOS_TOP
  let nz : Int → CachedChunkCoord := fun k => if k = 0 then CPOS_NORTH else if k = 1 then 0 else CPOS_SOUTH
  if pivot ≠ cpos then
    let delta := Vec3i.sub pivot cpos
    let d0 := cxpr.clamp delta.x (-1) 1
    let d1 := cxpr.clamp delta.y (-1) 1
    let d2 := cxpr.clamp delta.z (-1) 1
    if d0 ≠ 0 then nx (d0 + 1)
    else if d1 ≠ 0 then ny (d1 + 1)
    else nz (d2 + 1)
  else CPOS_ITSELF

/-- The function `vis_test`. -/
def vis_test (G : Services) (ctx : WorkerContext) (voxel : VoxelID) (info : VoxelInfo)
    (lpos : LocalCoord) : Bool :=
  let pvpos := ChunkCoord.to_voxel ctx.coord lpos
  let pcpos := VoxelCoord.to_chunk pvpos
  let plpos := VoxelCoord.to_local pvpos
  let index := LocalCoord.to_index plpos
  let cached_cpos := get_cached_cpos ctx.coord pcpos
  let voxels := ctx.cache cached_cpos
  let neighbour := voxels index
  if neighbour = NULL_VOXEL then true
  else if neighbour = voxel then false
  else
    match G.find neighbour with
    | some neighbour_info =>
      if neighbour_info.blending ≠ info.blending then neighbour_info.blending else false
    | none => false

/-- The function `get_facing`. -/
def get_facing (face : VoxelFace) (type : VoxelType) : VoxelFacing :=
  if type = VoxelType.Cross then
    match face with
    | .CrossNESW => .FACING_NESW
    | .CrossNWSE => .FACING_NWSE
    | _ => .FACING_NORTH
  else
    match face with
    | .CubeNorth => .FACING_NORTH
    | .CubeSouth => .FACING_SOUTH
    | .CubeEast => .FACING_EAST
    | .CubeWest => .FACING_WEST
    | .CubeTop => .FACING_UP
    | .CubeBottom => .FACING_DOWN
    | _ => .FACING_NORTH

/-- The call `builders[plane].push_back(q)`; the source gives no meaning to a
plane beyond the end of the vector, the model leaves the builders as they are. -/
def bucket_push : List QuadBuilder → Nat → BuiltQuad → List QuadBuilder
  | [], _, _ => []
  | b :: bs, 0, q => (b ++ [q]) :: bs
  | b :: bs, p + 1, q => b :: bucket_push bs p q

/-- The function `push_quad_a`. -/
def push_quad_a (ctx : WorkerContext) (info : VoxelInfo) (pos : Vec3f) (size : Vec2f)
    (face : VoxelFace) : WorkerContext :=
  let facing := get_facing face info.type
  let vtex := info.textures face
  let q : BuiltQuad :=
    ⟨make_chunk_quad pos size facing vtex.cached_offset vtex.paths_size, pos, face⟩
  if info.blending then
    { ctx with quads_b := bucket_push ctx.quads_b vtex.cached_plane q }
  else
    { ctx with quads_nb := bucket_push ctx.quads_nb vtex.cached_plane q }

/-- The function `push_quad_v`.  With no path (`paths.size() == 0`) the source
divides by zero and the program ends there; the model is total and follows the
remainder of the natural numbers, and `variants_present` states that no build
of a context runs into that division. -/
def push_quad_v (ctx : WorkerContext) (info : VoxelInfo) (pos : Vec3f) (size : Vec2f)
    (face : VoxelFace) (entropy : Nat) : WorkerContext :=
  let facing := get_facing face info.type
  let vtex := info.textures face
  let entropy_mod := entropy % vtex.paths_size
  let q : BuiltQuad :=
    ⟨make_chunk_quad pos size facing (vtex.cached_offset + entropy_mod) 0, pos, face⟩
  if info.blending then
    { ctx with quads_b := bucket_push ctx.quads_b vtex.cached_plane q }
  else
    { ctx with quads_nb := bucket_push ctx.quads_nb vtex.cached_plane q }

/-- The function `make_cube`. -/
def make_cube (ctx : WorkerContext) (_voxel : VoxelID) (info : VoxelInfo) (lpos : LocalCoord)
    (vis : VoxelVis) (entropy : Nat) : WorkerContext :=
  let fpos := LocalCoord.to_vec3f lpos
  let fsize : Vec2f := ⟨1, 1⟩
  if info.animated then
    let ctx := if vis &&& VIS_NORTH ≠ 0 then push_quad_a ctx info fpos fsize .CubeNorth else ctx
    let ctx := if vis &&& VIS_SOUTH ≠ 0 then push_quad_a ctx info fpos fsize .CubeSouth else ctx
    let ctx := if vis &&& VIS_EAST ≠ 0 then push_quad_a ctx info fpos fsize .CubeEast else ctx
    let ctx := if vis &&& VIS_WEST ≠ 0 then push_quad_a ctx info fpos fsize .CubeWest else ctx
    let ctx := if vis &&& VIS_UP ≠ 0 then push_quad_a ctx info fpos fsize .CubeTop else ctx
    let ctx := if vis &&& VIS_DOWN ≠ 0 then push_quad_a ctx info fpos fsize .CubeBottom else ctx
    ctx
  else
    let ctx := if vis &&& VIS_NORTH ≠ 0 then push_quad_v ctx info fpos fsize .CubeNorth entropy else ctx
    let ctx := if vis &&& VIS_SOUTH ≠ 0 then push_quad_v ctx info fpos fsize .CubeSouth entropy else ctx
    let ctx := if vis &&& VIS_EAST ≠ 0 then push_quad_v ctx info fpos fsize .CubeEast entropy else ctx
    let ctx := if vis &&& VIS_WEST ≠ 0 then push_quad_v ctx info fpos fsize .CubeWest entropy else ctx
    let ctx := if vis &&& VIS_UP ≠ 0 then push_quad_v ctx info fpos fsize .CubeTop entropy else ctx
    let ctx := if vis &&& VIS_DOWN ≠ 0 then push_quad_v ctx info fpos fsize .CubeBottom entropy else ctx
    ctx

/-- A chunk of the world: its voxels and the entity it is linked to. -/
structure Chunk where
  voxels : VoxelStorage
  entity : Nat

/-- The world as `world::find` shows it: the chunk at a coordinate, if any. -/
abbrev World := ChunkCoord → Option Chunk

/-- The function `cache_chunk`. -/
def cache_chunk (world : World) (ctx : WorkerContext) (cpos : ChunkCoord) : WorkerContext :=
  let index := get_cached_cpos ctx.coord cpos
  match world cpos with
  | some chunk => { ctx with cache := Function.update ctx.cache index chunk.voxels }
  | none => ctx

/-- The worker that `chunk_mesher::update` creates for a dirty chunk at `coord`
before it submits the build: a value-initialised context, its coordinate, and
the seven calls of `cache_chunk`. -/
def new_worker (world : World) (coord : ChunkCoord) : WorkerContext :=
  let worker : WorkerContext := { WorkerContext.fresh with coord := coord }
  let worker := cache_chunk world worker coord
  let worker := cache_chunk world worker (Vec3i.add coord ChunkCoord.dir_north)
  let worker := cache_chunk world worker (Vec3i.add coord ChunkCoord.dir_south)
  let worker := cache_chunk world worker (Vec3i.add coord ChunkCoord.dir_east)
  let worker := cache_chunk world worker (Vec3i.add coord ChunkCoord.dir_west)
  let worker := cache_chunk world worker (Vec3i.add coord ChunkCoord.dir_up)
  let worker := cache_chunk world worker (Vec3i.add coord ChunkCoord.dir_down)
  worker

/-- The call `builders.resize(n)` of a vector of quad builders. -/
def resize_builders (l : List QuadBuilder) (n : Nat) : List QuadBuilder :=
  l.take n ++ List.replicate (n - l.length) []

/-- One iteration of the loop of `process`, past the cancellation test. -/
def process_voxel (G : Services) (ctx : WorkerContext) (i : Nat) : WorkerContext :=
  let voxels := ctx.cache CPOS_ITSELF
  let voxel := voxels i
  let lpos := LocalCoord.from_index i
  match G.find voxel with
  | none => ctx
  | some info =>
    let vis : VoxelVis := 0
    let vis := if vis_test G ctx voxel info (Vec3i.add lpos LocalCoord.dir_north) then vis ||| VIS_NORTH else vis
    let vis := if vis_test G ctx voxel info (Vec3i.add lpos LocalCoord.dir_south) then vis ||| VIS_SOUTH else vis
    let vis := if vis_test G ctx voxel info (Vec3i.add lpos LocalCoord.dir_east) then vis ||| VIS_EAST else vis
    let vis := if vis_test G ctx voxel info (Vec3i.add lpos LocalCoord.dir_west) then vis ||| VIS_WEST else vis
    let vis := if vis_test G ctx voxel info (Vec3i.add lpos LocalCoord.dir_up) then vis ||| VIS_UP else vis
    let vis := if vis_test G ctx voxel info (Vec3i.add lpos LocalCoord.dir_down) then vis ||| VIS_DOWN else vis
    let vpos := ChunkCoord.to_voxel ctx.coord lpos
    let entropy_src := wrap64 (wrap64 (vpos.x * vpos.y) * vpos.z)
    let entropy := G.crc64 entropy_src
    make_cube ctx voxel info lpos vis entropy

/-- The loop of `process` from index `i` on, `n` iterations being left.  The
cancellation flag is written by the main thread while the build runs: `flag i`
is the value the build reads at the start of iteration `i`. -/
def process_loop (G : Services) (flag : Nat → Bool) : Nat → Nat → WorkerContext → WorkerContext
  | 0, _, ctx => ctx
  | n + 1, i, ctx =>
    if flag i then { ctx with quads_nb := [], quads_b := [] }
    else process_loop G flag n (i + 1) (process_voxel G ctx i)

/-- The function `process`. -/
def process (G : Services) (flag : Nat → Bool) (ctx : WorkerContext) : WorkerContext :=
  let ctx := { ctx with quads_nb := resize_builders ctx.quads_nb G.plane_count }
  let ctx := { ctx with quads_b := resize_builders ctx.quads_b G.plane_count }
  process_loop G flag CHUNK_VOLUME 0 ctx

/-! ## Notions used to state the properties of the build -/

/-- The quad builders of one blending class: `quads_b` or `quads_nb`. -/
def WorkerContext.builders (ctx : WorkerContext) (blending : Bool) : List QuadBuilder :=
  if blending then ctx.quads_b else ctx.quads_nb

/-- Every quad of one blending class, all planes together. -/
def WorkerContext.class_quads (ctx : WorkerContext) (blending : Bool) : List BuiltQuad :=
  (ctx.builders blending).flatten

/-- Every quad a context holds: all planes of both classes. -/
def WorkerContext.all_quads (ctx : WorkerContext) : List BuiltQuad :=
  ctx.class_quads false ++ ctx.class_quads true

/-- Number of quads a context holds that were pushed for the face `face` of the
voxel at local position `lpos`. -/
def WorkerContext.quads_of_face (ctx : WorkerContext) (lpos : LocalCoord) (face : VoxelFace) :
    Nat :=
  ctx.all_quads.countP (fun q => decide (q.pos = LocalCoord.to_vec3f lpos ∧ q.face = face))

/-- The six faces of a cube in the order `process` and `make_cube` go through
them, each with the step to the cell it looks at and its visibility bit. -/
def cube_faces : List (VoxelFace × LocalCoord × VoxelVis) :=
  [(.CubeNorth, LocalCoord.dir_north, VIS_NORTH), (.CubeSouth, LocalCoord.dir_south, VIS_SOUTH),
   (.CubeEast, LocalCoord.dir_east, VIS_EAST), (.CubeWest, LocalCoord.dir_west, VIS_WEST),
   (.CubeTop, LocalCoord.dir_up, VIS_UP), (.CubeBottom, LocalCoord.dir_down, VIS_DOWN)]

/-- The cell `vis_test` reads for the local position `lpos` (which may lie one
step outside the chunk): the slot chosen by `get_cached_cpos`, at the index of
the local part. -/
def adjacent_voxel (ctx : WorkerContext) (lpos : LocalCoord) : VoxelID :=
  let pvpos := ChunkCoord.to_voxel ctx.coord lpos
  ctx.cache (get_cached_cpos ctx.coord (VoxelCoord.to_chunk pvpos))
    (LocalCoord.to_index (VoxelCoord.to_local pvpos))

/-- The value `process` hands to `make_cube` as entropy for the voxel at `lpos`. -/
def voxel_entropy (G : Services) (coord : ChunkCoord) (lpos : LocalCoord) : Nat :=
  let vpos := ChunkCoord.to_voxel coord lpos
  G.crc64 (wrap64 (wrap64 (vpos.x * vpos.y) * vpos.z))

/-- The quad that `push_quad_a` (animated voxel) or `push_quad_v` (any other)
builds for a face of a cube at `pos`. -/
def face_quad (info : VoxelInfo) (pos : Vec3f) (face : VoxelFace) (entropy : Nat) : BuiltQuad :=
  let vtex := info.textures face
  if info.animated then
    ⟨make_chunk_quad pos ⟨1, 1⟩ (get_facing face info.type) vtex.cached_offset vtex.paths_size,
      pos, face⟩
  else
    ⟨make_chunk_quad pos ⟨1, 1⟩ (get_facing face info.type)
      (vtex.cached_offset + entropy % vtex.paths_size) 0, pos, face⟩

/-- The quads iteration `j` of the build adds to the builders of one blending
class, in the order they are pushed. -/
def voxel_emits (G : Services) (ctx : WorkerContext) (blending : Bool) (j : Nat) :
    List BuiltQuad :=
  match G.find (ctx.cache CPOS_ITSELF j) with
  | none => []
  | some info =>
    if info.blending = blending then
      (cube_faces.filter (fun fd =>
          vis_test G ctx (ctx.cache CPOS_ITSELF j) info
            (Vec3i.add (LocalCoord.from_index j) fd.2.1)
          && decide ((info.textures fd.1).cached_plane < (ctx.builders blending).length))).map
        (fun fd => face_quad info (LocalCoord.to_vec3f (LocalCoord.from_index j)) fd.1
          (voxel_entropy G ctx.coord (LocalCoord.from_index j)))
    else []

/-- The step of `make_cube` for one face, whichever branch is taken. -/
def push_face (info : VoxelInfo) (fpos : Vec3f) (entropy : Nat) (ctx : WorkerContext)
    (face : VoxelFace) : WorkerContext :=
  if info.animated then push_quad_a ctx info fpos ⟨1, 1⟩ face
  else push_quad_v ctx info fpos ⟨1, 1⟩ face entropy

/-- The visibility mask `process` builds from the results of the six calls of
`vis_test`, in the order north, south, east, west, up, down. -/
def vis_of (n s e w u d : Bool) : VoxelVis :=
  let vis : VoxelVis := 0
  let vis := if n then vis ||| VIS_NORTH else vis
  let vis := if s then vis ||| VIS_SOUTH else vis
  let vis := if e then vis ||| VIS_EAST else vis
  let vis := if w then vis ||| VIS_WEST else vis
  let vis := if u then vis ||| VIS_UP else vis
  let vis := if d then vis ||| VIS_DOWN else vis
  vis

/-- The context as the two `resize` calls at the start of `process` leave it. -/
def WorkerContext.resized (G : Services) (ctx : WorkerContext) : WorkerContext :=
  let ctx := { ctx with quads_nb := resize_builders ctx.quads_nb G.plane_count }
  { ctx with quads_b := resize_builders ctx.quads_b G.plane_count }

/-- The grid `cache_chunk` leaves in a slot for the chunk at `cpos`: the voxels
of the chunk, or the value-initialised storage when the world has no chunk
there. -/
def snapshot (world : World) (cpos : ChunkCoord) : VoxelStorage :=
  match world cpos with
  | some chunk => chunk.voxels
  | none => fun _ => NULL_VOXEL

/-- The voxel the world holds at a voxel coordinate, if the chunk is loaded. -/
def world_voxel (world : World) (vpos : VoxelCoord) : Option VoxelID :=
  (world (VoxelCoord.to_chunk vpos)).map
    (fun chunk => chunk.voxels (LocalCoord.to_index (VoxelCoord.to_local vpos)))

/-- The texture index `make_cube` hands to `make_chunk_quad` for a face. -/
def quad_texture (info : VoxelInfo) (face : VoxelFace) (entropy : Nat) : Nat :=
  if info.animated then (info.textures face).cached_offset
  else (info.textures face).cached_offset + entropy % (info.textures face).paths_size

/-- The frame count `make_cube` hands to `make_chunk_quad` for a face. -/
def quad_frames (info : VoxelInfo) (face : VoxelFace) : Nat :=
  if info.animated then (info.textures face).paths_size else 0

/-- No call of `push_quad_v` in a build of the context divides by zero: every
face that the build pushes for a voxel of the chunk that is not animated has a
texture with at least one path. -/
def variants_present (G : Services) (ctx : WorkerContext) : Prop :=
  ∀ j, j < CHUNK_VOLUME → ∀ info, G.find (ctx.cache CPOS_ITSELF j) = some info →
    info.animated = false → ∀ fd ∈ cube_faces,
      vis_test G ctx (ctx.cache CPOS_ITSELF j) info
        (Vec3i.add (LocalCoord.from_index j) fd.2.1) = true →
      1 ≤ (info.textures fd.1).paths_size

/-! ## Finalize (`chunk_mesher.cc`) -/

/-- Modelled from the spec: the GPU buffer of one plane, its handle (zero when
there is none) and its quad count. -/
structure ChunkVBO where
  handle : Nat
  size : Nat
  deriving DecidableEq, Repr

/-- Modelled from the spec: the mesh component of a chunk entity, one buffer per
plane and blending class. -/
structure ChunkMeshComponent where
  quad_nb : List ChunkVBO
  quad_b : List ChunkVBO
  deriving DecidableEq, Repr

/-- A call into the graphics library, as `finalize` issues them. -/
inductive GLCall where
  | DeleteBuffers (handle : Nat)
  | GenBuffers (handle : Nat)
  | BindBuffer (handle : Nat)
  | BufferData (bytes : Nat) (data : List ChunkQuad)
  deriving DecidableEq, Repr

/-- The state `finalize` works on: the mesh components of the registry, the calls
made into the graphics library so far, and the entities handed to
`chunk_visibility::update_chunk`. -/
structure RenderState where
  mesh : Nat → Option ChunkMeshComponent
  gl : List GLCall
  visibility : List Nat

/-- The external functions `finalize` relies on: the component
`emplace_or_replace` hands back (given the one the entity had, if any) and the
handle `glGenBuffers` returns (given the calls made so far). -/
structure Externals where
  emplace_or_replace : Option ChunkMeshComponent → ChunkMeshComponent
  gen_buffer : List GLCall → Nat

/-- The call `buffers.resize(n)` of a vector of plane buffers. -/
def resize_vbos (l : List ChunkVBO) (n : Nat) : List ChunkVBO :=
  l.take n ++ List.replicate (n - l.length) ⟨0, 0⟩

/-- The body of one of the two loops of `finalize`, for one plane: the calls made
so far, the buffer of the plane and the flag `has_no_submeshes` go in and come
out. -/
def finalize_plane (E : Externals) (gl : List GLCall) (builder : QuadBuilder) (buffer : ChunkVBO)
    (has_no_submeshes : Bool) : List GLCall × ChunkVBO × Bool :=
  if builder.isEmpty then
    if buffer.handle ≠ 0 then
      (gl ++ [GLCall.DeleteBuffers buffer.handle], ⟨0, 0⟩, has_no_submeshes)
    else (gl, buffer, has_no_submeshes)
  else
    let generated := buffer.handle = 0
    let handle := if generated then E.gen_buffer gl else buffer.handle
    let gl := if generated then gl ++ [GLCall.GenBuffers handle] else gl
    let gl := gl ++ [GLCall.BindBuffer handle]
    let gl := gl ++ [GLCall.BufferData (8 * builder.length) (builder.map (fun q => q.quad))]
    (gl, ⟨handle, builder.length⟩, false)

/-- One of the two loops of `finalize`: plane after plane, over the builders of a
class and the buffers of the component (resized to as many). -/
def finalize_planes (E : Externals) :
    List GLCall → List QuadBuilder → List ChunkVBO → Bool → List GLCall × List ChunkVBO × Bool
  | gl, builder :: builders, buffer :: buffers, flag =>
    let r := finalize_plane E gl builder buffer flag
    let rest := finalize_planes E r.1 builders buffers r.2.2
    (rest.1, r.2.1 :: rest.2.1, rest.2.2)
  | gl, _, buffers, flag => (gl, buffers, flag)

/-- The function `finalize`. -/
def finalize (E : Externals) (ctx : WorkerContext) (entity : Nat) (st : RenderState) :
    RenderState :=
  let component := E.emplace_or_replace (st.mesh entity)
  let plane_count_nb := ctx.quads_nb.length
  let plane_count_b := ctx.quads_b.length
  let has_no_submeshes_b := true
  let has_no_submeshes_nb := true
  let quad_nb := resize_vbos component.quad_nb plane_count_nb
  let quad_b := resize_vbos component.quad_b plane_count_b
  let r_nb := finalize_planes E st.gl ctx.quads_nb quad_nb has_no_submeshes_nb
  let r_b := finalize_planes E r_nb.1 ctx.quads_b quad_b has_no_submeshes_b
  let component : ChunkMeshComponent := ⟨r_nb.2.1, r_b.2.1⟩
  if r_b.2.2 && r_nb.2.2 then
    { st with mesh := Function.update st.mesh entity none, gl := r_b.1 }
  else
    { mesh := Function.update st.mesh entity (some component), gl := r_b.1,
      visibility := st.visibility ++ [entity] }

/-! ## The scheduler (`chunk_mesher.cc`): events, `update`, `deinit` -/

/-- Component assignment `v[i] = a`. -/
def Vec3i.set (v : Vec3i) (i : Fin 3) (a : Int) : Vec3i :=
  match i with
  | 0 => { v with x := a }
  | 1 => { v with y := a }
  | 2 => { v with z := a }

/-- The constant `MESHER_TASKS_PER_FRAME`: 16 in a debug build for Win32, 64 in
every other build. -/
def MESHER_TASKS_PER_FRAME (win32_debug : Bool) : Nat := if win32_debug then 16 else 64

/-- Modelled from the spec: the component that ties an entity to its chunk; the
mesher reads the coordinate. -/
structure ChunkComponent where
  coord : ChunkCoord
  deriving DecidableEq

/-- Modelled from the spec: the event sent when a chunk is created. -/
structure ChunkCreateEvent where
  chunk : Chunk
  coord : ChunkCoord

/-- Modelled from the spec: the event sent when the voxels of a chunk are
replaced as a whole. -/
structure ChunkUpdateEvent where
  chunk : Chunk
  coord : ChunkCoord

/-- Modelled from the spec: the event sent when one voxel is set; the mesher
reads the chunk, its coordinate and the local position of the voxel. -/
structure VoxelSetEvent where
  chunk : Chunk
  cpos : ChunkCoord
  lpos : LocalCoord

/-- The member `future` of a `WorkerContext`, as `update` sees it and as the
pool drives it: not valid (no task was submitted), submitted and not started,
inside the loop of `process` at an index, or ready. -/
inductive TaskFuture where
  | invalid
  | queued
  | running (index : Nat)
  | ready
  deriving DecidableEq, Repr

/-- An entry of the map `workers`: the key, the context it owns and the future
of the context.  The field `serial` numbers the contexts in the order `update`
creates them; it is a record of identity and not part of the program's data. -/
structure WorkerEntry where
  key : ChunkCoord
  ctx : WorkerContext
  future : TaskFuture
  serial : Nat

/-- The state the mesher works on: the world (`world::find`), the registry (who
carries a `NeedsMeshingComponent`, the `ChunkComponent` of an entity, the mesh
components and graphics calls of `RenderState`) and the map `workers`, a list in
the order the map is walked.  The fields `next_serial` and `applied` are a
record of the run: the number of contexts created so far, and the serial and the
entity of every call of `finalize`, in order. -/
structure MesherState where
  world : World
  needs_meshing : Nat → Bool
  chunk_component : Nat → Option ChunkComponent
  workers : List WorkerEntry
  render : RenderState
  next_serial : Nat
  applied : List (Nat × Nat)

/-- The loop over `neighbours` that the three event handlers end with: each
neighbour the world holds gets a `NeedsMeshingComponent`. -/
def flag_neighbours (world : World) (needs_meshing : Nat → Bool)
    (neighbours : List ChunkCoord) : Nat → Bool :=
  neighbours.foldl (fun flags cpos =>
    match world cpos with
    | some chunk => Function.update flags chunk.entity true
    | none => flags) needs_meshing

/-- The function `on_chunk_create`. -/
def on_chunk_create (st : MesherState) (event : ChunkCreateEvent) : MesherState :=
  let neighbours : List ChunkCoord := [
    Vec3i.add event.coord ChunkCoord.dir_north,
    Vec3i.add event.coord ChunkCoord.dir_south,
    Vec3i.add event.coord ChunkCoord.dir_east,
    Vec3i.add event.coord ChunkCoord.dir_west,
    Vec3i.add event.coord ChunkCoord.dir_up,
    Vec3i.add event.coord ChunkCoord.dir_down]
  let flags := Function.update st.needs_meshing event.chunk.entity true
  { st with needs_meshing := flag_neighbours st.world flags neighbours }

/-- The function `on_chunk_update`. -/
def on_chunk_update (st : MesherState) (event : ChunkUpdateEvent) : MesherState :=
  let neighbours : List ChunkCoord := [
    Vec3i.add event.coord ChunkCoord.dir_north,
    Vec3i.add event.coord ChunkCoord.dir_south,
    Vec3i.add event.coord ChunkCoord.dir_east,
    Vec3i.add event.coord ChunkCoord.dir_west,
    Vec3i.add event.coord ChunkCoord.dir_up,
    Vec3i.add event.coord ChunkCoord.dir_down]
  let flags := Function.update st.needs_meshing event.chunk.entity true
  { st with needs_meshing := flag_neighbours st.world flags neighbours }

/-- The first loop of `on_voxel_set`: the vector `neighbours` it builds, one
axis after the other. -/
def voxel_set_neighbours (event : VoxelSetEvent) : List ChunkCoord :=
  ([0, 1, 2] : List (Fin 3)).foldl (fun neighbours dim =>
    let offset := Vec3i.set ⟨0, 0, 0⟩ dim 1
    if event.lpos.get dim = 0 then neighbours ++ [Vec3i.sub event.cpos offset]
    else if event.lpos.get dim = (CHUNK_SIZE : Int) - 1 then
      neighbours ++ [Vec3i.add event.cpos offset]
    else neighbours) []

/-- The function `on_voxel_set`. -/
def on_voxel_set (st : MesherState) (event : VoxelSetEvent) : MesherState :=
  let flags := Function.update st.needs_meshing event.chunk.entity true
  let neighbours := voxel_set_neighbours event
  { st with needs_meshing := flag_neighbours st.world flags neighbours }

/-- The function `chunk_mesher::deinit`: every worker is marked cancelled, the
pool is waited for (every task runs to its end), and the map is cleared; no
context outlives the call. -/
def deinit (st : MesherState) : MesherState :=
  let workers := st.workers.map
    (fun w => { w with ctx := { w.ctx with is_cancelled := true } })
  let st := { st with workers := workers }
  { st with workers := [] }

/-- The first loop of `chunk_mesher::update`, over the entries of the map from
`cbegin()` on: the entries it leaves in the map, the count `finalized`, and the
render state and the record of `finalize` calls it leaves. -/
def drain (E : Externals) (cap : Nat) (world : World) (needs_meshing : Nat → Bool) :
    List WorkerEntry → Nat → RenderState → List (Nat × Nat) →
      List WorkerEntry × Nat × RenderState × List (Nat × Nat)
  | [], finalized, render, applied => ([], finalized, render, applied)
  | w :: ws, finalized, render, applied =>
    if w.future = TaskFuture.invalid then
      let r := drain E cap world needs_meshing ws finalized render applied
      (w :: r.1, r.2)
    else if w.future ≠ TaskFuture.ready then
      let r := drain E cap world needs_meshing ws finalized render applied
      (w :: r.1, r.2)
    else if w.ctx.is_cancelled then
      drain E cap world needs_meshing ws finalized render applied
    else
      match world w.ctx.coord with
      | some chunk =>
        if needs_meshing chunk.entity then
          drain E cap world needs_meshing ws finalized render applied
        else
          let render := finalize E w.ctx chunk.entity render
          let applied := applied ++ [(w.serial, chunk.entity)]
          let finalized := finalized + 1
          if finalized ≥ cap then (ws, finalized, render, applied)
          else drain E cap world needs_meshing ws finalized render applied
      | none =>
        if finalized ≥ cap then (ws, finalized, render, applied)
        else drain E cap world needs_meshing ws finalized render applied

/-- The call `workers.find(coord)`. -/
def find_worker (workers : List WorkerEntry) (coord : ChunkCoord) : Option WorkerEntry :=
  workers.find? (fun w => decide (w.key = coord))

/-- The statement `it->second->is_cancelled = true` for the entry `find` gave. -/
def mark_cancelled : List WorkerEntry → ChunkCoord → List WorkerEntry
  | [], _ => []
  | w :: ws, coord =>
    if w.key = coord then { w with ctx := { w.ctx with is_cancelled := true } } :: ws
    else w :: mark_cancelled ws coord

/-- The body of the second loop of `chunk_mesher::update` for one entity of the
group (an entity that carries both a `NeedsMeshingComponent` and a
`ChunkComponent`; any other entity is passed over): the state it leaves, and
whether it enqueued a build.  The new entry goes where `find` found no key, so
`emplace` inserts it; its future is the one `submit_task` returns. -/
def enqueue_step (st : MesherState) (entity : Nat) : MesherState × Bool :=
  if st.needs_meshing entity then
    match st.chunk_component entity with
    | some chunk =>
      match find_worker st.workers chunk.coord with
      | none =>
        let st := { st with needs_meshing := Function.update st.needs_meshing entity false }
        let worker := new_worker st.world chunk.coord
        let entry : WorkerEntry := ⟨chunk.coord, worker, TaskFuture.queued, st.next_serial⟩
        ({ st with workers := st.workers ++ [entry], next_serial := st.next_serial + 1 }, true)
      | some _ => ({ st with workers := mark_cancelled st.workers chunk.coord }, false)
    | none => (st, false)
  else (st, false)

/-- The second loop of `chunk_mesher::update`, over the entities in the order
`group.each()` yields them: the count `enqueued` and the state it leaves. -/
def enqueue (cap : Nat) : List Nat → Nat → MesherState → Nat × MesherState
  | [], enqueued, st => (enqueued, st)
  | entity :: rest, enqueued, st =>
    let r := enqueue_step st entity
    if r.2 then
      let enqueued := enqueued + 1
      if enqueued ≥ cap then (enqueued, r.1)
      else enqueue cap rest enqueued r.1
    else enqueue cap rest enqueued r.1

/-- The function `chunk_mesher::update`; `group` is the order in which
`group.each()` yields the entities.  The log line at the end is left out. -/
def update (E : Externals) (win32_debug : Bool) (group : List Nat) (st : MesherState) :
    MesherState :=
  let finalized := 0
  let enqueued := 0
  let r := drain E (MESHER_TASKS_PER_FRAME win32_debug) st.world st.needs_meshing st.workers
    finalized st.render st.applied
  let st := { st with workers := r.1, render := r.2.2.1, applied := r.2.2.2 }
  (enqueue (MESHER_TASKS_PER_FRAME win32_debug) group enqueued st).2

/-- One step of the task `process(worker)` on a pool thread: the two `resize`
calls when it starts, then one iteration of the loop per step (the test of
`is_cancelled` first), then the return, which makes the future ready. -/
def task_step (G : Services) (w : WorkerEntry) : WorkerEntry :=
  match w.future with
  | TaskFuture.invalid => w
  | TaskFuture.queued => { w with ctx := w.ctx.resized G, future := TaskFuture.running 0 }
  | TaskFuture.running i =>
    if i < CHUNK_VOLUME then
      if w.ctx.is_cancelled then
        { w with ctx := { w.ctx with quads_nb := [], quads_b := [] }, future := TaskFuture.ready }
      else { w with ctx := process_voxel G w.ctx i, future := TaskFuture.running (i + 1) }
    else { w with future := TaskFuture.ready }
  | TaskFuture.ready => w

/-- The map after a rehash: the same entries, walked in another order.  The
order is given by positions; a list that is not a permutation of the positions
leaves the map as it is. -/
def rehash (workers : List WorkerEntry) (order : List Nat) : List WorkerEntry :=
  if order.Perm (List.range workers.length) then order.filterMap (fun i => workers[i]?)
  else workers

/-- What can happen to the mesher between two observations: a call of `update`
or of `deinit`, one step of the task of a worker on a pool thread, a rehash of
the map, one of the three events the mesher listens to, or a change the rest of
the program makes to the world and to the registry (it may destroy entities,
which drops their `NeedsMeshingComponent`; it never adds one). -/
inductive Action where
  | update (group : List Nat)
  | deinit
  | task (key : ChunkCoord)
  | rehash (order : List Nat)
  | chunk_create (event : ChunkCreateEvent)
  | chunk_update (event : ChunkUpdateEvent)
  | voxel_set (event : VoxelSetEvent)
  | environment (world : World) (chunk_component : Nat → Option ChunkComponent)
      (destroyed : Nat → Bool)

/-- The state after one action. -/
def step (E : Externals) (G : Services) (win32_debug : Bool) (st : MesherState) :
    Action → MesherState
  | Action.update group => update E win32_debug group st
  | Action.deinit => deinit st
  | Action.task key =>
    { st with workers := st.workers.map (fun w => if w.key = key then task_step G w else w) }
  | Action.rehash order => { st with workers := rehash st.workers order }
  | Action.chunk_create event => on_chunk_create st event
  | Action.chunk_update event => on_chunk_update st event
  | Action.voxel_set event => on_voxel_set st event
  | Action.environment world chunk_component destroyed =>
    { st with world := world, chunk_component := chunk_component,
              needs_meshing := fun e => st.needs_meshing e && !destroyed e }

/-- The state after a sequence of actions. -/
def run (E : Externals) (G : Services) (win32_debug : Bool) (st : MesherState)
    (actions : List Action) : MesherState :=
  actions.foldl (step E G win32_debug) st

/-- The mesher as the program starts: the map `workers` is empty and nothing has
been created or finalized. -/
def startup (world : World) (needs_meshing : Nat → Bool)
    (chunk_component : Nat → Option ChunkComponent) (render : RenderState) : MesherState :=
  ⟨world, needs_meshing, chunk_component, [], render, 0, []⟩


/-! ## Notions used to state the properties of the scheduler -/

/-- The keys of the entries of the map, in the order of the map. -/
def worker_keys (ws : List WorkerEntry) : List ChunkCoord := ws.map (fun w => w.key)

/-- The serial numbers of the contexts the map holds, in the order of the map. -/
def worker_serials (ws : List WorkerEntry) : List Nat := ws.map (fun w => w.serial)

/-- The entry `w'` is the entry `w` later in its life: the same key, the same
context (serial number and coordinate), cancelled if `w` was. -/
def WorkerEntry.evolves (w w' : WorkerEntry) : Prop :=
  w'.key = w.key ∧ w'.serial = w.serial ∧ w'.ctx.coord = w.ctx.coord
  ∧ (w.ctx.is_cancelled = true → w'.ctx.is_cancelled = true)

/-- The invariant of the mesher: no two entries of the map share a key, every
context sits under its own coordinate, the contexts are numbered apart and below
`next_serial`, and no context was finalized twice or is still in the map after
it was finalized. -/
def MesherState.well_formed (st : MesherState) : Prop :=
  (worker_keys st.workers).Nodup
  ∧ (∀ w ∈ st.workers, w.ctx.coord = w.key)
  ∧ (worker_serials st.workers).Nodup
  ∧ (∀ w ∈ st.workers, w.serial < st.next_serial)
  ∧ (st.applied.map Prod.fst).Nodup
  ∧ (∀ a ∈ st.applied, a.1 < st.next_serial ∧ a.1 ∉ worker_serials st.workers)

/-- The context numbered `n` is out of the race: it has been created, and it is
either gone from the map or marked cancelled. -/
def MesherState.retired (st : MesherState) (n : Nat) : Prop :=
  n < st.next_serial ∧ ∀ w ∈ st.workers, w.serial = n → w.ctx.is_cancelled = true

/-- The test the first loop of `update` makes before it calls `finalize` on an
entry: the future is ready, the context is not cancelled, the world holds a
chunk at the coordinate of the context, the entity of that chunk is `entity`,
and the entity carries no `NeedsMeshingComponent`. -/
def finalizable (world : World) (needs_meshing : Nat → Bool) (w : WorkerEntry) (entity : Nat) :
    Prop :=
  w.future = TaskFuture.ready ∧ w.ctx.is_cancelled = false
  ∧ ∃ chunk, world w.ctx.coord = some chunk ∧ chunk.entity = entity
      ∧ needs_meshing chunk.entity = false

/-- What the first loop of `update` guarantees when it starts on the entries `ws`
with the count `finalized` and the record `applied`, about its result `r`: the
record grows by `extra`, one pair per call of `finalize`; the count grows by as
many; the entries left are entries of `ws`, in their order; every pair of
`extra` names an entry of `ws` that passed the test `finalizable`; when the
contexts of `ws` are numbered apart, no context is named twice and none that is
named is left in the map; and the count stays within the cap. -/
def drain_post (world : World) (needs_meshing : Nat → Bool) (cap : Nat) (ws : List WorkerEntry)
    (finalized : Nat) (applied : List (Nat × Nat))
    (r : List WorkerEntry × Nat × RenderState × List (Nat × Nat)) : Prop :=
  ∃ extra : List (Nat × Nat),
    r.2.2.2 = applied ++ extra
    ∧ r.2.1 = finalized + extra.length
    ∧ List.Sublist r.1 ws
    ∧ (∀ a ∈ extra, ∃ w ∈ ws, w.serial = a.1 ∧ finalizable world needs_meshing w a.2)
    ∧ ((worker_serials ws).Nodup →
        (extra.map Prod.fst).Nodup ∧ ∀ a ∈ extra, a.1 ∉ worker_serials r.1)
    ∧ (finalized < cap → finalized + extra.length ≤ cap)


/-- Two chunk coordinates are face-adjacent: they differ by one on one axis and
agree on the other two. -/
def face_adjacent (a b : ChunkCoord) : Prop :=
  (a.x - b.x).natAbs + (a.y - b.y).natAbs + (a.z - b.z).natAbs = 1

/-- The unit step along an axis, the vector `offset` of `on_voxel_set`. -/
def axis_offset (dim : Fin 3) : ChunkCoord := Vec3i.set ⟨0, 0, 0⟩ dim 1

/-- What one pass of the first loop of `on_voxel_set` appends for the axis
`dim`: the neighbour below when the local component is zero, the neighbour above
when it is `CHUNK_SIZE - 1`, nothing otherwise. -/
def axis_neighbours (event : VoxelSetEvent) (dim : Fin 3) : List ChunkCoord :=
  if event.lpos.get dim = 0 then [Vec3i.sub event.cpos (axis_offset dim)]
  else if event.lpos.get dim = (CHUNK_SIZE : Int) - 1 then
    [Vec3i.add event.cpos (axis_offset dim)]
  else []


/-- The seven snapshots a new worker for the chunk at `coord` holds, slot by
slot: the chunk itself and its six face neighbours, as the world shows them. -/
def snapshots (world : World) (coord : ChunkCoord) : CachedChunkCoord → VoxelStorage :=
  Function.update (Function.update (Function.update (Function.update (Function.update
    (Function.update (Function.update (fun _ _ => NULL_VOXEL)
      0 (snapshot world coord))
      1 (snapshot world (Vec3i.add coord ChunkCoord.dir_north)))
      2 (snapshot world (Vec3i.add coord ChunkCoord.dir_south)))
      3 (snapshot world (Vec3i.add coord ChunkCoord.dir_east)))
      4 (snapshot world (Vec3i.add coord ChunkCoord.dir_west)))
      6 (snapshot world (Vec3i.add coord ChunkCoord.dir_up)))
      5 (snapshot world (Vec3i.add coord ChunkCoord.dir_down))


/-- The quad `make_chunk_quad` builds when the position and the size are given
in sixteenths: position `(kx, ky, kz) / 16`, size `(w, h) / 16`. -/
def quad_of_sixteenths (kx ky kz w h : Nat) (facing : VoxelFacing) (texture frames : Nat) :
    ChunkQuad :=
  make_chunk_quad ⟨(kx : ℚ) / 16, (ky : ℚ) / 16, (kz : ℚ) / 16⟩ ⟨(w : ℚ) / 16, (h : ℚ) / 16⟩
    facing texture frames


/-- The entry after `n` steps of its task. -/
def task_steps (G : Services) : Nat → WorkerEntry → WorkerEntry
  | 0, w => w
  | n + 1, w => task_steps G n (task_step G w)


/-! ## Sample data -/

/-- An opaque cube with one texture per face, in plane 0. -/
def sample_stone : VoxelInfo := ⟨VoxelType.Cube, false, false, fun _ => ⟨1, 0, 0⟩⟩

/-- A blending cube with one texture per face, in plane 0. -/
def sample_glass : VoxelInfo := ⟨VoxelType.Cube, false, true, fun _ => ⟨1, 1, 0⟩⟩

/-- A registry with stone under id 1 and glass under id 2, an atlas of one
plane and a constant checksum. -/
def sample_services : Services :=
  ⟨fun v => if v = 1 then some sample_stone else if v = 2 then some sample_glass else none,
    1, fun _ => 0⟩

/-- A new context whose own grid is filled with stone. -/
def sample_full_context : WorkerContext :=
  { WorkerContext.fresh with cache := fun k _ => if k = 0 then 1 else NULL_VOXEL }

/-- A world of one chunk at the origin: stone in cell 0, nothing else. -/
def sample_world : World :=
  fun c => if c = ⟨0, 0, 0⟩ then some ⟨fun j => if j = 0 then 1 else NULL_VOXEL, 7⟩ else none

/-- A new context with glass in cell 0 and stone in cell 1 (one step west). -/
def sample_mixed_context : WorkerContext :=
  { WorkerContext.fresh with
    cache := fun k j => if k = 0 then (if j = 0 then 2 else if j = 1 then 1 else NULL_VOXEL)
      else NULL_VOXEL }

/-- The flag of a build that is never cancelled. -/
def never_cancelled : Nat → Bool := fun _ => false

/-- External functions for the sample runs: a new mesh component has no
buffers, and buffer handles are numbered from one. -/
def sample_externals : Externals := ⟨fun c => c.getD ⟨[], []⟩, fun gl => gl.length + 1⟩

/-- The mesher as a sample program starts: the world of `sample_world`, whose
one chunk belongs to entity 7, flagged for meshing. -/
def sample_startup : MesherState :=
  startup sample_world (fun e => decide (e = 7))
    (fun e => if e = 7 then some ⟨⟨0, 0, 0⟩⟩ else none) ⟨fun _ => none, [], []⟩

/-- The event that the voxels of the chunk of `sample_world` were replaced. -/
def sample_chunk_update : ChunkUpdateEvent :=
  ⟨⟨fun j => if j = 0 then 1 else NULL_VOXEL, 7⟩, ⟨0, 0, 0⟩⟩

/-- A sample run: `update` enqueues a build for the flagged chunk, then the
chunk is flagged again while the build is in flight. -/
def sample_in_flight : MesherState :=
  run sample_externals sample_services false sample_startup
    [Action.update [7], Action.chunk_update sample_chunk_update]

/-- The sample run continued: the next `update` marks the build cancelled, and
the task sees the mark at its first iteration and returns. -/
def sample_stale : MesherState :=
  run sample_externals sample_services false sample_startup
    [Action.update [7], Action.chunk_update sample_chunk_update, Action.update [7],
      Action.task ⟨0, 0, 0⟩, Action.task ⟨0, 0, 0⟩]

/-- The entry of the worker map in `sample_in_flight`. -/
def sample_worker : WorkerEntry :=
  ⟨⟨0, 0, 0⟩, new_worker sample_world ⟨0, 0, 0⟩, TaskFuture.queued, 0⟩

/-- The entry of the worker map in `sample_stale`. -/
def sample_stale_worker : WorkerEntry :=
  ⟨⟨0, 0, 0⟩,
    { (new_worker sample_world ⟨0, 0, 0⟩).resized sample_services with
      is_cancelled := true, quads_nb := [], quads_b := [] },
    TaskFuture.ready, 0⟩


/-- The world of `sample_world` with a second chunk east of the first, whose
cell next to the stone of the first chunk holds stone as well. -/
def sample_world_east : World :=
  fun c =>
    if c = ⟨0, 0, 0⟩ then some ⟨fun j => if j = 0 then 1 else NULL_VOXEL, 7⟩
    else if c = ⟨-1, 0, 0⟩ then some ⟨fun j => if j = 15 then 1 else NULL_VOXEL, 8⟩
    else none

/-- The world of `sample_world` with a second chunk two steps away. -/
def sample_world_far : World :=
  fun c =>
    if c = ⟨0, 0, 0⟩ then some ⟨fun j => if j = 0 then 1 else NULL_VOXEL, 7⟩
    else if c = ⟨2, 0, 0⟩ then some ⟨fun _ => 1, 9⟩
    else none


/-! ## The overworld generator (`overworld.cc`) -/

namespace overworld

/-- Modelled from the spec: `ChunkCoord2D`, the coordinate of a chunk column
(x and z of the chunk coordinate). -/
structure ChunkCoord2D where
  x : Int
  z : Int
  deriving DecidableEq, Repr

/-- The constant `INT64_MIN`, the unset sentinel of the heightmap. -/
def INT64_MIN : Int := -(2 ^ 63)

/-- The structure `Metadata`: two arrays of `CHUNK_AREA` entries, each read as
the map from the array index to the entry. -/
structure Metadata where
  entropy : Nat → Nat
  heightmap : Nat → Int

/-- The noise types of the noise library. -/
inductive fnl_noise_type where
  | FNL_NOISE_OPENSIMPLEX2 | FNL_NOISE_OPENSIMPLEX2S | FNL_NOISE_CELLULAR | FNL_NOISE_PERLIN
  | FNL_NOISE_VALUE_CUBIC | FNL_NOISE_VALUE
  deriving DecidableEq, Repr

/-- The fractal types of the noise library. -/
inductive fnl_fractal_type where
  | FNL_FRACTAL_NONE | FNL_FRACTAL_FBM | FNL_FRACTAL_RIDGED | FNL_FRACTAL_PINGPONG
  | FNL_FRACTAL_DOMAIN_WARP_PROGRESSIVE | FNL_FRACTAL_DOMAIN_WARP_INDEPENDENT
  deriving DecidableEq, Repr

/-- The fields of the noise library state that the generator sets; `frequency`
holds the decimal literal the source assigns. -/
structure fnl_state where
  seed : Int
  frequency : ℚ
  noise_type : fnl_noise_type
  fractal_type : fnl_fractal_type
  octaves : Int
  deriving DecidableEq

/-- The state of the random generator `std::mt19937_64`: the seed it was last
given and the number of values drawn since. -/
structure Twister where
  seed : Nat
  position : Nat
  deriving DecidableEq, Repr

/-- What the generator takes from outside: single precision floats (`F`, the
conversion of a 64-bit integer, the value of a decimal literal, arithmetic and
comparisons), the noise library (`fnlCreateState`, `fnlGetNoise3D`), the output
sequence of `std::mt19937_64` for each seed, and the ids `game_voxels` holds. -/
structure GenEnv where
  F : Type
  of_int : Int → F
  lit : ℚ → F
  add : F → F → F
  sub : F → F → F
  mul : F → F → F
  div : F → F → F
  lt : F → F → Bool
  le : F → F → Bool
  fnlCreateState : fnl_state
  fnlGetNoise3D : fnl_state → F → F → F → F
  mt19937_64 : Nat → Nat → Nat
  stone : VoxelID
  grass : VoxelID
  dirt : VoxelID
  cobblestone : VoxelID

/-- The file-scope variables of `overworld.cc`. -/
structure GenState where
  terrain_variation : Int
  bottommost_chunk : Int
  enable_surface : Bool
  enable_carvers : Bool
  enable_features : Bool
  metadata_map : ChunkCoord2D → Option Metadata
  twister : Twister
  fnl_terrain : fnl_state
  fnl_caves_a : fnl_state
  fnl_caves_b : fnl_state

/-- The call `twister.seed(seed)`. -/
def twister_seed (seed : Nat) : Twister := ⟨seed, 0⟩

/-- The call `twister()`: the next value and the advanced generator. -/
def twister_next (L : GenEnv) (tw : Twister) : Nat × Twister :=
  (L.mt19937_64 tw.seed tw.position, { tw with position := tw.position + 1 })

/-- The conversion `static_cast<int>` of a 64-bit unsigned value. -/
def to_int32 (a : Nat) : Int := ((a : Int) + 2 ^ 31) % 2 ^ 32 - 2 ^ 31

/-- The function `get_noise`. -/
def get_noise (L : GenEnv) (st : GenState) (vpos : VoxelCoord) (variation : Int) : L.F :=
  L.sub
    (L.mul (L.of_int variation)
      (L.fnlGetNoise3D st.fnl_terrain (L.of_int vpos.x) (L.of_int vpos.y) (L.of_int vpos.z)))
    (L.of_int vpos.y)

/-- The loop of `get_metadata` that draws the entropy of a new column. -/
def draw_entropy (L : GenEnv) : Nat → Nat → Twister → (Nat → Nat) → Twister × (Nat → Nat)
  | 0, _, tw, entropy => (tw, entropy)
  | n + 1, i, tw, entropy =>
    let r := twister_next L tw
    draw_entropy L n (i + 1) r.2 (Function.update entropy i r.1)

/-- The function `get_metadata`: the state (with the new entry, if one had to be
made) and the metadata of the column. -/
def get_metadata (L : GenEnv) (st : GenState) (cpos : ChunkCoord2D) : GenState × Metadata :=
  match st.metadata_map cpos with
  | none =>
    let r := draw_entropy L CHUNK_AREA 0 st.twister (fun _ => 0)
    let metadata : Metadata := ⟨r.2, fun _ => INT64_MIN⟩
    ({ st with metadata_map := Function.update st.metadata_map cpos (some metadata),
               twister := r.1 }, metadata)
  | some metadata => (st, metadata)

/-- The write through the reference `get_metadata` returned: the entry of the
column takes the value the pass leaves. -/
def put_metadata (st : GenState) (cpos : ChunkCoord2D) (metadata : Metadata) : GenState :=
  { st with metadata_map := Function.update st.metadata_map cpos (some metadata) }

/-- The index `hdx` of the column cell of a local position. -/
def column_index (lpos : LocalCoord) : Nat := (lpos.x + lpos.z * CHUNK_SIZE).toNat

/-- The statement `if(vpos[1] > metadata.heightmap[hdx]) metadata.heightmap[hdx] = vpos[1]`. -/
def raise_heightmap (metadata : Metadata) (hdx : Nat) (y : Int) : Metadata :=
  if y > metadata.heightmap hdx then
    { metadata with heightmap := Function.update metadata.heightmap hdx y }
  else metadata

/-- The body of the loop of `generate_terrain`. -/
def terrain_step (L : GenEnv) (st : GenState) (cpos : ChunkCoord)
    (s : Metadata × VoxelStorage) (index : Nat) : Metadata × VoxelStorage :=
  let lpos := LocalCoord.from_index index
  let vpos := ChunkCoord.to_voxel cpos lpos
  let hdx := column_index lpos
  let s :=
    if cxpr.abs vpos.y ≥ st.terrain_variation + 1 then
      if vpos.y < 0 then (raise_heightmap s.1 hdx vpos.y, Function.update s.2 index L.stone)
      else s
    else s
  if L.lt (L.lit 0) (get_noise L st vpos st.terrain_variation) then
    (raise_heightmap s.1 hdx vpos.y, Function.update s.2 index L.stone)
  else s

/-- The function `generate_terrain`. -/
def generate_terrain (L : GenEnv) (st : GenState) (cpos : ChunkCoord) (voxels : VoxelStorage) :
    GenState × VoxelStorage :=
  let r := get_metadata L st ⟨cpos.x, cpos.z⟩
  let s := (List.range CHUNK_VOLUME).foldl (terrain_step L r.1 cpos) (r.2, voxels)
  (put_metadata r.1 ⟨cpos.x, cpos.z⟩ s.1, s.2)

/-- The inner loop of `generate_surface`: `n` probes are left, the next one is
`dy`, `depth` cells have been counted. -/
def surface_probe (L : GenEnv) (st : GenState) (cpos : ChunkCoord) (voxels : VoxelStorage)
    (lpos : LocalCoord) : Nat → Int → Nat → Nat
  | 0, _, depth => depth
  | n + 1, dy, depth =>
    let dlpos : LocalCoord := ⟨lpos.x, lpos.y + dy + 1, lpos.z⟩
    let dvpos := ChunkCoord.to_voxel cpos dlpos
    let didx := LocalCoord.to_index dlpos
    if dlpos.y ≥ CHUNK_SIZE then
      if L.le (get_noise L st dvpos st.terrain_variation) (L.lit 0) then depth
      else surface_probe L st cpos voxels lpos n (dy + 1) (depth + 1)
    else
      if voxels didx = NULL_VOXEL then depth
      else surface_probe L st cpos voxels lpos n (dy + 1) (depth + 1)

/-- The body of the loop of `generate_surface`. -/
def surface_step (L : GenEnv) (st : GenState) (cpos : ChunkCoord) (voxels : VoxelStorage)
    (index : Nat) : VoxelStorage :=
  let lpos := LocalCoord.from_index index
  let vpos := ChunkCoord.to_voxel cpos lpos
  if cxpr.abs vpos.y ≥ st.terrain_variation + 1 then voxels
  else if voxels index = NULL_VOXEL then voxels
  else
    let depth := surface_probe L st cpos voxels lpos 5 0 0
    if depth < 5 then
      if depth = 0 then Function.update voxels index L.grass
      else Function.update voxels index L.dirt
    else voxels

/-- The function `generate_surface`. -/
def generate_surface (L : GenEnv) (st : GenState) (cpos : ChunkCoord) (voxels : VoxelStorage) :
    GenState × VoxelStorage :=
  let r := get_metadata L st ⟨cpos.x, cpos.z⟩
  (r.1, (List.range CHUNK_VOLUME).foldl (surface_step L r.1 cpos) voxels)

/-- The test of `generate_carvers` on the two cave noise samples of a voxel. -/
def carver_test (L : GenEnv) (st : GenState) (vpos : VoxelCoord) : Bool :=
  let na := L.fnlGetNoise3D st.fnl_caves_a (L.of_int vpos.x)
    (L.mul (L.lit (3 / 2)) (L.of_int vpos.y)) (L.of_int vpos.z)
  let nb := L.fnlGetNoise3D st.fnl_caves_b (L.of_int vpos.x)
    (L.mul (L.lit (3 / 2)) (L.of_int vpos.y)) (L.of_int vpos.z)
  L.le (L.add (L.mul na na) (L.mul nb nb)) (L.div (L.lit 1) (L.lit 1024))

/-- The body of the loop of `generate_carvers`. -/
def carvers_step (L : GenEnv) (st : GenState) (cpos : ChunkCoord)
    (s : Metadata × VoxelStorage) (index : Nat) : Metadata × VoxelStorage :=
  let lpos := LocalCoord.from_index index
  let vpos := ChunkCoord.to_voxel cpos lpos
  let hdx := column_index lpos
  if vpos.y > st.terrain_variation + 1 then s
  else if carver_test L st vpos then
    let metadata :=
      if vpos.y = s.1.heightmap hdx then
        { s.1 with heightmap := Function.update s.1.heightmap hdx INT64_MIN }
      else s.1
    (metadata, Function.update s.2 index NULL_VOXEL)
  else s

/-- The function `generate_carvers`. -/
def generate_carvers (L : GenEnv) (st : GenState) (cpos : ChunkCoord) (voxels : VoxelStorage) :
    GenState × VoxelStorage :=
  let r := get_metadata L st ⟨cpos.x, cpos.z⟩
  let s := (List.range CHUNK_VOLUME).foldl (carvers_step L r.1 cpos) (r.2, voxels)
  (put_metadata r.1 ⟨cpos.x, cpos.z⟩ s.1, s.2)

/-- The number of feature columns, `COUNT`. -/
def COUNT : Nat := 5

/-- The array `lxa` of `generate_features`. -/
def feature_lx (metadata : Metadata) (tc : Nat) : Int :=
  ((metadata.entropy (tc * 3 + 0) % CHUNK_SIZE : Nat) : Int)

/-- The array `lza` of `generate_features`. -/
def feature_lz (metadata : Metadata) (tc : Nat) : Int :=
  ((metadata.entropy (tc * 3 + 1) % CHUNK_SIZE : Nat) : Int)

/-- The array `heights` of `generate_features`. -/
def feature_height (metadata : Metadata) (tc : Nat) : Int :=
  3 + ((metadata.entropy (tc * 3 + 2) % 4 : Nat) : Int)

/-- The inner loop of `generate_features` for one cell: the first feature column
that matches the cell decides, `n` candidates are left from `tc` on. -/
def features_scan (L : GenEnv) (metadata : Metadata) (lpos : LocalCoord) (vpos : VoxelCoord)
    (hdx index : Nat) (voxels : VoxelStorage) : Nat → Nat → VoxelStorage
  | 0, _ => voxels
  | n + 1, tc =>
    if lpos.x = feature_lx metadata tc ∧ lpos.z = feature_lz metadata tc then
      if cxpr.range (wrap64 (vpos.y - metadata.heightmap hdx)) 1 (feature_height metadata tc) then
        Function.update voxels index L.cobblestone
      else voxels
    else features_scan L metadata lpos vpos hdx index voxels n (tc + 1)

/-- The body of the outer loop of `generate_features`. -/
def features_step (L : GenEnv) (metadata : Metadata) (cpos : ChunkCoord) (voxels : VoxelStorage)
    (index : Nat) : VoxelStorage :=
  let lpos := LocalCoord.from_index index
  let vpos := ChunkCoord.to_voxel cpos lpos
  let hdx := column_index lpos
  features_scan L metadata lpos vpos hdx index voxels COUNT 0

/-- The function `generate_features`. -/
def generate_features (L : GenEnv) (st : GenState) (cpos : ChunkCoord) (voxels : VoxelStorage) :
    GenState × VoxelStorage :=
  let r := get_metadata L st ⟨cpos.x, cpos.z⟩
  (r.1, (List.range CHUNK_VOLUME).foldl (features_step L r.2 cpos) voxels)

/-- The function `worldgen::overworld::setup_late`. -/
def setup_late (L : GenEnv) (seed : Nat) (st : GenState) : GenState :=
  let twister := twister_seed seed
  let r := twister_next L twister
  let fnl_terrain : fnl_state :=
    { L.fnlCreateState with
      seed := to_int32 r.1, noise_type := fnl_noise_type.FNL_NOISE_OPENSIMPLEX2S,
      fractal_type := fnl_fractal_type.FNL_FRACTAL_FBM, frequency := 5 / 1000, octaves := 4 }
  let r := twister_next L r.2
  let fnl_caves_a : fnl_state :=
    { L.fnlCreateState with
      seed := to_int32 r.1, noise_type := fnl_noise_type.FNL_NOISE_PERLIN,
      frequency := 75 / 10000 }
  let r := twister_next L r.2
  let fnl_caves_b : fnl_state :=
    { L.fnlCreateState with
      seed := to_int32 r.1, noise_type := fnl_noise_type.FNL_NOISE_PERLIN,
      frequency := 75 / 10000 }
  { st with twister := r.2, fnl_terrain := fnl_terrain, fnl_caves_a := fnl_caves_a,
            fnl_caves_b := fnl_caves_b, metadata_map := fun _ => none }

/-- The function `worldgen::overworld::generate`: the return value, the state
and the voxel storage it leaves.  The conversion of `CHUNK_SIZE *
terrain_variation` to the value type of a chunk coordinate keeps the value. -/
def generate (L : GenEnv) (st : GenState) (cpos : ChunkCoord) (voxels : VoxelStorage) :
    Bool × GenState × VoxelStorage :=
  if cpos.y < st.bottommost_chunk ∨ cpos.y > (CHUNK_SIZE : Int) * st.terrain_variation then
    (false, st, voxels)
  else
    let r := generate_terrain L st cpos voxels
    let r := if r.1.enable_surface then generate_surface L r.1 cpos r.2 else r
    let r := if r.1.enable_carvers then generate_carvers L r.1 cpos r.2 else r
    let r := if r.1.enable_features then generate_features L r.1 cpos r.2 else r
    (true, r.1, r.2)

/-- The storage a caller hands to `generate`: every cell empty. -/
def empty_grid : VoxelStorage := fun _ => NULL_VOXEL

end overworld

namespace overworld

/-- Two states hold the same configuration: the five tunables `setup` registers. -/
def same_config (s1 s2 : GenState) : Prop :=
  s1.terrain_variation = s2.terrain_variation ∧ s1.bottommost_chunk = s2.bottommost_chunk
  ∧ s1.enable_surface = s2.enable_surface ∧ s1.enable_carvers = s2.enable_carvers
  ∧ s1.enable_features = s2.enable_features

/-- A sample environment: exact rational arithmetic for the floats, a terrain
noise that is zero everywhere, cave noises that are one everywhere, a random
generator whose n-th value for a seed is `seed + n`, and ids 1 to 4 for stone,
grass, dirt and cobblestone. -/
def sample_env : GenEnv where
  F := ℚ
  of_int := fun a => (a : ℚ)
  lit := fun q => q
  add := fun a b => a + b
  sub := fun a b => a - b
  mul := fun a b => a * b
  div := fun a b => a / b
  lt := fun a b => decide (a < b)
  le := fun a b => decide (a ≤ b)
  fnlCreateState := ⟨1337, 1 / 100, fnl_noise_type.FNL_NOISE_OPENSIMPLEX2,
    fnl_fractal_type.FNL_FRACTAL_NONE, 3⟩
  fnlGetNoise3D := fun st _ _ _ =>
    if st.noise_type = fnl_noise_type.FNL_NOISE_PERLIN then 1 else 0
  mt19937_64 := fun seed n => seed + n
  stone := 1
  grass := 2
  dirt := 3
  cobblestone := 4

/-- The file-scope variables as the program starts: the initial values the
source gives the five tunables, no metadata, a default-seeded generator and
zeroed noise states. -/
def initial_state : GenState :=
  { terrain_variation := 64, bottommost_chunk := -4, enable_surface := true,
    enable_carvers := true, enable_features := true, metadata_map := fun _ => none,
    twister := ⟨5489, 0⟩,
    fnl_terrain := ⟨0, 0, fnl_noise_type.FNL_NOISE_OPENSIMPLEX2,
      fnl_fractal_type.FNL_FRACTAL_NONE, 0⟩,
    fnl_caves_a := ⟨0, 0, fnl_noise_type.FNL_NOISE_OPENSIMPLEX2,
      fnl_fractal_type.FNL_FRACTAL_NONE, 0⟩,
    fnl_caves_b := ⟨0, 0, fnl_noise_type.FNL_NOISE_OPENSIMPLEX2,
      fnl_fractal_type.FNL_FRACTAL_NONE, 0⟩ }

/-- A state of an earlier session: the initial configuration, a generator that
has been used and a column with metadata. -/
def used_state : GenState :=
  { initial_state with
    metadata_map := fun c => if c = ⟨0, 0⟩ then some ⟨fun i => i, fun _ => 12⟩ else none,
    twister := ⟨77, 1000⟩ }

end overworld

namespace overworld

/-- The terrain pass marks the cell at `index` solid: the speculative branch or
the noise rule applies. -/
def terrain_solid (L : GenEnv) (st : GenState) (cpos : ChunkCoord) (index : Nat) : Bool :=
  let vpos := ChunkCoord.to_voxel cpos (LocalCoord.from_index index)
  (decide (cxpr.abs vpos.y ≥ st.terrain_variation + 1) && decide (vpos.y < 0))
    || L.lt (L.lit 0) (get_noise L st vpos st.terrain_variation)

/-- The world y of the cell at `index` of the chunk at `cpos`. -/
def cell_y (cpos : ChunkCoord) (index : Nat) : Int :=
  (ChunkCoord.to_voxel cpos (LocalCoord.from_index index)).y

/-- The carver pass empties the cell at `index`. -/
def carvers_hit (L : GenEnv) (st : GenState) (cpos : ChunkCoord) (index : Nat) : Bool :=
  let vpos := ChunkCoord.to_voxel cpos (LocalCoord.from_index index)
  !decide (vpos.y > st.terrain_variation + 1) && carver_test L st vpos

/-- The inner loop of `generate_features` as a test: the first feature column
that matches the cell accepts its height. -/
def features_scan_hit (metadata : Metadata) (lpos : LocalCoord) (vpos : VoxelCoord)
    (hdx : Nat) : Nat → Nat → Bool
  | 0, _ => false
  | n + 1, tc =>
    if lpos.x = feature_lx metadata tc ∧ lpos.z = feature_lz metadata tc then
      cxpr.range (wrap64 (vpos.y - metadata.heightmap hdx)) 1 (feature_height metadata tc)
    else features_scan_hit metadata lpos vpos hdx n (tc + 1)

/-- The feature pass writes the marker voxel to the cell at `index`. -/
def features_hit (metadata : Metadata) (cpos : ChunkCoord) (index : Nat) : Bool :=
  features_scan_hit metadata (LocalCoord.from_index index)
    (ChunkCoord.to_voxel cpos (LocalCoord.from_index index))
    (column_index (LocalCoord.from_index index)) COUNT 0

end overworld

namespace overworld

/-- A state of a session of `sample_env` under the initial configuration: the
tunables have their initial values and the noise states have the noise types
`setup_late` gives them. -/
def sample_ready (st : GenState) : Prop :=
  st.terrain_variation = 64 ∧ st.bottommost_chunk = -4 ∧ st.enable_surface = true
  ∧ st.enable_carvers = true ∧ st.enable_features = true
  ∧ st.fnl_terrain.noise_type = fnl_noise_type.FNL_NOISE_OPENSIMPLEX2S
  ∧ st.fnl_caves_a.noise_type = fnl_noise_type.FNL_NOISE_PERLIN
  ∧ st.fnl_caves_b.noise_type = fnl_noise_type.FNL_NOISE_PERLIN

/-- The session of `sample_env` right after `setup_late(0)`. -/
def session_start : GenState := setup_late sample_env 0 initial_state

/-- The same session after the chunk `(0, -1, 0)` has been generated. -/
def session_after_lower : GenState :=
  (generate sample_env session_start ⟨0, -1, 0⟩ empty_grid).2.1

end overworld

namespace overworld

/-- Two states hold the same three noise states. -/
def same_noise (s1 s2 : GenState) : Prop :=
  s1.fnl_terrain = s2.fnl_terrain ∧ s1.fnl_caves_a = s2.fnl_caves_a
  ∧ s1.fnl_caves_b = s2.fnl_caves_b

/-- Two states show the same column: they hold the same metadata entry for it
and, when they hold none, their random generators stand at the same place. -/
def same_column (s1 s2 : GenState) (c : ChunkCoord2D) : Prop :=
  s1.metadata_map c = s2.metadata_map c ∧ (s1.metadata_map c = none → s1.twister = s2.twister)

/-- A state that differs from `used_state` in the position of the random
generator and in the metadata of another column. -/
def used_state_elsewhere : GenState :=
  { used_state with
    metadata_map := fun c =>
      if c = ⟨0, 0⟩ then some ⟨fun i => i, fun _ => 12⟩
      else if c = ⟨1, 0⟩ then some ⟨fun _ => 0, fun _ => 0⟩ else none,
    twister := ⟨1, 2⟩ }

end overworld

namespace overworld

/-- The metadata and the voxels the terrain pass leaves, started on the
metadata `md0` of the column. -/
def terrain_result (L : GenEnv) (st : GenState) (cpos : ChunkCoord) (md0 : Metadata)
    (v : VoxelStorage) : Metadata × VoxelStorage :=
  (List.range CHUNK_VOLUME).foldl (terrain_step L st cpos) (md0, v)

/-- The metadata and the voxels after the surface pass, when it is enabled. -/
def surface_result (L : GenEnv) (st : GenState) (cpos : ChunkCoord) (md0 : Metadata)
    (v : VoxelStorage) : Metadata × VoxelStorage :=
  if st.enable_surface then
    ((terrain_result L st cpos md0 v).1,
      (List.range CHUNK_VOLUME).foldl (surface_step L st cpos) (terrain_result L st cpos md0 v).2)
  else terrain_result L st cpos md0 v

/-- The metadata and the voxels after the carver pass, when it is enabled. -/
def carvers_result (L : GenEnv) (st : GenState) (cpos : ChunkCoord) (md0 : Metadata)
    (v : VoxelStorage) : Metadata × VoxelStorage :=
  if st.enable_carvers then
    (List.range CHUNK_VOLUME).foldl (carvers_step L st cpos) (surface_result L st cpos md0 v)
  else surface_result L st cpos md0 v

/-- The voxel grid the four passes leave, as a function of the metadata `md0`
the terrain pass starts from: the terrain pass, then (when enabled) the surface
pass, the carver pass and the feature pass, each on the metadata its
predecessors leave. -/
def passes_grid (L : GenEnv) (st : GenState) (cpos : ChunkCoord) (md0 : Metadata)
    (v : VoxelStorage) : VoxelStorage :=
  if st.enable_features then
    (List.range CHUNK_VOLUME).foldl
      (features_step L (carvers_result L st cpos md0 v).1 cpos) (carvers_result L st cpos md0 v).2
  else (carvers_result L st cpos md0 v).2

/-- The state and the voxels of `generate` after the surface pass (or after the
terrain pass, when the surface pass is disabled). -/
def after_surface (L : GenEnv) (st : GenState) (cpos : ChunkCoord) (v : VoxelStorage) :
    GenState × VoxelStorage :=
  if (generate_terrain L st cpos v).1.enable_surface then
    generate_surface L (generate_terrain L st cpos v).1 cpos (generate_terrain L st cpos v).2
  else generate_terrain L st cpos v

/-- The state and the voxels of `generate` after the carver pass. -/
def after_carvers (L : GenEnv) (st : GenState) (cpos : ChunkCoord) (v : VoxelStorage) :
    GenState × VoxelStorage :=
  if (after_surface L st cpos v).1.enable_carvers then
    generate_carvers L (after_surface L st cpos v).1 cpos (after_surface L st cpos v).2
  else after_surface L st cpos v

/-- The state and the voxels of `generate` after the feature pass. -/
def after_features (L : GenEnv) (st : GenState) (cpos : ChunkCoord) (v : VoxelStorage) :
    GenState × VoxelStorage :=
  if (after_carvers L st cpos v).1.enable_features then
    generate_features L (after_carvers L st cpos v).1 cpos (after_carvers L st cpos v).2
  else after_carvers L st cpos v

end overworld

namespace overworld

/-- The topmost of the layers `0 .. n - 1` that meets `p`, if any. -/
def top_layer (p : Nat → Bool) : Nat → Option Nat
  | 0 => none
  | n + 1 => if p n then some n else top_layer p n

/-- The index of the cell of layer `ly` in the column cell `h`. -/
def column_cell (ly h : Nat) : Nat := ly * CHUNK_AREA + h

/-- The topmost cell of the column cell `h` of the chunk that the terrain pass
marks solid, if there is one. -/
def terrain_top (L : GenEnv) (st : GenState) (cpos : ChunkCoord) (h : Nat) : Option Nat :=
  (top_layer (fun ly => terrain_solid L st cpos (column_cell ly h)) CHUNK_SIZE).map
    (fun ly => column_cell ly h)

/-- The world y of the topmost non-empty voxel of the column cell `h` in the
grid of a chunk, or the unset sentinel when the column cell is empty. -/
def grid_top (cpos : ChunkCoord) (voxels : VoxelStorage) (h : Nat) : Int :=
  match top_layer (fun ly => decide (voxels (column_cell ly h) ≠ NULL_VOXEL)) CHUNK_SIZE with
  | some ly => cell_y cpos (column_cell ly h)
  | none => INT64_MIN

/-- The heightmap entry `generate` leaves for the column cell `h` of a chunk on
a column without metadata: the world y of the topmost cell the terrain pass
marks solid, unless there is none or the carver pass (when enabled) empties that
very cell; then the unset sentinel. -/
def recorded_height (L : GenEnv) (st : GenState) (cpos : ChunkCoord) (h : Nat) : Int :=
  match terrain_top L st cpos h with
  | none => INT64_MIN
  | some i =>
    if st.enable_carvers = true ∧ carvers_hit L st cpos i = true then INT64_MIN
    else cell_y cpos i

/-- A second sample environment: as `sample_env`, but the terrain noise is
`-1/8` everywhere, so that the terrain is solid below world y `-8`. -/
def sample_env_low : GenEnv where
  F := ℚ
  of_int := fun a => (a : ℚ)
  lit := fun q => q
  add := fun a b => a + b
  sub := fun a b => a - b
  mul := fun a b => a * b
  div := fun a b => a / b
  lt := fun a b => decide (a < b)
  le := fun a b => decide (a ≤ b)
  fnlCreateState := ⟨1337, 1 / 100, fnl_noise_type.FNL_NOISE_OPENSIMPLEX2,
    fnl_fractal_type.FNL_FRACTAL_NONE, 3⟩
  fnlGetNoise3D := fun st _ _ _ =>
    if st.noise_type = fnl_noise_type.FNL_NOISE_PERLIN then 1 else -1 / 8
  mt19937_64 := fun seed n => seed + n
  stone := 1
  grass := 2
  dirt := 3
  cobblestone := 4

/-- The session of `sample_env_low` right after `setup_late(0)`. -/
def low_session : GenState := setup_late sample_env_low 0 initial_state

end overworld

namespace overworld

/-- Probe `k` (0 to 4) of the surface pass for the cell at `index` finds a solid
cell `k + 1` layers above it: inside the chunk a voxel other than `NULL_VOXEL`,
beyond the top of the chunk a position whose terrain noise is not `≤ 0`. -/
def probe_solid (L : GenEnv) (st : GenState) (cpos : ChunkCoord) (voxels : VoxelStorage)
    (index k : Nat) : Bool :=
  if index / CHUNK_AREA + k + 1 ≥ CHUNK_SIZE then
    !L.le (get_noise L st
      ⟨(ChunkCoord.to_voxel cpos (LocalCoord.from_index index)).x,
        cell_y cpos index + ((k : Nat) : Int) + 1,
        (ChunkCoord.to_voxel cpos (LocalCoord.from_index index)).z⟩ st.terrain_variation)
      (L.lit 0)
  else decide (voxels (index + (k + 1) * CHUNK_AREA) ≠ NULL_VOXEL)

/-- The number of consecutive solid cells the probes 0 to 4 find above the cell
at `index`, up to the first probe that finds none. -/
def surface_depth (L : GenEnv) (st : GenState) (cpos : ChunkCoord) (voxels : VoxelStorage)
    (index : Nat) : Nat :=
  ((List.range 5).takeWhile (probe_solid L st cpos voxels index)).length

/-- The voxel the surface rule gives the cell at `index` of a grid: grass at
depth 0 and dirt at depth 1 to 4, for a non-empty cell inside the envelope. -/
def surface_cell (L : GenEnv) (st : GenState) (cpos : ChunkCoord) (voxels : VoxelStorage)
    (index : Nat) : VoxelID :=
  if cxpr.abs (cell_y cpos index) < st.terrain_variation + 1 ∧ voxels index ≠ NULL_VOXEL then
    if surface_depth L st cpos voxels index = 0 then L.grass
    else if surface_depth L st cpos voxels index < 5 then L.dirt
    else voxels index
  else voxels index

end overworld

namespace overworld

/-- A third sample environment: as `sample_env`, but every noise is zero, so
that the test of the carver pass succeeds wherever it is made. -/
def sample_env_caves : GenEnv where
  F := ℚ
  of_int := fun a => (a : ℚ)
  lit := fun q => q
  add := fun a b => a + b
  sub := fun a b => a - b
  mul := fun a b => a * b
  div := fun a b => a / b
  lt := fun a b => decide (a < b)
  le := fun a b => decide (a ≤ b)
  fnlCreateState := ⟨1337, 1 / 100, fnl_noise_type.FNL_NOISE_OPENSIMPLEX2,
    fnl_fractal_type.FNL_FRACTAL_NONE, 3⟩
  fnlGetNoise3D := fun _ _ _ _ => 0
  mt19937_64 := fun seed n => seed + n
  stone := 1
  grass := 2
  dirt := 3
  cobblestone := 4

/-- A session of `sample_env_caves` whose configuration sets the terrain
variation to 4, right after `setup_late(0)`. -/
def shallow_session : GenState :=
  setup_late sample_env_caves 0 { initial_state with terrain_variation := 4 }

/-- A grid that holds stone (id 1) in every cell. -/
def stone_grid : VoxelStorage := fun _ => 1

end overworld

namespace overworld

/-- The constant `INT64_MAX`. -/
def INT64_MAX : Int := 2 ^ 63 - 1

/-- The first of the `COUNT` triples the feature pass derives whose column is
`(lx, lz)`, if there is one. -/
def first_feature (metadata : Metadata) (lx lz : Int) : Option Nat :=
  (List.range COUNT).find?
    (fun tc => decide (lx = feature_lx metadata tc ∧ lz = feature_lz metadata tc))

end overworld

namespace overworld

/-- An environment with exact arithmetic: the floats are the rationals, with
their operations and order; the noise function is `noise`; the rest is taken
from `L`. -/
def exact_env (L : GenEnv) (noise : fnl_state → ℚ → ℚ → ℚ → ℚ) : GenEnv where
  F := ℚ
  of_int := fun a => (a : ℚ)
  lit := fun q => q
  add := fun a b => a + b
  sub := fun a b => a - b
  mul := fun a b => a * b
  div := fun a b => a / b
  lt := fun a b => decide (a < b)
  le := fun a b => decide (a ≤ b)
  fnlCreateState := L.fnlCreateState
  fnlGetNoise3D := noise
  mt19937_64 := L.mt19937_64
  stone := L.stone
  grass := L.grass
  dirt := L.dirt
  cobblestone := L.cobblestone

/-- The body of the loop of the terrain pass with the noise rule alone: the
speculative branch is left out. -/
def noise_rule_step (L : GenEnv) (st : GenState) (cpos : ChunkCoord)
    (s : Metadata × VoxelStorage) (index : Nat) : Metadata × VoxelStorage :=
  let lpos := LocalCoord.from_index index
  let vpos := ChunkCoord.to_voxel cpos lpos
  let hdx := column_index lpos
  if L.lt (L.lit 0) (get_noise L st vpos st.terrain_variation) then
    (raise_heightmap s.1 hdx vpos.y, Function.update s.2 index L.stone)
  else s

/-- The terrain pass with the noise rule alone: stone exactly where
`terrain_variation * noise - y > 0`. -/
def terrain_by_noise_rule (L : GenEnv) (st : GenState) (cpos : ChunkCoord)
    (voxels : VoxelStorage) : GenState × VoxelStorage :=
  let r := get_metadata L st ⟨cpos.x, cpos.z⟩
  let s := (List.range CHUNK_VOLUME).foldl (noise_rule_step L r.1 cpos) (r.2, voxels)
  (put_metadata r.1 ⟨cpos.x, cpos.z⟩ s.1, s.2)

/-- The noise of `sample_env` as a function of the noise state. -/
def sample_noise : fnl_state → ℚ → ℚ → ℚ → ℚ :=
  fun st _ _ _ => if st.noise_type = fnl_noise_type.FNL_NOISE_PERLIN then 1 else 0

end overworld

/-- A second opaque cube with one texture per face, in plane 0. -/
def sample_dirt : VoxelInfo := ⟨VoxelType.Cube, false, false, fun _ => ⟨1, 2, 0⟩⟩

/-- A registry with stone under id 1, glass under id 2 and dirt under id 3, an
atlas of one plane and a constant checksum. -/
def sample_services_three : Services :=
  ⟨fun v => if v = 1 then some sample_stone else if v = 2 then some sample_glass
      else if v = 3 then some sample_dirt else none,
    1, fun _ => 0⟩

/-- A new context with stone in cell 0, dirt in cell 1 (one step west of cell 0)
and the id 9, which has no definition, in cell 2 (one step west of cell 1). -/
def sample_row_context : WorkerContext :=
  { WorkerContext.fresh with
    cache := fun k j =>
      if k = 0 then (if j = 0 then 1 else if j = 1 then 3 else if j = 2 then 9 else NULL_VOXEL)
      else NULL_VOXEL }

namespace overworld

/-- The state of a session after a list of calls of `generate`, each given by
its chunk coordinate and the storage handed in. -/
def generate_calls (L : GenEnv) : GenState → List (ChunkCoord × VoxelStorage) → GenState
  | st, [] => st
  | st, c :: cs => generate_calls L (generate L st c.1 c.2).2.1 cs

/-- The terrain pass marks the voxel position `vpos` solid: the speculative
branch or the noise rule applies there. -/
def solid_at (L : GenEnv) (st : GenState) (vpos : VoxelCoord) : Bool :=
  (decide (cxpr.abs vpos.y ≥ st.terrain_variation + 1) && decide (vpos.y < 0))
    || L.lt (L.lit 0) (get_noise L st vpos st.terrain_variation)

/-- The metadata `md` of the column `c` holds only heights the terrain pass
accounts for: every heightmap entry is unset or the world y of a position of
its column cell that the terrain pass marks solid. -/
def entry_sound (L : GenEnv) (st : GenState) (c : ChunkCoord2D) (md : Metadata) : Prop :=
  ∀ h, md.heightmap h = INT64_MIN
    ∨ solid_at L st ⟨((h % CHUNK_SIZE : Nat) : Int) + c.x * 16, md.heightmap h,
        ((h / CHUNK_SIZE : Nat) : Int) + c.z * 16⟩ = true

/-- Every metadata entry of the cache is sound. -/
def heights_sound (L : GenEnv) (st : GenState) : Prop :=
  ∀ c md, st.metadata_map c = some md → entry_sound L st c md

/-- The entry `a` is what the terrain pass of the chunk leaves in the column
cell `h` when it starts from the entry `e`: not below `e`, not below the world y
of any cell of the column cell the pass marks solid, and one of those values. -/
def terrain_raised (L : GenEnv) (st : GenState) (cpos : ChunkCoord) (h : Nat) (e a : Int) :
    Prop :=
  e ≤ a
  ∧ (∀ i, i < CHUNK_VOLUME → column_index (LocalCoord.from_index i) = h →
      terrain_solid L st cpos i = true → cell_y cpos i ≤ a)
  ∧ (a = e ∨ ∃ i, i < CHUNK_VOLUME ∧ column_index (LocalCoord.from_index i) = h
      ∧ terrain_solid L st cpos i = true ∧ a = cell_y cpos i)

/-- The carver pass of the chunk (when enabled) empties a cell of the column
cell `h` whose world y is `e`. -/
def carved_at (L : GenEnv) (st : GenState) (cpos : ChunkCoord) (h : Nat) (e : Int) : Prop :=
  st.enable_carvers = true
  ∧ ∃ i, i < CHUNK_VOLUME ∧ carvers_hit L st cpos i = true
      ∧ column_index (LocalCoord.from_index i) = h ∧ cell_y cpos i = e

/-- The entry `b` is what the carver pass of the chunk leaves in the column
cell `h` when it starts from the entry `a`. -/
def carver_reset (L : GenEnv) (st : GenState) (cpos : ChunkCoord) (h : Nat) (a b : Int) : Prop :=
  (carved_at L st cpos h a ∧ b = INT64_MIN) ∨ (¬ carved_at L st cpos h a ∧ b = a)

end overworld


/-! # Properties -/

/-! ## Coordinate lemmas -/

theorem tmod_sixteen (x : Int) :
    Int.tmod x 16 = if x % 16 = 0 ∨ 0 ≤ x then x % 16 else x % 16 - 16 := by
  cases x with
  | ofNat m =>
    have h : Int.tmod (Int.ofNat m) 16 = ((m % 16 : Nat) : Int) := rfl
    rw [h]; simp only [Int.ofNat_eq_coe]; split <;> omega
  | negSucc m =>
    have h : Int.tmod (Int.negSucc m) 16 = -(((m + 1) % 16 : Nat) : Int) := rfl
    rw [h]; simp only [Int.negSucc_eq]; split <;> omega

theorem mod_signed_eq_emod (x : Int) : cxpr.mod_signed x 16 = x % 16 := by
  unfold cxpr.mod_signed
  simp only [tmod_sixteen]
  split <;> split <;> omega

theorem shiftRight_four (x : Int) : x >>> CHUNK_SIZE_LOG2 = x / 16 := by
  rw [CHUNK_SIZE_LOG2, Int.shiftRight_eq_div_pow]
  norm_num

theorem CHUNK_SIZE_eq : CHUNK_SIZE = 16 := by decide

theorem CHUNK_VOLUME_eq : CHUNK_VOLUME = 4096 := by decide

/-- C1: for every voxel coordinate and every axis, the chunk index times the
chunk size plus the local index gives the coordinate back, negative coordinates
included; `(-1, 0, 0)` lies in chunk `(-1, 0, 0)` at local `(15, 0, 0)`. -/
theorem to_chunk_to_local_consistent (v : VoxelCoord) :
    (∀ i : Fin 3, (VoxelCoord.to_chunk v).get i * (CHUNK_SIZE : Int)
        + (VoxelCoord.to_local v).get i = v.get i)
    ∧ (CHUNK_SIZE = 2 ^ CHUNK_SIZE_LOG2 ∧ CHUNK_SIZE = 16)
    ∧ VoxelCoord.to_chunk ⟨-1, 0, 0⟩ = ⟨-1, 0, 0⟩
    ∧ VoxelCoord.to_local ⟨-1, 0, 0⟩ = ⟨15, 0, 0⟩ := by
  refine ⟨?_, ⟨rfl, by decide⟩, by decide, by decide⟩
  intro i
  have hx := Int.ediv_add_emod v.x 16
  have hy := Int.ediv_add_emod v.y 16
  have hz := Int.ediv_add_emod v.z 16
  fin_cases i <;>
    simp [Vec3i.get, VoxelCoord.to_chunk, VoxelCoord.to_local, CHUNK_SIZE_eq,
      mod_signed_eq_emod, shiftRight_four] <;> omega

/-- C2: every component of the local coordinate of a voxel lies in
`0 ≤ c < CHUNK_SIZE`, for negative coordinates too, and the chunk coordinate
is the floored quotient by the chunk size. -/
theorem to_local_in_range (v : VoxelCoord) (i : Fin 3) :
    (0 ≤ (VoxelCoord.to_local v).get i ∧ (VoxelCoord.to_local v).get i < (CHUNK_SIZE : Int))
    ∧ (VoxelCoord.to_chunk v).get i = Int.fdiv (v.get i) (CHUNK_SIZE : Int) := by
  have hf : ∀ a : Int, Int.fdiv a 16 = a / 16 := fun a => Int.fdiv_eq_ediv a (by decide)
  fin_cases i <;>
    simp [Vec3i.get, VoxelCoord.to_local, VoxelCoord.to_chunk, CHUNK_SIZE_eq,
      mod_signed_eq_emod, shiftRight_four, hf] <;> omega

/-! ## The build step: what one iteration adds -/

theorem bucket_push_length (l : List QuadBuilder) (p : Nat) (q : BuiltQuad) :
    (bucket_push l p q).length = l.length := by
  induction l generalizing p with
  | nil => rfl
  | cons b bs ih =>
    cases p with
    | zero => rfl
    | succ p => simp [bucket_push, ih]

theorem countP_join_bucket_push (P : BuiltQuad → Bool) (l : List QuadBuilder) (p : Nat)
    (q : BuiltQuad) :
    (bucket_push l p q).flatten.countP P
      = l.flatten.countP P + (if p < l.length ∧ P q = true then 1 else 0) := by
  induction l generalizing p with
  | nil => simp [bucket_push]
  | cons b bs ih =>
    cases p with
    | zero =>
      by_cases hq : P q = true
      · simp [bucket_push, List.countP_append, List.countP_cons, hq]
        omega
      · simp [bucket_push, List.countP_append, List.countP_cons, hq]
    | succ p =>
      simp only [bucket_push, List.flatten_cons, List.countP_append, ih, List.length_cons,
        Nat.add_lt_add_iff_right]
      omega

theorem push_face_builders (info : VoxelInfo) (fpos : Vec3f) (entropy : Nat)
    (ctx : WorkerContext) (face : VoxelFace) (c : Bool) :
    (push_face info fpos entropy ctx face).builders c
      = if info.blending = c then
          bucket_push (ctx.builders c) (info.textures face).cached_plane
            (face_quad info fpos face entropy)
        else ctx.builders c := by
  unfold push_face push_quad_a push_quad_v face_quad WorkerContext.builders
  cases ha : info.animated <;> cases hb : info.blending <;> cases c <;> rfl

theorem push_face_cache (info : VoxelInfo) (fpos : Vec3f) (entropy : Nat)
    (ctx : WorkerContext) (face : VoxelFace) :
    (push_face info fpos entropy ctx face).cache = ctx.cache
    ∧ (push_face info fpos entropy ctx face).coord = ctx.coord := by
  unfold push_face push_quad_a push_quad_v
  cases info.animated <;> cases info.blending <;> exact ⟨rfl, rfl⟩

theorem make_cube_eq_foldl (ctx : WorkerContext) (voxel : VoxelID) (info : VoxelInfo)
    (lpos : LocalCoord) (vis : VoxelVis) (entropy : Nat) :
    make_cube ctx voxel info lpos vis entropy
      = cube_faces.foldl (fun c fd =>
          if vis &&& fd.2.2 ≠ 0 then push_face info (LocalCoord.to_vec3f lpos) entropy c fd.1
          else c) ctx := by
  unfold make_cube push_face cube_faces
  cases info.animated <;> rfl

theorem push_face_length (info : VoxelInfo) (fpos : Vec3f) (entropy : Nat)
    (ctx : WorkerContext) (face : VoxelFace) (c : Bool) :
    ((push_face info fpos entropy ctx face).builders c).length = (ctx.builders c).length := by
  rw [push_face_builders]
  split
  · exact bucket_push_length _ _ _
  · rfl

theorem push_face_count (P : BuiltQuad → Bool) (info : VoxelInfo) (fpos : Vec3f) (entropy : Nat)
    (ctx : WorkerContext) (face : VoxelFace) (c : Bool) :
    ((push_face info fpos entropy ctx face).class_quads c).countP P
      = (ctx.class_quads c).countP P
        + (if info.blending = c ∧ (info.textures face).cached_plane < (ctx.builders c).length
              ∧ P (face_quad info fpos face entropy) = true then 1 else 0) := by
  unfold WorkerContext.class_quads
  rw [push_face_builders]
  by_cases hb : info.blending = c
  · simp only [hb, if_true, countP_join_bucket_push, true_and]
  · simp [hb]

theorem foldl_push_face (P : BuiltQuad → Bool) (info : VoxelInfo) (fpos : Vec3f) (entropy : Nat)
    (vis : VoxelVis) (c : Bool) (fs : List (VoxelFace × LocalCoord × VoxelVis))
    (ctx : WorkerContext) :
    (fs.foldl (fun c fd =>
        if vis &&& fd.2.2 ≠ 0 then push_face info fpos entropy c fd.1 else c) ctx).cache
      = ctx.cache
    ∧ (fs.foldl (fun c fd =>
        if vis &&& fd.2.2 ≠ 0 then push_face info fpos entropy c fd.1 else c) ctx).coord
      = ctx.coord
    ∧ (∀ k, ((fs.foldl (fun c fd =>
        if vis &&& fd.2.2 ≠ 0 then push_face info fpos entropy c fd.1 else c) ctx).builders
          k).length = (ctx.builders k).length)
    ∧ ((fs.foldl (fun c fd =>
        if vis &&& fd.2.2 ≠ 0 then push_face info fpos entropy c fd.1 else c) ctx).class_quads
          c).countP P
      = (ctx.class_quads c).countP P
        + (if info.blending = c then
            ((fs.filter (fun fd => decide (vis &&& fd.2.2 ≠ 0)
                && decide ((info.textures fd.1).cached_plane < (ctx.builders c).length))).map
              (fun fd => face_quad info fpos fd.1 entropy)).countP P
          else 0) := by
  induction fs generalizing ctx with
  | nil => simp
  | cons fd fs ih =>
    simp only [List.foldl_cons]
    by_cases hv : vis &&& fd.2.2 ≠ 0
    · rw [if_pos hv]
      obtain ⟨h1, h2, h3, h4⟩ := ih (push_face info fpos entropy ctx fd.1)
      refine ⟨?_, ?_, ?_, ?_⟩
      · rw [h1]; exact (push_face_cache _ _ _ _ _).1
      · rw [h2]; exact (push_face_cache _ _ _ _ _).2
      · intro k; rw [h3, push_face_length]
      · rw [h4, push_face_count, push_face_length]
        by_cases hb : info.blending = c
        · by_cases hp : (info.textures fd.1).cached_plane < (ctx.builders c).length
          · by_cases hq : P (face_quad info fpos fd.1 entropy) = true
            · simp [hb, hp, hq, hv, List.filter_cons, List.countP_cons]; omega
            · simp [hb, hp, hq, hv, List.filter_cons, List.countP_cons]
          · simp [hb, hp, hv, List.filter_cons]
        · simp [hb]
    · rw [if_neg hv]
      obtain ⟨h1, h2, h3, h4⟩ := ih ctx
      refine ⟨h1, h2, h3, ?_⟩
      rw [h4]
      simp [List.filter_cons, hv]

theorem vis_of_bits (n s e w u d : Bool) :
    decide (vis_of n s e w u d &&& VIS_NORTH ≠ 0) = n
    ∧ decide (vis_of n s e w u d &&& VIS_SOUTH ≠ 0) = s
    ∧ decide (vis_of n s e w u d &&& VIS_EAST ≠ 0) = e
    ∧ decide (vis_of n s e w u d &&& VIS_WEST ≠ 0) = w
    ∧ decide (vis_of n s e w u d &&& VIS_UP ≠ 0) = u
    ∧ decide (vis_of n s e w u d &&& VIS_DOWN ≠ 0) = d := by
  cases n <;> cases s <;> cases e <;> cases w <;> cases u <;> cases d <;> decide

theorem process_voxel_some (G : Services) (ctx : WorkerContext) (j : Nat) (info : VoxelInfo)
    (h : G.find (ctx.cache CPOS_ITSELF j) = some info) :
    process_voxel G ctx j
      = make_cube ctx (ctx.cache CPOS_ITSELF j) info (LocalCoord.from_index j)
          (vis_of
            (vis_test G ctx (ctx.cache CPOS_ITSELF j) info
              (Vec3i.add (LocalCoord.from_index j) LocalCoord.dir_north))
            (vis_test G ctx (ctx.cache CPOS_ITSELF j) info
              (Vec3i.add (LocalCoord.from_index j) LocalCoord.dir_south))
            (vis_test G ctx (ctx.cache CPOS_ITSELF j) info
              (Vec3i.add (LocalCoord.from_index j) LocalCoord.dir_east))
            (vis_test G ctx (ctx.cache CPOS_ITSELF j) info
              (Vec3i.add (LocalCoord.from_index j) LocalCoord.dir_west))
            (vis_test G ctx (ctx.cache CPOS_ITSELF j) info
              (Vec3i.add (LocalCoord.from_index j) LocalCoord.dir_up))
            (vis_test G ctx (ctx.cache CPOS_ITSELF j) info
              (Vec3i.add (LocalCoord.from_index j) LocalCoord.dir_down)))
          (voxel_entropy G ctx.coord (LocalCoord.from_index j)) := by
  unfold process_voxel
  simp only [h]
  rfl

theorem process_voxel_none (G : Services) (ctx : WorkerContext) (j : Nat)
    (h : G.find (ctx.cache CPOS_ITSELF j) = none) : process_voxel G ctx j = ctx := by
  unfold process_voxel
  simp only [h]

/-- One iteration keeps the snapshots, the coordinate and the number of
builders, and adds the quads of `voxel_emits` to each class. -/
theorem process_voxel_spec (P : BuiltQuad → Bool) (G : Services) (ctx : WorkerContext) (j : Nat)
    (c : Bool) :
    (process_voxel G ctx j).cache = ctx.cache
    ∧ (process_voxel G ctx j).coord = ctx.coord
    ∧ (∀ k, ((process_voxel G ctx j).builders k).length = (ctx.builders k).length)
    ∧ ((process_voxel G ctx j).class_quads c).countP P
      = (ctx.class_quads c).countP P + (voxel_emits G ctx c j).countP P := by
  cases h : G.find (ctx.cache CPOS_ITSELF j) with
  | none => simp [process_voxel_none G ctx j h, voxel_emits, h]
  | some info =>
    rw [process_voxel_some G ctx j info h, make_cube_eq_foldl]
    obtain ⟨h1, h2, h3, h4⟩ := foldl_push_face P info
      (LocalCoord.to_vec3f (LocalCoord.from_index j))
      (voxel_entropy G ctx.coord (LocalCoord.from_index j))
      (vis_of
            (vis_test G ctx (ctx.cache CPOS_ITSELF j) info
              (Vec3i.add (LocalCoord.from_index j) LocalCoord.dir_north))
            (vis_test G ctx (ctx.cache CPOS_ITSELF j) info
              (Vec3i.add (LocalCoord.from_index j) LocalCoord.dir_south))
            (vis_test G ctx (ctx.cache CPOS_ITSELF j) info
              (Vec3i.add (LocalCoord.from_index j) LocalCoord.dir_east))
            (vis_test G ctx (ctx.cache CPOS_ITSELF j) info
              (Vec3i.add (LocalCoord.from_index j) LocalCoord.dir_west))
            (vis_test G ctx (ctx.cache CPOS_ITSELF j) info
              (Vec3i.add (LocalCoord.from_index j) LocalCoord.dir_up))
            (vis_test G ctx (ctx.cache CPOS_ITSELF j) info
              (Vec3i.add (LocalCoord.from_index j) LocalCoord.dir_down))) c cube_faces ctx
    refine ⟨h1, h2, h3, ?_⟩
    rw [h4]
    congr 1
    unfold voxel_emits
    simp only [h]
    obtain ⟨b1, b2, b3, b4, b5, b6⟩ := vis_of_bits
      (vis_test G ctx (ctx.cache CPOS_ITSELF j) info
        (Vec3i.add (LocalCoord.from_index j) LocalCoord.dir_north))
      (vis_test G ctx (ctx.cache CPOS_ITSELF j) info
        (Vec3i.add (LocalCoord.from_index j) LocalCoord.dir_south))
      (vis_test G ctx (ctx.cache CPOS_ITSELF j) info
        (Vec3i.add (LocalCoord.from_index j) LocalCoord.dir_east))
      (vis_test G ctx (ctx.cache CPOS_ITSELF j) info
        (Vec3i.add (LocalCoord.from_index j) LocalCoord.dir_west))
      (vis_test G ctx (ctx.cache CPOS_ITSELF j) info
        (Vec3i.add (LocalCoord.from_index j) LocalCoord.dir_up))
      (vis_test G ctx (ctx.cache CPOS_ITSELF j) info
        (Vec3i.add (LocalCoord.from_index j) LocalCoord.dir_down))
    by_cases hb : info.blending = c
    · rw [if_pos hb, if_pos hb]
      congr 2
      apply List.filter_congr
      intro fd hfd
      simp only [cube_faces, List.mem_cons, List.mem_singleton, List.not_mem_nil, or_false] at hfd
      rcases hfd with rfl | rfl | rfl | rfl | rfl | rfl
      · simp only [b1]
      · simp only [b2]
      · simp only [b3]
      · simp only [b4]
      · simp only [b5]
      · simp only [b6]
    · rw [if_neg hb, if_neg hb]; rfl

theorem vis_test_congr (G : Services) (ctx ctx' : WorkerContext) (h1 : ctx'.cache = ctx.cache)
    (h2 : ctx'.coord = ctx.coord) (voxel : VoxelID) (info : VoxelInfo) (lpos : LocalCoord) :
    vis_test G ctx' voxel info lpos = vis_test G ctx voxel info lpos := by
  unfold vis_test
  rw [h1, h2]

theorem voxel_emits_congr (G : Services) (ctx ctx' : WorkerContext) (h1 : ctx'.cache = ctx.cache)
    (h2 : ctx'.coord = ctx.coord)
    (h3 : ∀ k, (ctx'.builders k).length = (ctx.builders k).length) (c : Bool) (j : Nat) :
    voxel_emits G ctx' c j = voxel_emits G ctx c j := by
  unfold voxel_emits
  simp only [vis_test_congr G ctx ctx' h1 h2, h1, h2, h3]

/-- A build that is never seen cancelled keeps the snapshots and adds, to each
class, the quads of `voxel_emits` of every index it goes through. -/
theorem process_loop_spec (P : BuiltQuad → Bool) (G : Services) (flag : Nat → Bool) (c : Bool) :
    ∀ (n i : Nat) (ctx : WorkerContext), (∀ j, i ≤ j → j < i + n → flag j = false) →
      (process_loop G flag n i ctx).cache = ctx.cache
      ∧ (process_loop G flag n i ctx).coord = ctx.coord
      ∧ (∀ k, ((process_loop G flag n i ctx).builders k).length = (ctx.builders k).length)
      ∧ ((process_loop G flag n i ctx).class_quads c).countP P
        = (ctx.class_quads c).countP P
          + ((List.range' i n).map (fun j => (voxel_emits G ctx c j).countP P)).sum := by
  intro n
  induction n with
  | zero => intro i ctx _; simp [process_loop]
  | succ n ih =>
    intro i ctx hflag
    have h0 : flag i = false := hflag i (Nat.le_refl i) (by omega)
    obtain ⟨v1, v2, v3, v4⟩ := process_voxel_spec P G ctx i c
    obtain ⟨r1, r2, r3, r4⟩ := ih (i + 1) (process_voxel G ctx i)
      (fun j hj1 hj2 => hflag j (by omega) (by omega))
    have hcongr : ∀ j, voxel_emits G (process_voxel G ctx i) c j = voxel_emits G ctx c j :=
      fun j => voxel_emits_congr G ctx _ v1 v2 v3 c j
    simp only [process_loop, h0, Bool.false_eq_true, if_false]
    refine ⟨r1.trans v1, r2.trans v2, fun k => (r3 k).trans (v3 k), ?_⟩
    rw [r4, v4, List.range'_succ, List.map_cons, List.sum_cons]
    simp only [hcongr]
    omega

/-- A build that sees the cancellation flag set ends with no builder at all. -/
theorem process_loop_cancelled (G : Services) (flag : Nat → Bool) :
    ∀ (n i : Nat) (ctx : WorkerContext), (∃ j, i ≤ j ∧ j < i + n ∧ flag j = true) →
      (process_loop G flag n i ctx).quads_nb = [] ∧ (process_loop G flag n i ctx).quads_b = [] := by
  intro n
  induction n with
  | zero => intro i ctx h; obtain ⟨j, h1, h2, _⟩ := h; omega
  | succ n ih =>
    intro i ctx h
    cases h0 : flag i with
    | true => simp [process_loop, h0]
    | false =>
      simp only [process_loop, h0, Bool.false_eq_true, if_false]
      apply ih
      obtain ⟨j, h1, h2, h3⟩ := h
      have hne : j ≠ i := by
        intro he
        rw [he, h0] at h3
        exact Bool.noConfusion h3
      exact ⟨j, by omega, by omega, h3⟩

theorem process_eq (G : Services) (flag : Nat → Bool) (ctx : WorkerContext) :
    process G flag ctx = process_loop G flag CHUNK_VOLUME 0 (ctx.resized G) := rfl

theorem resized_fresh (G : Services) (ctx : WorkerContext) (hnb : ctx.quads_nb = [])
    (hb : ctx.quads_b = []) (k : Bool) :
    (ctx.resized G).cache = ctx.cache ∧ (ctx.resized G).coord = ctx.coord
    ∧ (ctx.resized G).builders k = List.replicate G.plane_count []
    ∧ (ctx.resized G).class_quads k = [] := by
  have h : (ctx.resized G).builders k = List.replicate G.plane_count [] := by
    cases k <;> simp [WorkerContext.resized, WorkerContext.builders, resize_builders, hnb, hb]
  refine ⟨rfl, rfl, h, ?_⟩
  unfold WorkerContext.class_quads
  rw [h]
  simp [List.flatten_eq_nil_iff]

theorem sum_map_range_single (f : Nat → Nat) (i : Nat) :
    ∀ n, i < n → (∀ j, j < n → j ≠ i → f j = 0) → ((List.range n).map f).sum = f i := by
  intro n
  induction n with
  | zero => intro h; omega
  | succ n ih =>
    intro hi hz
    rw [List.range_succ, List.map_append, List.sum_append]
    by_cases hin : i = n
    · subst hin
      have hzero : ((List.range i).map f).sum = 0 := by
        apply List.sum_eq_zero
        intro x hx
        obtain ⟨j, hj, rfl⟩ := List.mem_map.1 hx
        have hj' := List.mem_range.1 hj
        exact hz j (by omega) (by omega)
      simp [hzero]
    · rw [ih (by omega) (fun j hj hne => hz j (by omega) hne)]
      simp [hz n (by omega) (fun h => hin h.symm)]

theorem sum_map_range_zero (f : Nat → Nat) (n : Nat) (hz : ∀ j, j < n → f j = 0) :
    ((List.range n).map f).sum = 0 := by
  apply List.sum_eq_zero
  intro x hx
  obtain ⟨j, hj, rfl⟩ := List.mem_map.1 hx
  exact hz j (List.mem_range.1 hj)

theorem from_index_injective (i j : Nat)
    (h : LocalCoord.from_index i = LocalCoord.from_index j) : i = j := by
  simp only [LocalCoord.from_index, CHUNK_SIZE_eq, Vec3i.mk.injEq] at h
  omega

theorem to_vec3f_injective (a b : LocalCoord)
    (h : LocalCoord.to_vec3f a = LocalCoord.to_vec3f b) : a = b := by
  cases a; cases b
  simp only [LocalCoord.to_vec3f, Vec3f.mk.injEq, Int.cast_inj] at h
  simp [h]

theorem face_quad_pos (info : VoxelInfo) (pos : Vec3f) (face : VoxelFace) (entropy : Nat) :
    (face_quad info pos face entropy).pos = pos ∧ (face_quad info pos face entropy).face = face := by
  unfold face_quad
  cases info.animated <;> exact ⟨rfl, rfl⟩

theorem cube_faces_face_injective (a b : VoxelFace × LocalCoord × VoxelVis)
    (ha : a ∈ cube_faces) (hb : b ∈ cube_faces) (h : a.1 = b.1) : a = b := by
  simp only [cube_faces, List.mem_cons, List.mem_singleton, List.not_mem_nil, or_false] at ha hb
  rcases ha with rfl | rfl | rfl | rfl | rfl | rfl <;>
    rcases hb with rfl | rfl | rfl | rfl | rfl | rfl <;>
    first | rfl | exact absurd h (by decide)

theorem mem_voxel_emits (G : Services) (ctx : WorkerContext) (c : Bool) (j : Nat) (q : BuiltQuad) :
    q ∈ voxel_emits G ctx c j ↔
      ∃ info, G.find (ctx.cache CPOS_ITSELF j) = some info ∧ info.blending = c
        ∧ ∃ fd ∈ cube_faces,
            vis_test G ctx (ctx.cache CPOS_ITSELF j) info
              (Vec3i.add (LocalCoord.from_index j) fd.2.1) = true
            ∧ (info.textures fd.1).cached_plane < (ctx.builders c).length
            ∧ q = face_quad info (LocalCoord.to_vec3f (LocalCoord.from_index j)) fd.1
                (voxel_entropy G ctx.coord (LocalCoord.from_index j)) := by
  unfold voxel_emits
  cases h : G.find (ctx.cache CPOS_ITSELF j) with
  | none => simp
  | some info =>
    by_cases hb : info.blending = c
    · simp only [hb, if_true, List.mem_map, List.mem_filter, Bool.and_eq_true, decide_eq_true_eq,
        Option.some.injEq, exists_eq_left', true_and]
      constructor
      · rintro ⟨fd, ⟨hfd, hv, hp⟩, rfl⟩
        exact ⟨fd, hfd, hv, hp, rfl⟩
      · rintro ⟨fd, hfd, hv, hp, rfl⟩
        exact ⟨fd, ⟨hfd, hv, hp⟩, rfl⟩
    · simp [hb]

theorem process_count (P : BuiltQuad → Bool) (G : Services) (flag : Nat → Bool)
    (ctx : WorkerContext) (hnb : ctx.quads_nb = []) (hb : ctx.quads_b = [])
    (hflag : ∀ j, j < CHUNK_VOLUME → flag j = false) (c : Bool) :
    ((process G flag ctx).class_quads c).countP P
      = ((List.range CHUNK_VOLUME).map
          (fun j => (voxel_emits G (ctx.resized G) c j).countP P)).sum := by
  rw [process_eq, List.range_eq_range']
  obtain ⟨_, _, _, h4⟩ := process_loop_spec P G flag c CHUNK_VOLUME 0 (ctx.resized G)
    (fun j _ hj => hflag j (by omega))
  rw [h4, (resized_fresh G ctx hnb hb c).2.2.2]
  simp

theorem process_cancelled (G : Services) (flag : Nat → Bool) (ctx : WorkerContext)
    (h : ∃ j, j < CHUNK_VOLUME ∧ flag j = true) :
    (process G flag ctx).quads_nb = [] ∧ (process G flag ctx).quads_b = [] := by
  rw [process_eq]
  apply process_loop_cancelled
  obtain ⟨j, hj, hf⟩ := h
  exact ⟨j, Nat.zero_le j, by omega, hf⟩

theorem flag_cases (flag : Nat → Bool) (n : Nat) :
    (∀ j, j < n → flag j = false) ∨ (∃ j, j < n ∧ flag j = true) := by
  by_cases h : ∃ j, j < n ∧ flag j = true
  · exact Or.inr h
  · left
    intro j hj
    cases hf : flag j with
    | false => rfl
    | true => exact absurd ⟨j, hj, hf⟩ h

theorem quads_of_face_eq (ctx : WorkerContext) (lpos : LocalCoord) (face : VoxelFace) :
    ctx.quads_of_face lpos face
      = (ctx.class_quads false).countP
          (fun q => decide (q.pos = LocalCoord.to_vec3f lpos ∧ q.face = face))
        + (ctx.class_quads true).countP
          (fun q => decide (q.pos = LocalCoord.to_vec3f lpos ∧ q.face = face)) := by
  unfold WorkerContext.quads_of_face WorkerContext.all_quads
  rw [List.countP_append]

theorem vis_test_eq (G : Services) (ctx : WorkerContext) (voxel : VoxelID) (info : VoxelInfo)
    (lpos : LocalCoord) :
    vis_test G ctx voxel info lpos
      = if adjacent_voxel ctx lpos = NULL_VOXEL then true
        else if adjacent_voxel ctx lpos = voxel then false
        else
          match G.find (adjacent_voxel ctx lpos) with
          | some neighbour_info =>
            if neighbour_info.blending ≠ info.blending then neighbour_info.blending else false
          | none => false := rfl

/-- Quads pushed in iteration `j` carry the position of voxel `j`: none of them
counts for a face of another voxel, or for a face `vis_test` rejects. -/
theorem voxel_emits_tag_zero (G : Services) (ctx : WorkerContext) (c : Bool) (i j : Nat)
    (fd : VoxelFace × LocalCoord × VoxelVis) (hfd : fd ∈ cube_faces)
    (h : j = i → ∀ info, G.find (ctx.cache CPOS_ITSELF i) = some info →
      vis_test G ctx (ctx.cache CPOS_ITSELF i) info
        (Vec3i.add (LocalCoord.from_index i) fd.2.1) = false) :
    (voxel_emits G ctx c j).countP
      (fun q => decide (q.pos = LocalCoord.to_vec3f (LocalCoord.from_index i) ∧ q.face = fd.1))
      = 0 := by
  rw [List.countP_eq_zero]
  intro q hq
  obtain ⟨info, hfind, _, fd', hfd', hvis, _, rfl⟩ := (mem_voxel_emits G ctx c j q).1 hq
  simp only [decide_eq_true_eq, (face_quad_pos _ _ _ _).1, (face_quad_pos _ _ _ _).2]
  rintro ⟨hpos, hface⟩
  have hji : j = i := from_index_injective j i (to_vec3f_injective _ _ hpos)
  subst hji
  have hfdeq : fd' = fd := cube_faces_face_injective fd' fd hfd' hfd hface
  subst hfdeq
  rw [h rfl info hfind] at hvis
  exact Bool.noConfusion hvis

/-- A build of a new context holds no quad for a face `vis_test` rejects,
cancelled or not. -/
theorem hidden_face_count (G : Services) (flag : Nat → Bool) (ctx : WorkerContext)
    (hnb : ctx.quads_nb = []) (hb : ctx.quads_b = []) (i : Nat)
    (fd : VoxelFace × LocalCoord × VoxelVis) (hfd : fd ∈ cube_faces)
    (hvis : ∀ info, G.find (ctx.cache CPOS_ITSELF i) = some info →
      vis_test G ctx (ctx.cache CPOS_ITSELF i) info
        (Vec3i.add (LocalCoord.from_index i) fd.2.1) = false) :
    (process G flag ctx).quads_of_face (LocalCoord.from_index i) fd.1 = 0 := by
  rcases flag_cases flag CHUNK_VOLUME with hflag | hflag
  · rw [quads_of_face_eq, process_count _ G flag ctx hnb hb hflag,
      process_count _ G flag ctx hnb hb hflag]
    have hz : ∀ c, ((List.range CHUNK_VOLUME).map (fun j =>
        (voxel_emits G (ctx.resized G) c j).countP (fun q =>
          decide (q.pos = LocalCoord.to_vec3f (LocalCoord.from_index i) ∧ q.face = fd.1)))).sum
        = 0 := by
      intro c
      apply sum_map_range_zero
      intro j _
      apply voxel_emits_tag_zero G (ctx.resized G) c i j fd hfd
      intro _ info hfind
      exact hvis info hfind
    rw [hz false, hz true]
  · obtain ⟨h1, h2⟩ := process_cancelled G flag ctx hflag
    simp [WorkerContext.quads_of_face, WorkerContext.all_quads, WorkerContext.class_quads,
      WorkerContext.builders, h1, h2]

/-- C3: when the cell next to a voxel of the processed chunk, in one of the six
directions, holds the same voxel id (in the chunk itself or in the snapshot of a
neighbour), `vis_test` returns false for that face and the finished build holds
no quad for it.  The context is one the mesher has just created (no builders
yet) and the registry defines no voxel under the id `NULL_VOXEL`. -/
theorem same_voxel_face_hidden (G : Services) (flag : Nat → Bool) (ctx : WorkerContext)
    (hnb : ctx.quads_nb = []) (hb : ctx.quads_b = []) (hnull : G.find NULL_VOXEL = none)
    (i : Nat) (fd : VoxelFace × LocalCoord × VoxelVis) (hfd : fd ∈ cube_faces)
    (hadj : adjacent_voxel ctx (Vec3i.add (LocalCoord.from_index i) fd.2.1)
      = ctx.cache CPOS_ITSELF i) :
    (∀ info, G.find (ctx.cache CPOS_ITSELF i) = some info →
      vis_test G ctx (ctx.cache CPOS_ITSELF i) info
        (Vec3i.add (LocalCoord.from_index i) fd.2.1) = false)
    ∧ (process G flag ctx).quads_of_face (LocalCoord.from_index i) fd.1 = 0 := by
  have hvis : ∀ info, G.find (ctx.cache CPOS_ITSELF i) = some info →
      vis_test G ctx (ctx.cache CPOS_ITSELF i) info
        (Vec3i.add (LocalCoord.from_index i) fd.2.1) = false := by
    intro info hfind
    have hne : ctx.cache CPOS_ITSELF i ≠ NULL_VOXEL := by
      intro he
      rw [he, hnull] at hfind
      exact Option.noConfusion hfind
    rw [vis_test_eq, hadj, if_neg hne, if_pos rfl]
  exact ⟨hvis, hidden_face_count G flag ctx hnb hb i fd hfd hvis⟩

/-- Witness of C3: in a chunk filled with stone, the west face of cell 0. -/
theorem same_voxel_face_hidden_witness :
    adjacent_voxel sample_full_context
        (Vec3i.add (LocalCoord.from_index 0) LocalCoord.dir_west)
      = sample_full_context.cache CPOS_ITSELF 0
    ∧ ((∀ info, sample_services.find (sample_full_context.cache CPOS_ITSELF 0) = some info →
        vis_test sample_services sample_full_context (sample_full_context.cache CPOS_ITSELF 0)
          info (Vec3i.add (LocalCoord.from_index 0) LocalCoord.dir_west) = false)
      ∧ (process sample_services never_cancelled sample_full_context).quads_of_face
          (LocalCoord.from_index 0) VoxelFace.CubeWest = 0) :=
  ⟨by decide,
    same_voxel_face_hidden sample_services never_cancelled sample_full_context rfl rfl
      rfl 0 (VoxelFace.CubeWest, LocalCoord.dir_west, VIS_WEST) (by decide) (by decide)⟩

/-! ## The snapshots of a new worker -/

theorem get_cached_cpos_itself (c : ChunkCoord) : get_cached_cpos c c = 0 := by
  simp [get_cached_cpos, CPOS_ITSELF]

theorem get_cached_cpos_step (c : ChunkCoord) :
    get_cached_cpos c (Vec3i.add c LocalCoord.dir_north) = 1
    ∧ get_cached_cpos c (Vec3i.add c LocalCoord.dir_south) = 2
    ∧ get_cached_cpos c (Vec3i.add c LocalCoord.dir_east) = 3
    ∧ get_cached_cpos c (Vec3i.add c LocalCoord.dir_west) = 4
    ∧ get_cached_cpos c (Vec3i.add c LocalCoord.dir_up) = 6
    ∧ get_cached_cpos c (Vec3i.add c LocalCoord.dir_down) = 5 := by
  obtain ⟨x, y, z⟩ := c
  refine ⟨?_, ?_, ?_, ?_, ?_, ?_⟩ <;>
    simp [get_cached_cpos, Vec3i.add, Vec3i.sub, cxpr.clamp, LocalCoord.dir_north,
      LocalCoord.dir_south, LocalCoord.dir_east, LocalCoord.dir_west, LocalCoord.dir_up,
      LocalCoord.dir_down, CPOS_NORTH, CPOS_SOUTH, CPOS_EAST, CPOS_WEST, CPOS_TOP, CPOS_BOTTOM]

theorem cache_chunk_spec (world : World) (ctx : WorkerContext) (cpos : ChunkCoord)
    (hempty : ctx.cache (get_cached_cpos ctx.coord cpos) = fun _ => NULL_VOXEL) :
    (cache_chunk world ctx cpos).cache
        = Function.update ctx.cache (get_cached_cpos ctx.coord cpos) (snapshot world cpos)
    ∧ (cache_chunk world ctx cpos).coord = ctx.coord
    ∧ (cache_chunk world ctx cpos).quads_nb = ctx.quads_nb
    ∧ (cache_chunk world ctx cpos).quads_b = ctx.quads_b := by
  unfold cache_chunk snapshot
  cases h : world cpos with
  | none =>
    refine ⟨?_, rfl, rfl, rfl⟩
    simp only []
    rw [← hempty, Function.update_eq_self]
  | some chunk => exact ⟨rfl, rfl, rfl, rfl⟩

theorem cache_chunk_step (world : World) (ctx : WorkerContext) (coord cpos : ChunkCoord) (idx : Nat)
    (f : CachedChunkCoord → VoxelStorage) (hc : ctx.coord = coord) (hf : ctx.cache = f)
    (hq : ctx.quads_nb = [] ∧ ctx.quads_b = [])
    (hidx : get_cached_cpos coord cpos = idx) (hempty : f idx = fun _ => NULL_VOXEL) :
    (cache_chunk world ctx cpos).coord = coord
    ∧ (cache_chunk world ctx cpos).cache = Function.update f idx (snapshot world cpos)
    ∧ ((cache_chunk world ctx cpos).quads_nb = [] ∧ (cache_chunk world ctx cpos).quads_b = []) := by
  subst hc hf hidx
  obtain ⟨h1, h2, h3, h4⟩ := cache_chunk_spec world ctx cpos hempty
  exact ⟨h2, h1, h3.trans hq.1, h4.trans hq.2⟩

/-- The worker `update` creates holds, in each of its seven slots, the snapshot
of the chunk the slot stands for, and no builder. -/
theorem new_worker_spec (world : World) (coord : ChunkCoord) :
    (new_worker world coord).coord = coord
    ∧ ((new_worker world coord).quads_nb = [] ∧ (new_worker world coord).quads_b = [])
    ∧ (new_worker world coord).cache 0 = snapshot world coord
    ∧ (new_worker world coord).cache 1 = snapshot world (Vec3i.add coord LocalCoord.dir_north)
    ∧ (new_worker world coord).cache 2 = snapshot world (Vec3i.add coord LocalCoord.dir_south)
    ∧ (new_worker world coord).cache 3 = snapshot world (Vec3i.add coord LocalCoord.dir_east)
    ∧ (new_worker world coord).cache 4 = snapshot world (Vec3i.add coord LocalCoord.dir_west)
    ∧ (new_worker world coord).cache 6 = snapshot world (Vec3i.add coord LocalCoord.dir_up)
    ∧ (new_worker world coord).cache 5 = snapshot world (Vec3i.add coord LocalCoord.dir_down) := by
  obtain ⟨gN, gS, gE, gW, gU, gD⟩ := get_cached_cpos_step coord
  obtain ⟨c0, f0, q0⟩ := cache_chunk_step world { WorkerContext.fresh with coord := coord } coord
    coord 0 (fun _ _ => NULL_VOXEL) rfl rfl ⟨rfl, rfl⟩ (get_cached_cpos_itself coord) rfl
  obtain ⟨c1, f1, q1⟩ := cache_chunk_step world _ coord (Vec3i.add coord LocalCoord.dir_north) 1 _
    c0 f0 q0 gN (by simp [Function.update])
  obtain ⟨c2, f2, q2⟩ := cache_chunk_step world _ coord (Vec3i.add coord LocalCoord.dir_south) 2 _
    c1 f1 q1 gS (by simp [Function.update])
  obtain ⟨c3, f3, q3⟩ := cache_chunk_step world _ coord (Vec3i.add coord LocalCoord.dir_east) 3 _
    c2 f2 q2 gE (by simp [Function.update])
  obtain ⟨c4, f4, q4⟩ := cache_chunk_step world _ coord (Vec3i.add coord LocalCoord.dir_west) 4 _
    c3 f3 q3 gW (by simp [Function.update])
  obtain ⟨c5, f5, q5⟩ := cache_chunk_step world _ coord (Vec3i.add coord LocalCoord.dir_up) 6 _
    c4 f4 q4 gU (by simp [Function.update])
  obtain ⟨c6, f6, q6⟩ := cache_chunk_step world _ coord (Vec3i.add coord LocalCoord.dir_down) 5 _
    c5 f5 q5 gD (by simp [Function.update])
  have hw : new_worker world coord
      = cache_chunk world (cache_chunk world (cache_chunk world (cache_chunk world
          (cache_chunk world (cache_chunk world (cache_chunk world
            { WorkerContext.fresh with coord := coord } coord)
            (Vec3i.add coord LocalCoord.dir_north)) (Vec3i.add coord LocalCoord.dir_south))
            (Vec3i.add coord LocalCoord.dir_east)) (Vec3i.add coord LocalCoord.dir_west))
            (Vec3i.add coord LocalCoord.dir_up)) (Vec3i.add coord LocalCoord.dir_down) := rfl
  rw [hw]
  refine ⟨c6, q6, ?_, ?_, ?_, ?_, ?_, ?_, ?_⟩ <;> rw [f6] <;> simp [Function.update]

theorem two_pow_log2 : (2 : Int) ^ CHUNK_SIZE_LOG2 = 16 := by decide

theorem to_chunk_to_voxel (c : ChunkCoord) (l : LocalCoord) :
    VoxelCoord.to_chunk (ChunkCoord.to_voxel c l)
      = ⟨c.x + l.x / 16, c.y + l.y / 16, c.z + l.z / 16⟩ := by
  simp only [VoxelCoord.to_chunk, ChunkCoord.to_voxel, shiftRight_four, two_pow_log2,
    Vec3i.mk.injEq]
  refine ⟨?_, ?_, ?_⟩ <;> omega

theorem to_local_to_voxel (c : ChunkCoord) (l : LocalCoord) :
    VoxelCoord.to_local (ChunkCoord.to_voxel c l) = ⟨l.x % 16, l.y % 16, l.z % 16⟩ := by
  simp only [VoxelCoord.to_local, ChunkCoord.to_voxel, CHUNK_SIZE_eq, two_pow_log2,
    Vec3i.mk.injEq, Nat.cast_ofNat, mod_signed_eq_emod]
  refine ⟨?_, ?_, ?_⟩ <;> omega

/-- The cell next to a voxel of a chunk lies in the chunk itself or in the
neighbour chunk of that direction. -/
theorem adjacent_chunk_cases (coord : ChunkCoord) (i : Nat) (hi : i < CHUNK_VOLUME)
    (fd : VoxelFace × LocalCoord × VoxelVis) (hfd : fd ∈ cube_faces) :
    VoxelCoord.to_chunk (ChunkCoord.to_voxel coord (Vec3i.add (LocalCoord.from_index i) fd.2.1))
        = coord
    ∨ VoxelCoord.to_chunk (ChunkCoord.to_voxel coord (Vec3i.add (LocalCoord.from_index i) fd.2.1))
        = Vec3i.add coord fd.2.1 := by
  rw [CHUNK_VOLUME_eq] at hi
  obtain ⟨cx, cy, cz⟩ := coord
  rw [to_chunk_to_voxel]
  simp only [cube_faces, List.mem_cons, List.mem_singleton, List.not_mem_nil, or_false] at hfd
  rcases hfd with rfl | rfl | rfl | rfl | rfl | rfl <;>
    simp only [Vec3i.add, LocalCoord.from_index, CHUNK_SIZE_eq, LocalCoord.dir_north,
      LocalCoord.dir_south, LocalCoord.dir_east, LocalCoord.dir_west, LocalCoord.dir_up,
      LocalCoord.dir_down, Vec3i.mk.injEq] <;> omega

theorem adjacent_voxel_new_worker (world : World) (coord : ChunkCoord) (i : Nat)
    (hi : i < CHUNK_VOLUME) (fd : VoxelFace × LocalCoord × VoxelVis) (hfd : fd ∈ cube_faces) :
    adjacent_voxel (new_worker world coord) (Vec3i.add (LocalCoord.from_index i) fd.2.1)
      = snapshot world
          (VoxelCoord.to_chunk
            (ChunkCoord.to_voxel coord (Vec3i.add (LocalCoord.from_index i) fd.2.1)))
          (LocalCoord.to_index (VoxelCoord.to_local
            (ChunkCoord.to_voxel coord (Vec3i.add (LocalCoord.from_index i) fd.2.1)))) := by
  obtain ⟨hc, _, s0, s1, s2, s3, s4, s6, s5⟩ := new_worker_spec world coord
  obtain ⟨gN, gS, gE, gW, gU, gD⟩ := get_cached_cpos_step coord
  unfold adjacent_voxel
  simp only [hc]
  rcases adjacent_chunk_cases coord i hi fd hfd with h | h
  · rw [h, get_cached_cpos_itself, s0]
  · rw [h]
    simp only [cube_faces, List.mem_cons, List.mem_singleton, List.not_mem_nil, or_false] at hfd
    rcases hfd with rfl | rfl | rfl | rfl | rfl | rfl
    · rw [gN, s1]
    · rw [gS, s2]
    · rw [gE, s3]
    · rw [gW, s4]
    · rw [gU, s6]
    · rw [gD, s5]

theorem cube_faces_nodup : cube_faces.Nodup := by decide

theorem countP_eq_one_of_unique {α : Type} (p : α → Bool) (a : α) :
    ∀ (l : List α), l.Nodup → a ∈ l → (∀ x, x ∈ l → (p x = true ↔ x = a)) →
      l.countP p = 1 := by
  intro l
  induction l with
  | nil => intro _ h; exact absurd h (List.not_mem_nil a)
  | cons b bs ih =>
    intro hn ha hp
    rw [List.nodup_cons] at hn
    by_cases hba : b = a
    · subst hba
      have hz : bs.countP p = 0 := by
        rw [List.countP_eq_zero]
        intro x hx hpx
        have hxb : x = b := (hp x (List.mem_cons_of_mem b hx)).1 hpx
        exact hn.1 (hxb ▸ hx)
      rw [List.countP_cons, hz, if_pos ((hp b (List.mem_cons_self b bs)).2 rfl)]
    · have hab : a ∈ bs := by
        rcases List.mem_cons.1 ha with h | h
        · exact absurd h.symm hba
        · exact h
      have hpb : ¬ p b = true := fun h => hba ((hp b (List.mem_cons_self b bs)).1 h)
      rw [List.countP_cons, if_neg hpb,
        ih hn.2 hab (fun x hx => hp x (List.mem_cons_of_mem b hx))]

/-- A face `vis_test` accepts, of a voxel whose plane exists, is pushed once. -/
theorem voxel_emits_tag_one (G : Services) (ctx : WorkerContext) (i : Nat)
    (fd : VoxelFace × LocalCoord × VoxelVis) (hfd : fd ∈ cube_faces) (info : VoxelInfo)
    (hfind : G.find (ctx.cache CPOS_ITSELF i) = some info)
    (hvis : vis_test G ctx (ctx.cache CPOS_ITSELF i) info
      (Vec3i.add (LocalCoord.from_index i) fd.2.1) = true)
    (hplane : (info.textures fd.1).cached_plane < (ctx.builders info.blending).length) :
    (voxel_emits G ctx info.blending i).countP
      (fun q => decide (q.pos = LocalCoord.to_vec3f (LocalCoord.from_index i) ∧ q.face = fd.1))
      = 1 := by
  unfold voxel_emits
  simp only [hfind, if_true]
  rw [List.countP_map, List.countP_filter]
  apply countP_eq_one_of_unique _ fd cube_faces cube_faces_nodup hfd
  intro x hx
  simp only [Function.comp, (face_quad_pos _ _ _ _).1, (face_quad_pos _ _ _ _).2, true_and,
    Bool.and_eq_true, decide_eq_true_eq]
  constructor
  · rintro ⟨hface, _⟩
    exact cube_faces_face_injective x fd hx hfd hface
  · rintro rfl
    exact ⟨rfl, hvis, hplane⟩

theorem voxel_emits_other_class (G : Services) (ctx : WorkerContext) (i : Nat) (info : VoxelInfo)
    (hfind : G.find (ctx.cache CPOS_ITSELF i) = some info) (c : Bool) (hc : info.blending ≠ c) :
    voxel_emits G ctx c i = [] := by
  unfold voxel_emits
  simp only [hfind, if_neg hc]

/-- An uncancelled build of a new context holds, for a face `vis_test` accepts
of a defined voxel whose plane exists, exactly one quad. -/
theorem visible_face_count (G : Services) (flag : Nat → Bool) (ctx : WorkerContext)
    (hnb : ctx.quads_nb = []) (hb : ctx.quads_b = [])
    (hflag : ∀ j, j < CHUNK_VOLUME → flag j = false) (i : Nat) (hi : i < CHUNK_VOLUME)
    (fd : VoxelFace × LocalCoord × VoxelVis) (hfd : fd ∈ cube_faces) (info : VoxelInfo)
    (hfind : G.find (ctx.cache CPOS_ITSELF i) = some info)
    (hvis : vis_test G ctx (ctx.cache CPOS_ITSELF i) info
      (Vec3i.add (LocalCoord.from_index i) fd.2.1) = true)
    (hplane : (info.textures fd.1).cached_plane < G.plane_count) :
    (process G flag ctx).quads_of_face (LocalCoord.from_index i) fd.1 = 1 := by
  rw [quads_of_face_eq, process_count _ G flag ctx hnb hb hflag,
    process_count _ G flag ctx hnb hb hflag]
  have hlen : ∀ k, ((ctx.resized G).builders k).length = G.plane_count := by
    intro k
    rw [(resized_fresh G ctx hnb hb k).2.2.1, List.length_replicate]
  have hone : ((List.range CHUNK_VOLUME).map (fun j =>
      (voxel_emits G (ctx.resized G) info.blending j).countP (fun q =>
        decide (q.pos = LocalCoord.to_vec3f (LocalCoord.from_index i) ∧ q.face = fd.1)))).sum
      = 1 := by
    rw [sum_map_range_single _ i CHUNK_VOLUME hi]
    · exact voxel_emits_tag_one G (ctx.resized G) i fd hfd info hfind hvis
        (by rw [hlen]; exact hplane)
    · intro j _ hne
      exact voxel_emits_tag_zero G (ctx.resized G) _ i j fd hfd (fun h => absurd h hne)
  have hzero : ((List.range CHUNK_VOLUME).map (fun j =>
      (voxel_emits G (ctx.resized G) (!info.blending) j).countP (fun q =>
        decide (q.pos = LocalCoord.to_vec3f (LocalCoord.from_index i) ∧ q.face = fd.1)))).sum
      = 0 := by
    apply sum_map_range_zero
    intro j _
    by_cases hji : j = i
    · subst hji
      rw [voxel_emits_other_class G (ctx.resized G) j info hfind (!info.blending)
        (by cases info.blending <;> decide)]
      rfl
    · exact voxel_emits_tag_zero G (ctx.resized G) _ i j fd hfd (fun h => absurd h hji)
  cases hbl : info.blending <;> rw [hbl] at hone hzero <;> simp only [Bool.not_false,
    Bool.not_true] at hzero <;> omega

theorem quad_texture_range (info : VoxelInfo) (face : VoxelFace) (entropy : Nat)
    (hanim : info.animated = false) (hn : 1 ≤ (info.textures face).paths_size) :
    (info.textures face).cached_offset ≤ quad_texture info face entropy
    ∧ quad_texture info face entropy
        < (info.textures face).cached_offset + (info.textures face).paths_size := by
  unfold quad_texture
  rw [hanim]
  exact ⟨Nat.le_add_right _ _, Nat.add_lt_add_left (Nat.mod_lt _ hn) _⟩

theorem sample_variants_present (ctx : WorkerContext) : variants_present sample_services ctx := by
  intro j _ info hfind _ fd _ _
  have h : (if ctx.cache CPOS_ITSELF j = 1 then some sample_stone
      else if ctx.cache CPOS_ITSELF j = 2 then some sample_glass else none) = some info := hfind
  split at h
  · cases h
    exact Nat.le_refl 1
  · split at h
    · cases h
      exact Nat.le_refl 1
    · cases h

/-- C4: for a defined voxel of the processed chunk and each of the six
directions, when the cell next to it is empty (the world holds `NULL_VOXEL`
there, in the chunk itself or in a neighbour chunk) or belongs to a chunk that
was missing from the world when the worker cached its neighbours, `vis_test`
accepts the face and the uncancelled build holds exactly one quad for it.  The
plane of the face texture is one of the planes of the atlas, and the build
divides by no zero (`variants_present`: every face it pushes for a voxel that
is not animated has at least one path); the texture index of the quad of a
voxel that is not animated is then one of the variants of the face. -/
theorem empty_neighbour_face_emitted (G : Services) (world : World) (coord : ChunkCoord)
    (flag : Nat → Bool) (hflag : ∀ j, j < CHUNK_VOLUME → flag j = false)
    (i : Nat) (hi : i < CHUNK_VOLUME) (fd : VoxelFace × LocalCoord × VoxelVis)
    (hfd : fd ∈ cube_faces) (chunk : Chunk) (info : VoxelInfo)
    (hchunk : world coord = some chunk) (hfind : G.find (chunk.voxels i) = some info)
    (hplane : (info.textures fd.1).cached_plane < G.plane_count)
    (hpaths : variants_present G (new_worker world coord))
    (hadj : world_voxel world
        (ChunkCoord.to_voxel coord (Vec3i.add (LocalCoord.from_index i) fd.2.1))
          = some NULL_VOXEL
      ∨ world (VoxelCoord.to_chunk
          (ChunkCoord.to_voxel coord (Vec3i.add (LocalCoord.from_index i) fd.2.1))) = none) :
    vis_test G (new_worker world coord) (chunk.voxels i) info
        (Vec3i.add (LocalCoord.from_index i) fd.2.1) = true
    ∧ (process G flag (new_worker world coord)).quads_of_face (LocalCoord.from_index i) fd.1
        = 1
    ∧ (info.animated = false →
        (info.textures fd.1).cached_offset
            ≤ quad_texture info fd.1 (voxel_entropy G coord (LocalCoord.from_index i))
        ∧ quad_texture info fd.1 (voxel_entropy G coord (LocalCoord.from_index i))
            < (info.textures fd.1).cached_offset + (info.textures fd.1).paths_size) := by
  obtain ⟨_, ⟨hnb, hb⟩, s0, _⟩ := new_worker_spec world coord
  have hself : (new_worker world coord).cache CPOS_ITSELF i = chunk.voxels i := by
    show (new_worker world coord).cache 0 i = chunk.voxels i
    rw [s0]
    simp [snapshot, hchunk]
  have hnull : adjacent_voxel (new_worker world coord)
      (Vec3i.add (LocalCoord.from_index i) fd.2.1) = NULL_VOXEL := by
    rw [adjacent_voxel_new_worker world coord i hi fd hfd]
    unfold snapshot
    rcases hadj with h | h
    · unfold world_voxel at h
      cases hw : world (VoxelCoord.to_chunk
          (ChunkCoord.to_voxel coord (Vec3i.add (LocalCoord.from_index i) fd.2.1))) with
      | none => rfl
      | some c =>
        rw [hw] at h
        simpa using h
    · rw [h]
  have hvis : vis_test G (new_worker world coord) (chunk.voxels i) info
      (Vec3i.add (LocalCoord.from_index i) fd.2.1) = true := by
    rw [vis_test_eq, if_pos hnull]
  refine ⟨hvis, ?_, fun hanim => ?_⟩
  · apply visible_face_count G flag _ hnb hb hflag i hi fd hfd info
    · rw [hself]; exact hfind
    · rw [hself]; exact hvis
    · exact hplane
  · have hn := hpaths i hi info (by rw [hself]; exact hfind) hanim fd hfd
      (by rw [hself]; exact hvis)
    exact quad_texture_range info fd.1 _ hanim hn

/-- Witness of C4: the chunk of `sample_world`; the east face of its one stone
looks into a chunk the world does not hold. -/
theorem empty_neighbour_face_emitted_witness :
    (sample_world (VoxelCoord.to_chunk (ChunkCoord.to_voxel ⟨0, 0, 0⟩
        (Vec3i.add (LocalCoord.from_index 0) LocalCoord.dir_east))) = none
      ∧ variants_present sample_services (new_worker sample_world ⟨0, 0, 0⟩))
    ∧ (vis_test sample_services (new_worker sample_world ⟨0, 0, 0⟩) 1 sample_stone
          (Vec3i.add (LocalCoord.from_index 0) LocalCoord.dir_east) = true
      ∧ (process sample_services never_cancelled (new_worker sample_world ⟨0, 0, 0⟩)).quads_of_face
          (LocalCoord.from_index 0) VoxelFace.CubeEast = 1
      ∧ (sample_stone.animated = false →
          (sample_stone.textures VoxelFace.CubeEast).cached_offset
              ≤ quad_texture sample_stone VoxelFace.CubeEast
                  (voxel_entropy sample_services ⟨0, 0, 0⟩ (LocalCoord.from_index 0))
          ∧ quad_texture sample_stone VoxelFace.CubeEast
                (voxel_entropy sample_services ⟨0, 0, 0⟩ (LocalCoord.from_index 0))
              < (sample_stone.textures VoxelFace.CubeEast).cached_offset
                + (sample_stone.textures VoxelFace.CubeEast).paths_size)) :=
  ⟨⟨rfl, sample_variants_present _⟩,
    empty_neighbour_face_emitted sample_services sample_world ⟨0, 0, 0⟩ never_cancelled
      (fun _ _ => rfl) 0 (by decide) (VoxelFace.CubeEast, LocalCoord.dir_east, VIS_EAST)
      (by decide) ⟨fun j => if j = 0 then 1 else NULL_VOXEL, 7⟩ sample_stone rfl
      rfl (by decide) (sample_variants_present _) (Or.inr rfl)⟩

/-! ## Blending against opaque -/

/-- Counterexample to C5 as stated: glass (blending) in cell 0 and stone
(opaque) one step west of it, two defined voxel types.  The stone sees the
shared face, the glass does not: it is not true that `vis_test` returns true on
both sides. -/
theorem blending_face_counterexample :
    (sample_glass.blending = true ∧ sample_stone.blending = false
      ∧ sample_mixed_context.cache CPOS_ITSELF 0 = 2
      ∧ adjacent_voxel sample_mixed_context
          (Vec3i.add (LocalCoord.from_index 0) LocalCoord.dir_west) = 1
      ∧ sample_mixed_context.cache CPOS_ITSELF 1 = 1
      ∧ adjacent_voxel sample_mixed_context
          (Vec3i.add (LocalCoord.from_index 1) LocalCoord.dir_east) = 2)
    ∧ ¬ (vis_test sample_services sample_mixed_context 2 sample_glass
            (Vec3i.add (LocalCoord.from_index 0) LocalCoord.dir_west) = true
          ∧ vis_test sample_services sample_mixed_context 1 sample_stone
            (Vec3i.add (LocalCoord.from_index 1) LocalCoord.dir_east) = true) := by
  decide

/-- C5, amended: when a defined voxel of the processed chunk and the defined
voxel next to it differ in type and in blending class, the shared face is
visible from the opaque side only.  For the opaque voxel (its neighbour blends)
`vis_test` returns true and the uncancelled build holds exactly one quad for
the face, with one of the variants of the face as texture when the voxel is not
animated; for the blending voxel (its neighbour is opaque) `vis_test` returns
false and the build holds no quad for the face.  The build divides by no zero
(`variants_present`: every face it pushes for a voxel that is not animated has
at least one path). -/
theorem blending_face_opaque_side_only (G : Services) (flag : Nat → Bool)
    (hflag : ∀ j, j < CHUNK_VOLUME → flag j = false) (ctx : WorkerContext)
    (hnb : ctx.quads_nb = []) (hb : ctx.quads_b = []) (i : Nat) (hi : i < CHUNK_VOLUME)
    (fd : VoxelFace × LocalCoord × VoxelVis) (hfd : fd ∈ cube_faces)
    (info neighbour_info : VoxelInfo)
    (hfind : G.find (ctx.cache CPOS_ITSELF i) = some info)
    (hplane : (info.textures fd.1).cached_plane < G.plane_count)
    (hpaths : variants_present G ctx)
    (hn0 : adjacent_voxel ctx (Vec3i.add (LocalCoord.from_index i) fd.2.1) ≠ NULL_VOXEL)
    (hne : adjacent_voxel ctx (Vec3i.add (LocalCoord.from_index i) fd.2.1)
      ≠ ctx.cache CPOS_ITSELF i)
    (hnfind : G.find (adjacent_voxel ctx (Vec3i.add (LocalCoord.from_index i) fd.2.1))
      = some neighbour_info)
    (hdiff : neighbour_info.blending ≠ info.blending) :
    (info.blending = false →
      vis_test G ctx (ctx.cache CPOS_ITSELF i) info
          (Vec3i.add (LocalCoord.from_index i) fd.2.1) = true
      ∧ (process G flag ctx).quads_of_face (LocalCoord.from_index i) fd.1 = 1
      ∧ (info.animated = false →
          (info.textures fd.1).cached_offset
              ≤ quad_texture info fd.1 (voxel_entropy G ctx.coord (LocalCoord.from_index i))
          ∧ quad_texture info fd.1 (voxel_entropy G ctx.coord (LocalCoord.from_index i))
              < (info.textures fd.1).cached_offset + (info.textures fd.1).paths_size))
    ∧ (info.blending = true →
      vis_test G ctx (ctx.cache CPOS_ITSELF i) info
          (Vec3i.add (LocalCoord.from_index i) fd.2.1) = false
      ∧ (process G flag ctx).quads_of_face (LocalCoord.from_index i) fd.1 = 0) := by
  have hvis : vis_test G ctx (ctx.cache CPOS_ITSELF i) info
      (Vec3i.add (LocalCoord.from_index i) fd.2.1) = neighbour_info.blending := by
    rw [vis_test_eq, if_neg hn0, if_neg hne, hnfind]
    simp only [if_pos hdiff]
  constructor
  · intro hopaque
    have hnb' : neighbour_info.blending = true := by
      cases h : neighbour_info.blending with
      | true => rfl
      | false => exact absurd (h.trans hopaque.symm) hdiff
    rw [hnb'] at hvis
    exact ⟨hvis, visible_face_count G flag ctx hnb hb hflag i hi fd hfd info hfind hvis hplane,
      fun hanim => quad_texture_range info fd.1 _ hanim
        (hpaths i hi info hfind hanim fd hfd hvis)⟩
  · intro hblend
    have hnb' : neighbour_info.blending = false := by
      cases h : neighbour_info.blending with
      | false => rfl
      | true => exact absurd (h.trans hblend.symm) hdiff
    rw [hnb'] at hvis
    refine ⟨hvis, hidden_face_count G flag ctx hnb hb i fd hfd ?_⟩
    intro info' hfind'
    rw [hfind] at hfind'
    cases hfind'
    exact hvis

/-- Witness of C5, amended: the stone of `sample_mixed_context`, seen from the
east, next to the glass. -/
theorem blending_face_opaque_side_only_witness :
    (sample_services.find (sample_mixed_context.cache CPOS_ITSELF 1) = some sample_stone
      ∧ sample_services.find (adjacent_voxel sample_mixed_context
          (Vec3i.add (LocalCoord.from_index 1) LocalCoord.dir_east)) = some sample_glass
      ∧ sample_glass.blending ≠ sample_stone.blending
      ∧ variants_present sample_services sample_mixed_context)
    ∧ ((sample_stone.blending = false →
        vis_test sample_services sample_mixed_context (sample_mixed_context.cache CPOS_ITSELF 1)
            sample_stone (Vec3i.add (LocalCoord.from_index 1) LocalCoord.dir_east) = true
        ∧ (process sample_services never_cancelled sample_mixed_context).quads_of_face
            (LocalCoord.from_index 1) VoxelFace.CubeEast = 1
        ∧ (sample_stone.animated = false →
            (sample_stone.textures VoxelFace.CubeEast).cached_offset
                ≤ quad_texture sample_stone VoxelFace.CubeEast
                    (voxel_entropy sample_services sample_mixed_context.coord
                      (LocalCoord.from_index 1))
            ∧ quad_texture sample_stone VoxelFace.CubeEast
                  (voxel_entropy sample_services sample_mixed_context.coord
                    (LocalCoord.from_index 1))
                < (sample_stone.textures VoxelFace.CubeEast).cached_offset
                  + (sample_stone.textures VoxelFace.CubeEast).paths_size))
      ∧ (sample_stone.blending = true →
        vis_test sample_services sample_mixed_context (sample_mixed_context.cache CPOS_ITSELF 1)
            sample_stone (Vec3i.add (LocalCoord.from_index 1) LocalCoord.dir_east) = false
        ∧ (process sample_services never_cancelled sample_mixed_context).quads_of_face
            (LocalCoord.from_index 1) VoxelFace.CubeEast = 0)) :=
  ⟨⟨rfl, rfl, by decide, sample_variants_present _⟩,
    blending_face_opaque_side_only sample_services never_cancelled (fun _ _ => rfl)
      sample_mixed_context rfl rfl 1 (by decide)
      (VoxelFace.CubeEast, LocalCoord.dir_east, VIS_EAST) (by decide) sample_stone sample_glass
      rfl (by decide) (sample_variants_present _) (by decide) (by decide) rfl (by decide)⟩

/-! ## A single voxel in an empty neighbourhood -/

theorem to_index_from_index (p : LocalCoord)
    (hp : 0 ≤ p.x ∧ p.x < 16 ∧ 0 ≤ p.y ∧ p.y < 16 ∧ 0 ≤ p.z ∧ p.z < 16) :
    LocalCoord.to_index p < CHUNK_VOLUME
    ∧ LocalCoord.from_index (LocalCoord.to_index p) = p := by
  obtain ⟨x, y, z⟩ := p
  simp only at hp
  rw [CHUNK_VOLUME_eq]
  simp only [LocalCoord.to_index, LocalCoord.from_index, CHUNK_SIZE_eq, Vec3i.mk.injEq,
    Nat.cast_ofNat]
  refine ⟨?_, ?_, ?_, ?_⟩ <;> omega

/-- The index `vis_test` reads for a cell one step away from `p` is an index of
the array and differs from the index of `p`. -/
theorem adjacent_index (coord : ChunkCoord) (p : LocalCoord)
    (hp : 0 ≤ p.x ∧ p.x < 16 ∧ 0 ≤ p.y ∧ p.y < 16 ∧ 0 ≤ p.z ∧ p.z < 16)
    (fd : VoxelFace × LocalCoord × VoxelVis) (hfd : fd ∈ cube_faces) :
    LocalCoord.to_index (VoxelCoord.to_local (ChunkCoord.to_voxel coord (Vec3i.add p fd.2.1)))
        < CHUNK_VOLUME
    ∧ LocalCoord.to_index (VoxelCoord.to_local (ChunkCoord.to_voxel coord (Vec3i.add p fd.2.1)))
        ≠ LocalCoord.to_index p := by
  obtain ⟨x, y, z⟩ := p
  simp only at hp
  rw [to_local_to_voxel, CHUNK_VOLUME_eq]
  simp only [cube_faces, List.mem_cons, List.mem_singleton, List.not_mem_nil, or_false] at hfd
  rcases hfd with rfl | rfl | rfl | rfl | rfl | rfl <;>
    simp only [Vec3i.add, LocalCoord.to_index, CHUNK_SIZE_eq, LocalCoord.dir_north,
      LocalCoord.dir_south, LocalCoord.dir_east, LocalCoord.dir_west, LocalCoord.dir_up,
      LocalCoord.dir_down, Nat.cast_ofNat] <;> omega

/-- In a context whose own grid holds one voxel and whose six neighbour slots
are empty, every cell next to that voxel is empty. -/
theorem isolated_adjacent_null (ctx : WorkerContext) (p : LocalCoord)
    (hp : 0 ≤ p.x ∧ p.x < 16 ∧ 0 ≤ p.y ∧ p.y < 16 ∧ 0 ≤ p.z ∧ p.z < 16) (voxel : VoxelID)
    (hgrid : ∀ j, j < CHUNK_VOLUME →
      ctx.cache CPOS_ITSELF j = if j = LocalCoord.to_index p then voxel else NULL_VOXEL)
    (hslots : ∀ k : Nat, 1 ≤ k → k ≤ 6 → ∀ j, j < CHUNK_VOLUME → ctx.cache k j = NULL_VOXEL)
    (fd : VoxelFace × LocalCoord × VoxelVis) (hfd : fd ∈ cube_faces) :
    adjacent_voxel ctx (Vec3i.add p fd.2.1) = NULL_VOXEL := by
  obtain ⟨hlt, hfrom⟩ := to_index_from_index p hp
  obtain ⟨hidx, hne⟩ := adjacent_index ctx.coord p hp fd hfd
  obtain ⟨gN, gS, gE, gW, gU, gD⟩ := get_cached_cpos_step ctx.coord
  have hcases := adjacent_chunk_cases ctx.coord (LocalCoord.to_index p) hlt fd hfd
  rw [hfrom] at hcases
  unfold adjacent_voxel
  simp only []
  rcases hcases with h | h
  · rw [h, get_cached_cpos_itself]
    have := hgrid _ hidx
    rw [if_neg hne] at this
    exact this
  · rw [h]
    simp only [cube_faces, List.mem_cons, List.mem_singleton, List.not_mem_nil, or_false] at hfd
    rcases hfd with rfl | rfl | rfl | rfl | rfl | rfl
    · rw [gN]; exact hslots 1 (by decide) (by decide) _ hidx
    · rw [gS]; exact hslots 2 (by decide) (by decide) _ hidx
    · rw [gE]; exact hslots 3 (by decide) (by decide) _ hidx
    · rw [gW]; exact hslots 4 (by decide) (by decide) _ hidx
    · rw [gU]; exact hslots 6 (by decide) (by decide) _ hidx
    · rw [gD]; exact hslots 5 (by decide) (by decide) _ hidx

theorem isolated_voxel_emits (G : Services) (ctx : WorkerContext) (p : LocalCoord)
    (hp : 0 ≤ p.x ∧ p.x < 16 ∧ 0 ≤ p.y ∧ p.y < 16 ∧ 0 ≤ p.z ∧ p.z < 16) (voxel : VoxelID)
    (info : VoxelInfo) (hfind : G.find voxel = some info) (hnull : G.find NULL_VOXEL = none)
    (hplanes : ∀ face, (info.textures face).cached_plane < (ctx.builders info.blending).length)
    (hgrid : ∀ j, j < CHUNK_VOLUME →
      ctx.cache CPOS_ITSELF j = if j = LocalCoord.to_index p then voxel else NULL_VOXEL)
    (hslots : ∀ k : Nat, 1 ≤ k → k ≤ 6 → ∀ j, j < CHUNK_VOLUME → ctx.cache k j = NULL_VOXEL)
    (c : Bool) (j : Nat) (hj : j < CHUNK_VOLUME) :
    voxel_emits G ctx c j
      = if j = LocalCoord.to_index p ∧ info.blending = c then
          cube_faces.map (fun fd => face_quad info (LocalCoord.to_vec3f p) fd.1
            (voxel_entropy G ctx.coord p))
        else [] := by
  obtain ⟨hlt, hfrom⟩ := to_index_from_index p hp
  unfold voxel_emits
  rw [hgrid j hj]
  by_cases hji : j = LocalCoord.to_index p
  · subst hji
    simp only [if_true, hfind, true_and, hfrom]
    by_cases hb : info.blending = c
    · simp only [if_pos hb]
      congr 1
      rw [List.filter_eq_self]
      intro fd hfd
      have hvis : vis_test G ctx voxel info (Vec3i.add p fd.2.1) = true := by
        rw [vis_test_eq, if_pos (isolated_adjacent_null ctx p hp voxel hgrid hslots fd hfd)]
      rw [hvis, ← hb]
      simpa using hplanes fd.1
    · simp only [if_neg hb]
  · simp only [if_neg hji, hnull, hji, false_and, if_false]

theorem cube_face_quads (info : VoxelInfo) (hcube : info.type = VoxelType.Cube) (fpos : Vec3f)
    (entropy : Nat) :
    cube_faces.map (fun fd => face_quad info fpos fd.1 entropy)
      = [⟨make_chunk_quad fpos ⟨1, 1⟩ VoxelFacing.FACING_NORTH
            (quad_texture info VoxelFace.CubeNorth entropy)
            (quad_frames info VoxelFace.CubeNorth), fpos, VoxelFace.CubeNorth⟩,
         ⟨make_chunk_quad fpos ⟨1, 1⟩ VoxelFacing.FACING_SOUTH
            (quad_texture info VoxelFace.CubeSouth entropy)
            (quad_frames info VoxelFace.CubeSouth), fpos, VoxelFace.CubeSouth⟩,
         ⟨make_chunk_quad fpos ⟨1, 1⟩ VoxelFacing.FACING_EAST
            (quad_texture info VoxelFace.CubeEast entropy)
            (quad_frames info VoxelFace.CubeEast), fpos, VoxelFace.CubeEast⟩,
         ⟨make_chunk_quad fpos ⟨1, 1⟩ VoxelFacing.FACING_WEST
            (quad_texture info VoxelFace.CubeWest entropy)
            (quad_frames info VoxelFace.CubeWest), fpos, VoxelFace.CubeWest⟩,
         ⟨make_chunk_quad fpos ⟨1, 1⟩ VoxelFacing.FACING_UP
            (quad_texture info VoxelFace.CubeTop entropy)
            (quad_frames info VoxelFace.CubeTop), fpos, VoxelFace.CubeTop⟩,
         ⟨make_chunk_quad fpos ⟨1, 1⟩ VoxelFacing.FACING_DOWN
            (quad_texture info VoxelFace.CubeBottom entropy)
            (quad_frames info VoxelFace.CubeBottom), fpos, VoxelFace.CubeBottom⟩] := by
  unfold cube_faces face_quad quad_texture quad_frames get_facing
  cases info.animated <;> simp [hcube]

theorem isolated_class_count (P : BuiltQuad → Bool) (G : Services) (flag : Nat → Bool)
    (hflag : ∀ j, j < CHUNK_VOLUME → flag j = false) (ctx : WorkerContext)
    (hnb : ctx.quads_nb = []) (hb : ctx.quads_b = []) (hnull : G.find NULL_VOXEL = none)
    (p : LocalCoord) (hp : 0 ≤ p.x ∧ p.x < 16 ∧ 0 ≤ p.y ∧ p.y < 16 ∧ 0 ≤ p.z ∧ p.z < 16)
    (voxel : VoxelID) (info : VoxelInfo) (hfind : G.find voxel = some info)
    (hplanes : ∀ face, (info.textures face).cached_plane < G.plane_count)
    (hgrid : ∀ j, j < CHUNK_VOLUME →
      ctx.cache CPOS_ITSELF j = if j = LocalCoord.to_index p then voxel else NULL_VOXEL)
    (hslots : ∀ k : Nat, 1 ≤ k → k ≤ 6 → ∀ j, j < CHUNK_VOLUME → ctx.cache k j = NULL_VOXEL)
    (c : Bool) :
    ((process G flag ctx).class_quads c).countP P
      = if info.blending = c then
          (cube_faces.map (fun fd => face_quad info (LocalCoord.to_vec3f p) fd.1
            (voxel_entropy G ctx.coord p))).countP P
        else 0 := by
  obtain ⟨hlt, _⟩ := to_index_from_index p hp
  have hlen : ∀ k, ((ctx.resized G).builders k).length = G.plane_count := by
    intro k
    rw [(resized_fresh G ctx hnb hb k).2.2.1, List.length_replicate]
  have hemit := isolated_voxel_emits G (ctx.resized G) p hp voxel info hfind hnull
    (fun face => by rw [hlen]; exact hplanes face) hgrid hslots c
  rw [process_count P G flag ctx hnb hb hflag c]
  by_cases hbc : info.blending = c
  · rw [if_pos hbc, sum_map_range_single _ (LocalCoord.to_index p) CHUNK_VOLUME hlt]
    · rw [hemit _ hlt, if_pos ⟨rfl, hbc⟩]
      rfl
    · intro j hj hne
      rw [hemit j hj, if_neg (fun h => hne h.1)]
      rfl
  · rw [if_neg hbc]
    apply sum_map_range_zero
    intro j hj
    rw [hemit j hj, if_neg (fun h => hbc h.2)]
    rfl

/-- C6: a chunk whose grid holds one defined cube voxel at the local position
`p` and `NULL_VOXEL` in every other cell, with six empty neighbour slots, gives
in an uncancelled build exactly six quads, one for each of the facings north,
south, east, west, up and down, all of them in the builders of the blending
class of the voxel.  The planes of the voxel's textures are planes of the
atlas, the registry defines no voxel under the id `NULL_VOXEL`, and a voxel
that is not animated has at least one path for every face, so that the build
divides by no zero; its six texture indices are then variants of their
faces. -/
theorem isolated_voxel_six_quads (G : Services) (flag : Nat → Bool)
    (hflag : ∀ j, j < CHUNK_VOLUME → flag j = false) (ctx : WorkerContext)
    (hnb : ctx.quads_nb = []) (hb : ctx.quads_b = []) (hnull : G.find NULL_VOXEL = none)
    (p : LocalCoord) (hp : 0 ≤ p.x ∧ p.x < 16 ∧ 0 ≤ p.y ∧ p.y < 16 ∧ 0 ≤ p.z ∧ p.z < 16)
    (voxel : VoxelID) (info : VoxelInfo) (hfind : G.find voxel = some info)
    (hcube : info.type = VoxelType.Cube)
    (hplanes : ∀ face, (info.textures face).cached_plane < G.plane_count)
    (hpaths : info.animated = false → ∀ face, 1 ≤ (info.textures face).paths_size)
    (hgrid : ∀ j, j < CHUNK_VOLUME →
      ctx.cache CPOS_ITSELF j = if j = LocalCoord.to_index p then voxel else NULL_VOXEL)
    (hslots : ∀ k : Nat, 1 ≤ k → k ≤ 6 → ∀ j, j < CHUNK_VOLUME → ctx.cache k j = NULL_VOXEL) :
    (process G flag ctx).all_quads.length = 6
    ∧ variants_present G ctx
    ∧ (info.animated = false → ∀ face,
        (info.textures face).cached_offset
            ≤ quad_texture info face (voxel_entropy G ctx.coord p)
        ∧ quad_texture info face (voxel_entropy G ctx.coord p)
            < (info.textures face).cached_offset + (info.textures face).paths_size)
    ∧ (process G flag ctx).class_quads (!info.blending) = []
    ∧ List.Perm ((process G flag ctx).class_quads info.blending)
        [⟨make_chunk_quad (LocalCoord.to_vec3f p) ⟨1, 1⟩ VoxelFacing.FACING_NORTH
            (quad_texture info VoxelFace.CubeNorth (voxel_entropy G ctx.coord p))
            (quad_frames info VoxelFace.CubeNorth), LocalCoord.to_vec3f p, VoxelFace.CubeNorth⟩,
         ⟨make_chunk_quad (LocalCoord.to_vec3f p) ⟨1, 1⟩ VoxelFacing.FACING_SOUTH
            (quad_texture info VoxelFace.CubeSouth (voxel_entropy G ctx.coord p))
            (quad_frames info VoxelFace.CubeSouth), LocalCoord.to_vec3f p, VoxelFace.CubeSouth⟩,
         ⟨make_chunk_quad (LocalCoord.to_vec3f p) ⟨1, 1⟩ VoxelFacing.FACING_EAST
            (quad_texture info VoxelFace.CubeEast (voxel_entropy G ctx.coord p))
            (quad_frames info VoxelFace.CubeEast), LocalCoord.to_vec3f p, VoxelFace.CubeEast⟩,
         ⟨make_chunk_quad (LocalCoord.to_vec3f p) ⟨1, 1⟩ VoxelFacing.FACING_WEST
            (quad_texture info VoxelFace.CubeWest (voxel_entropy G ctx.coord p))
            (quad_frames info VoxelFace.CubeWest), LocalCoord.to_vec3f p, VoxelFace.CubeWest⟩,
         ⟨make_chunk_quad (LocalCoord.to_vec3f p) ⟨1, 1⟩ VoxelFacing.FACING_UP
            (quad_texture info VoxelFace.CubeTop (voxel_entropy G ctx.coord p))
            (quad_frames info VoxelFace.CubeTop), LocalCoord.to_vec3f p, VoxelFace.CubeTop⟩,
         ⟨make_chunk_quad (LocalCoord.to_vec3f p) ⟨1, 1⟩ VoxelFacing.FACING_DOWN
            (quad_texture info VoxelFace.CubeBottom (voxel_entropy G ctx.coord p))
            (quad_frames info VoxelFace.CubeBottom), LocalCoord.to_vec3f p,
            VoxelFace.CubeBottom⟩] := by
  have hcount := fun (P : BuiltQuad → Bool) (c : Bool) =>
    isolated_class_count P G flag hflag ctx hnb hb hnull p hp voxel info hfind hplanes hgrid
      hslots c
  have hother : (process G flag ctx).class_quads (!info.blending) = [] := by
    have h := hcount (fun _ => true) (!info.blending)
    rw [if_neg (by cases info.blending <;> decide), List.countP_true] at h
    exact List.length_eq_zero.1 h
  have hperm : List.Perm ((process G flag ctx).class_quads info.blending)
      (cube_faces.map (fun fd => face_quad info (LocalCoord.to_vec3f p) fd.1
        (voxel_entropy G ctx.coord p))) := by
    rw [List.perm_iff_count]
    intro a
    have h := hcount (fun q => q == a) info.blending
    rw [if_pos rfl] at h
    exact h
  rw [cube_face_quads info hcube] at hperm
  have hpresent : variants_present G ctx := by
    intro j hj info' hfind' hanim' fd' _ _
    rw [hgrid j hj] at hfind'
    by_cases hjp : j = LocalCoord.to_index p
    · rw [if_pos hjp, hfind] at hfind'
      cases hfind'
      exact hpaths hanim' fd'.1
    · rw [if_neg hjp, hnull] at hfind'
      cases hfind'
  refine ⟨?_, hpresent,
    fun hanim face => quad_texture_range info face _ hanim (hpaths hanim face), hother, hperm⟩
  have hlen := hperm.length_eq
  unfold WorkerContext.all_quads
  cases hbl : info.blending <;> rw [hbl] at hother hlen <;>
    simp only [Bool.not_false, Bool.not_true] at hother <;>
    rw [List.length_append, hother, hlen] <;> rfl

theorem sample_worker_slots :
    ∀ k : Nat, 1 ≤ k → k ≤ 6 → ∀ j, j < CHUNK_VOLUME →
      (new_worker sample_world ⟨0, 0, 0⟩).cache k j = NULL_VOXEL := by
  obtain ⟨_, _, _, s1, s2, s3, s4, s6, s5⟩ := new_worker_spec sample_world ⟨0, 0, 0⟩
  intro k h1 h6 j _
  have hk : k = 1 ∨ k = 2 ∨ k = 3 ∨ k = 4 ∨ k = 5 ∨ k = 6 := by omega
  rcases hk with rfl | rfl | rfl | rfl | rfl | rfl
  · rw [s1]; rfl
  · rw [s2]; rfl
  · rw [s3]; rfl
  · rw [s4]; rfl
  · rw [s5]; rfl
  · rw [s6]; rfl

/-- Witness of C6: the one stone of `sample_world`, whose six neighbour chunks
are not loaded and whose faces have one path each, gives six quads. -/
theorem isolated_voxel_six_quads_witness :
    (sample_stone.animated = false → ∀ face, 1 ≤ (sample_stone.textures face).paths_size)
    ∧ (process sample_services never_cancelled
        (new_worker sample_world ⟨0, 0, 0⟩)).all_quads.length = 6 :=
  ⟨fun _ _ => Nat.le_refl 1,
    (isolated_voxel_six_quads sample_services never_cancelled (fun _ _ => rfl)
      (new_worker sample_world ⟨0, 0, 0⟩) rfl rfl rfl ⟨0, 0, 0⟩ (by decide) 1 sample_stone rfl rfl
      (fun _ => Nat.zero_lt_one) (fun _ _ => Nat.le_refl 1) (fun _ _ => rfl)
      sample_worker_slots).1⟩

/-! ## An empty chunk -/

theorem finalize_planes_empty (E : Externals) :
    ∀ (builders : List QuadBuilder) (gl : List GLCall) (buffers : List ChunkVBO) (flag : Bool),
      (∀ b, b ∈ builders → b = []) → (finalize_planes E gl builders buffers flag).2.2 = flag := by
  intro builders
  induction builders with
  | nil => intro gl buffers flag _; cases buffers <;> rfl
  | cons b bs ih =>
    intro gl buffers flag h
    have hb : b = [] := h b (List.mem_cons_self b bs)
    subst hb
    cases buffers with
    | nil => rfl
    | cons buffer buffers =>
      simp only [finalize_planes]
      rw [ih _ _ _ (fun x hx => h x (List.mem_cons_of_mem _ hx))]
      unfold finalize_plane
      simp only [List.isEmpty_nil, if_true]
      split <;> rfl

theorem process_all_null (G : Services) (flag : Nat → Bool) (ctx : WorkerContext)
    (hnb : ctx.quads_nb = []) (hb : ctx.quads_b = []) (hnull : G.find NULL_VOXEL = none)
    (hgrid : ∀ j, j < CHUNK_VOLUME → ctx.cache CPOS_ITSELF j = NULL_VOXEL) (c : Bool) :
    (process G flag ctx).class_quads c = [] := by
  rcases flag_cases flag CHUNK_VOLUME with hflag | hflag
  · have h := process_count (fun _ => true) G flag ctx hnb hb hflag c
    rw [List.countP_true, sum_map_range_zero] at h
    · exact List.length_eq_zero.1 h
    · intro j hj
      have hg : (ctx.resized G).cache CPOS_ITSELF j = NULL_VOXEL := hgrid j hj
      unfold voxel_emits
      rw [hg, hnull]
      rfl
  · obtain ⟨h1, h2⟩ := process_cancelled G flag ctx hflag
    cases c <;> simp [WorkerContext.class_quads, WorkerContext.builders, h1, h2]

/-- C7: for a chunk whose own grid is `NULL_VOXEL` in every cell, whatever the
snapshots of its neighbours hold, the build (cancelled or not) leaves every
builder of both blending classes empty, an uncancelled build keeps one builder
per atlas plane, and `finalize` leaves the chunk entity without a mesh
component.  The registry defines no voxel under the id `NULL_VOXEL`. -/
theorem empty_chunk_no_mesh (G : Services) (flag : Nat → Bool) (ctx : WorkerContext)
    (hnb : ctx.quads_nb = []) (hb : ctx.quads_b = []) (hnull : G.find NULL_VOXEL = none)
    (hgrid : ∀ j, j < CHUNK_VOLUME → ctx.cache CPOS_ITSELF j = NULL_VOXEL)
    (E : Externals) (entity : Nat) (st : RenderState) :
    (∀ b, b ∈ (process G flag ctx).quads_nb → b = [])
    ∧ (∀ b, b ∈ (process G flag ctx).quads_b → b = [])
    ∧ ((∀ j, j < CHUNK_VOLUME → flag j = false) →
        (process G flag ctx).quads_nb.length = G.plane_count
        ∧ (process G flag ctx).quads_b.length = G.plane_count)
    ∧ (process G flag ctx).all_quads = []
    ∧ (finalize E (process G flag ctx) entity st).mesh entity = none := by
  have hcls := process_all_null G flag ctx hnb hb hnull hgrid
  have h1 : ∀ b, b ∈ (process G flag ctx).quads_nb → b = [] := by
    have h := hcls false
    simp only [WorkerContext.class_quads, WorkerContext.builders, Bool.false_eq_true, if_false,
      List.flatten_eq_nil_iff] at h
    exact h
  have h2 : ∀ b, b ∈ (process G flag ctx).quads_b → b = [] := by
    have h := hcls true
    simp only [WorkerContext.class_quads, WorkerContext.builders, if_true,
      List.flatten_eq_nil_iff] at h
    exact h
  refine ⟨h1, h2, ?_, ?_, ?_⟩
  · intro hflag
    rw [process_eq]
    obtain ⟨_, _, h3, _⟩ := process_loop_spec (fun _ => true) G flag false CHUNK_VOLUME 0
      (ctx.resized G) (fun j _ hj => hflag j (by omega))
    have hf := h3 false
    have ht := h3 true
    rw [(resized_fresh G ctx hnb hb false).2.2.1, List.length_replicate] at hf
    rw [(resized_fresh G ctx hnb hb true).2.2.1, List.length_replicate] at ht
    exact ⟨hf, ht⟩
  · unfold WorkerContext.all_quads
    rw [hcls false, hcls true]
    rfl
  · unfold finalize
    simp only [finalize_planes_empty E _ _ _ _ h1, finalize_planes_empty E _ _ _ _ h2,
      Bool.and_self, if_true, Function.update_same]

/-- Witness of C7: a new context whose seven snapshots are all empty. -/
theorem empty_chunk_no_mesh_witness :
    (finalize ⟨fun _ => ⟨[], []⟩, fun _ => 1⟩
      (process sample_services never_cancelled WorkerContext.fresh) 7
      ⟨fun _ => some ⟨[⟨3, 6⟩], []⟩, [], []⟩).mesh 7 = none :=
  (empty_chunk_no_mesh sample_services never_cancelled WorkerContext.fresh rfl rfl rfl
    (fun _ _ => rfl) ⟨fun _ => ⟨[], []⟩, fun _ => 1⟩ 7
    ⟨fun _ => some ⟨[⟨3, 6⟩], []⟩, [], []⟩).2.2.2.2

/-! ## The overworld generator -/

namespace overworld

theorem setup_late_eq (L : GenEnv) (seed : Nat) (s1 s2 : GenState) (h : same_config s1 s2) :
    setup_late L seed s1 = setup_late L seed s2 := by
  obtain ⟨h1, h2, h3, h4, h5⟩ := h
  cases s1
  cases s2
  simp only at h1 h2 h3 h4 h5
  simp only [setup_late, h1, h2, h3, h4, h5]

/-- C8: for every seed and chunk coordinate and any two prior generator states
with the same configuration (whatever metadata they cache and wherever their
random generators stand), `setup_late(seed)` followed by `generate(cpos, empty
grid)` gives the same return value and the same voxel grid, and leaves the
same generator state, the noise functions being the same. -/
theorem generate_deterministic_across_sessions (L : GenEnv) (seed : Nat) (cpos : ChunkCoord)
    (s1 s2 : GenState) (h : same_config s1 s2) :
    (generate L (setup_late L seed s1) cpos empty_grid).1
        = (generate L (setup_late L seed s2) cpos empty_grid).1
    ∧ (generate L (setup_late L seed s1) cpos empty_grid).2.2
        = (generate L (setup_late L seed s2) cpos empty_grid).2.2
    ∧ (generate L (setup_late L seed s1) cpos empty_grid).2.1
        = (generate L (setup_late L seed s2) cpos empty_grid).2.1 := by
  rw [setup_late_eq L seed s1 s2 h]
  exact ⟨rfl, rfl, rfl⟩

/-- Witness of C8: the state of a program that has just started and a state
left by an earlier session. -/
theorem generate_deterministic_across_sessions_witness :
    same_config initial_state used_state
    ∧ (generate sample_env (setup_late sample_env 42 initial_state) ⟨0, -1, 0⟩ empty_grid).2.2
        = (generate sample_env (setup_late sample_env 42 used_state) ⟨0, -1, 0⟩ empty_grid).2.2 :=
  ⟨⟨rfl, rfl, rfl, rfl, rfl⟩,
    (generate_deterministic_across_sessions sample_env 42 ⟨0, -1, 0⟩ initial_state used_state
      ⟨rfl, rfl, rfl, rfl, rfl⟩).2.1⟩

/-- C10: `generate` returns false exactly when the chunk row lies below
`bottommost_chunk` or above `CHUNK_SIZE * terrain_variation`, and true
otherwise; when it returns false the voxel grid and the whole generator state
(metadata cache and random generator included) are the ones it was given. -/
theorem generate_rejects_out_of_range (L : GenEnv) (st : GenState) (cpos : ChunkCoord)
    (voxels : VoxelStorage) :
    ((generate L st cpos voxels).1 = false
      ↔ (cpos.y < st.bottommost_chunk ∨ cpos.y > (CHUNK_SIZE : Int) * st.terrain_variation))
    ∧ ((generate L st cpos voxels).1 = true
      ↔ ¬ (cpos.y < st.bottommost_chunk ∨ cpos.y > (CHUNK_SIZE : Int) * st.terrain_variation))
    ∧ ((generate L st cpos voxels).1 = false →
        (generate L st cpos voxels).2.2 = voxels
        ∧ (generate L st cpos voxels).2.1 = st
        ∧ (generate L st cpos voxels).2.1.metadata_map = st.metadata_map
        ∧ (generate L st cpos voxels).2.1.twister = st.twister) := by
  by_cases h : cpos.y < st.bottommost_chunk ∨ cpos.y > (CHUNK_SIZE : Int) * st.terrain_variation
  · have hg : generate L st cpos voxels = (false, st, voxels) := by
      unfold generate
      rw [if_pos h]
    rw [hg]
    simp [h]
  · have hg : (generate L st cpos voxels).1 = true := by
      unfold generate
      rw [if_neg h]
    rw [hg]
    simp [h]

end overworld

/-! ## The passes of the generator, cell by cell -/

namespace overworld

theorem draw_entropy_spec (L : GenEnv) :
    ∀ (n i : Nat) (tw : Twister) (e : Nat → Nat),
      (draw_entropy L n i tw e).1 = ⟨tw.seed, tw.position + n⟩
      ∧ ∀ j, (draw_entropy L n i tw e).2 j
          = if i ≤ j ∧ j < i + n then L.mt19937_64 tw.seed (tw.position + (j - i)) else e j := by
  intro n
  induction n with
  | zero =>
    intro i tw e
    refine ⟨rfl, fun j => ?_⟩
    rw [if_neg (by omega)]
    rfl
  | succ n ih =>
    intro i tw e
    obtain ⟨h1, h2⟩ := ih (i + 1) (twister_next L tw).2
      (Function.update e i (twister_next L tw).1)
    simp only [draw_entropy]
    refine ⟨?_, fun j => ?_⟩
    · rw [h1]
      simp only [twister_next, Twister.mk.injEq, true_and]
      omega
    · rw [h2 j]
      simp only [twister_next]
      by_cases hj : j = i
      · subst hj
        simp
      · by_cases hr : i + 1 ≤ j ∧ j < i + 1 + n
        · rw [if_pos hr, if_pos (by omega)]
          congr 1
          omega
        · rw [if_neg hr, if_neg (by omega), Function.update_noteq hj]

theorem get_metadata_some (L : GenEnv) (st : GenState) (c : ChunkCoord2D) (md : Metadata)
    (h : st.metadata_map c = some md) : get_metadata L st c = (st, md) := by
  unfold get_metadata
  rw [h]

theorem put_metadata_map (st : GenState) (c : ChunkCoord2D) (md : Metadata) :
    (put_metadata st c md).metadata_map c = some md := by
  simp [put_metadata]

/-- One step of the terrain pass: the heightmap entry of a column cell rises to
the y of the cell when the cell is marked solid, lies in that column cell and is
higher; the entropy is kept; the cell becomes stone when it is marked solid. -/
theorem terrain_step_spec (L : GenEnv) (st : GenState) (cpos : ChunkCoord) (md : Metadata)
    (v : VoxelStorage) (x : Nat) :
    (∀ h, (terrain_step L st cpos (md, v) x).1.heightmap h
        = if terrain_solid L st cpos x = true ∧ column_index (LocalCoord.from_index x) = h
              ∧ cell_y cpos x > md.heightmap h then cell_y cpos x
          else md.heightmap h)
    ∧ (terrain_step L st cpos (md, v) x).1.entropy = md.entropy
    ∧ (terrain_step L st cpos (md, v) x).2
        = if terrain_solid L st cpos x = true then Function.update v x L.stone else v := by
  unfold terrain_step terrain_solid cell_y raise_heightmap
  simp only []
  by_cases h1 : cxpr.abs (ChunkCoord.to_voxel cpos (LocalCoord.from_index x)).y
      ≥ st.terrain_variation + 1
  · by_cases h2 : (ChunkCoord.to_voxel cpos (LocalCoord.from_index x)).y < 0
    · by_cases h3 : L.lt (L.lit 0)
          (get_noise L st (ChunkCoord.to_voxel cpos (LocalCoord.from_index x))
            st.terrain_variation) = true
      · by_cases h4 : (ChunkCoord.to_voxel cpos (LocalCoord.from_index x)).y
            > md.heightmap (column_index (LocalCoord.from_index x))
        · refine ⟨fun h => ?_, ?_, ?_⟩
          · by_cases hh : column_index (LocalCoord.from_index x) = h
            · subst hh; simp [h1, h2, h3, h4]
            · simp [h1, h2, h3, h4, hh, Function.update_noteq (Ne.symm hh)]
          · simp [h1, h2, h3, h4]
          · simp [h1, h2, h3]
        · refine ⟨fun h => ?_, ?_, ?_⟩
          · by_cases hh : column_index (LocalCoord.from_index x) = h
            · subst hh; simp [h1, h2, h3, h4]
            · simp [h1, h2, h3, h4, hh]
          · simp [h1, h2, h3, h4]
          · simp [h1, h2, h3]
      · by_cases h4 : (ChunkCoord.to_voxel cpos (LocalCoord.from_index x)).y
            > md.heightmap (column_index (LocalCoord.from_index x))
        · refine ⟨fun h => ?_, ?_, ?_⟩
          · by_cases hh : column_index (LocalCoord.from_index x) = h
            · subst hh; simp [h1, h2, h3, h4]
            · simp [h1, h2, h3, h4, hh, Function.update_noteq (Ne.symm hh)]
          · simp [h1, h2, h3, h4]
          · simp [h1, h2, h3]
        · refine ⟨fun h => ?_, ?_, ?_⟩
          · by_cases hh : column_index (LocalCoord.from_index x) = h
            · subst hh; simp [h1, h2, h3, h4]
            · simp [h1, h2, h3, h4, hh]
          · simp [h1, h2, h3, h4]
          · simp [h1, h2, h3]
    · by_cases h3 : L.lt (L.lit 0)
          (get_noise L st (ChunkCoord.to_voxel cpos (LocalCoord.from_index x))
            st.terrain_variation) = true
      · by_cases h4 : (ChunkCoord.to_voxel cpos (LocalCoord.from_index x)).y
            > md.heightmap (column_index (LocalCoord.from_index x))
        · refine ⟨fun h => ?_, ?_, ?_⟩
          · by_cases hh : column_index (LocalCoord.from_index x) = h
            · subst hh; simp [h1, h2, h3, h4]
            · simp [h1, h2, h3, h4, hh, Function.update_noteq (Ne.symm hh)]
          · simp [h1, h2, h3, h4]
          · simp [h1, h2, h3]
        · refine ⟨fun h => ?_, ?_, ?_⟩
          · by_cases hh : column_index (LocalCoord.from_index x) = h
            · subst hh; simp [h1, h2, h3, h4]
            · simp [h1, h2, h3, h4, hh]
          · simp [h1, h2, h3, h4]
          · simp [h1, h2, h3]
      · refine ⟨fun h => ?_, ?_, ?_⟩ <;> simp [h1, h2, h3]
  · by_cases h3 : L.lt (L.lit 0)
        (get_noise L st (ChunkCoord.to_voxel cpos (LocalCoord.from_index x))
          st.terrain_variation) = true
    · by_cases h4 : (ChunkCoord.to_voxel cpos (LocalCoord.from_index x)).y
          > md.heightmap (column_index (LocalCoord.from_index x))
      · refine ⟨fun h => ?_, ?_, ?_⟩
        · by_cases hh : column_index (LocalCoord.from_index x) = h
          · subst hh; simp [h1, h3, h4]
          · simp [h1, h3, h4, hh, Function.update_noteq (Ne.symm hh)]
        · simp [h1, h3, h4]
        · simp [h1, h3]
      · refine ⟨fun h => ?_, ?_, ?_⟩
        · by_cases hh : column_index (LocalCoord.from_index x) = h
          · subst hh; simp [h1, h3, h4]
          · simp [h1, h3, h4, hh]
        · simp [h1, h3, h4]
        · simp [h1, h3]
    · refine ⟨fun h => ?_, ?_, ?_⟩ <;> simp [h1, h3]

/-- The terrain pass over a list of indices: the entropy is kept, no heightmap
entry decreases, every entry is at least the y of each solid cell of its column
cell, and it is either the old value or the y of such a cell. -/
theorem terrain_fold_spec (L : GenEnv) (st : GenState) (cpos : ChunkCoord) :
    ∀ (l : List Nat) (md : Metadata) (v : VoxelStorage),
      (l.foldl (terrain_step L st cpos) (md, v)).1.entropy = md.entropy
      ∧ (∀ h, md.heightmap h ≤ (l.foldl (terrain_step L st cpos) (md, v)).1.heightmap h)
      ∧ (∀ h i, i ∈ l → terrain_solid L st cpos i = true →
          column_index (LocalCoord.from_index i) = h →
          cell_y cpos i ≤ (l.foldl (terrain_step L st cpos) (md, v)).1.heightmap h)
      ∧ (∀ h, (l.foldl (terrain_step L st cpos) (md, v)).1.heightmap h = md.heightmap h
          ∨ ∃ i, i ∈ l ∧ terrain_solid L st cpos i = true
              ∧ column_index (LocalCoord.from_index i) = h
              ∧ (l.foldl (terrain_step L st cpos) (md, v)).1.heightmap h = cell_y cpos i) := by
  intro l
  induction l with
  | nil =>
    intro md v
    exact ⟨rfl, fun _ => le_refl _, fun _ _ hi => absurd hi (List.not_mem_nil _),
      fun _ => Or.inl rfl⟩
  | cons x xs ih =>
    intro md v
    obtain ⟨s1, s2, _⟩ := terrain_step_spec L st cpos md v x
    obtain ⟨i1, i2, i3, i4⟩ := ih (terrain_step L st cpos (md, v) x).1
      (terrain_step L st cpos (md, v) x).2
    simp only [List.foldl_cons]
    refine ⟨i1.trans s2, fun h => ?_, fun h i hi hsol hcol => ?_, fun h => ?_⟩
    · refine le_trans ?_ (i2 h)
      rw [s1 h]
      split
      · next hc => exact le_of_lt hc.2.2
      · exact le_refl _
    · rcases List.mem_cons.1 hi with rfl | hi'
      · refine le_trans ?_ (i2 h)
        rw [s1 h]
        split
        · exact le_refl _
        · next hc =>
          have : ¬ cell_y cpos i > md.heightmap h := fun hgt => hc ⟨hsol, hcol, hgt⟩
          exact not_lt.1 this
      · exact i3 h i hi' hsol hcol
    · rcases i4 h with heq | ⟨i, hi, hsol, hcol, heq⟩
      · rw [heq, s1 h]
        split
        · next hc => exact Or.inr ⟨x, List.mem_cons_self x xs, hc.1, hc.2.1, rfl⟩
        · exact Or.inl rfl
      · exact Or.inr ⟨i, List.mem_cons_of_mem x hi, hsol, hcol, heq⟩

theorem terrain_step_idle (L : GenEnv) (st : GenState) (cpos : ChunkCoord)
    (s : Metadata × VoxelStorage) (x : Nat) (h : terrain_solid L st cpos x = false) :
    terrain_step L st cpos s x = s := by
  unfold terrain_solid at h
  simp only [Bool.or_eq_false_iff, Bool.and_eq_false_iff, decide_eq_false_iff_not] at h
  unfold terrain_step
  simp only []
  rw [if_neg (by rw [h.2]; exact Bool.false_ne_true)]
  rcases h.1 with h1 | h1
  · rw [if_neg h1]
  · split
    · rfl
    · rfl

theorem foldl_idle {σ : Type} (f : σ → Nat → σ) :
    ∀ (l : List Nat) (s : σ), (∀ i, i ∈ l → ∀ t, f t i = t) → l.foldl f s = s := by
  intro l
  induction l with
  | nil => intro s _; rfl
  | cons x xs ih =>
    intro s h
    rw [List.foldl_cons, h x (List.mem_cons_self x xs) s]
    exact ih s (fun i hi => h i (List.mem_cons_of_mem x hi))

theorem carvers_step_idle (L : GenEnv) (st : GenState) (cpos : ChunkCoord)
    (s : Metadata × VoxelStorage) (x : Nat) (h : carvers_hit L st cpos x = false) :
    carvers_step L st cpos s x = s := by
  unfold carvers_hit at h
  simp only [Bool.and_eq_false_iff, Bool.not_eq_false', decide_eq_true_eq] at h
  unfold carvers_step
  simp only []
  rcases h with h1 | h1
  · rw [if_pos h1]
  · split
    · rfl
    · rw [if_neg (by rw [h1]; exact Bool.false_ne_true)]

theorem surface_step_idle (L : GenEnv) (st : GenState) (cpos : ChunkCoord) (v : VoxelStorage)
    (x : Nat) (h : v x = NULL_VOXEL) : surface_step L st cpos v x = v := by
  unfold surface_step
  simp only []
  split
  · rfl
  · rfl

theorem surface_fold_empty (L : GenEnv) (st : GenState) (cpos : ChunkCoord) (l : List Nat) :
    l.foldl (surface_step L st cpos) empty_grid = empty_grid := by
  induction l with
  | nil => rfl
  | cons x xs ih => rw [List.foldl_cons, surface_step_idle L st cpos empty_grid x rfl, ih]

theorem features_scan_spec (L : GenEnv) (md : Metadata) (lpos : LocalCoord) (vpos : VoxelCoord)
    (hdx index : Nat) (v : VoxelStorage) :
    ∀ (n tc : Nat), features_scan L md lpos vpos hdx index v n tc
      = if features_scan_hit md lpos vpos hdx n tc = true then
          Function.update v index L.cobblestone
        else v := by
  intro n
  induction n with
  | zero => intro tc; simp [features_scan, features_scan_hit]
  | succ n ih =>
    intro tc
    simp only [features_scan, features_scan_hit]
    split
    · rfl
    · exact ih (tc + 1)

theorem features_step_spec (L : GenEnv) (md : Metadata) (cpos : ChunkCoord) (v : VoxelStorage)
    (x : Nat) :
    features_step L md cpos v x
      = if features_hit md cpos x = true then Function.update v x L.cobblestone else v := by
  unfold features_step features_hit
  exact features_scan_spec L md _ _ _ x v COUNT 0

/-- The feature pass over a list of indices, read at one cell: the marker where
the pass hits a cell of the list, the old value elsewhere. -/
theorem features_fold_spec (L : GenEnv) (md : Metadata) (cpos : ChunkCoord) :
    ∀ (l : List Nat) (v : VoxelStorage) (j : Nat),
      (l.foldl (features_step L md cpos) v) j
        = if j ∈ l ∧ features_hit md cpos j = true then L.cobblestone else v j := by
  intro l
  induction l with
  | nil => intro v j; simp
  | cons x xs ih =>
    intro v j
    rw [List.foldl_cons, ih, features_step_spec]
    by_cases hx : features_hit md cpos x = true
    · rw [if_pos hx]
      by_cases hj : j = x
      · subst hj
        by_cases hm : j ∈ xs
        · simp [hm, hx]
        · simp [hm, hx]
      · by_cases hm : j ∈ xs ∧ features_hit md cpos j = true
        · rw [if_pos hm, if_pos ⟨List.mem_cons_of_mem x hm.1, hm.2⟩]
        · rw [if_neg hm, Function.update_noteq hj, if_neg]
          rintro ⟨hmem, hhit⟩
          rcases List.mem_cons.1 hmem with h | h
          · exact hj h
          · exact hm ⟨h, hhit⟩
    · rw [if_neg hx]
      by_cases hm : j ∈ xs ∧ features_hit md cpos j = true
      · rw [if_pos hm, if_pos ⟨List.mem_cons_of_mem x hm.1, hm.2⟩]
      · rw [if_neg hm, if_neg]
        rintro ⟨hmem, hhit⟩
        rcases List.mem_cons.1 hmem with h | h
        · exact hx (h ▸ hhit)
        · exact hm ⟨h, hhit⟩

/-! ## The sample session -/

theorem get_metadata_spec (L : GenEnv) (st : GenState) (c : ChunkCoord2D) :
    (get_metadata L st c).1.metadata_map c = some (get_metadata L st c).2
    ∧ (get_metadata L st c).1.terrain_variation = st.terrain_variation
    ∧ (get_metadata L st c).1.bottommost_chunk = st.bottommost_chunk
    ∧ (get_metadata L st c).1.enable_surface = st.enable_surface
    ∧ (get_metadata L st c).1.enable_carvers = st.enable_carvers
    ∧ (get_metadata L st c).1.enable_features = st.enable_features
    ∧ (get_metadata L st c).1.fnl_terrain = st.fnl_terrain
    ∧ (get_metadata L st c).1.fnl_caves_a = st.fnl_caves_a
    ∧ (get_metadata L st c).1.fnl_caves_b = st.fnl_caves_b := by
  unfold get_metadata
  cases h : st.metadata_map c with
  | none => simp
  | some md => simp [h]

theorem sample_ready_get_metadata (st : GenState) (c : ChunkCoord2D) (h : sample_ready st) :
    sample_ready (get_metadata sample_env st c).1 := by
  obtain ⟨_, g1, g2, g3, g4, g5, g6, g7, g8⟩ := get_metadata_spec sample_env st c
  unfold sample_ready at h ⊢
  rw [g1, g2, g3, g4, g5, g6, g7, g8]
  exact h

theorem sample_ready_put_metadata (st : GenState) (c : ChunkCoord2D) (md : Metadata)
    (h : sample_ready st) : sample_ready (put_metadata st c md) := h

theorem sample_terrain_solid (st : GenState) (h : sample_ready st) (cpos : ChunkCoord)
    (i : Nat) : terrain_solid sample_env st cpos i = decide (cell_y cpos i < 0) := by
  obtain ⟨h1, _, _, _, _, h6, _, _⟩ := h
  unfold terrain_solid cell_y get_noise
  simp only [sample_env, h1, h6]
  by_cases hy : (ChunkCoord.to_voxel cpos (LocalCoord.from_index i)).y < 0
  · have hq : ((ChunkCoord.to_voxel cpos (LocalCoord.from_index i)).y : ℚ) < 0 := by
      exact_mod_cast hy
    simp [hy, hq]
  · have hq : ¬ ((ChunkCoord.to_voxel cpos (LocalCoord.from_index i)).y : ℚ) < 0 := by
      exact_mod_cast hy
    simp [hy, hq]

theorem sample_carvers_hit (st : GenState) (h : sample_ready st) (cpos : ChunkCoord) (i : Nat) :
    carvers_hit sample_env st cpos i = false := by
  obtain ⟨_, _, _, _, _, _, h7, h8⟩ := h
  unfold carvers_hit carver_test
  simp only [sample_env, h7, h8]
  have hq : decide ((1 : ℚ) * 1 + 1 * 1 ≤ 1 / 1024) = false := by
    rw [decide_eq_false_iff_not]
    norm_num
  simp only [if_true, hq, Bool.and_false]

theorem put_metadata_self (st : GenState) (c : ChunkCoord2D) (md : Metadata)
    (h : st.metadata_map c = some md) : put_metadata st c md = st := by
  unfold put_metadata
  rw [← h, Function.update_eq_self]

theorem generate_surface_some (L : GenEnv) (st : GenState) (cpos : ChunkCoord)
    (v : VoxelStorage) (md : Metadata) (h : st.metadata_map ⟨cpos.x, cpos.z⟩ = some md) :
    generate_surface L st cpos v
      = (st, (List.range CHUNK_VOLUME).foldl (surface_step L st cpos) v) := by
  unfold generate_surface
  rw [get_metadata_some L st _ md h]

theorem generate_features_some (L : GenEnv) (st : GenState) (cpos : ChunkCoord)
    (v : VoxelStorage) (md : Metadata) (h : st.metadata_map ⟨cpos.x, cpos.z⟩ = some md) :
    generate_features L st cpos v
      = (st, (List.range CHUNK_VOLUME).foldl (features_step L md cpos) v) := by
  unfold generate_features
  rw [get_metadata_some L st _ md h]

theorem sample_generate_carvers (st : GenState) (hs : sample_ready st) (cpos : ChunkCoord)
    (v : VoxelStorage) (md : Metadata) (h : st.metadata_map ⟨cpos.x, cpos.z⟩ = some md) :
    generate_carvers sample_env st cpos v = (st, v) := by
  unfold generate_carvers
  rw [get_metadata_some sample_env st _ md h]
  simp only []
  rw [foldl_idle (carvers_step sample_env st cpos) _ (md, v)
    (fun i _ t => carvers_step_idle sample_env st cpos t i (sample_carvers_hit st hs cpos i))]
  simp only [put_metadata_self st _ md h]

/-- In the sample session every pass after the terrain pass leaves the state
alone: the state `generate` leaves is the one the terrain pass leaves. -/
theorem sample_generate_state (st : GenState) (hs : sample_ready st) (cpos : ChunkCoord)
    (hrow : -4 ≤ cpos.y ∧ cpos.y ≤ 1024) (v : VoxelStorage) :
    (generate sample_env st cpos v).1 = true
    ∧ (generate sample_env st cpos v).2.1 = (generate_terrain sample_env st cpos v).1
    ∧ (generate sample_env st cpos v).2.2
        = (List.range CHUNK_VOLUME).foldl
            (features_step sample_env
              ((List.range CHUNK_VOLUME).foldl
                (terrain_step sample_env (get_metadata sample_env st ⟨cpos.x, cpos.z⟩).1 cpos)
                ((get_metadata sample_env st ⟨cpos.x, cpos.z⟩).2, v)).1 cpos)
            ((List.range CHUNK_VOLUME).foldl
              (surface_step sample_env (generate_terrain sample_env st cpos v).1 cpos)
              (generate_terrain sample_env st cpos v).2) := by
  have hs1 : sample_ready (generate_terrain sample_env st cpos v).1 :=
    sample_ready_put_metadata _ _ _ (sample_ready_get_metadata st _ hs)
  have hm1 : (generate_terrain sample_env st cpos v).1.metadata_map ⟨cpos.x, cpos.z⟩
      = some ((List.range CHUNK_VOLUME).foldl
          (terrain_step sample_env (get_metadata sample_env st ⟨cpos.x, cpos.z⟩).1 cpos)
          ((get_metadata sample_env st ⟨cpos.x, cpos.z⟩).2, v)).1 :=
    put_metadata_map _ _ _
  have hguard : ¬ (cpos.y < st.bottommost_chunk
      ∨ cpos.y > (CHUNK_SIZE : Int) * st.terrain_variation) := by
    rw [hs.1, hs.2.1, CHUNK_SIZE_eq]
    push_cast
    omega
  have hgen : generate sample_env st cpos v
      = (true, (generate_features sample_env (generate_terrain sample_env st cpos v).1 cpos
          ((List.range CHUNK_VOLUME).foldl
            (surface_step sample_env (generate_terrain sample_env st cpos v).1 cpos)
            (generate_terrain sample_env st cpos v).2)).1,
        (generate_features sample_env (generate_terrain sample_env st cpos v).1 cpos
          ((List.range CHUNK_VOLUME).foldl
            (surface_step sample_env (generate_terrain sample_env st cpos v).1 cpos)
            (generate_terrain sample_env st cpos v).2)).2) := by
    unfold generate
    rw [if_neg hguard]
    show (true, _, _) = _
    rewrite [if_pos hs1.2.2.1,
      generate_surface_some sample_env (generate_terrain sample_env st cpos v).1 cpos _ _ hm1]
    show (true, _, _) = _
    rewrite [if_pos hs1.2.2.2.1,
      sample_generate_carvers (generate_terrain sample_env st cpos v).1 hs1 cpos _ _ hm1]
    show (true, _, _) = _
    rewrite [if_pos hs1.2.2.2.2.1]
    with_reducible rfl
  rewrite [hgen,
    generate_features_some sample_env (generate_terrain sample_env st cpos v).1 cpos _ _ hm1]
  refine ⟨?_, ?_, ?_⟩ <;> with_reducible rfl

theorem generate_terrain_eq (L : GenEnv) (st : GenState) (cpos : ChunkCoord) (v : VoxelStorage) :
    generate_terrain L st cpos v
      = (put_metadata (get_metadata L st ⟨cpos.x, cpos.z⟩).1 ⟨cpos.x, cpos.z⟩
          ((List.range CHUNK_VOLUME).foldl
            (terrain_step L (get_metadata L st ⟨cpos.x, cpos.z⟩).1 cpos)
            ((get_metadata L st ⟨cpos.x, cpos.z⟩).2, v)).1,
        ((List.range CHUNK_VOLUME).foldl
            (terrain_step L (get_metadata L st ⟨cpos.x, cpos.z⟩).1 cpos)
            ((get_metadata L st ⟨cpos.x, cpos.z⟩).2, v)).2) := rfl

theorem session_start_ready : sample_ready session_start :=
  ⟨rfl, rfl, rfl, rfl, rfl, rfl, rfl, rfl⟩

theorem session_start_metadata (c : ChunkCoord2D) :
    (get_metadata sample_env session_start c).2.heightmap = (fun _ => INT64_MIN)
    ∧ ∀ j, j < CHUNK_AREA → (get_metadata sample_env session_start c).2.entropy j = 3 + j := by
  have hnone : session_start.metadata_map c = none := rfl
  have htw : session_start.twister = ⟨0, 3⟩ := rfl
  unfold get_metadata
  rw [hnone]
  refine ⟨rfl, fun j hj => ?_⟩
  show (draw_entropy sample_env CHUNK_AREA 0 session_start.twister (fun _ => 0)).2 j = 3 + j
  rw [(draw_entropy_spec sample_env CHUNK_AREA 0 session_start.twister (fun _ => 0)).2 j,
    if_pos ⟨Nat.zero_le j, by omega⟩, htw]
  show 0 + (3 + (j - 0)) = 3 + j
  omega

theorem cell_y_nonneg (cpos : ChunkCoord) (h : 0 ≤ cpos.y) (i : Nat) : 0 ≤ cell_y cpos i := by
  simp only [cell_y, ChunkCoord.to_voxel, LocalCoord.from_index, two_pow_log2, CHUNK_SIZE_eq]
  omega

theorem cell_y_neg (cpos : ChunkCoord) (h : cpos.y ≤ -1) (i : Nat) (hi : i < CHUNK_VOLUME) :
    cell_y cpos i ≤ -1 := by
  rw [CHUNK_VOLUME_eq] at hi
  simp only [cell_y, ChunkCoord.to_voxel, LocalCoord.from_index, two_pow_log2, CHUNK_SIZE_eq]
  omega

/-- A chunk at or above row 0 in the sample session: the terrain, surface and
carver passes leave the grid empty and the metadata alone, so a cell holds the
marker exactly when the feature pass hits it. -/
theorem sample_upper_grid (st : GenState) (hs : sample_ready st) (cpos : ChunkCoord)
    (hrow : 0 ≤ cpos.y ∧ cpos.y ≤ 1024) (j : Nat) (hj : j < CHUNK_VOLUME) :
    (generate sample_env st cpos empty_grid).2.2 j
      = if features_hit (get_metadata sample_env st ⟨cpos.x, cpos.z⟩).2 cpos j = true then 4
        else NULL_VOXEL := by
  have hidle : (List.range CHUNK_VOLUME).foldl
      (terrain_step sample_env (get_metadata sample_env st ⟨cpos.x, cpos.z⟩).1 cpos)
      ((get_metadata sample_env st ⟨cpos.x, cpos.z⟩).2, empty_grid)
      = ((get_metadata sample_env st ⟨cpos.x, cpos.z⟩).2, empty_grid) := by
    apply foldl_idle
    intro i _ t
    apply terrain_step_idle
    rw [sample_terrain_solid _ (sample_ready_get_metadata st _ hs), decide_eq_false_iff_not]
    exact not_lt.2 (cell_y_nonneg cpos hrow.1 i)
  obtain ⟨_, _, hgrid⟩ := sample_generate_state st hs cpos ⟨by omega, hrow.2⟩ empty_grid
  rewrite [hgrid, generate_terrain_eq, hidle]
  have hsurf := surface_fold_empty sample_env
    (put_metadata (get_metadata sample_env st ⟨cpos.x, cpos.z⟩).1 ⟨cpos.x, cpos.z⟩
      (get_metadata sample_env st ⟨cpos.x, cpos.z⟩).2) cpos (List.range CHUNK_VOLUME)
  rewrite [hsurf, features_fold_spec]
  by_cases hhit : features_hit (get_metadata sample_env st ⟨cpos.x, cpos.z⟩).2 cpos j = true
  · rewrite [if_pos ⟨List.mem_range.2 hj, hhit⟩, if_pos hhit]
    exact rfl
  · rewrite [if_neg (fun h => hhit h.2), if_neg hhit]
    exact rfl

/-- The feature pass at cell 67 of the chunk at the origin, for metadata whose
first feature column is `(3, 4)` with height 4: the range test on the wrapped
difference to the heightmap entry decides. -/
theorem features_hit_cell (md : Metadata) (h0 : md.entropy 0 = 3) (h1 : md.entropy 1 = 4)
    (h2 : md.entropy 2 = 5) :
    features_hit md ⟨0, 0, 0⟩ 67 = cxpr.range (wrap64 (0 - md.heightmap 67)) 1 4 := by
  unfold features_hit
  have hl : LocalCoord.from_index 67 = ⟨3, 0, 4⟩ := by decide
  have hv : ChunkCoord.to_voxel ⟨0, 0, 0⟩ ⟨3, 0, 4⟩ = ⟨3, 0, 4⟩ := by decide
  have hc : column_index ⟨3, 0, 4⟩ = 67 := by decide
  rw [hl, hv, hc]
  have hx : feature_lx md 0 = 3 := by unfold feature_lx; rw [h0]; decide
  have hz : feature_lz md 0 = 4 := by unfold feature_lz; rw [h1]; decide
  have hh : feature_height md 0 = 4 := by unfold feature_height; rw [h2]; decide
  show (if (3 : Int) = feature_lx md 0 ∧ (4 : Int) = feature_lz md 0 then
      cxpr.range (wrap64 (0 - md.heightmap 67)) 1 (feature_height md 0)
    else features_scan_hit md ⟨3, 0, 4⟩ ⟨3, 0, 4⟩ 67 4 1) = _
  rw [hx, hz, hh, if_pos ⟨rfl, rfl⟩]

/-- A chunk of row -1 in the sample session: every cell is solid, so after
`generate` the heightmap entry of a column cell that was at most -1 is -1; the
entropy of the column is the one `get_metadata` found or drew. -/
theorem sample_lower_state (st : GenState) (hs : sample_ready st) (cpos : ChunkCoord)
    (hrow : cpos.y = -1) (h : Nat) (hh : h < CHUNK_AREA)
    (hold : (get_metadata sample_env st ⟨cpos.x, cpos.z⟩).2.heightmap h ≤ -1) :
    sample_ready (generate sample_env st cpos empty_grid).2.1
    ∧ ∃ md, (generate sample_env st cpos empty_grid).2.1.metadata_map ⟨cpos.x, cpos.z⟩ = some md
        ∧ md.entropy = (get_metadata sample_env st ⟨cpos.x, cpos.z⟩).2.entropy
        ∧ md.heightmap h = -1 := by
  obtain ⟨_, hstate, _⟩ := sample_generate_state st hs cpos (by omega) empty_grid
  obtain ⟨f1, _, f3, f4⟩ := terrain_fold_spec sample_env
    (get_metadata sample_env st ⟨cpos.x, cpos.z⟩).1 cpos (List.range CHUNK_VOLUME)
    (get_metadata sample_env st ⟨cpos.x, cpos.z⟩).2 empty_grid
  have hready := sample_ready_get_metadata st ⟨cpos.x, cpos.z⟩ hs
  rewrite [hstate, generate_terrain_eq]
  refine ⟨sample_ready_put_metadata _ _ _ hready, _, put_metadata_map _ _ _, f1, ?_⟩
  rw [CHUNK_AREA, CHUNK_SIZE_eq] at hh
  have hmem : 3840 + h ∈ List.range CHUNK_VOLUME := by
    rw [List.mem_range, CHUNK_VOLUME_eq]
    omega
  have hy : cell_y cpos (3840 + h) = -1 := by
    simp only [cell_y, ChunkCoord.to_voxel, LocalCoord.from_index, two_pow_log2, CHUNK_SIZE_eq,
      hrow]
    omega
  have hcol : column_index (LocalCoord.from_index (3840 + h)) = h := by
    simp only [column_index, LocalCoord.from_index, CHUNK_SIZE_eq]
    omega
  have hsolid : terrain_solid sample_env (get_metadata sample_env st ⟨cpos.x, cpos.z⟩).1 cpos
      (3840 + h) = true := by
    rw [sample_terrain_solid _ hready, hy]
    decide
  have hge := f3 h (3840 + h) hmem hsolid hcol
  rw [hy] at hge
  rcases f4 h with heq | ⟨i, hi, _, _, heq⟩
  · rw [heq] at hge ⊢
    omega
  · have hle := cell_y_neg cpos (by omega) i (List.mem_range.1 hi)
    rw [heq] at hge ⊢
    omega

/-- Counterexample to C9 as stated: one session of `sample_env` (seed 0, the
initial configuration), in which the carver pass never empties a cell, so no
heightmap entry is ever invalidated.  Generated first, the chunk `(0, 0, 0)`
stays empty at cell 67; generated after the chunk `(0, -1, 0)` of the same
column, it holds the marker voxel there: the cached heightmap changes the
grid. -/
theorem cached_heightmap_counterexample :
    (∀ cpos i, carvers_hit sample_env session_start cpos i = false)
    ∧ (∀ cpos i, carvers_hit sample_env session_after_lower cpos i = false)
    ∧ (generate sample_env session_start ⟨0, 0, 0⟩ empty_grid).2.2 67 = NULL_VOXEL
    ∧ (generate sample_env session_after_lower ⟨0, 0, 0⟩ empty_grid).2.2 67 = 4
    ∧ (generate sample_env session_start ⟨0, 0, 0⟩ empty_grid).2.2
        ≠ (generate sample_env session_after_lower ⟨0, 0, 0⟩ empty_grid).2.2 := by
  obtain ⟨hhm, hent⟩ := session_start_metadata ⟨(⟨0, 0, 0⟩ : ChunkCoord).x, (⟨0, 0, 0⟩ : ChunkCoord).z⟩
  have hfirst : (generate sample_env session_start ⟨0, 0, 0⟩ empty_grid).2.2 67 = NULL_VOXEL := by
    rewrite [sample_upper_grid session_start session_start_ready ⟨0, 0, 0⟩ (by decide) 67
      (by decide),
      features_hit_cell _ (hent 0 (by decide)) (hent 1 (by decide)) (hent 2 (by decide)), hhm]
    exact rfl
  obtain ⟨hhm', hent'⟩ :=
    session_start_metadata ⟨(⟨0, -1, 0⟩ : ChunkCoord).x, (⟨0, -1, 0⟩ : ChunkCoord).z⟩
  obtain ⟨hready, md, hmap, hmde, hmdh⟩ := sample_lower_state session_start session_start_ready
    ⟨0, -1, 0⟩ rfl 67 (by decide) (by rw [hhm']; decide)
  have hmap' : session_after_lower.metadata_map
      ⟨(⟨0, 0, 0⟩ : ChunkCoord).x, (⟨0, 0, 0⟩ : ChunkCoord).z⟩ = some md := hmap
  have hsecond : (generate sample_env session_after_lower ⟨0, 0, 0⟩ empty_grid).2.2 67 = 4 := by
    rewrite [sample_upper_grid session_after_lower hready ⟨0, 0, 0⟩ (by decide) 67 (by decide),
      get_metadata_some sample_env session_after_lower _ md hmap',
      features_hit_cell md (by rw [hmde]; exact hent' 0 (by decide))
        (by rw [hmde]; exact hent' 1 (by decide)) (by rw [hmde]; exact hent' 2 (by decide)),
      hmdh]
    exact rfl
  refine ⟨sample_carvers_hit _ session_start_ready, sample_carvers_hit _ hready, hfirst, hsecond,
    ?_⟩
  intro heq
  have h67 := congrFun heq 67
  rw [hfirst, hsecond] at h67
  exact absurd h67 (by decide)

/-! ## What `generate` reads of the metadata cache -/

theorem terrain_step_congr (L : GenEnv) (s1 s2 : GenState) (cpos : ChunkCoord)
    (h1 : s1.terrain_variation = s2.terrain_variation) (h2 : s1.fnl_terrain = s2.fnl_terrain) :
    terrain_step L s1 cpos = terrain_step L s2 cpos := by
  funext s i
  unfold terrain_step get_noise
  rw [h1, h2]

theorem surface_probe_congr (L : GenEnv) (s1 s2 : GenState) (cpos : ChunkCoord)
    (h1 : s1.terrain_variation = s2.terrain_variation) (h2 : s1.fnl_terrain = s2.fnl_terrain)
    (v : VoxelStorage) (lpos : LocalCoord) :
    ∀ (n : Nat) (dy : Int) (depth : Nat),
      surface_probe L s1 cpos v lpos n dy depth = surface_probe L s2 cpos v lpos n dy depth := by
  intro n
  induction n with
  | zero => intro dy depth; rfl
  | succ n ih =>
    intro dy depth
    simp only [surface_probe, get_noise, h1, h2, ih]

theorem surface_step_congr (L : GenEnv) (s1 s2 : GenState) (cpos : ChunkCoord)
    (h1 : s1.terrain_variation = s2.terrain_variation) (h2 : s1.fnl_terrain = s2.fnl_terrain) :
    surface_step L s1 cpos = surface_step L s2 cpos := by
  funext v i
  unfold surface_step
  simp only [h1, surface_probe_congr L s1 s2 cpos h1 h2]

theorem carvers_step_congr (L : GenEnv) (s1 s2 : GenState) (cpos : ChunkCoord)
    (h1 : s1.terrain_variation = s2.terrain_variation) (h2 : s1.fnl_caves_a = s2.fnl_caves_a)
    (h3 : s1.fnl_caves_b = s2.fnl_caves_b) :
    carvers_step L s1 cpos = carvers_step L s2 cpos := by
  funext s i
  unfold carvers_step carver_test
  rw [h1, h2, h3]

/-- The voxels a pass of the shape of the terrain and carver passes leaves do
not depend on the metadata it starts from, when each step writes its voxels
without reading the metadata. -/
theorem foldl_snd_congr {α β : Type} (f : α × β → Nat → α × β)
    (hf : ∀ a a' b x, (f (a, b) x).2 = (f (a', b) x).2) :
    ∀ (l : List Nat) (a a' : α) (b : β), (l.foldl f (a, b)).2 = (l.foldl f (a', b)).2 := by
  intro l
  induction l with
  | nil => intro a a' b; rfl
  | cons x xs ih =>
    intro a a' b
    rw [List.foldl_cons, List.foldl_cons]
    have h := hf a a' b x
    have e1 : f (a, b) x = ((f (a, b) x).1, (f (a, b) x).2) := rfl
    have e2 : f (a', b) x = ((f (a', b) x).1, (f (a, b) x).2) := by rw [h]
    rw [e1, e2]
    exact ih _ _ _

theorem terrain_step_voxels (L : GenEnv) (st : GenState) (cpos : ChunkCoord) (a a' : Metadata)
    (b : VoxelStorage) (x : Nat) :
    (terrain_step L st cpos (a, b) x).2 = (terrain_step L st cpos (a', b) x).2 := by
  rw [(terrain_step_spec L st cpos a b x).2.2, (terrain_step_spec L st cpos a' b x).2.2]

theorem carvers_step_voxels (L : GenEnv) (st : GenState) (cpos : ChunkCoord) (a a' : Metadata)
    (b : VoxelStorage) (x : Nat) :
    (carvers_step L st cpos (a, b) x).2 = (carvers_step L st cpos (a', b) x).2 := by
  unfold carvers_step
  simp only []
  split
  · rfl
  · split <;> rfl

theorem get_metadata_same_column (L : GenEnv) (s1 s2 : GenState) (c : ChunkCoord2D)
    (h : same_column s1 s2 c) :
    (get_metadata L s1 c).2 = (get_metadata L s2 c).2 := by
  obtain ⟨hm, htw⟩ := h
  unfold get_metadata
  cases h1 : s1.metadata_map c with
  | none =>
    rw [← hm, h1]
    simp only [htw h1]
  | some md => rw [← hm, h1]

theorem generate_carvers_some (L : GenEnv) (st : GenState) (cpos : ChunkCoord)
    (v : VoxelStorage) (md : Metadata) (h : st.metadata_map ⟨cpos.x, cpos.z⟩ = some md) :
    generate_carvers L st cpos v
      = (put_metadata st ⟨cpos.x, cpos.z⟩
          ((List.range CHUNK_VOLUME).foldl (carvers_step L st cpos) (md, v)).1,
        ((List.range CHUNK_VOLUME).foldl (carvers_step L st cpos) (md, v)).2) := by
  unfold generate_carvers
  rewrite [get_metadata_some L st _ md h]
  with_reducible rfl

/-- The state the terrain pass leaves differs from the one it was given in the
metadata map and the random generator only. -/
theorem generate_terrain_frame (L : GenEnv) (st : GenState) (cpos : ChunkCoord)
    (v : VoxelStorage) :
    (generate_terrain L st cpos v).1.terrain_variation = st.terrain_variation
    ∧ (generate_terrain L st cpos v).1.enable_surface = st.enable_surface
    ∧ (generate_terrain L st cpos v).1.enable_carvers = st.enable_carvers
    ∧ (generate_terrain L st cpos v).1.enable_features = st.enable_features
    ∧ (generate_terrain L st cpos v).1.fnl_terrain = st.fnl_terrain
    ∧ (generate_terrain L st cpos v).1.fnl_caves_a = st.fnl_caves_a
    ∧ (generate_terrain L st cpos v).1.fnl_caves_b = st.fnl_caves_b := by
  obtain ⟨_, g1, _, g3, g4, g5, g6, g7, g8⟩ := get_metadata_spec L st ⟨cpos.x, cpos.z⟩
  rewrite [generate_terrain_eq]
  exact ⟨g1, g3, g4, g5, g6, g7, g8⟩

theorem generate_eq (L : GenEnv) (st : GenState) (cpos : ChunkCoord) (v : VoxelStorage)
    (hrow : ¬ (cpos.y < st.bottommost_chunk
      ∨ cpos.y > (CHUNK_SIZE : Int) * st.terrain_variation)) :
    generate L st cpos v = (true, (after_features L st cpos v).1, (after_features L st cpos v).2) := by
  unfold generate
  rewrite [if_neg hrow]
  rfl

theorem put_metadata_twice (st : GenState) (c : ChunkCoord2D) (a b : Metadata) :
    put_metadata (put_metadata st c a) c b = put_metadata st c b := by
  unfold put_metadata
  simp

/-- The stages of `generate`: after each pass the state is the one
`get_metadata` left, with the metadata of the pass results written to the
column, and the voxels are those of the pass results. -/
theorem generate_stages (L : GenEnv) (st : GenState) (cpos : ChunkCoord) (v : VoxelStorage) :
    generate_terrain L st cpos v
        = (put_metadata (get_metadata L st ⟨cpos.x, cpos.z⟩).1 ⟨cpos.x, cpos.z⟩
            (terrain_result L st cpos (get_metadata L st ⟨cpos.x, cpos.z⟩).2 v).1,
          (terrain_result L st cpos (get_metadata L st ⟨cpos.x, cpos.z⟩).2 v).2)
    ∧ after_surface L st cpos v
        = (put_metadata (get_metadata L st ⟨cpos.x, cpos.z⟩).1 ⟨cpos.x, cpos.z⟩
            (surface_result L st cpos (get_metadata L st ⟨cpos.x, cpos.z⟩).2 v).1,
          (surface_result L st cpos (get_metadata L st ⟨cpos.x, cpos.z⟩).2 v).2)
    ∧ after_carvers L st cpos v
        = (put_metadata (get_metadata L st ⟨cpos.x, cpos.z⟩).1 ⟨cpos.x, cpos.z⟩
            (carvers_result L st cpos (get_metadata L st ⟨cpos.x, cpos.z⟩).2 v).1,
          (carvers_result L st cpos (get_metadata L st ⟨cpos.x, cpos.z⟩).2 v).2)
    ∧ (after_features L st cpos v).2
        = passes_grid L st cpos (get_metadata L st ⟨cpos.x, cpos.z⟩).2 v := by
  obtain ⟨_, g1, _, g3, g4, g5, g6, g7, g8⟩ := get_metadata_spec L st ⟨cpos.x, cpos.z⟩
  have ht := terrain_step_congr L (get_metadata L st ⟨cpos.x, cpos.z⟩).1 st cpos g1 g6
  have hT : generate_terrain L st cpos v
      = (put_metadata (get_metadata L st ⟨cpos.x, cpos.z⟩).1 ⟨cpos.x, cpos.z⟩
          (terrain_result L st cpos (get_metadata L st ⟨cpos.x, cpos.z⟩).2 v).1,
        (terrain_result L st cpos (get_metadata L st ⟨cpos.x, cpos.z⟩).2 v).2) := by
    rewrite [generate_terrain_eq, ht]
    rfl
  have hS : after_surface L st cpos v
      = (put_metadata (get_metadata L st ⟨cpos.x, cpos.z⟩).1 ⟨cpos.x, cpos.z⟩
          (surface_result L st cpos (get_metadata L st ⟨cpos.x, cpos.z⟩).2 v).1,
        (surface_result L st cpos (get_metadata L st ⟨cpos.x, cpos.z⟩).2 v).2) := by
    unfold after_surface surface_result
    rewrite [hT]
    have hflag : (put_metadata (get_metadata L st ⟨cpos.x, cpos.z⟩).1 ⟨cpos.x, cpos.z⟩
        (terrain_result L st cpos (get_metadata L st ⟨cpos.x, cpos.z⟩).2 v).1).enable_surface
        = st.enable_surface := g3
    have hstep := surface_step_congr L
      (put_metadata (get_metadata L st ⟨cpos.x, cpos.z⟩).1 ⟨cpos.x, cpos.z⟩
        (terrain_result L st cpos (get_metadata L st ⟨cpos.x, cpos.z⟩).2 v).1) st cpos g1 g6
    cases hb : st.enable_surface
    · rewrite [hb] at hflag
      rewrite [if_neg (by rw [hflag]; exact Bool.false_ne_true), if_neg Bool.false_ne_true]
      rfl
    · rewrite [hb] at hflag
      rewrite [if_pos hflag, if_pos rfl,
        generate_surface_some L _ cpos _ _ (put_metadata_map _ _ _), hstep]
      with_reducible rfl
  have hC : after_carvers L st cpos v
      = (put_metadata (get_metadata L st ⟨cpos.x, cpos.z⟩).1 ⟨cpos.x, cpos.z⟩
          (carvers_result L st cpos (get_metadata L st ⟨cpos.x, cpos.z⟩).2 v).1,
        (carvers_result L st cpos (get_metadata L st ⟨cpos.x, cpos.z⟩).2 v).2) := by
    unfold after_carvers carvers_result
    rewrite [hS]
    have hflag : (put_metadata (get_metadata L st ⟨cpos.x, cpos.z⟩).1 ⟨cpos.x, cpos.z⟩
        (surface_result L st cpos (get_metadata L st ⟨cpos.x, cpos.z⟩).2 v).1).enable_carvers
        = st.enable_carvers := g4
    have hstep := carvers_step_congr L
      (put_metadata (get_metadata L st ⟨cpos.x, cpos.z⟩).1 ⟨cpos.x, cpos.z⟩
        (surface_result L st cpos (get_metadata L st ⟨cpos.x, cpos.z⟩).2 v).1) st cpos g1 g7 g8
    cases hb : st.enable_carvers
    · rewrite [hb] at hflag
      rewrite [if_neg (by rw [hflag]; exact Bool.false_ne_true), if_neg Bool.false_ne_true]
      rfl
    · rewrite [hb] at hflag
      rewrite [if_pos hflag, if_pos rfl,
        generate_carvers_some L _ cpos _ _ (put_metadata_map _ _ _), hstep, put_metadata_twice]
      rfl
  refine ⟨hT, hS, hC, ?_⟩
  unfold after_features passes_grid
  rewrite [hC]
  have hflag : (put_metadata (get_metadata L st ⟨cpos.x, cpos.z⟩).1 ⟨cpos.x, cpos.z⟩
      (carvers_result L st cpos (get_metadata L st ⟨cpos.x, cpos.z⟩).2 v).1).enable_features
      = st.enable_features := g5
  cases hb : st.enable_features
  · rewrite [hb] at hflag
    rewrite [if_neg (by rw [hflag]; exact Bool.false_ne_true), if_neg Bool.false_ne_true]
    rfl
  · rewrite [hb] at hflag
    rewrite [if_pos hflag, if_pos rfl,
      generate_features_some L _ cpos _ _ (put_metadata_map _ _ _)]
    with_reducible rfl

theorem passes_grid_congr (L : GenEnv) (s1 s2 : GenState) (cpos : ChunkCoord) (md : Metadata)
    (v : VoxelStorage) (hcfg : same_config s1 s2) (hnoise : same_noise s1 s2) :
    passes_grid L s1 cpos md v = passes_grid L s2 cpos md v := by
  obtain ⟨c1, _, c3, c4, c5⟩ := hcfg
  obtain ⟨n1, n2, n3⟩ := hnoise
  unfold passes_grid carvers_result surface_result terrain_result
  rewrite [terrain_step_congr L s1 s2 cpos c1 n1, surface_step_congr L s1 s2 cpos c1 n1,
    carvers_step_congr L s1 s2 cpos c1 n2 n3, c3, c4, c5]
  rfl

/-- The voxels the terrain, surface and carver passes leave do not depend on
the metadata they start from. -/
theorem carvers_result_voxels (L : GenEnv) (st : GenState) (cpos : ChunkCoord)
    (md md' : Metadata) (v : VoxelStorage) :
    (carvers_result L st cpos md v).2 = (carvers_result L st cpos md' v).2 := by
  have ht : (terrain_result L st cpos md v).2 = (terrain_result L st cpos md' v).2 :=
    foldl_snd_congr (terrain_step L st cpos) (terrain_step_voxels L st cpos) _ md md' v
  have hs : (surface_result L st cpos md v).2 = (surface_result L st cpos md' v).2 := by
    unfold surface_result
    cases st.enable_surface
    · rewrite [if_neg Bool.false_ne_true, if_neg Bool.false_ne_true]
      exact ht
    · rewrite [if_pos rfl, if_pos rfl, ht]
      with_reducible rfl
  unfold carvers_result
  cases st.enable_carvers
  · rewrite [if_neg Bool.false_ne_true, if_neg Bool.false_ne_true]
    exact hs
  · have e1 : surface_result L st cpos md v
        = ((surface_result L st cpos md v).1, (surface_result L st cpos md' v).2) := by
      rewrite [← hs]
      with_reducible rfl
    have e2 : surface_result L st cpos md' v
        = ((surface_result L st cpos md' v).1, (surface_result L st cpos md' v).2) := by
      with_reducible rfl
    rewrite [if_pos rfl, if_pos rfl, e1, e2]
    exact foldl_snd_congr (carvers_step L st cpos) (carvers_step_voxels L st cpos) _ _ _ _

/-- C9, amended: in two states with the same configuration and noise states,
`generate` returns the same value and leaves the same voxel grid whenever the
two states show the same column for the chunk (the same metadata entry or, if
there is none, the same position of the random generator); what the cache
holds for other columns never matters, and with the feature pass disabled
nothing the cache or the random generator holds matters. -/
theorem generate_reads_own_column (L : GenEnv) (s1 s2 : GenState) (cpos : ChunkCoord)
    (v : VoxelStorage) (hcfg : same_config s1 s2) (hnoise : same_noise s1 s2)
    (hcol : s1.enable_features = true → same_column s1 s2 ⟨cpos.x, cpos.z⟩) :
    (generate L s1 cpos v).1 = (generate L s2 cpos v).1
    ∧ (generate L s1 cpos v).2.2 = (generate L s2 cpos v).2.2 := by
  by_cases hrow : cpos.y < s1.bottommost_chunk
      ∨ cpos.y > (CHUNK_SIZE : Int) * s1.terrain_variation
  · have hrow2 : cpos.y < s2.bottommost_chunk
        ∨ cpos.y > (CHUNK_SIZE : Int) * s2.terrain_variation := by
      rw [← hcfg.1, ← hcfg.2.1]
      exact hrow
    have g1 : generate L s1 cpos v = (false, s1, v) := by
      unfold generate
      rewrite [if_pos hrow]
      rfl
    have g2 : generate L s2 cpos v = (false, s2, v) := by
      unfold generate
      rewrite [if_pos hrow2]
      rfl
    rewrite [g1, g2]
    exact ⟨rfl, rfl⟩
  · have hrow2 : ¬ (cpos.y < s2.bottommost_chunk
        ∨ cpos.y > (CHUNK_SIZE : Int) * s2.terrain_variation) := by
      rw [← hcfg.1, ← hcfg.2.1]
      exact hrow
    rewrite [generate_eq L s1 cpos v hrow, generate_eq L s2 cpos v hrow2]
    refine ⟨rfl, ?_⟩
    show (after_features L s1 cpos v).2 = (after_features L s2 cpos v).2
    rewrite [(generate_stages L s1 cpos v).2.2.2, (generate_stages L s2 cpos v).2.2.2,
      passes_grid_congr L s1 s2 cpos _ v hcfg hnoise]
    cases hfeat : s1.enable_features
    · have hfeat2 : s2.enable_features = false := by rw [← hcfg.2.2.2.2, hfeat]
      unfold passes_grid
      rewrite [hfeat2, if_neg Bool.false_ne_true, if_neg Bool.false_ne_true]
      exact carvers_result_voxels L s2 cpos _ _ v
    · rewrite [get_metadata_same_column L s1 s2 _ (hcol hfeat)]
      with_reducible rfl

/-- Witness of C9, amended: two states that hold the same entry for the column
`(0, 0)` and differ in the entry of another column and in the position of the
random generator. -/
theorem generate_reads_own_column_witness :
    (same_config used_state used_state_elsewhere
      ∧ used_state.metadata_map ⟨1, 0⟩ ≠ used_state_elsewhere.metadata_map ⟨1, 0⟩
      ∧ used_state.twister ≠ used_state_elsewhere.twister)
    ∧ ((generate sample_env used_state ⟨0, 0, 0⟩ empty_grid).1
          = (generate sample_env used_state_elsewhere ⟨0, 0, 0⟩ empty_grid).1
      ∧ (generate sample_env used_state ⟨0, 0, 0⟩ empty_grid).2.2
          = (generate sample_env used_state_elsewhere ⟨0, 0, 0⟩ empty_grid).2.2) :=
  ⟨⟨⟨rfl, rfl, rfl, rfl, rfl⟩, fun h => Option.noConfusion h, by decide⟩,
    generate_reads_own_column sample_env used_state used_state_elsewhere ⟨0, 0, 0⟩ empty_grid
      ⟨rfl, rfl, rfl, rfl, rfl⟩ ⟨rfl, rfl, rfl⟩
      (fun _ => ⟨rfl, fun h => Option.noConfusion h⟩)⟩

end overworld

/-! ## The scheduler: invariant and record of `finalize` calls -/

theorem evolves_refl (w : WorkerEntry) : WorkerEntry.evolves w w := ⟨rfl, rfl, rfl, fun h => h⟩

theorem evolves_list_spec :
    ∀ (ws ws' : List WorkerEntry), List.Forall₂ WorkerEntry.evolves ws ws' →
      worker_keys ws' = worker_keys ws ∧ worker_serials ws' = worker_serials ws
      ∧ ∀ w' ∈ ws', ∃ w ∈ ws, WorkerEntry.evolves w w' := by
  intro ws ws' h
  induction h with
  | nil => exact ⟨rfl, rfl, by simp⟩
  | cons hab _ ih =>
    obtain ⟨h1, h2, h3⟩ := ih
    refine ⟨?_, ?_, ?_⟩
    · simp only [worker_keys, List.map_cons] at h1 ⊢
      rw [hab.1, h1]
    · simp only [worker_serials, List.map_cons] at h2 ⊢
      rw [hab.2.1, h2]
    · intro w' hw'
      rcases List.mem_cons.mp hw' with rfl | hw'
      · exact ⟨_, List.mem_cons_self _ _, hab⟩
      · obtain ⟨w, hw, he⟩ := h3 w' hw'
        exact ⟨w, List.mem_cons_of_mem _ hw, he⟩

theorem evolves_list_map (g : WorkerEntry → WorkerEntry) (hg : ∀ w, WorkerEntry.evolves w (g w)) :
    ∀ ws : List WorkerEntry, List.Forall₂ WorkerEntry.evolves ws (ws.map g) := by
  intro ws
  induction ws with
  | nil => exact List.Forall₂.nil
  | cons w ws ih => exact List.Forall₂.cons (hg w) ih

theorem evolves_list_refl :
    ∀ ws : List WorkerEntry, List.Forall₂ WorkerEntry.evolves ws ws := by
  intro ws
  induction ws with
  | nil => exact List.Forall₂.nil
  | cons w ws ih => exact List.Forall₂.cons (evolves_refl w) ih

theorem mark_cancelled_evolves (coord : ChunkCoord) :
    ∀ ws : List WorkerEntry, List.Forall₂ WorkerEntry.evolves ws (mark_cancelled ws coord) := by
  intro ws
  induction ws with
  | nil => exact List.Forall₂.nil
  | cons w ws ih =>
    unfold mark_cancelled
    split
    · exact List.Forall₂.cons ⟨rfl, rfl, rfl, fun _ => rfl⟩ (evolves_list_refl ws)
    · exact List.Forall₂.cons (evolves_refl w) ih

/-- Replacing the entries of the map by later versions of themselves keeps the
invariant and keeps every retired context retired. -/
theorem well_formed_of_evolves (st st' : MesherState)
    (hw : List.Forall₂ WorkerEntry.evolves st.workers st'.workers)
    (hn : st'.next_serial = st.next_serial) (ha : st'.applied = st.applied) :
    (st.well_formed → st'.well_formed) ∧ ∀ n, st.retired n → st'.retired n := by
  obtain ⟨k, s, m⟩ := evolves_list_spec _ _ hw
  constructor
  · rintro ⟨h1, h2, h3, h4, h5, h6⟩
    refine ⟨by rw [k]; exact h1, ?_, by rw [s]; exact h3, ?_, by rw [ha]; exact h5, ?_⟩
    · intro w' hw'
      obtain ⟨w, hw, e1, _, e3, _⟩ := m w' hw'
      rw [e1, e3]; exact h2 w hw
    · intro w' hw'
      obtain ⟨w, hw, _, e2, _, _⟩ := m w' hw'
      rw [e2, hn]; exact h4 w hw
    · intro a hma
      rw [ha] at hma
      rw [hn, s]; exact h6 a hma
  · rintro n ⟨r1, r2⟩
    refine ⟨by rw [hn]; exact r1, ?_⟩
    intro w' hw' hs
    obtain ⟨w, hw, _, e2, _, e4⟩ := m w' hw'
    exact e4 (r2 w hw (by rw [← e2]; exact hs))

theorem drain_post_keep (world : World) (needs_meshing : Nat → Bool) (cap : Nat)
    (w : WorkerEntry) (ws : List WorkerEntry) (finalized : Nat) (applied : List (Nat × Nat))
    (r : List WorkerEntry × Nat × RenderState × List (Nat × Nat))
    (h : drain_post world needs_meshing cap ws finalized applied r) :
    drain_post world needs_meshing cap (w :: ws) finalized applied (w :: r.1, r.2) := by
  obtain ⟨extra, h1, h2, h3, h4, h5, h6⟩ := h
  refine ⟨extra, h1, h2, h3.cons₂ w, ?_, ?_, h6⟩
  · intro a ha
    obtain ⟨w', hw', hs, hf⟩ := h4 a ha
    exact ⟨w', List.mem_cons_of_mem _ hw', hs, hf⟩
  · intro hnd
    simp only [worker_serials, List.map_cons, List.nodup_cons] at hnd
    obtain ⟨g1, g2⟩ := h5 hnd.2
    refine ⟨g1, ?_⟩
    intro a ha
    simp only [worker_serials, List.map_cons, List.mem_cons, not_or]
    refine ⟨?_, g2 a ha⟩
    intro he
    obtain ⟨w', hw', hs, _⟩ := h4 a ha
    apply hnd.1
    rw [← he, ← hs]
    exact List.mem_map_of_mem _ hw'

theorem drain_post_drop (world : World) (needs_meshing : Nat → Bool) (cap : Nat)
    (w : WorkerEntry) (ws : List WorkerEntry) (finalized : Nat) (applied : List (Nat × Nat))
    (r : List WorkerEntry × Nat × RenderState × List (Nat × Nat))
    (h : drain_post world needs_meshing cap ws finalized applied r) :
    drain_post world needs_meshing cap (w :: ws) finalized applied r := by
  obtain ⟨extra, h1, h2, h3, h4, h5, h6⟩ := h
  refine ⟨extra, h1, h2, h3.cons w, ?_, ?_, h6⟩
  · intro a ha
    obtain ⟨w', hw', hs, hf⟩ := h4 a ha
    exact ⟨w', List.mem_cons_of_mem _ hw', hs, hf⟩
  · intro hnd
    simp only [worker_serials, List.map_cons, List.nodup_cons] at hnd
    exact h5 hnd.2

theorem drain_post_stop (world : World) (needs_meshing : Nat → Bool) (cap : Nat)
    (w : WorkerEntry) (ws : List WorkerEntry) (finalized : Nat) (render : RenderState)
    (applied : List (Nat × Nat)) :
    drain_post world needs_meshing cap (w :: ws) finalized applied
      (ws, finalized, render, applied) := by
  refine ⟨[], by simp, by simp, (List.Sublist.refl ws).cons w, by simp, by simp, ?_⟩
  intro h
  simp only [List.length_nil, Nat.add_zero]
  omega

theorem drain_post_apply (world : World) (needs_meshing : Nat → Bool) (cap : Nat)
    (w : WorkerEntry) (ws : List WorkerEntry) (finalized : Nat) (applied : List (Nat × Nat))
    (entity : Nat) (hfin : finalizable world needs_meshing w entity)
    (r : List WorkerEntry × Nat × RenderState × List (Nat × Nat))
    (h : (finalized + 1 < cap
          ∧ drain_post world needs_meshing cap ws (finalized + 1)
              (applied ++ [(w.serial, entity)]) r)
      ∨ (finalized + 1 ≥ cap ∧ r.1 = ws ∧ r.2.1 = finalized + 1
          ∧ r.2.2.2 = applied ++ [(w.serial, entity)])) :
    drain_post world needs_meshing cap (w :: ws) finalized applied r := by
  rcases h with ⟨hlt, h⟩ | ⟨hcap, e1, e2, e3⟩
  · obtain ⟨extra, h1, h2, h3, h4, h5, h6⟩ := h
    refine ⟨(w.serial, entity) :: extra, ?_, ?_, h3.cons w, ?_, ?_, ?_⟩
    · rw [h1]; simp
    · rw [h2]; simp only [List.length_cons]; omega
    · intro a ha
      rcases List.mem_cons.mp ha with rfl | ha
      · exact ⟨w, List.mem_cons_self _ _, rfl, hfin⟩
      · obtain ⟨w', hw', hs, hf⟩ := h4 a ha
        exact ⟨w', List.mem_cons_of_mem _ hw', hs, hf⟩
    · intro hnd
      simp only [worker_serials, List.map_cons, List.nodup_cons] at hnd
      obtain ⟨g1, g2⟩ := h5 hnd.2
      refine ⟨?_, ?_⟩
      · simp only [List.map_cons, List.nodup_cons]
        refine ⟨?_, g1⟩
        intro hmem
        obtain ⟨a, ha, he⟩ := List.mem_map.mp hmem
        obtain ⟨w', hw', hs, _⟩ := h4 a ha
        apply hnd.1
        rw [← he, ← hs]
        exact List.mem_map_of_mem _ hw'
      · intro a ha
        rcases List.mem_cons.mp ha with rfl | ha
        · intro hmem
          apply hnd.1
          exact (h3.map (fun w => w.serial)).subset hmem
        · exact g2 a ha
    · intro _
      have := h6 hlt
      simp only [List.length_cons]
      omega
  · refine ⟨[(w.serial, entity)], e3, by rw [e2]; rfl, by rw [e1]; exact (List.Sublist.refl ws).cons w,
      ?_, ?_, ?_⟩
    · intro a ha
      rw [List.mem_singleton] at ha
      subst ha
      exact ⟨w, List.mem_cons_self _ _, rfl, hfin⟩
    · intro hnd
      simp only [worker_serials, List.map_cons, List.nodup_cons] at hnd
      refine ⟨by simp, ?_⟩
      intro a ha
      rw [List.mem_singleton] at ha
      subst ha
      rw [e1]
      exact hnd.1
    · intro h
      simp only [List.length_singleton]
      omega

/-- The first loop of `update` meets `drain_post` on every input. -/
theorem drain_spec (E : Externals) (cap : Nat) (world : World) (needs_meshing : Nat → Bool) :
    ∀ (ws : List WorkerEntry) (finalized : Nat) (render : RenderState)
      (applied : List (Nat × Nat)),
      drain_post world needs_meshing cap ws finalized applied
        (drain E cap world needs_meshing ws finalized render applied) := by
  intro ws
  induction ws with
  | nil =>
    intro finalized render applied
    refine ⟨[], by simp [drain], by simp [drain], by simp [drain], by simp, by simp, ?_⟩
    intro h
    simp only [List.length_nil, Nat.add_zero]
    omega
  | cons w ws ih =>
    intro finalized render applied
    by_cases hinv : w.future = TaskFuture.invalid
    · rw [drain, if_pos hinv]
      exact drain_post_keep _ _ _ _ _ _ _ _ (ih finalized render applied)
    by_cases hrdy : w.future ≠ TaskFuture.ready
    · rw [drain, if_neg hinv, if_pos hrdy]
      exact drain_post_keep _ _ _ _ _ _ _ _ (ih finalized render applied)
    by_cases hcan : w.ctx.is_cancelled = true
    · rw [drain, if_neg hinv, if_neg hrdy, if_pos hcan]
      exact drain_post_drop _ _ _ _ _ _ _ _ (ih finalized render applied)
    rw [drain, if_neg hinv, if_neg hrdy, if_neg hcan]
    cases hfind : world w.ctx.coord with
    | none =>
      simp only []
      by_cases hcap : finalized ≥ cap
      · rw [if_pos hcap]
        exact drain_post_stop _ _ _ _ _ _ _ _
      · rw [if_neg hcap]
        exact drain_post_drop _ _ _ _ _ _ _ _ (ih finalized render applied)
    | some chunk =>
      simp only []
      by_cases hdirty : needs_meshing chunk.entity = true
      · rw [if_pos hdirty]
        exact drain_post_drop _ _ _ _ _ _ _ _ (ih finalized render applied)
      · rw [if_neg hdirty]
        have hfin : finalizable world needs_meshing w chunk.entity :=
          ⟨not_not.mp hrdy, by simpa using hcan, chunk, hfind, rfl, by simpa using hdirty⟩
        apply drain_post_apply _ _ _ _ _ _ _ chunk.entity hfin
        by_cases hcap : finalized + 1 ≥ cap
        · rw [if_pos hcap]
          exact Or.inr ⟨hcap, rfl, rfl, rfl⟩
        · rw [if_neg hcap]
          exact Or.inl ⟨by omega, ih _ _ _⟩

theorem find_worker_none (ws : List WorkerEntry) (coord : ChunkCoord)
    (h : find_worker ws coord = none) : coord ∉ worker_keys ws := by
  intro hmem
  obtain ⟨w, hw, hk⟩ := List.mem_map.mp hmem
  have := List.find?_eq_none.mp h w hw
  simp [hk] at this

theorem find_worker_some (ws : List WorkerEntry) (coord : ChunkCoord) (w : WorkerEntry)
    (h : find_worker ws coord = some w) : w ∈ ws ∧ w.key = coord := by
  have h1 := List.mem_of_find?_eq_some h
  have h2 := List.find?_some h
  exact ⟨h1, by simpa using h2⟩

theorem push_face_is_cancelled (info : VoxelInfo) (fpos : Vec3f) (entropy : Nat)
    (ctx : WorkerContext) (face : VoxelFace) :
    (push_face info fpos entropy ctx face).is_cancelled = ctx.is_cancelled := by
  unfold push_face push_quad_a push_quad_v
  cases info.animated <;> cases info.blending <;> rfl

theorem foldl_push_face_is_cancelled (info : VoxelInfo) (fpos : Vec3f) (entropy : Nat)
    (vis : VoxelVis) (fs : List (VoxelFace × LocalCoord × VoxelVis)) (ctx : WorkerContext) :
    (fs.foldl (fun c fd =>
        if vis &&& fd.2.2 ≠ 0 then push_face info fpos entropy c fd.1 else c) ctx).is_cancelled
      = ctx.is_cancelled := by
  induction fs generalizing ctx with
  | nil => rfl
  | cons fd fs ih =>
    simp only [List.foldl_cons]
    split
    · rw [ih]
      exact push_face_is_cancelled _ _ _ _ _
    · exact ih ctx

theorem process_voxel_is_cancelled (G : Services) (ctx : WorkerContext) (j : Nat) :
    (process_voxel G ctx j).is_cancelled = ctx.is_cancelled := by
  cases h : G.find (ctx.cache CPOS_ITSELF j) with
  | none => rw [process_voxel_none G ctx j h]
  | some info =>
    rw [process_voxel_some G ctx j info h, make_cube_eq_foldl]
    exact foldl_push_face_is_cancelled _ _ _ _ _ _

theorem task_step_evolves (G : Services) (w : WorkerEntry) :
    WorkerEntry.evolves w (task_step G w) := by
  unfold task_step
  split
  · exact evolves_refl w
  · exact ⟨rfl, rfl, rfl, fun h => h⟩
  · split
    · split
      · exact ⟨rfl, rfl, rfl, fun h => h⟩
      · refine ⟨rfl, rfl, ?_, ?_⟩
        · exact (process_voxel_spec (fun _ => true) G w.ctx _ true).2.1
        · intro h
          simp only []
          rw [process_voxel_is_cancelled]
          exact h
    · exact ⟨rfl, rfl, rfl, fun h => h⟩
  · exact evolves_refl w

theorem range_filterMap_get (ws : List WorkerEntry) :
    (List.range ws.length).filterMap (fun i => ws[i]?) = ws := by
  induction ws with
  | nil => rfl
  | cons w ws ih =>
    have hf : ((fun i => (w :: ws)[i]?) ∘ Nat.succ) = fun i => ws[i]? := by
      funext i
      simp
    rw [List.length_cons, List.range_succ_eq_map, List.filterMap_cons]
    simp only [List.getElem?_cons_zero, List.filterMap_map]
    rw [hf, ih]

theorem rehash_perm (ws : List WorkerEntry) (order : List Nat) : (rehash ws order).Perm ws := by
  unfold rehash
  split
  · rename_i h
    have := h.filterMap (fun i => ws[i]?)
    rw [range_filterMap_get] at this
    exact this
  · exact List.Perm.refl ws

/-- Walking the map in another order keeps the invariant and keeps every
retired context retired. -/
theorem well_formed_of_perm (st st' : MesherState) (hw : st'.workers.Perm st.workers)
    (hn : st'.next_serial = st.next_serial) (ha : st'.applied = st.applied) :
    (st.well_formed → st'.well_formed) ∧ ∀ n, st.retired n → st'.retired n := by
  constructor
  · rintro ⟨h1, h2, h3, h4, h5, h6⟩
    refine ⟨(List.Perm.nodup_iff (hw.map _)).mpr h1, fun w hm => h2 w (hw.mem_iff.mp hm),
      (List.Perm.nodup_iff (hw.map _)).mpr h3, fun w hm => by rw [hn]; exact h4 w (hw.mem_iff.mp hm),
      by rw [ha]; exact h5, ?_⟩
    intro a hma
    rw [ha] at hma
    rw [hn]
    refine ⟨(h6 a hma).1, ?_⟩
    intro hmem
    exact (h6 a hma).2 ((hw.map (fun w => w.serial)).mem_iff.mp hmem)
  · rintro n ⟨r1, r2⟩
    exact ⟨by rw [hn]; exact r1, fun w hm hs => r2 w (hw.mem_iff.mp hm) hs⟩

/-- Dropping entries from the map keeps the invariant and keeps every retired
context retired. -/
theorem well_formed_of_sublist (st st' : MesherState)
    (hw : List.Sublist st'.workers st.workers)
    (hn : st'.next_serial = st.next_serial) (ha : st'.applied = st.applied) :
    (st.well_formed → st'.well_formed) ∧ ∀ n, st.retired n → st'.retired n := by
  constructor
  · rintro ⟨h1, h2, h3, h4, h5, h6⟩
    refine ⟨h1.sublist (hw.map _), fun w hm => h2 w (hw.subset hm),
      h3.sublist (hw.map _), fun w hm => by rw [hn]; exact h4 w (hw.subset hm),
      by rw [ha]; exact h5, ?_⟩
    intro a hma
    rw [ha] at hma
    rw [hn]
    refine ⟨(h6 a hma).1, ?_⟩
    intro hmem
    exact (h6 a hma).2 ((hw.map (fun w => w.serial)).subset hmem)
  · rintro n ⟨r1, r2⟩
    exact ⟨by rw [hn]; exact r1, fun w hm hs => r2 w (hw.subset hm) hs⟩
theorem enqueue_step_create (st : MesherState) (entity : Nat) (chunk : ChunkComponent)
    (hflag : st.needs_meshing entity = true) (hc : st.chunk_component entity = some chunk)
    (hnone : find_worker st.workers chunk.coord = none) :
    enqueue_step st entity
      = ({ st with
            needs_meshing := Function.update st.needs_meshing entity false,
            workers := st.workers ++ [⟨chunk.coord, new_worker st.world chunk.coord,
              TaskFuture.queued, st.next_serial⟩],
            next_serial := st.next_serial + 1 }, true) := by
  unfold enqueue_step
  rw [if_pos hflag]
  simp only [hc, hnone]

theorem enqueue_step_cancel (st : MesherState) (entity : Nat) (chunk : ChunkComponent)
    (w : WorkerEntry) (hflag : st.needs_meshing entity = true)
    (hc : st.chunk_component entity = some chunk)
    (hsome : find_worker st.workers chunk.coord = some w) :
    enqueue_step st entity
      = ({ st with workers := mark_cancelled st.workers chunk.coord }, false) := by
  unfold enqueue_step
  rw [if_pos hflag]
  simp only [hc, hsome]

theorem enqueue_step_skip (st : MesherState) (entity : Nat)
    (h : st.needs_meshing entity = false ∨ st.chunk_component entity = none) :
    enqueue_step st entity = (st, false) := by
  unfold enqueue_step
  rcases h with h | h
  · rw [if_neg (by simp [h])]
  · split
    · simp only [h]
    · rfl

/-- The body of the second loop of `update` leaves the world, the components,
the render state and the record of `finalize` calls alone, numbers a new context
when it enqueues one, and keeps the invariant and the retired contexts. -/
theorem enqueue_step_spec (st : MesherState) (entity : Nat) :
    ((enqueue_step st entity).1.world = st.world
      ∧ (enqueue_step st entity).1.chunk_component = st.chunk_component
      ∧ (enqueue_step st entity).1.render = st.render
      ∧ (enqueue_step st entity).1.applied = st.applied)
    ∧ (enqueue_step st entity).1.next_serial
        = st.next_serial + (if (enqueue_step st entity).2 = true then 1 else 0)
    ∧ (st.well_formed → (enqueue_step st entity).1.well_formed)
    ∧ (∀ n, st.retired n → (enqueue_step st entity).1.retired n) := by
  by_cases hflag : st.needs_meshing entity = true
  · cases hc : st.chunk_component entity with
    | none =>
      rw [enqueue_step_skip st entity (Or.inr hc)]
      exact ⟨⟨rfl, rfl, rfl, rfl⟩, by simp, fun h => h, fun _ h => h⟩
    | some chunk =>
      cases hf : find_worker st.workers chunk.coord with
      | none =>
        rw [enqueue_step_create st entity chunk hflag hc hf]
        refine ⟨⟨rfl, rfl, rfl, rfl⟩, by simp, ?_, ?_⟩
        · rintro ⟨h1, h2, h3, h4, h5, h6⟩
          refine ⟨?_, ?_, ?_, ?_, h5, ?_⟩
          · simp only [worker_keys, List.map_append, List.map_cons, List.map_nil]
            rw [List.nodup_append]
            refine ⟨h1, List.nodup_singleton _, ?_⟩
            intro a ha hb
            rw [List.mem_singleton] at hb
            subst hb
            exact find_worker_none _ _ hf ha
          · intro w hw
            rcases List.mem_append.mp hw with hw | hw
            · exact h2 w hw
            · rw [List.mem_singleton] at hw
              subst hw
              exact (new_worker_spec st.world chunk.coord).1
          · simp only [worker_serials, List.map_append, List.map_cons, List.map_nil]
            rw [List.nodup_append]
            refine ⟨h3, List.nodup_singleton _, ?_⟩
            intro a ha hb
            rw [List.mem_singleton] at hb
            subst hb
            obtain ⟨w, hw, hs⟩ := List.mem_map.mp ha
            have := h4 w hw
            omega
          · intro w hw
            rcases List.mem_append.mp hw with hw | hw
            · have := h4 w hw
              simp only []
              omega
            · rw [List.mem_singleton] at hw
              subst hw
              simp only []
              omega
          · intro a ha
            obtain ⟨g1, g2⟩ := h6 a ha
            refine ⟨by simp only []; omega, ?_⟩
            simp only [worker_serials, List.map_append, List.map_cons, List.map_nil,
              List.mem_append, List.mem_singleton, not_or]
            exact ⟨g2, by omega⟩
        · rintro n ⟨r1, r2⟩
          refine ⟨by simp only []; omega, ?_⟩
          intro w hw hs
          rcases List.mem_append.mp hw with hw | hw
          · exact r2 w hw hs
          · rw [List.mem_singleton] at hw
            subst hw
            simp only [] at hs
            omega
      | some w =>
        rw [enqueue_step_cancel st entity chunk w hflag hc hf]
        refine ⟨⟨rfl, rfl, rfl, rfl⟩, by simp, ?_⟩
        exact well_formed_of_evolves st _ (mark_cancelled_evolves _ _) rfl rfl
  · rw [enqueue_step_skip st entity (Or.inl (by simpa using hflag))]
    exact ⟨⟨rfl, rfl, rfl, rfl⟩, by simp, fun h => h, fun _ h => h⟩

/-- The second loop of `update`: as its body, and the count it returns stays
within the cap and tells how many contexts were created. -/
theorem enqueue_spec (cap : Nat) :
    ∀ (group : List Nat) (enqueued : Nat) (st : MesherState),
      ((enqueue cap group enqueued st).2.world = st.world
        ∧ (enqueue cap group enqueued st).2.chunk_component = st.chunk_component
        ∧ (enqueue cap group enqueued st).2.render = st.render
        ∧ (enqueue cap group enqueued st).2.applied = st.applied)
      ∧ (enqueue cap group enqueued st).2.next_serial + enqueued
          = st.next_serial + (enqueue cap group enqueued st).1
      ∧ enqueued ≤ (enqueue cap group enqueued st).1
      ∧ (enqueued < cap → (enqueue cap group enqueued st).1 ≤ cap)
      ∧ (st.well_formed → (enqueue cap group enqueued st).2.well_formed)
      ∧ (∀ n, st.retired n → (enqueue cap group enqueued st).2.retired n) := by
  intro group
  induction group with
  | nil =>
    intro enqueued st
    exact ⟨⟨rfl, rfl, rfl, rfl⟩, rfl, Nat.le_refl _, fun h => Nat.le_of_lt h, fun h => h,
      fun _ h => h⟩
  | cons entity rest ih =>
    intro enqueued st
    obtain ⟨⟨a1, a2, a3, a4⟩, b, c, d⟩ := enqueue_step_spec st entity
    by_cases hr : (enqueue_step st entity).2 = true
    · rw [if_pos hr] at b
      by_cases hcap : enqueued + 1 ≥ cap
      · have hk : enqueue cap (entity :: rest) enqueued st
            = (enqueued + 1, (enqueue_step st entity).1) := by
          rw [enqueue]
          simp only [hr, if_true]
          rw [if_pos hcap]
        rw [hk]
        exact ⟨⟨a1, a2, a3, a4⟩, by simp only []; omega, by simp only []; omega,
          fun h => by simp only []; omega, c, d⟩
      · have hk : enqueue cap (entity :: rest) enqueued st
            = enqueue cap rest (enqueued + 1) (enqueue_step st entity).1 := by
          rw [enqueue]
          simp only [hr, if_true]
          rw [if_neg hcap]
        rw [hk]
        obtain ⟨⟨i1, i2, i3, i4⟩, j, k, l, m, n⟩ := ih (enqueued + 1) (enqueue_step st entity).1
        exact ⟨⟨i1.trans a1, i2.trans a2, i3.trans a3, i4.trans a4⟩, by omega, by omega,
          fun _ => l (by omega), fun h => m (c h), fun x h => n x (d x h)⟩
    · have hk : enqueue cap (entity :: rest) enqueued st
          = enqueue cap rest enqueued (enqueue_step st entity).1 := by
        rw [enqueue]
        simp only [hr]
        rfl
      rw [if_neg hr] at b
      rw [hk]
      obtain ⟨⟨i1, i2, i3, i4⟩, j, k, l, m, n⟩ := ih enqueued (enqueue_step st entity).1
      exact ⟨⟨i1.trans a1, i2.trans a2, i3.trans a3, i4.trans a4⟩, by omega, k, l,
        fun h => m (c h), fun x h => n x (d x h)⟩
theorem MESHER_TASKS_PER_FRAME_pos (win32_debug : Bool) :
    0 < MESHER_TASKS_PER_FRAME win32_debug := by
  cases win32_debug <;> decide

/-- One call of `update`: the record of `finalize` calls grows by `extra`, at
most `MESHER_TASKS_PER_FRAME` pairs, each for an entry that passed the test
`finalizable` in the state before the call; at most `MESHER_TASKS_PER_FRAME`
contexts are created; the invariant and the retired contexts are kept, and no
retired context is finalized. -/
theorem update_spec (E : Externals) (win32_debug : Bool) (group : List Nat) (st : MesherState) :
    ∃ extra : List (Nat × Nat),
      (update E win32_debug group st).applied = st.applied ++ extra
      ∧ extra.length ≤ MESHER_TASKS_PER_FRAME win32_debug
      ∧ (∀ a ∈ extra, ∃ w ∈ st.workers, w.serial = a.1
          ∧ finalizable st.world st.needs_meshing w a.2)
      ∧ (st.next_serial ≤ (update E win32_debug group st).next_serial
          ∧ (update E win32_debug group st).next_serial
              ≤ st.next_serial + MESHER_TASKS_PER_FRAME win32_debug)
      ∧ ((update E win32_debug group st).world = st.world
          ∧ (update E win32_debug group st).chunk_component = st.chunk_component)
      ∧ (st.well_formed → (update E win32_debug group st).well_formed)
      ∧ (∀ n, st.retired n →
          (update E win32_debug group st).retired n ∧ ∀ a ∈ extra, a.1 ≠ n) := by
  obtain ⟨extra, h1, h2, h3, h4, h5, h6⟩ := drain_spec E (MESHER_TASKS_PER_FRAME win32_debug)
    st.world st.needs_meshing st.workers 0 st.render st.applied
  obtain ⟨⟨e1, e2, _, e4⟩, f, g, h, i, j⟩ := enqueue_spec (MESHER_TASKS_PER_FRAME win32_debug)
    group 0
    { st with
      workers := (drain E (MESHER_TASKS_PER_FRAME win32_debug) st.world st.needs_meshing
        st.workers 0 st.render st.applied).1,
      render := (drain E (MESHER_TASKS_PER_FRAME win32_debug) st.world st.needs_meshing
        st.workers 0 st.render st.applied).2.2.1,
      applied := (drain E (MESHER_TASKS_PER_FRAME win32_debug) st.world st.needs_meshing
        st.workers 0 st.render st.applied).2.2.2 }
  have hpos := MESHER_TASKS_PER_FRAME_pos win32_debug
  have hlen := h6 hpos
  refine ⟨extra, e4.trans h1, by omega, h4, ?_, ⟨e1, e2⟩, ?_, ?_⟩
  · have hh := h hpos
    simp only [] at f
    constructor
    · show st.next_serial ≤ (enqueue _ _ _ _).2.next_serial
      omega
    · show (enqueue _ _ _ _).2.next_serial ≤ _
      omega
  · intro hwf
    apply i
    obtain ⟨w1, w2, w3, w4, w5, w6⟩ := hwf
    obtain ⟨g1, g2⟩ := h5 w3
    refine ⟨w1.sublist (h3.map _), fun w hm => w2 w (h3.subset hm), w3.sublist (h3.map _),
      fun w hm => w4 w (h3.subset hm), ?_, ?_⟩
    · simp only []
      rw [h1, List.map_append, List.nodup_append]
      refine ⟨w5, g1, ?_⟩
      intro s hs hs'
      obtain ⟨a, ha, rfl⟩ := List.mem_map.mp hs
      obtain ⟨b, hb, hbe⟩ := List.mem_map.mp hs'
      obtain ⟨w, hw, hws, _⟩ := h4 b hb
      apply (w6 a ha).2
      rw [← hbe, ← hws]
      exact List.mem_map_of_mem _ hw
    · intro a ha
      simp only [] at ha ⊢
      rw [h1] at ha
      rcases List.mem_append.mp ha with ha | ha
      · refine ⟨(w6 a ha).1, ?_⟩
        intro hmem
        exact (w6 a ha).2 ((h3.map (fun w => w.serial)).subset hmem)
      · obtain ⟨w, hw, hws, _⟩ := h4 a ha
        exact ⟨by rw [← hws]; exact w4 w hw, g2 a ha⟩
  · rintro n ⟨r1, r2⟩
    constructor
    · apply j
      exact ⟨r1, fun w hm hs => r2 w (h3.subset hm) hs⟩
    · intro a ha he
      obtain ⟨w, hw, hws, hf⟩ := h4 a ha
      have := r2 w hw (hws.trans he)
      rw [hf.2.1] at this
      exact Bool.false_ne_true this

/-- One action: the record of `finalize` calls grows by `extra`; the invariant
and the retired contexts are kept, and no retired context is finalized. -/
theorem step_spec (E : Externals) (G : Services) (win32_debug : Bool) (st : MesherState)
    (a : Action) :
    ∃ extra : List (Nat × Nat),
      (step E G win32_debug st a).applied = st.applied ++ extra
      ∧ (st.well_formed → (step E G win32_debug st a).well_formed)
      ∧ (∀ n, st.retired n → (step E G win32_debug st a).retired n ∧ ∀ x ∈ extra, x.1 ≠ n) := by
  cases a with
  | update group =>
    obtain ⟨extra, h1, _, _, _, _, h6, h7⟩ := update_spec E win32_debug group st
    exact ⟨extra, h1, h6, h7⟩
  | deinit =>
    refine ⟨[], by simp [step, deinit], ?_, ?_⟩
    · rintro ⟨_, _, _, _, h5, h6⟩
      exact ⟨List.nodup_nil, by simp [step, deinit], List.nodup_nil, by simp [step, deinit], h5,
        fun a ha => ⟨(h6 a ha).1, by simp [step, deinit, worker_serials]⟩⟩
    · rintro n ⟨r1, _⟩
      exact ⟨⟨r1, by simp [step, deinit]⟩, by simp⟩
  | task key =>
    have h := well_formed_of_evolves st (step E G win32_debug st (Action.task key))
      (evolves_list_map (fun w => if w.key = key then task_step G w else w)
        (fun w => by
          simp only []
          split
          · exact task_step_evolves G w
          · exact evolves_refl w) st.workers) rfl rfl
    exact ⟨[], by simp [step], h.1, fun n hn => ⟨h.2 n hn, by simp⟩⟩
  | rehash order =>
    have h := well_formed_of_perm st (step E G win32_debug st (Action.rehash order))
      (rehash_perm st.workers order) rfl rfl
    exact ⟨[], by simp [step], h.1, fun n hn => ⟨h.2 n hn, by simp⟩⟩
  | chunk_create event =>
    exact ⟨[], by simp [step, on_chunk_create], fun h => h, fun n hn => ⟨hn, by simp⟩⟩
  | chunk_update event =>
    exact ⟨[], by simp [step, on_chunk_update], fun h => h, fun n hn => ⟨hn, by simp⟩⟩
  | voxel_set event =>
    exact ⟨[], by simp [step, on_voxel_set], fun h => h, fun n hn => ⟨hn, by simp⟩⟩
  | environment world chunk_component destroyed =>
    exact ⟨[], by simp [step], fun h => h, fun n hn => ⟨hn, by simp⟩⟩

/-- A sequence of actions: as one action. -/
theorem run_spec (E : Externals) (G : Services) (win32_debug : Bool) :
    ∀ (actions : List Action) (st : MesherState),
      ∃ extra : List (Nat × Nat),
        (run E G win32_debug st actions).applied = st.applied ++ extra
        ∧ (st.well_formed → (run E G win32_debug st actions).well_formed)
        ∧ (∀ n, st.retired n →
            (run E G win32_debug st actions).retired n ∧ ∀ x ∈ extra, x.1 ≠ n) := by
  intro actions
  induction actions with
  | nil =>
    intro st
    exact ⟨[], by simp [run], fun h => h, fun n hn => ⟨hn, by simp⟩⟩
  | cons a actions ih =>
    intro st
    obtain ⟨e1, a1, b1, c1⟩ := step_spec E G win32_debug st a
    obtain ⟨e2, a2, b2, c2⟩ := ih (step E G win32_debug st a)
    refine ⟨e1 ++ e2, ?_, fun h => b2 (b1 h), ?_⟩
    · show (run E G win32_debug (step E G win32_debug st a) actions).applied = _
      rw [a2, a1, List.append_assoc]
    · intro n hn
      obtain ⟨r1, x1⟩ := c1 n hn
      obtain ⟨r2, x2⟩ := c2 n r1
      refine ⟨r2, ?_⟩
      intro x hx
      rcases List.mem_append.mp hx with hx | hx
      · exact x1 x hx
      · exact x2 x hx

theorem startup_well_formed (world : World) (needs_meshing : Nat → Bool)
    (chunk_component : Nat → Option ChunkComponent) (render : RenderState) :
    (startup world needs_meshing chunk_component render).well_formed := by
  refine ⟨List.nodup_nil, ?_, List.nodup_nil, ?_, List.nodup_nil, ?_⟩ <;> simp [startup]
theorem run_well_formed (E : Externals) (G : Services) (win32_debug : Bool) (world : World)
    (needs_meshing : Nat → Bool) (chunk_component : Nat → Option ChunkComponent)
    (render : RenderState) (actions : List Action) :
    (run E G win32_debug (startup world needs_meshing chunk_component render)
      actions).well_formed := by
  obtain ⟨_, _, h, _⟩ := run_spec E G win32_debug actions
    (startup world needs_meshing chunk_component render)
  exact h (startup_well_formed world needs_meshing chunk_component render)

/-- A retired context that has not been finalized is never finalized. -/
theorem retired_never_applied (E : Externals) (G : Services) (win32_debug : Bool)
    (st : MesherState) (n : Nat) (hr : st.retired n) (hn : n ∉ st.applied.map Prod.fst)
    (later : List Action) :
    n ∉ (run E G win32_debug st later).applied.map Prod.fst := by
  obtain ⟨extra, h1, _, h3⟩ := run_spec E G win32_debug later st
  rw [h1, List.map_append, List.mem_append, not_or]
  refine ⟨hn, ?_⟩
  intro hmem
  obtain ⟨a, ha, he⟩ := List.mem_map.mp hmem
  exact (h3 n hr).2 a ha he

/-- In a state that meets the invariant, the serial number names the entry. -/
theorem serial_unique (st : MesherState) (hwf : st.well_formed) (w w' : WorkerEntry)
    (hw : w ∈ st.workers) (hw' : w' ∈ st.workers) (hs : w'.serial = w.serial) : w' = w :=
  List.inj_on_of_nodup_map hwf.2.2.1 hw' hw hs

theorem serial_not_applied (st : MesherState) (hwf : st.well_formed) (w : WorkerEntry)
    (hw : w ∈ st.workers) : w.serial ∉ st.applied.map Prod.fst := by
  intro hmem
  obtain ⟨a, ha, he⟩ := List.mem_map.mp hmem
  apply (hwf.2.2.2.2.2 a ha).2
  rw [he]
  exact List.mem_map_of_mem _ hw

theorem mark_cancelled_length (coord : ChunkCoord) :
    ∀ ws : List WorkerEntry, (mark_cancelled ws coord).length = ws.length := by
  intro ws
  induction ws with
  | nil => rfl
  | cons w ws ih =>
    unfold mark_cancelled
    split
    · rfl
    · simp [ih]

theorem enqueue_step_length (st : MesherState) (entity : Nat) :
    (enqueue_step st entity).1.workers.length
      = st.workers.length + (if (enqueue_step st entity).2 = true then 1 else 0) := by
  by_cases hflag : st.needs_meshing entity = true
  · cases hc : st.chunk_component entity with
    | none => rw [enqueue_step_skip st entity (Or.inr hc)]; simp
    | some chunk =>
      cases hf : find_worker st.workers chunk.coord with
      | none => rw [enqueue_step_create st entity chunk hflag hc hf]; simp
      | some w =>
        rw [enqueue_step_cancel st entity chunk w hflag hc hf]
        simp [mark_cancelled_length]
  · rw [enqueue_step_skip st entity (Or.inl (by simpa using hflag))]; simp

theorem enqueue_length (cap : Nat) :
    ∀ (group : List Nat) (enqueued : Nat) (st : MesherState),
      (enqueue cap group enqueued st).2.workers.length + enqueued
        = st.workers.length + (enqueue cap group enqueued st).1 := by
  intro group
  induction group with
  | nil => intro enqueued st; rfl
  | cons entity rest ih =>
    intro enqueued st
    have hl := enqueue_step_length st entity
    by_cases hr : (enqueue_step st entity).2 = true
    · rw [if_pos hr] at hl
      by_cases hcap : enqueued + 1 ≥ cap
      · rw [enqueue]
        simp only [hr, if_true]
        rw [if_pos hcap]
        simp only []
        omega
      · rw [enqueue]
        simp only [hr, if_true]
        rw [if_neg hcap]
        have := ih (enqueued + 1) (enqueue_step st entity).1
        omega
    · rw [if_neg hr] at hl
      rw [enqueue]
      simp only [hr]
      have := ih enqueued (enqueue_step st entity).1
      simp only [Bool.false_eq_true, if_false]
      omega

theorem find_mark_cancelled (coord : ChunkCoord) (w : WorkerEntry) :
    ∀ ws : List WorkerEntry, find_worker ws coord = some w →
      find_worker (mark_cancelled ws coord) coord
        = some { w with ctx := { w.ctx with is_cancelled := true } } := by
  intro ws
  induction ws with
  | nil => intro h; simp [find_worker] at h
  | cons v ws ih =>
    intro h
    unfold mark_cancelled
    by_cases hk : v.key = coord
    · rw [if_pos hk]
      have hv : v = w := by
        simpa [find_worker, List.find?_cons, hk] using h
      subst hv
      simp [find_worker, List.find?_cons, hk]
    · rw [if_neg hk]
      have h' : find_worker ws coord = some w := by
        simpa [find_worker, List.find?_cons, hk] using h
      have := ih h'
      simpa [find_worker, List.find?_cons, hk] using this

/-- C11: in every state the mesher reaches from its start, whatever the actions
(calls of `update` and `deinit`, steps of the build tasks, rehashes of the map,
events, changes of the world), no two entries of the worker map hold a context
of the same chunk coordinate: the keys are distinct and every context sits under
its own coordinate.  And in any state the body of the second loop of `update`
creates a worker (and queues its build) only for a flagged chunk whose
coordinate has no entry in the map; in every other case the map keeps its keys
and no context is created. -/
theorem one_worker_per_coordinate (E : Externals) (G : Services) (win32_debug : Bool)
    (world : World) (needs_meshing : Nat → Bool) (chunk_component : Nat → Option ChunkComponent)
    (render : RenderState) (actions : List Action) (st : MesherState) (entity : Nat) :
    (((run E G win32_debug (startup world needs_meshing chunk_component render)
          actions).workers.map (fun w => w.ctx.coord)).Nodup
      ∧ (worker_keys (run E G win32_debug (startup world needs_meshing chunk_component render)
          actions).workers).Nodup
      ∧ ∀ w ∈ (run E G win32_debug (startup world needs_meshing chunk_component render)
          actions).workers, w.ctx.coord = w.key)
    ∧ ((enqueue_step st entity).2 = true →
        ∃ chunk, st.needs_meshing entity = true ∧ st.chunk_component entity = some chunk
          ∧ find_worker st.workers chunk.coord = none
          ∧ chunk.coord ∉ worker_keys st.workers
          ∧ (enqueue_step st entity).1.workers
              = st.workers ++ [⟨chunk.coord, new_worker st.world chunk.coord,
                  TaskFuture.queued, st.next_serial⟩])
    ∧ ((enqueue_step st entity).2 = false →
        worker_keys (enqueue_step st entity).1.workers = worker_keys st.workers
        ∧ (enqueue_step st entity).1.next_serial = st.next_serial) := by
  have hwf := run_well_formed E G win32_debug world needs_meshing chunk_component render actions
  refine ⟨⟨?_, hwf.1, hwf.2.1⟩, ?_, ?_⟩
  · have hmap : (run E G win32_debug (startup world needs_meshing chunk_component render)
        actions).workers.map (fun w => w.ctx.coord)
        = worker_keys (run E G win32_debug (startup world needs_meshing chunk_component render)
            actions).workers := List.map_congr_left (fun w hw => hwf.2.1 w hw)
    rw [hmap]
    exact hwf.1
  · intro hr
    by_cases hflag : st.needs_meshing entity = true
    · cases hc : st.chunk_component entity with
      | none => rw [enqueue_step_skip st entity (Or.inr hc)] at hr; cases hr
      | some chunk =>
        cases hf : find_worker st.workers chunk.coord with
        | none =>
          refine ⟨chunk, hflag, rfl, hf, find_worker_none _ _ hf, ?_⟩
          rw [enqueue_step_create st entity chunk hflag hc hf]
        | some w => rw [enqueue_step_cancel st entity chunk w hflag hc hf] at hr; cases hr
    · rw [enqueue_step_skip st entity (Or.inl (by simpa using hflag))] at hr; cases hr
  · intro hr
    by_cases hflag : st.needs_meshing entity = true
    · cases hc : st.chunk_component entity with
      | none => rw [enqueue_step_skip st entity (Or.inr hc)]; exact ⟨rfl, rfl⟩
      | some chunk =>
        cases hf : find_worker st.workers chunk.coord with
        | none => rw [enqueue_step_create st entity chunk hflag hc hf] at hr; cases hr
        | some w =>
          rw [enqueue_step_cancel st entity chunk w hflag hc hf]
          exact ⟨(evolves_list_spec _ _ (mark_cancelled_evolves chunk.coord st.workers)).1, rfl⟩
    · rw [enqueue_step_skip st entity (Or.inl (by simpa using hflag))]; exact ⟨rfl, rfl⟩

/-- C12: in a state that meets the invariant of the mesher, take an entry of the
worker map whose build has finished and that is cancelled, or whose chunk is
flagged for meshing again.  A call of `update` finalizes only entries that are
ready, not cancelled, and whose chunk exists in the world and is not flagged,
and this entry is not among them; when the first loop of `update` comes to the
entry it erases it and goes on, without a call of `finalize`; and once the entry
is cancelled or gone from the map, no later action ever finalizes it. -/
theorem stale_worker_never_finalized (E : Externals) (G : Services) (win32_debug : Bool)
    (st : MesherState) (hwf : st.well_formed) (w : WorkerEntry) (hw : w ∈ st.workers)
    (hready : w.future = TaskFuture.ready)
    (hstale : w.ctx.is_cancelled = true
      ∨ ∃ chunk, st.world w.ctx.coord = some chunk ∧ st.needs_meshing chunk.entity = true)
    (group : List Nat) (later : List Action) :
    (∃ extra : List (Nat × Nat),
        (update E win32_debug group st).applied = st.applied ++ extra
        ∧ (∀ a ∈ extra, ∃ v ∈ st.workers, v.serial = a.1 ∧ v.future = TaskFuture.ready
            ∧ v.ctx.is_cancelled = false
            ∧ ∃ chunk, st.world v.ctx.coord = some chunk ∧ chunk.entity = a.2
                ∧ st.needs_meshing chunk.entity = false)
        ∧ w.serial ∉ extra.map Prod.fst)
    ∧ (∀ (cap : Nat) (ws : List WorkerEntry) (finalized : Nat) (render : RenderState)
        (applied : List (Nat × Nat)),
        drain E cap st.world st.needs_meshing (w :: ws) finalized render applied
          = drain E cap st.world st.needs_meshing ws finalized render applied)
    ∧ ((w.ctx.is_cancelled = true
          ∨ w.serial ∉ worker_serials (update E win32_debug group st).workers) →
        w.serial ∉ (run E G win32_debug (update E win32_debug group st)
          later).applied.map Prod.fst) := by
  obtain ⟨extra, h1, _, h3, h4, _, h6, h7⟩ := update_spec E win32_debug group st
  have hnot : w.serial ∉ extra.map Prod.fst := by
    intro hmem
    obtain ⟨a, ha, he⟩ := List.mem_map.mp hmem
    obtain ⟨v, hv, hvs, _, hvc, chunk, hvw, _, hvf⟩ := h3 a ha
    have hvw' : v = w := serial_unique st hwf w v hw hv (hvs.trans he)
    subst hvw'
    rcases hstale with hc | ⟨chunk', hw', hf'⟩
    · rw [hc] at hvc; cases hvc
    · rw [hvw] at hw'
      cases hw'
      rw [hf'] at hvf; cases hvf
  refine ⟨⟨extra, h1, h3, hnot⟩, ?_, ?_⟩
  · intro cap ws finalized render applied
    have hinv : ¬ w.future = TaskFuture.invalid := by rw [hready]; decide
    have hrdy : ¬ w.future ≠ TaskFuture.ready := by rw [hready]; simp
    rw [drain, if_neg hinv, if_neg hrdy]
    by_cases hc : w.ctx.is_cancelled = true
    · rw [if_pos hc]
    · rw [if_neg hc]
      rcases hstale with hc' | ⟨chunk, hw', hf'⟩
      · exact absurd hc' hc
      · simp only [hw']
        rw [if_pos hf']
  · intro hgone
    apply retired_never_applied
    · refine ⟨Nat.lt_of_lt_of_le (hwf.2.2.2.1 w hw) h4.1, ?_⟩
      rcases hgone with hc | hg
      · have hret : st.retired w.serial := by
          refine ⟨hwf.2.2.2.1 w hw, ?_⟩
          intro v hv hvs
          rw [serial_unique st hwf w v hw hv hvs]
          exact hc
        exact (h7 _ hret).1.2
      · intro v hv hvs
        exact absurd (by rw [← hvs]; exact List.mem_map_of_mem _ hv) hg
    · rw [h1, List.map_append, List.mem_append, not_or]
      exact ⟨serial_not_applied st hwf w hw, hnot⟩

/-- Witness of C12: in the sample run the build of the chunk was cancelled and
has returned; the next `update` and what follows never finalize it. -/
theorem stale_worker_never_finalized_witness :
    (sample_stale_worker ∈ sample_stale.workers
      ∧ sample_stale_worker.future = TaskFuture.ready
      ∧ sample_stale_worker.ctx.is_cancelled = true)
    ∧ sample_stale_worker.serial ∉
        (run sample_externals sample_services false
          (update sample_externals false [7] sample_stale)
          [Action.update [7], Action.task ⟨0, 0, 0⟩]).applied.map Prod.fst :=
  ⟨⟨List.mem_singleton.mpr rfl, rfl, rfl⟩,
    (stale_worker_never_finalized sample_externals sample_services false sample_stale
      (run_well_formed sample_externals sample_services false _ _ _ _ _) sample_stale_worker
      (List.mem_singleton.mpr rfl) rfl (Or.inl rfl) [7]
      [Action.update [7], Action.task ⟨0, 0, 0⟩]).2.2 (Or.inl rfl)⟩

/-- C13: in a state that meets the invariant, let the second loop of `update`
come to a flagged chunk whose coordinate has a worker.  The step marks that
worker cancelled and changes nothing else: the map keeps its keys and contexts
(no second worker) and the chunk keeps its flag.  The context of that worker is
never finalized, whatever the rest of the loop and the later actions are.  In a
state where the chunk is flagged and its coordinate has no worker any more, the
step enqueues a new build for it.  And no context is ever finalized twice. -/
theorem superseded_worker_cancelled (E : Externals) (G : Services) (win32_debug : Bool)
    (st : MesherState) (hwf : st.well_formed) (entity : Nat) (chunk : ChunkComponent)
    (w : WorkerEntry) (hflag : st.needs_meshing entity = true)
    (hcomp : st.chunk_component entity = some chunk)
    (hfind : find_worker st.workers chunk.coord = some w)
    (cap : Nat) (rest : List Nat) (enqueued : Nat) (later : List Action) :
    enqueue_step st entity
        = ({ st with workers := mark_cancelled st.workers chunk.coord }, false)
    ∧ find_worker (mark_cancelled st.workers chunk.coord) chunk.coord
        = some { w with ctx := { w.ctx with is_cancelled := true } }
    ∧ (worker_keys (mark_cancelled st.workers chunk.coord) = worker_keys st.workers
        ∧ worker_serials (mark_cancelled st.workers chunk.coord) = worker_serials st.workers)
    ∧ (enqueue_step st entity).1.needs_meshing entity = true
    ∧ w.serial ∉ (run E G win32_debug (enqueue cap rest enqueued (enqueue_step st entity).1).2
        later).applied.map Prod.fst
    ∧ (∀ st' : MesherState, st'.needs_meshing entity = true →
        st'.chunk_component entity = some chunk →
        find_worker st'.workers chunk.coord = none →
        enqueue_step st' entity
          = ({ st' with
                needs_meshing := Function.update st'.needs_meshing entity false,
                workers := st'.workers ++ [⟨chunk.coord, new_worker st'.world chunk.coord,
                  TaskFuture.queued, st'.next_serial⟩],
                next_serial := st'.next_serial + 1 }, true))
    ∧ ((run E G win32_debug (enqueue cap rest enqueued (enqueue_step st entity).1).2
        later).applied.map Prod.fst).Nodup := by
  have hstep := enqueue_step_cancel st entity chunk w hflag hcomp hfind
  obtain ⟨hwm, hwk⟩ := find_worker_some _ _ _ hfind
  have hev := evolves_list_spec _ _ (mark_cancelled_evolves chunk.coord st.workers)
  obtain ⟨⟨_, _, _, e4⟩, _, e6, e7⟩ := enqueue_step_spec st entity
  obtain ⟨⟨_, _, _, l4⟩, _, _, _, l5, l6⟩ := enqueue_spec cap rest enqueued
    (enqueue_step st entity).1
  refine ⟨hstep, find_mark_cancelled _ _ _ hfind, ⟨hev.1, hev.2.1⟩, ?_, ?_, ?_, ?_⟩
  · rw [hstep]; exact hflag
  · apply retired_never_applied
    · apply l6
      rw [hstep]
      refine ⟨hwf.2.2.2.1 w hwm, ?_⟩
      intro v hv hvs
      obtain ⟨u, hu, ek, es, _, ec⟩ := hev.2.2 v hv
      have huw : u = w := serial_unique st hwf w u hwm hu (es.symm.trans hvs)
      subst huw
      have hfound := find_mark_cancelled _ _ _ hfind
      obtain ⟨hm, _⟩ := find_worker_some _ _ _ hfound
      have hnd : (worker_serials (mark_cancelled st.workers chunk.coord)).Nodup := by
        rw [hev.2.1]; exact hwf.2.2.1
      have hvv : v = { u with ctx := { u.ctx with is_cancelled := true } } :=
        List.inj_on_of_nodup_map hnd hv hm hvs
      rw [hvv]
    · rw [l4, e4]
      exact serial_not_applied st hwf w hwm
  · intro st' h1 h2 h3
    exact enqueue_step_create st' entity chunk h1 h2 h3
  · obtain ⟨_, _, hrun, _⟩ := run_spec E G win32_debug later
      (enqueue cap rest enqueued (enqueue_step st entity).1).2
    exact (hrun (l5 (e6 hwf))).2.2.2.2.1

/-- Witness of C13: in the sample run the chunk is flagged again while its
build is queued; the step of `update` cancels the build, and nothing that
follows finalizes it. -/
theorem superseded_worker_cancelled_witness :
    (sample_in_flight.needs_meshing 7 = true
      ∧ sample_in_flight.chunk_component 7 = some ⟨⟨0, 0, 0⟩⟩
      ∧ find_worker sample_in_flight.workers ⟨0, 0, 0⟩ = some sample_worker)
    ∧ (enqueue_step sample_in_flight 7).2 = false
    ∧ sample_worker.serial ∉
        (run sample_externals sample_services false
          (enqueue 64 [] 0 (enqueue_step sample_in_flight 7).1).2
          [Action.task ⟨0, 0, 0⟩, Action.task ⟨0, 0, 0⟩, Action.update [7]]).applied.map
            Prod.fst :=
  ⟨⟨rfl, rfl, rfl⟩, rfl,
    (superseded_worker_cancelled sample_externals sample_services false sample_in_flight
      (run_well_formed sample_externals sample_services false _ _ _ _ _) 7 ⟨⟨0, 0, 0⟩⟩
      sample_worker rfl rfl rfl 64 [] 0
      [Action.task ⟨0, 0, 0⟩, Action.task ⟨0, 0, 0⟩, Action.update [7]]).2.2.2.2.1⟩

/-- C15: one call of `update` calls `finalize` at most `MESHER_TASKS_PER_FRAME`
times and creates at most `MESHER_TASKS_PER_FRAME` workers, whatever the map
holds and however many entities are flagged: the counters `finalized` and
`enqueued` of the two loops end within the cap, the record of `finalize` calls
grows by as many pairs as `finalized` counts, and the number of contexts and
the size of the map grow by at most the cap.  The cap is 64, or 16 in a debug
build for Win32. -/
theorem update_within_caps (E : Externals) (win32_debug : Bool) (group : List Nat)
    (st st' : MesherState) :
    (∃ extra : List (Nat × Nat),
        (update E win32_debug group st).applied = st.applied ++ extra
        ∧ (drain E (MESHER_TASKS_PER_FRAME win32_debug) st.world st.needs_meshing st.workers 0
            st.render st.applied).2.1 = extra.length
        ∧ extra.length ≤ MESHER_TASKS_PER_FRAME win32_debug)
    ∧ (enqueue (MESHER_TASKS_PER_FRAME win32_debug) group 0 st').1
        ≤ MESHER_TASKS_PER_FRAME win32_debug
    ∧ (enqueue (MESHER_TASKS_PER_FRAME win32_debug) group 0 st').2.next_serial
        = st'.next_serial + (enqueue (MESHER_TASKS_PER_FRAME win32_debug) group 0 st').1
    ∧ (st.next_serial ≤ (update E win32_debug group st).next_serial
        ∧ (update E win32_debug group st).next_serial
            ≤ st.next_serial + MESHER_TASKS_PER_FRAME win32_debug)
    ∧ (update E win32_debug group st).workers.length
        ≤ st.workers.length + MESHER_TASKS_PER_FRAME win32_debug
    ∧ MESHER_TASKS_PER_FRAME false = 64 ∧ MESHER_TASKS_PER_FRAME true = 16 := by
  have hpos := MESHER_TASKS_PER_FRAME_pos win32_debug
  obtain ⟨extra, d1, d2, d3, _, _, d6⟩ := drain_spec E (MESHER_TASKS_PER_FRAME win32_debug)
    st.world st.needs_meshing st.workers 0 st.render st.applied
  obtain ⟨_, u1, _, _, u4, _, _, _⟩ := update_spec E win32_debug group st
  obtain ⟨_, q2, _, q4, _, _⟩ := enqueue_spec (MESHER_TASKS_PER_FRAME win32_debug) group 0 st'
  obtain ⟨⟨_, _, _, p4⟩, _, _, p3, _, _⟩ := enqueue_spec (MESHER_TASKS_PER_FRAME win32_debug)
    group 0
    { st with
      workers := (drain E (MESHER_TASKS_PER_FRAME win32_debug) st.world st.needs_meshing
        st.workers 0 st.render st.applied).1,
      render := (drain E (MESHER_TASKS_PER_FRAME win32_debug) st.world st.needs_meshing
        st.workers 0 st.render st.applied).2.2.1,
      applied := (drain E (MESHER_TASKS_PER_FRAME win32_debug) st.world st.needs_meshing
        st.workers 0 st.render st.applied).2.2.2 }
  have hlen := enqueue_length (MESHER_TASKS_PER_FRAME win32_debug) group 0
    { st with
      workers := (drain E (MESHER_TASKS_PER_FRAME win32_debug) st.world st.needs_meshing
        st.workers 0 st.render st.applied).1,
      render := (drain E (MESHER_TASKS_PER_FRAME win32_debug) st.world st.needs_meshing
        st.workers 0 st.render st.applied).2.2.1,
      applied := (drain E (MESHER_TASKS_PER_FRAME win32_debug) st.world st.needs_meshing
        st.workers 0 st.render st.applied).2.2.2 }
  refine ⟨⟨extra, p4.trans d1, by rw [d2]; omega, by have := d6 hpos; omega⟩, q4 hpos,
    by omega, u4, ?_, rfl, rfl⟩
  have hsub := d3.length_le
  have hp := p3 hpos
  simp only [] at hlen
  show (enqueue _ _ _ _).2.workers.length ≤ _
  omega

/-! ## The events: which chunks are flagged -/

theorem flag_neighbours_spec (world : World) (e : Nat) :
    ∀ (neighbours : List ChunkCoord) (flags : Nat → Bool),
      flag_neighbours world flags neighbours e = true
        ↔ flags e = true
          ∨ ∃ cpos ∈ neighbours, ∃ chunk, world cpos = some chunk ∧ chunk.entity = e := by
  intro neighbours
  induction neighbours with
  | nil => intro flags; simp [flag_neighbours]
  | cons c cs ih =>
    intro flags
    have hstep : flag_neighbours world flags (c :: cs)
        = flag_neighbours world
            (match world c with
              | some chunk => Function.update flags chunk.entity true
              | none => flags) cs := rfl
    rw [hstep, ih]
    cases hc : world c with
    | none =>
      simp only [List.mem_cons, exists_eq_or_imp, hc]
      constructor
      · rintro (h | h)
        · exact Or.inl h
        · exact Or.inr (Or.inr h)
      · rintro (h | ⟨_, h, _⟩ | h)
        · exact Or.inl h
        · cases h
        · exact Or.inr h
    | some chunk =>
      simp only [List.mem_cons, exists_eq_or_imp, hc]
      by_cases he : e = chunk.entity
      · subst he
        simp
      · simp only [Function.update_noteq he]
        constructor
        · rintro (h | h)
          · exact Or.inl h
          · exact Or.inr (Or.inr h)
        · rintro (h | ⟨ch, h, h'⟩ | h)
          · exact Or.inl h
          · cases h
            exact absurd h'.symm he
          · exact Or.inr h

theorem face_adjacent_iff (c cpos : ChunkCoord) :
    cpos ∈ [Vec3i.add c ChunkCoord.dir_north, Vec3i.add c ChunkCoord.dir_south,
        Vec3i.add c ChunkCoord.dir_east, Vec3i.add c ChunkCoord.dir_west,
        Vec3i.add c ChunkCoord.dir_up, Vec3i.add c ChunkCoord.dir_down]
      ↔ face_adjacent c cpos := by
  obtain ⟨x, y, z⟩ := c
  obtain ⟨a, b, d⟩ := cpos
  simp only [List.mem_cons, List.mem_singleton, List.not_mem_nil, or_false, Vec3i.add,
    ChunkCoord.dir_north, ChunkCoord.dir_south, ChunkCoord.dir_east, ChunkCoord.dir_west,
    ChunkCoord.dir_up, ChunkCoord.dir_down, Vec3i.mk.injEq, face_adjacent]
  omega
theorem exists_fin_three (P : Fin 3 → Prop) : (∃ d, P d) ↔ P 0 ∨ P 1 ∨ P 2 := by
  constructor
  · rintro ⟨d, hd⟩
    fin_cases d
    · exact Or.inl hd
    · exact Or.inr (Or.inl hd)
    · exact Or.inr (Or.inr hd)
  · rintro (h | h | h)
    · exact ⟨0, h⟩
    · exact ⟨1, h⟩
    · exact ⟨2, h⟩

theorem voxel_set_neighbours_eq (event : VoxelSetEvent) :
    voxel_set_neighbours event
      = axis_neighbours event 0 ++ axis_neighbours event 1 ++ axis_neighbours event 2 := by
  simp only [voxel_set_neighbours, List.foldl, axis_neighbours, axis_offset]
  split_ifs <;> rfl

theorem axis_neighbours_spec (event : VoxelSetEvent) (dim : Fin 3) (cpos : ChunkCoord) :
    cpos ∈ axis_neighbours event dim
      ↔ (event.lpos.get dim = 0 ∧ cpos = Vec3i.sub event.cpos (axis_offset dim))
        ∨ (event.lpos.get dim = (CHUNK_SIZE : Int) - 1
            ∧ cpos = Vec3i.add event.cpos (axis_offset dim)) := by
  unfold axis_neighbours
  rw [CHUNK_SIZE_eq]
  have h16 : ((16 : Nat) : Int) - 1 = 15 := by norm_num
  rw [h16]
  by_cases h0 : event.lpos.get dim = 0
  · rw [if_pos h0]
    simp only [List.mem_singleton, h0, true_and]
    constructor
    · exact Or.inl
    · rintro (h | ⟨h, _⟩)
      · exact h
      · norm_num at h
  · rw [if_neg h0]
    by_cases h1 : event.lpos.get dim = 15
    · rw [if_pos h1]
      simp only [List.mem_singleton, h1, true_and]
      constructor
      · exact Or.inr
      · rintro (⟨h, _⟩ | h)
        · norm_num at h
        · exact h
    · rw [if_neg h1]
      simp [h0, h1]

theorem voxel_set_neighbours_spec (event : VoxelSetEvent) (cpos : ChunkCoord) :
    cpos ∈ voxel_set_neighbours event
      ↔ ∃ dim : Fin 3,
          (event.lpos.get dim = 0 ∧ cpos = Vec3i.sub event.cpos (axis_offset dim))
          ∨ (event.lpos.get dim = (CHUNK_SIZE : Int) - 1
              ∧ cpos = Vec3i.add event.cpos (axis_offset dim)) := by
  rw [exists_fin_three, voxel_set_neighbours_eq, List.mem_append, List.mem_append,
    axis_neighbours_spec, axis_neighbours_spec, axis_neighbours_spec, or_assoc]

theorem voxel_set_neighbours_length (event : VoxelSetEvent) :
    (voxel_set_neighbours event).length ≤ 3 := by
  rw [voxel_set_neighbours_eq]
  simp only [List.length_append, axis_neighbours]
  split_ifs <;> simp

/-- C16: after a chunk-create event, and after a bulk chunk-update event, at
the coordinate `c`, an entity carries the needs-meshing flag exactly when it
carried it before, or it is the entity of the event's chunk, or it is the entity
of a chunk the world holds at a coordinate face-adjacent to `c` (one of the six
coordinates that differ from `c` by one on one axis); nothing else of the state
changes. -/
theorem chunk_event_flags (st : MesherState) (created : ChunkCreateEvent)
    (updated : ChunkUpdateEvent) (e : Nat) :
    ((on_chunk_create st created).needs_meshing e = true
      ↔ st.needs_meshing e = true ∨ e = created.chunk.entity
        ∨ ∃ cpos chunk, face_adjacent created.coord cpos ∧ st.world cpos = some chunk
            ∧ chunk.entity = e)
    ∧ ((on_chunk_update st updated).needs_meshing e = true
      ↔ st.needs_meshing e = true ∨ e = updated.chunk.entity
        ∨ ∃ cpos chunk, face_adjacent updated.coord cpos ∧ st.world cpos = some chunk
            ∧ chunk.entity = e)
    ∧ on_chunk_create st created
        = { st with needs_meshing := (on_chunk_create st created).needs_meshing }
    ∧ on_chunk_update st updated
        = { st with needs_meshing := (on_chunk_update st updated).needs_meshing } := by
  have key : ∀ (c : ChunkCoord) (entity : Nat),
      flag_neighbours st.world (Function.update st.needs_meshing entity true)
          [Vec3i.add c ChunkCoord.dir_north, Vec3i.add c ChunkCoord.dir_south,
            Vec3i.add c ChunkCoord.dir_east, Vec3i.add c ChunkCoord.dir_west,
            Vec3i.add c ChunkCoord.dir_up, Vec3i.add c ChunkCoord.dir_down] e = true
        ↔ st.needs_meshing e = true ∨ e = entity
          ∨ ∃ cpos chunk, face_adjacent c cpos ∧ st.world cpos = some chunk
              ∧ chunk.entity = e := by
    intro c entity
    rw [flag_neighbours_spec]
    have hup : Function.update st.needs_meshing entity true e = true
        ↔ st.needs_meshing e = true ∨ e = entity := by
      by_cases he : e = entity
      · subst he; simp
      · simp [Function.update_noteq he, he]
    rw [hup, or_assoc]
    apply or_congr Iff.rfl
    apply or_congr Iff.rfl
    constructor
    · rintro ⟨cpos, hmem, chunk, hw, hent⟩
      exact ⟨cpos, chunk, (face_adjacent_iff c cpos).mp hmem, hw, hent⟩
    · rintro ⟨cpos, chunk, hadj, hw, hent⟩
      exact ⟨cpos, (face_adjacent_iff c cpos).mpr hadj, chunk, hw, hent⟩
  exact ⟨key created.coord created.chunk.entity, key updated.coord updated.chunk.entity, rfl, rfl⟩

/-- C17: after a single-voxel set at the local position `lpos` of the chunk at
`cpos`, an entity carries the needs-meshing flag exactly when it carried it
before, or it is the entity of the event's chunk, or it is the entity of a chunk
the world holds at `cpos - e_d` for an axis `d` with `lpos[d] = 0`, or at
`cpos + e_d` for an axis `d` with `lpos[d] = CHUNK_SIZE - 1`.  When the three
components of `lpos` lie in `1 .. CHUNK_SIZE - 2` only the event's chunk is
flagged, and the handler never looks at more than three neighbours. -/
theorem voxel_set_flags (st : MesherState) (event : VoxelSetEvent) (e : Nat) :
    ((on_voxel_set st event).needs_meshing e = true
      ↔ st.needs_meshing e = true ∨ e = event.chunk.entity
        ∨ ∃ (dim : Fin 3) (chunk : Chunk),
            ((event.lpos.get dim = 0
                ∧ st.world (Vec3i.sub event.cpos (axis_offset dim)) = some chunk)
              ∨ (event.lpos.get dim = (CHUNK_SIZE : Int) - 1
                ∧ st.world (Vec3i.add event.cpos (axis_offset dim)) = some chunk))
            ∧ chunk.entity = e)
    ∧ ((∀ dim : Fin 3, 1 ≤ event.lpos.get dim ∧ event.lpos.get dim ≤ (CHUNK_SIZE : Int) - 2) →
        on_voxel_set st event
          = { st with needs_meshing := Function.update st.needs_meshing event.chunk.entity true })
    ∧ (voxel_set_neighbours event).length ≤ 3
    ∧ (axis_offset 0 = ⟨1, 0, 0⟩ ∧ axis_offset 1 = ⟨0, 1, 0⟩ ∧ axis_offset 2 = ⟨0, 0, 1⟩) := by
  refine ⟨?_, ?_, voxel_set_neighbours_length event, ⟨rfl, rfl, rfl⟩⟩
  · show flag_neighbours st.world (Function.update st.needs_meshing event.chunk.entity true)
      (voxel_set_neighbours event) e = true ↔ _
    rw [flag_neighbours_spec]
    have hup : Function.update st.needs_meshing event.chunk.entity true e = true
        ↔ st.needs_meshing e = true ∨ e = event.chunk.entity := by
      by_cases he : e = event.chunk.entity
      · rw [he]; simp
      · simp [Function.update_noteq he, he]
    rw [hup, or_assoc]
    apply or_congr Iff.rfl
    apply or_congr Iff.rfl
    constructor
    · rintro ⟨cpos, hmem, chunk, hw, hent⟩
      obtain ⟨dim, h | h⟩ := (voxel_set_neighbours_spec event cpos).mp hmem
      · exact ⟨dim, chunk, Or.inl ⟨h.1, by rw [← h.2]; exact hw⟩, hent⟩
      · exact ⟨dim, chunk, Or.inr ⟨h.1, by rw [← h.2]; exact hw⟩, hent⟩
    · rintro ⟨dim, chunk, h | h, hent⟩
      · exact ⟨_, (voxel_set_neighbours_spec event _).mpr ⟨dim, Or.inl ⟨h.1, rfl⟩⟩, chunk, h.2,
          hent⟩
      · exact ⟨_, (voxel_set_neighbours_spec event _).mpr ⟨dim, Or.inr ⟨h.1, rfl⟩⟩, chunk, h.2,
          hent⟩
  · intro hin
    have hnil : voxel_set_neighbours event = [] := by
      apply List.eq_nil_iff_forall_not_mem.mpr
      intro cpos hmem
      obtain ⟨dim, h | h⟩ := (voxel_set_neighbours_spec event cpos).mp hmem
      · have := (hin dim).1
        omega
      · have := (hin dim).2
        omega
    unfold on_voxel_set
    simp only [hnil]
    rfl

/-! ## Remeshing -/

theorem cache_chunk_eq (world : World) (ctx : WorkerContext) (cpos : ChunkCoord)
    (hempty : ctx.cache (get_cached_cpos ctx.coord cpos) = fun _ => NULL_VOXEL) :
    cache_chunk world ctx cpos
      = { ctx with
          cache := Function.update ctx.cache (get_cached_cpos ctx.coord cpos)
            (snapshot world cpos) } := by
  unfold cache_chunk snapshot
  cases h : world cpos with
  | none =>
    simp only []
    rw [← hempty, Function.update_eq_self]
  | some chunk => rfl

/-- The worker `update` creates is made of the seven snapshots and nothing
else. -/
theorem new_worker_eq (world : World) (coord : ChunkCoord) :
    new_worker world coord = ⟨snapshots world coord, [], [], false, coord⟩ := by
  obtain ⟨gN, gS, gE, gW, gU, gD⟩ := get_cached_cpos_step coord
  have g0 := get_cached_cpos_itself coord
  have e0 : cache_chunk world { WorkerContext.fresh with coord := coord } coord
      = ⟨Function.update (fun _ _ => NULL_VOXEL) 0 (snapshot world coord), [], [], false,
          coord⟩ := by
    rw [cache_chunk_eq _ _ _ (by rfl)]
    simp only [g0]
    rfl
  have e1 : ∀ f : CachedChunkCoord → VoxelStorage, f 1 = (fun _ => NULL_VOXEL) →
      cache_chunk world ⟨f, [], [], false, coord⟩ (Vec3i.add coord ChunkCoord.dir_north)
      = ⟨Function.update f 1 (snapshot world (Vec3i.add coord ChunkCoord.dir_north)),
          [], [], false, coord⟩ := by
    intro f hf
    have hg : get_cached_cpos coord (Vec3i.add coord ChunkCoord.dir_north) = 1 := gN
    rw [cache_chunk_eq _ _ _ (by simp only [hg]; exact hf)]
    simp only [hg]
  have e2 : ∀ f : CachedChunkCoord → VoxelStorage, f 2 = (fun _ => NULL_VOXEL) →
      cache_chunk world ⟨f, [], [], false, coord⟩ (Vec3i.add coord ChunkCoord.dir_south)
      = ⟨Function.update f 2 (snapshot world (Vec3i.add coord ChunkCoord.dir_south)),
          [], [], false, coord⟩ := by
    intro f hf
    have hg : get_cached_cpos coord (Vec3i.add coord ChunkCoord.dir_south) = 2 := gS
    rw [cache_chunk_eq _ _ _ (by simp only [hg]; exact hf)]
    simp only [hg]
  have e3 : ∀ f : CachedChunkCoord → VoxelStorage, f 3 = (fun _ => NULL_VOXEL) →
      cache_chunk world ⟨f, [], [], false, coord⟩ (Vec3i.add coord ChunkCoord.dir_east)
      = ⟨Function.update f 3 (snapshot world (Vec3i.add coord ChunkCoord.dir_east)),
          [], [], false, coord⟩ := by
    intro f hf
    have hg : get_cached_cpos coord (Vec3i.add coord ChunkCoord.dir_east) = 3 := gE
    rw [cache_chunk_eq _ _ _ (by simp only [hg]; exact hf)]
    simp only [hg]
  have e4 : ∀ f : CachedChunkCoord → VoxelStorage, f 4 = (fun _ => NULL_VOXEL) →
      cache_chunk world ⟨f, [], [], false, coord⟩ (Vec3i.add coord ChunkCoord.dir_west)
      = ⟨Function.update f 4 (snapshot world (Vec3i.add coord ChunkCoord.dir_west)),
          [], [], false, coord⟩ := by
    intro f hf
    have hg : get_cached_cpos coord (Vec3i.add coord ChunkCoord.dir_west) = 4 := gW
    rw [cache_chunk_eq _ _ _ (by simp only [hg]; exact hf)]
    simp only [hg]
  have e5 : ∀ f : CachedChunkCoord → VoxelStorage, f 6 = (fun _ => NULL_VOXEL) →
      cache_chunk world ⟨f, [], [], false, coord⟩ (Vec3i.add coord ChunkCoord.dir_up)
      = ⟨Function.update f 6 (snapshot world (Vec3i.add coord ChunkCoord.dir_up)),
          [], [], false, coord⟩ := by
    intro f hf
    have hg : get_cached_cpos coord (Vec3i.add coord ChunkCoord.dir_up) = 6 := gU
    rw [cache_chunk_eq _ _ _ (by simp only [hg]; exact hf)]
    simp only [hg]
  have e6 : ∀ f : CachedChunkCoord → VoxelStorage, f 5 = (fun _ => NULL_VOXEL) →
      cache_chunk world ⟨f, [], [], false, coord⟩ (Vec3i.add coord ChunkCoord.dir_down)
      = ⟨Function.update f 5 (snapshot world (Vec3i.add coord ChunkCoord.dir_down)),
          [], [], false, coord⟩ := by
    intro f hf
    have hg : get_cached_cpos coord (Vec3i.add coord ChunkCoord.dir_down) = 5 := gD
    rw [cache_chunk_eq _ _ _ (by simp only [hg]; exact hf)]
    simp only [hg]
  have hw : new_worker world coord
      = cache_chunk world (cache_chunk world (cache_chunk world (cache_chunk world
          (cache_chunk world (cache_chunk world (cache_chunk world
            { WorkerContext.fresh with coord := coord } coord)
            (Vec3i.add coord ChunkCoord.dir_north)) (Vec3i.add coord ChunkCoord.dir_south))
            (Vec3i.add coord ChunkCoord.dir_east)) (Vec3i.add coord ChunkCoord.dir_west))
            (Vec3i.add coord ChunkCoord.dir_up)) (Vec3i.add coord ChunkCoord.dir_down) := rfl
  rw [hw, e0, e1 _ (by simp [Function.update]), e2 _ (by simp [Function.update]), e3 _ (by simp [Function.update]),
    e4 _ (by simp [Function.update]), e5 _ (by simp [Function.update]),
    e6 _ (by simp [Function.update])]
  rfl

theorem process_loop_flag_congr (G : Services) (flag flag' : Nat → Bool) :
    ∀ (n i : Nat) (ctx : WorkerContext), (∀ j, i ≤ j → j < i + n → flag j = flag' j) →
      process_loop G flag n i ctx = process_loop G flag' n i ctx := by
  intro n
  induction n with
  | zero => intro i ctx _; rfl
  | succ n ih =>
    intro i ctx h
    rw [process_loop, process_loop, h i (Nat.le_refl i) (by omega)]
    split
    · rfl
    · exact ih (i + 1) _ (fun j h1 h2 => h j (by omega) (by omega))

theorem snapshots_congr (world world' : World) (coord : ChunkCoord)
    (hown : snapshot world coord = snapshot world' coord)
    (hnb : ∀ cpos, face_adjacent coord cpos → snapshot world cpos = snapshot world' cpos) :
    snapshots world coord = snapshots world' coord := by
  unfold snapshots
  rw [hown, hnb _ ((face_adjacent_iff coord _).mp (by simp)),
    hnb (Vec3i.add coord ChunkCoord.dir_south) ((face_adjacent_iff coord _).mp (by simp)),
    hnb (Vec3i.add coord ChunkCoord.dir_east) ((face_adjacent_iff coord _).mp (by simp)),
    hnb (Vec3i.add coord ChunkCoord.dir_west) ((face_adjacent_iff coord _).mp (by simp)),
    hnb (Vec3i.add coord ChunkCoord.dir_up) ((face_adjacent_iff coord _).mp (by simp)),
    hnb (Vec3i.add coord ChunkCoord.dir_down) ((face_adjacent_iff coord _).mp (by simp))]

theorem process_builders_length (G : Services) (flag : Nat → Bool) (ctx : WorkerContext)
    (hnb : ctx.quads_nb = []) (hb : ctx.quads_b = [])
    (hflag : ∀ j, j < CHUNK_VOLUME → flag j = false) (c : Bool) :
    ((process G flag ctx).builders c).length = G.plane_count := by
  rw [process_eq]
  obtain ⟨_, _, h3, _⟩ := process_loop_spec (fun _ => true) G flag c CHUNK_VOLUME 0
    (ctx.resized G) (fun j _ hj => hflag j (by omega))
  rw [h3, (resized_fresh G ctx hnb hb c).2.2.1, List.length_replicate]
theorem class_quads_single (ctx : WorkerContext) (c : Bool)
    (h : (ctx.builders c).length = 1) : ctx.class_quads c = (ctx.builders c).getD 0 [] := by
  unfold WorkerContext.class_quads
  match hl : ctx.builders c, h with
  | [a], _ => simp

/-- Counterexample to C14 as stated: the chunk at the origin holds the same
voxels in `sample_world` and in `sample_world_east`, but its east neighbour does
not.  The build of the first world holds one quad for the east face of the stone
in cell 0, the build of the second holds none: the two uncancelled builds do not
hold the same quads, plane by plane and class by class, as multisets. -/
theorem remesh_neighbour_counterexample :
    snapshot sample_world ⟨0, 0, 0⟩ = snapshot sample_world_east ⟨0, 0, 0⟩
    ∧ (process sample_services never_cancelled
        (new_worker sample_world ⟨0, 0, 0⟩)).quads_of_face (LocalCoord.from_index 0)
          VoxelFace.CubeEast = 1
    ∧ (process sample_services never_cancelled
        (new_worker sample_world_east ⟨0, 0, 0⟩)).quads_of_face (LocalCoord.from_index 0)
          VoxelFace.CubeEast = 0
    ∧ ¬ (∀ (c : Bool) (plane : Nat),
          (((process sample_services never_cancelled
              (new_worker sample_world ⟨0, 0, 0⟩)).builders c).getD plane []).Perm
            (((process sample_services never_cancelled
              (new_worker sample_world_east ⟨0, 0, 0⟩)).builders c).getD plane [])) := by
  obtain ⟨_, ⟨hnb, hb⟩, _⟩ := new_worker_spec sample_world ⟨0, 0, 0⟩
  obtain ⟨_, ⟨hnb', hb'⟩, _⟩ := new_worker_spec sample_world_east ⟨0, 0, 0⟩
  have h1 : (process sample_services never_cancelled
      (new_worker sample_world ⟨0, 0, 0⟩)).quads_of_face (LocalCoord.from_index 0)
        VoxelFace.CubeEast = 1 :=
    visible_face_count sample_services never_cancelled _ hnb hb (fun _ _ => rfl) 0 (by decide)
      (VoxelFace.CubeEast, LocalCoord.dir_east, VIS_EAST) (by decide) sample_stone rfl rfl
      (by decide)
  have h0 : (process sample_services never_cancelled
      (new_worker sample_world_east ⟨0, 0, 0⟩)).quads_of_face (LocalCoord.from_index 0)
        VoxelFace.CubeEast = 0 := by
    apply hidden_face_count sample_services never_cancelled _ hnb' hb' 0
      (VoxelFace.CubeEast, LocalCoord.dir_east, VIS_EAST) (by decide)
    intro info hfind
    have hinfo : info = sample_stone := by
      have h : (some sample_stone : Option VoxelInfo) = some info := hfind
      exact (Option.some.inj h).symm
    subst hinfo
    rfl
  refine ⟨rfl, h1, h0, ?_⟩
  intro hperm
  have hlen : ∀ c, ((process sample_services never_cancelled
      (new_worker sample_world ⟨0, 0, 0⟩)).builders c).length = 1 := fun c =>
    process_builders_length sample_services never_cancelled _ hnb hb (fun _ _ => rfl) c
  have hlen' : ∀ c, ((process sample_services never_cancelled
      (new_worker sample_world_east ⟨0, 0, 0⟩)).builders c).length = 1 := fun c =>
    process_builders_length sample_services never_cancelled _ hnb' hb' (fun _ _ => rfl) c
  rw [quads_of_face_eq, class_quads_single _ _ (hlen false), class_quads_single _ _ (hlen true),
    (hperm false 0).countP_eq, (hperm true 0).countP_eq, ← class_quads_single _ _ (hlen' false),
    ← class_quads_single _ _ (hlen' true), ← quads_of_face_eq, h0] at h1
  exact absurd h1 (by decide)

/-- C14, amended: when the voxel data of the chunk and of its six face
neighbours (the seven snapshots a worker takes, a missing chunk counting as an
empty one) are the same at two builds, with the same voxel definitions and
atlas, two uncancelled builds of the chunk produce the same quad list in every
atlas plane and blending class, in the same order and so as multisets too. -/
theorem remesh_same_snapshots (G : Services) (flag flag' : Nat → Bool)
    (hflag : ∀ j, j < CHUNK_VOLUME → flag j = false)
    (hflag' : ∀ j, j < CHUNK_VOLUME → flag' j = false)
    (world world' : World) (coord : ChunkCoord)
    (hown : snapshot world coord = snapshot world' coord)
    (hnb : ∀ cpos, face_adjacent coord cpos → snapshot world cpos = snapshot world' cpos) :
    (process G flag (new_worker world coord)).quads_nb
        = (process G flag' (new_worker world' coord)).quads_nb
    ∧ (process G flag (new_worker world coord)).quads_b
        = (process G flag' (new_worker world' coord)).quads_b
    ∧ ∀ (c : Bool) (plane : Nat),
        (((process G flag (new_worker world coord)).builders c).getD plane []).Perm
          (((process G flag' (new_worker world' coord)).builders c).getD plane []) := by
  have hctx : new_worker world coord = new_worker world' coord := by
    rw [new_worker_eq, new_worker_eq, snapshots_congr world world' coord hown hnb]
  have hproc : process G flag (new_worker world coord)
      = process G flag' (new_worker world' coord) := by
    rw [hctx, process_eq, process_eq]
    exact process_loop_flag_congr G flag flag' CHUNK_VOLUME 0 _
      (fun j _ hj => by rw [hflag j (by omega), hflag' j (by omega)])
  rw [hproc]
  exact ⟨rfl, rfl, fun _ _ => List.Perm.refl _⟩

/-- Witness of C14: the chunk at the origin of `sample_world` and of
`sample_world_far`, which differ in a chunk two steps away. -/
theorem remesh_same_snapshots_witness :
    sample_world ⟨2, 0, 0⟩ = none ∧ (sample_world_far ⟨2, 0, 0⟩).isSome = true
    ∧ (process sample_services never_cancelled (new_worker sample_world ⟨0, 0, 0⟩)).quads_nb
        = (process sample_services never_cancelled
            (new_worker sample_world_far ⟨0, 0, 0⟩)).quads_nb :=
  ⟨rfl, rfl,
    (remesh_same_snapshots sample_services never_cancelled never_cancelled (fun _ _ => rfl)
      (fun _ _ => rfl) sample_world sample_world_far ⟨0, 0, 0⟩ rfl
      (fun cpos h => by
        have hne : cpos ≠ ⟨2, 0, 0⟩ := by
          intro he
          rw [he] at h
          unfold face_adjacent at h
          revert h
          decide
        simp [snapshot, sample_world, sample_world_far, hne])).1⟩

/-! ## The packed quad -/

theorem or_eq_add_of_dvd (n a b : Nat) (ha : 2 ^ n ∣ a) (hb : b < 2 ^ n) : a ||| b = a + b := by
  obtain ⟨c, rfl⟩ := ha
  exact (Nat.mul_add_lt_is_or hb c).symm

theorem mask_eq_self (n a : Nat) (ha : a < 2 ^ n) : (2 ^ n - 1) &&& a = a := by
  rw [Nat.and_comm, Nat.and_pow_two_sub_one_eq_mod, Nat.mod_eq_of_lt ha]

theorem f32_to_u32_nat (k : Nat) (hk : k < 2 ^ 32) : f32_to_u32 (k : ℚ) = k := by
  unfold f32_to_u32
  have hfloor : ⌊(k : ℚ)⌋ = (k : Int) := Int.floor_natCast k
  have : Rat.floor (k : ℚ) = (k : Int) := hfloor
  rw [this, Int.toNat_ofNat, Nat.mod_eq_of_lt hk]

theorem pack_word0 (x y z w h : Nat) (hy : y < 256) (hz : z < 256)
    (hw : w < 16) (hh : h < 16) :
    (0 ||| x <<< 24 ||| y <<< 16 ||| z <<< 8 ||| w <<< 4 ||| h)
      = x * 2 ^ 24 + y * 2 ^ 16 + z * 2 ^ 8 + w * 2 ^ 4 + h := by
  simp only [Nat.shiftLeft_eq, Nat.zero_or]
  rw [or_eq_add_of_dvd 24 (x * 2 ^ 24) (y * 2 ^ 16) (by omega) (by omega),
    or_eq_add_of_dvd 16 (x * 2 ^ 24 + y * 2 ^ 16) (z * 2 ^ 8) (by omega) (by omega),
    or_eq_add_of_dvd 8 (x * 2 ^ 24 + y * 2 ^ 16 + z * 2 ^ 8) (w * 2 ^ 4) (by omega) (by omega),
    or_eq_add_of_dvd 4 (x * 2 ^ 24 + y * 2 ^ 16 + z * 2 ^ 8 + w * 2 ^ 4) h (by omega)
      (by omega)]

theorem pack_word1 (f t a : Nat) (ht : t < 2048) (ha : a < 32) :
    (0 ||| f <<< 28 ||| t <<< 17 ||| a <<< 12) = f * 2 ^ 28 + t * 2 ^ 17 + a * 2 ^ 12 := by
  simp only [Nat.shiftLeft_eq, Nat.zero_or]
  rw [or_eq_add_of_dvd 28 (f * 2 ^ 28) (t * 2 ^ 17) (by omega) (by omega),
    or_eq_add_of_dvd 17 (f * 2 ^ 28 + t * 2 ^ 17) (a * 2 ^ 12) (by omega) (by omega)]

theorem facing_code_lt (facing : VoxelFacing) : facing.code < 16 := by
  cases facing <;> decide

theorem facing_code_injective (f g : VoxelFacing) (h : f.code = g.code) : f = g := by
  cases f <;> cases g <;> first | rfl | (exact absurd h (by decide))

/-- The two words `make_chunk_quad` builds from in-range fields, as sums. -/
theorem make_chunk_quad_eq (kx ky kz w h : Nat) (facing : VoxelFacing) (texture frames : Nat)
    (hx : kx < 256) (hy : ky < 256) (hz : kz < 256) (hw : 1 ≤ w ∧ w ≤ 16) (hh : 1 ≤ h ∧ h ≤ 16)
    (ht : texture < 2048) (hf : frames < 32) :
    make_chunk_quad ⟨(kx : ℚ) / 16, (ky : ℚ) / 16, (kz : ℚ) / 16⟩ ⟨(w : ℚ) / 16, (h : ℚ) / 16⟩
        facing texture frames
      = ⟨kx * 2 ^ 24 + ky * 2 ^ 16 + kz * 2 ^ 8 + (w - 1) * 2 ^ 4 + (h - 1),
          facing.code * 2 ^ 28 + texture * 2 ^ 17 + frames * 2 ^ 12⟩ := by
  have px : f32_to_u32 ((kx : ℚ) / 16 * 16) = kx := by
    rw [div_mul_cancel₀ _ (by norm_num : (16 : ℚ) ≠ 0)]; exact f32_to_u32_nat kx (by omega)
  have py : f32_to_u32 ((ky : ℚ) / 16 * 16) = ky := by
    rw [div_mul_cancel₀ _ (by norm_num : (16 : ℚ) ≠ 0)]; exact f32_to_u32_nat ky (by omega)
  have pz : f32_to_u32 ((kz : ℚ) / 16 * 16) = kz := by
    rw [div_mul_cancel₀ _ (by norm_num : (16 : ℚ) ≠ 0)]; exact f32_to_u32_nat kz (by omega)
  have pw : f32_to_u32 ((w : ℚ) / 16 * 16 - 1) = w - 1 := by
    rw [div_mul_cancel₀ _ (by norm_num : (16 : ℚ) ≠ 0)]
    have : (w : ℚ) - 1 = ((w - 1 : Nat) : ℚ) := by
      rw [Nat.cast_sub hw.1]; simp
    rw [this]
    exact f32_to_u32_nat (w - 1) (by omega)
  have ph : f32_to_u32 ((h : ℚ) / 16 * 16 - 1) = h - 1 := by
    rw [div_mul_cancel₀ _ (by norm_num : (16 : ℚ) ≠ 0)]
    have : (h : ℚ) - 1 = ((h - 1 : Nat) : ℚ) := by
      rw [Nat.cast_sub hh.1]; simp
    rw [this]
    exact f32_to_u32_nat (h - 1) (by omega)
  have hc := facing_code_lt facing
  have m8 : ∀ a, a < 256 → 0x000000FF &&& a = a := fun a ha => mask_eq_self 8 a (by omega)
  have m4 : ∀ a, a < 16 → 0x0000000F &&& a = a := fun a ha => mask_eq_self 4 a (by omega)
  have m11 : ∀ a, a < 2048 → 0x000007FF &&& a = a := fun a ha => mask_eq_self 11 a (by omega)
  have m5 : ∀ a, a < 32 → 0x0000001F &&& a = a := fun a ha => mask_eq_self 5 a (by omega)
  unfold make_chunk_quad
  simp only [px, py, pz, pw, ph]
  rw [Nat.mod_eq_of_lt (by omega : texture < 2 ^ 32), Nat.mod_eq_of_lt (by omega : frames < 2 ^ 32),
    m8 kx hx, m8 ky hy, m8 kz hz, m4 (w - 1) (by omega), m4 (h - 1) (by omega), m4 _ hc,
    m11 _ ht, m5 _ hf, pack_word0 kx ky kz (w - 1) (h - 1) hy hz (by omega) (by omega),
    pack_word1 _ _ _ ht hf]
theorem field_decode (word shift bits : Nat) :
    (word >>> shift) &&& (2 ^ bits - 1) = word / 2 ^ shift % 2 ^ bits := by
  rw [Nat.and_pow_two_sub_one_eq_mod, Nat.shiftRight_eq_div_pow]

/-- C18: for in-range fields (position components `kx/16`, `ky/16`, `kz/16`
with `kx, ky, kz < 256`, size components `w/16`, `h/16` with `1 ≤ w, h ≤ 16`, any
facing, texture below 2048, frames below 32) `make_chunk_quad` builds
`word0 = X<<24 | Y<<16 | Z<<8 | W<<4 | H` and `word1 = F<<28 | T<<17 | A<<12`
with `X, Y, Z = kx, ky, kz`, `W, H = w - 1, h - 1`, `F` the facing, `T` the
texture and `A` the frames; both words fit 32 bits and the low 12 bits of
`word1` are zero; every field is read back by a shift and a mask; and two
in-range inputs with the same packed quad are the same input. -/
theorem make_chunk_quad_layout (kx ky kz w h : Nat) (facing : VoxelFacing)
    (texture frames : Nat) (hx : kx < 256) (hy : ky < 256) (hz : kz < 256)
    (hw : 1 ≤ w ∧ w ≤ 16) (hh : 1 ≤ h ∧ h ≤ 16) (ht : texture < 2048) (hf : frames < 32) :
    ((quad_of_sixteenths kx ky kz w h facing texture frames).word0
        = kx <<< 24 ||| ky <<< 16 ||| kz <<< 8 ||| (w - 1) <<< 4 ||| (h - 1)
      ∧ (quad_of_sixteenths kx ky kz w h facing texture frames).word1
        = facing.code <<< 28 ||| texture <<< 17 ||| frames <<< 12)
    ∧ ((quad_of_sixteenths kx ky kz w h facing texture frames).word0 < 2 ^ 32
      ∧ (quad_of_sixteenths kx ky kz w h facing texture frames).word1 < 2 ^ 32
      ∧ (quad_of_sixteenths kx ky kz w h facing texture frames).word1 &&& 0xFFF = 0)
    ∧ (((quad_of_sixteenths kx ky kz w h facing texture frames).word0 >>> 24) &&& 0xFF = kx
      ∧ ((quad_of_sixteenths kx ky kz w h facing texture frames).word0 >>> 16) &&& 0xFF = ky
      ∧ ((quad_of_sixteenths kx ky kz w h facing texture frames).word0 >>> 8) &&& 0xFF = kz
      ∧ ((quad_of_sixteenths kx ky kz w h facing texture frames).word0 >>> 4) &&& 0xF = w - 1
      ∧ ((quad_of_sixteenths kx ky kz w h facing texture frames).word0 >>> 0) &&& 0xF = h - 1
      ∧ ((quad_of_sixteenths kx ky kz w h facing texture frames).word1 >>> 28) &&& 0xF
          = facing.code
      ∧ ((quad_of_sixteenths kx ky kz w h facing texture frames).word1 >>> 17) &&& 0x7FF
          = texture
      ∧ ((quad_of_sixteenths kx ky kz w h facing texture frames).word1 >>> 12) &&& 0x1F
          = frames)
    ∧ (∀ (kx' ky' kz' w' h' : Nat) (facing' : VoxelFacing) (texture' frames' : Nat),
        kx' < 256 → ky' < 256 → kz' < 256 → (1 ≤ w' ∧ w' ≤ 16) → (1 ≤ h' ∧ h' ≤ 16) →
        texture' < 2048 → frames' < 32 →
        quad_of_sixteenths kx' ky' kz' w' h' facing' texture' frames'
          = quad_of_sixteenths kx ky kz w h facing texture frames →
        kx' = kx ∧ ky' = ky ∧ kz' = kz ∧ w' = w ∧ h' = h ∧ facing' = facing
          ∧ texture' = texture ∧ frames' = frames) := by
  have hq := make_chunk_quad_eq kx ky kz w h facing texture frames hx hy hz hw hh ht hf
  have hc := facing_code_lt facing
  have e0 : (quad_of_sixteenths kx ky kz w h facing texture frames).word0
      = kx * 2 ^ 24 + ky * 2 ^ 16 + kz * 2 ^ 8 + (w - 1) * 2 ^ 4 + (h - 1) := by
    unfold quad_of_sixteenths; rw [hq]
  have e1 : (quad_of_sixteenths kx ky kz w h facing texture frames).word1
      = facing.code * 2 ^ 28 + texture * 2 ^ 17 + frames * 2 ^ 12 := by
    unfold quad_of_sixteenths; rw [hq]
  have d8 : ∀ word shift, (word >>> shift) &&& 0xFF = word / 2 ^ shift % 2 ^ 8 :=
    fun word shift => field_decode word shift 8
  have d4 : ∀ word shift, (word >>> shift) &&& 0xF = word / 2 ^ shift % 2 ^ 4 :=
    fun word shift => field_decode word shift 4
  have d11 : ∀ word shift, (word >>> shift) &&& 0x7FF = word / 2 ^ shift % 2 ^ 11 :=
    fun word shift => field_decode word shift 11
  have d5 : ∀ word shift, (word >>> shift) &&& 0x1F = word / 2 ^ shift % 2 ^ 5 :=
    fun word shift => field_decode word shift 5
  have d12 : ∀ word : Nat, word &&& 0xFFF = word % 2 ^ 12 :=
    fun word => Nat.and_pow_two_sub_one_eq_mod word 12
  refine ⟨⟨?_, ?_⟩, ⟨?_, ?_, ?_⟩, ⟨?_, ?_, ?_, ?_, ?_, ?_, ?_, ?_⟩, ?_⟩
  · rw [e0, ← pack_word0 kx ky kz (w - 1) (h - 1) hy hz (by omega) (by omega), Nat.zero_or]
  · rw [e1, ← pack_word1 _ _ _ ht hf, Nat.zero_or]
  · rw [e0]; omega
  · rw [e1]; omega
  · rw [d12, e1]; omega
  · rw [d8, e0]; omega
  · rw [d8, e0]; omega
  · rw [d8, e0]; omega
  · rw [d4, e0]; omega
  · rw [d4, e0]; omega
  · rw [d4, e1]; omega
  · rw [d11, e1]; omega
  · rw [d5, e1]; omega
  · intro kx' ky' kz' w' h' facing' texture' frames' hx' hy' hz' hw' hh' ht' hf' heq
    have hq' := make_chunk_quad_eq kx' ky' kz' w' h' facing' texture' frames' hx' hy' hz' hw'
      hh' ht' hf'
    have hc' := facing_code_lt facing'
    unfold quad_of_sixteenths at heq
    rw [hq, hq'] at heq
    have h0 := congrArg ChunkQuad.word0 heq
    have h1 := congrArg ChunkQuad.word1 heq
    simp only [] at h0 h1
    have hcode : facing'.code = facing.code := by omega
    refine ⟨by omega, by omega, by omega, by omega, by omega,
      facing_code_injective _ _ hcode, by omega, by omega⟩

/-- Witness of C18: the quad of a unit face at local position `(1, 2, 3)`,
facing up, texture 5, no frames. -/
theorem make_chunk_quad_layout_witness :
    (quad_of_sixteenths 16 32 48 16 16 VoxelFacing.FACING_UP 5 0).word0 = 0x102030FF
    ∧ (quad_of_sixteenths 16 32 48 16 16 VoxelFacing.FACING_UP 5 0).word1 = 0x400A0000 := by
  have h := (make_chunk_quad_layout 16 32 48 16 16 VoxelFacing.FACING_UP 5 0 (by decide)
    (by decide) (by decide) (by decide) (by decide) (by decide) (by decide)).1
  refine ⟨?_, ?_⟩
  · rw [h.1]; decide
  · rw [h.2]; decide

/-! ## The terrain pass and the heightmap -/

namespace overworld

theorem terrain_fold_voxels (L : GenEnv) (st : GenState) (cpos : ChunkCoord) :
    ∀ (l : List Nat) (md : Metadata) (v : VoxelStorage) (j : Nat),
      (l.foldl (terrain_step L st cpos) (md, v)).2 j
        = if j ∈ l ∧ terrain_solid L st cpos j = true then L.stone else v j := by
  intro l
  induction l with
  | nil => intro md v j; simp
  | cons x xs ih =>
    intro md v j
    obtain ⟨_, _, s3⟩ := terrain_step_spec L st cpos md v x
    simp only [List.foldl_cons]
    rw [ih (terrain_step L st cpos (md, v) x).1 (terrain_step L st cpos (md, v) x).2 j, s3]
    by_cases hx : terrain_solid L st cpos x = true
    · rw [if_pos hx]
      by_cases hj : j = x
      · subst hj
        simp [hx]
      · simp [hj, Function.update_noteq hj]
    · rw [if_neg hx]
      by_cases hj : j = x
      · subst hj
        simp [hx]
      · simp [hj]

theorem generate_terrain_voxels (L : GenEnv) (st : GenState) (cpos : ChunkCoord)
    (v : VoxelStorage) :
    (generate_terrain L st cpos v).2
      = (terrain_result L st cpos (get_metadata L st ⟨cpos.x, cpos.z⟩).2 v).2 := by
  rewrite [(generate_stages L st cpos v).1]
  with_reducible rfl

theorem terrain_result_eq (L : GenEnv) (st : GenState) (cpos : ChunkCoord) (md0 : Metadata)
    (v : VoxelStorage) :
    terrain_result L st cpos md0 v
      = (List.range CHUNK_VOLUME).foldl (terrain_step L st cpos) (md0, v) := rfl

/-- C20: after the terrain pass, a cell of the chunk holds stone when
`terrain_variation * noise(x, y, z) - y > 0` (the value of `get_noise`) or when
`|y| ≥ terrain_variation + 1` and `y < 0`; every other cell, and everything
outside the chunk, holds what it held before the pass. -/
theorem terrain_pass_writes_stone (L : GenEnv) (st : GenState) (cpos : ChunkCoord)
    (voxels : VoxelStorage) (index : Nat) :
    (generate_terrain L st cpos voxels).2 index
        = (if index < CHUNK_VOLUME
              ∧ (L.lt (L.lit 0)
                    (get_noise L st (ChunkCoord.to_voxel cpos (LocalCoord.from_index index))
                      st.terrain_variation) = true
                ∨ (cxpr.abs (ChunkCoord.to_voxel cpos (LocalCoord.from_index index)).y
                      ≥ st.terrain_variation + 1
                    ∧ (ChunkCoord.to_voxel cpos (LocalCoord.from_index index)).y < 0))
            then L.stone else voxels index)
    ∧ get_noise L st (ChunkCoord.to_voxel cpos (LocalCoord.from_index index))
          st.terrain_variation
        = L.sub
            (L.mul (L.of_int st.terrain_variation)
              (L.fnlGetNoise3D st.fnl_terrain
                (L.of_int (ChunkCoord.to_voxel cpos (LocalCoord.from_index index)).x)
                (L.of_int (ChunkCoord.to_voxel cpos (LocalCoord.from_index index)).y)
                (L.of_int (ChunkCoord.to_voxel cpos (LocalCoord.from_index index)).z)))
            (L.of_int (ChunkCoord.to_voxel cpos (LocalCoord.from_index index)).y) := by
  refine ⟨?_, rfl⟩
  rewrite [generate_terrain_voxels, terrain_result_eq, terrain_fold_voxels]
  have hsolid : terrain_solid L st cpos index = true
      ↔ (L.lt (L.lit 0)
            (get_noise L st (ChunkCoord.to_voxel cpos (LocalCoord.from_index index))
              st.terrain_variation) = true
          ∨ (cxpr.abs (ChunkCoord.to_voxel cpos (LocalCoord.from_index index)).y
                ≥ st.terrain_variation + 1
              ∧ (ChunkCoord.to_voxel cpos (LocalCoord.from_index index)).y < 0)) := by
    unfold terrain_solid
    simp only [Bool.or_eq_true, Bool.and_eq_true, decide_eq_true_eq]
    exact Or.comm
  by_cases hi : index < CHUNK_VOLUME
  · by_cases hs : terrain_solid L st cpos index = true
    · rw [if_pos ⟨List.mem_range.mpr hi, hs⟩, if_pos ⟨hi, hsolid.mp hs⟩]
    · rw [if_neg (fun h => hs h.2), if_neg (fun h => hs (hsolid.mpr h.2))]
  · rw [if_neg (fun h => hi (List.mem_range.mp h.1)), if_neg (fun h => hi h.1)]
theorem top_layer_spec (p : Nat → Bool) :
    ∀ n, (∀ k, top_layer p n = some k → k < n ∧ p k = true ∧ ∀ j, j < n → p j = true → j ≤ k)
      ∧ (top_layer p n = none → ∀ j, j < n → p j = false) := by
  intro n
  induction n with
  | zero =>
    refine ⟨fun k hk => ?_, fun _ j hj => absurd hj (Nat.not_lt_zero j)⟩
    simp [top_layer] at hk
  | succ n ih =>
    obtain ⟨i1, i2⟩ := ih
    by_cases hp : p n = true
    · have he : top_layer p (n + 1) = some n := by simp [top_layer, hp]
      refine ⟨fun k hk => ?_, fun hn => ?_⟩
      · rw [he] at hk
        cases hk
        exact ⟨Nat.lt_succ_self _, hp, fun j hj _ => Nat.le_of_lt_succ hj⟩
      · rw [he] at hn
        cases hn
    · have he : top_layer p (n + 1) = top_layer p n := by simp [top_layer, hp]
      refine ⟨fun k hk => ?_, fun hn j hj => ?_⟩
      · rw [he] at hk
        obtain ⟨a, b, c⟩ := i1 k hk
        refine ⟨Nat.lt_succ_of_lt a, b, fun j hj hpj => ?_⟩
        rcases Nat.lt_succ_iff_lt_or_eq.mp hj with hlt | heq
        · exact c j hlt hpj
        · rw [heq] at hpj
          exact absurd hpj hp
      · rw [he] at hn
        rcases Nat.lt_succ_iff_lt_or_eq.mp hj with hlt | heq
        · exact i2 hn j hlt
        · rw [heq]
          simpa using hp

theorem column_index_from_index (i : Nat) :
    column_index (LocalCoord.from_index i) = i % 256 := by
  simp only [column_index, LocalCoord.from_index, CHUNK_SIZE_eq]
  omega

theorem cell_y_eq (cpos : ChunkCoord) (i : Nat) :
    cell_y cpos i = cpos.y * 16 + ((i / 256 : Nat) : Int) := by
  simp only [cell_y, ChunkCoord.to_voxel, LocalCoord.from_index, CHUNK_SIZE_eq, two_pow_log2]
  omega

theorem column_cell_eq (ly h : Nat) : column_cell ly h = ly * 256 + h := by
  unfold column_cell CHUNK_AREA
  rw [CHUNK_SIZE_eq]

theorem carvers_step_spec (L : GenEnv) (st : GenState) (cpos : ChunkCoord) (md : Metadata)
    (v : VoxelStorage) (x : Nat) :
    (∀ h, (carvers_step L st cpos (md, v) x).1.heightmap h
        = if carvers_hit L st cpos x = true ∧ column_index (LocalCoord.from_index x) = h
              ∧ cell_y cpos x = md.heightmap h then INT64_MIN
          else md.heightmap h)
    ∧ (carvers_step L st cpos (md, v) x).1.entropy = md.entropy := by
  have hstep : carvers_step L st cpos (md, v) x
      = if cell_y cpos x > st.terrain_variation + 1 then (md, v)
        else if carver_test L st (ChunkCoord.to_voxel cpos (LocalCoord.from_index x)) = true then
          ((if cell_y cpos x = md.heightmap (column_index (LocalCoord.from_index x)) then
              ⟨md.entropy,
                Function.update md.heightmap (column_index (LocalCoord.from_index x)) INT64_MIN⟩
            else md), Function.update v x NULL_VOXEL)
        else (md, v) := rfl
  have hhit : carvers_hit L st cpos x
      = (!decide (cell_y cpos x > st.terrain_variation + 1)
          && carver_test L st (ChunkCoord.to_voxel cpos (LocalCoord.from_index x))) := rfl
  rw [hstep, hhit]
  generalize cell_y cpos x = y
  generalize carver_test L st (ChunkCoord.to_voxel cpos (LocalCoord.from_index x)) = t
  generalize column_index (LocalCoord.from_index x) = c
  by_cases h1 : y > st.terrain_variation + 1
  · simp [h1]
  · cases t with
    | false => simp [h1]
    | true =>
      by_cases h3 : y = md.heightmap c
      · refine ⟨fun h => ?_, ?_⟩
        · rw [if_neg h1, if_pos rfl, if_pos h3]
          by_cases hh : c = h
          · subst hh
            subst h3
            simp [h1]
          · simp [hh, Function.update_noteq (Ne.symm hh)]
        · rw [if_neg h1, if_pos rfl, if_pos h3]
      · refine ⟨fun h => ?_, ?_⟩
        · rw [if_neg h1, if_pos rfl, if_neg h3]
          by_cases hh : c = h
          · subst hh
            simp [h3]
          · simp [hh]
        · rw [if_neg h1, if_pos rfl, if_neg h3]

theorem carvers_fold_heightmap (L : GenEnv) (st : GenState) (cpos : ChunkCoord) (h : Nat) :
    ∀ (l : List Nat) (md : Metadata) (v : VoxelStorage),
      (∀ i, i ∈ l → cell_y cpos i ≠ INT64_MIN) →
      ((l.foldl (carvers_step L st cpos) (md, v)).1.heightmap h
          = if ∃ i, i ∈ l ∧ carvers_hit L st cpos i = true
                ∧ column_index (LocalCoord.from_index i) = h ∧ cell_y cpos i = md.heightmap h
            then INT64_MIN else md.heightmap h)
      ∧ (l.foldl (carvers_step L st cpos) (md, v)).1.entropy = md.entropy := by
  intro l
  induction l with
  | nil => intro md v _; simp
  | cons x xs ih =>
    intro md v hrep
    obtain ⟨s1, s2⟩ := carvers_step_spec L st cpos md v x
    obtain ⟨i1, i2⟩ := ih (carvers_step L st cpos (md, v) x).1 (carvers_step L st cpos (md, v) x).2
      (fun i hi => hrep i (List.mem_cons_of_mem x hi))
    simp only [List.foldl_cons]
    refine ⟨?_, i2.trans s2⟩
    rw [i1, s1 h]
    by_cases hx : carvers_hit L st cpos x = true ∧ column_index (LocalCoord.from_index x) = h
        ∧ cell_y cpos x = md.heightmap h
    · have hex0 : ∃ i, i ∈ x :: xs ∧ carvers_hit L st cpos i = true
          ∧ column_index (LocalCoord.from_index i) = h ∧ cell_y cpos i = md.heightmap h :=
        ⟨x, List.mem_cons_self x xs, hx⟩
      rw [if_pos hx, if_pos hex0]
      split
      · rfl
      · rfl
    · rw [if_neg hx]
      by_cases hex : ∃ i, i ∈ xs ∧ carvers_hit L st cpos i = true
          ∧ column_index (LocalCoord.from_index i) = h ∧ cell_y cpos i = md.heightmap h
      · rw [if_pos hex]
        obtain ⟨i, hi, hrest⟩ := hex
        have hex1 : ∃ i, i ∈ x :: xs ∧ carvers_hit L st cpos i = true
            ∧ column_index (LocalCoord.from_index i) = h ∧ cell_y cpos i = md.heightmap h :=
          ⟨i, List.mem_cons_of_mem x hi, hrest⟩
        rw [if_pos hex1]
      · rw [if_neg hex, if_neg]
        rintro ⟨i, hi, hrest⟩
        rcases List.mem_cons.mp hi with rfl | hi'
        · exact hx hrest
        · exact hex ⟨i, hi', hrest⟩
theorem terrain_top_some (L : GenEnv) (st : GenState) (cpos : ChunkCoord) (h i : Nat)
    (ht : terrain_top L st cpos h = some i) :
    ∃ ly, ly < 16 ∧ i = column_cell ly h ∧ terrain_solid L st cpos i = true
      ∧ ∀ ly', ly' < 16 → terrain_solid L st cpos (column_cell ly' h) = true → ly' ≤ ly := by
  unfold terrain_top at ht
  cases hl : top_layer (fun ly => terrain_solid L st cpos (column_cell ly h)) CHUNK_SIZE with
  | none => rw [hl] at ht; cases ht
  | some ly =>
    rw [hl] at ht
    have hi : column_cell ly h = i := by simpa using ht
    obtain ⟨a, b, c⟩ := (top_layer_spec _ CHUNK_SIZE).1 ly hl
    rw [CHUNK_SIZE_eq] at a c
    exact ⟨ly, a, hi.symm, by rw [← hi]; exact b, c⟩

theorem terrain_top_none (L : GenEnv) (st : GenState) (cpos : ChunkCoord) (h : Nat)
    (ht : terrain_top L st cpos h = none) :
    ∀ ly, ly < 16 → terrain_solid L st cpos (column_cell ly h) = false := by
  unfold terrain_top at ht
  cases hl : top_layer (fun ly => terrain_solid L st cpos (column_cell ly h)) CHUNK_SIZE with
  | none =>
    have := (top_layer_spec _ CHUNK_SIZE).2 hl
    rw [CHUNK_SIZE_eq] at this
    exact this
  | some ly => rw [hl] at ht; simp at ht

theorem column_cell_of_index (i h : Nat) (hi : i < CHUNK_VOLUME)
    (hc : column_index (LocalCoord.from_index i) = h) :
    i / 256 < 16 ∧ i = column_cell (i / 256) h := by
  rw [column_index_from_index] at hc
  rw [CHUNK_VOLUME_eq] at hi
  rw [column_cell_eq]
  omega

theorem cell_y_column_cell (cpos : ChunkCoord) (ly h : Nat) (hh : h < CHUNK_AREA) :
    cell_y cpos (column_cell ly h) = cpos.y * 16 + (ly : Int)
    ∧ column_index (LocalCoord.from_index (column_cell ly h)) = h := by
  have hh' : h < 256 := hh
  rw [cell_y_eq, column_index_from_index, column_cell_eq]
  constructor
  · have : (ly * 256 + h) / 256 = ly := by omega
    rw [this]
  · omega

theorem terrain_heightmap_fresh (L : GenEnv) (st : GenState) (cpos : ChunkCoord)
    (md0 : Metadata) (hmd : md0.heightmap = fun _ => INT64_MIN) (v : VoxelStorage) (h : Nat)
    (hh : h < CHUNK_AREA) (hrep : INT64_MIN < cpos.y * 16) :
    (terrain_result L st cpos md0 v).1.heightmap h
      = match terrain_top L st cpos h with
        | none => INT64_MIN
        | some i => cell_y cpos i := by
  rewrite [terrain_result_eq]
  obtain ⟨_, _, f3, f4⟩ := terrain_fold_spec L st cpos (List.range CHUNK_VOLUME) md0 v
  have hlow : ∀ ly : Nat, INT64_MIN < cpos.y * 16 + (ly : Int) := fun ly => by omega
  cases ht : terrain_top L st cpos h with
  | none =>
    simp only []
    rcases f4 h with heq | ⟨i, hi, hsol, hcol, _⟩
    · rw [heq, hmd]
    · obtain ⟨hly, hidx⟩ := column_cell_of_index i h (List.mem_range.mp hi) hcol
      have := terrain_top_none L st cpos h ht (i / 256) hly
      rw [← hidx, hsol] at this
      cases this
  | some i0 =>
    simp only []
    obtain ⟨ly0, hly0, hi0, hsol0, htop⟩ := terrain_top_some L st cpos h i0 ht
    obtain ⟨hy0, hc0⟩ := cell_y_column_cell cpos ly0 h hh
    have hmem0 : i0 ∈ List.range CHUNK_VOLUME := by
      rw [List.mem_range, hi0, column_cell_eq, CHUNK_VOLUME_eq]
      have : h < 256 := hh
      omega
    have hge := f3 h i0 hmem0 hsol0 (by rw [hi0]; exact hc0)
    rcases f4 h with heq | ⟨i, hi, hsol, hcol, heq⟩
    · rw [heq, hmd] at hge
      rw [hi0, hy0] at hge
      have := hlow ly0
      simp only [] at hge
      omega
    · obtain ⟨hly, hidx⟩ := column_cell_of_index i h (List.mem_range.mp hi) hcol
      have hle := htop (i / 256) hly (by rw [← hidx]; exact hsol)
      have hyi : cell_y cpos i = cpos.y * 16 + ((i / 256 : Nat) : Int) := cell_y_eq cpos i
      rw [heq] at hge ⊢
      rw [hi0, hy0] at hge ⊢
      rw [hyi] at hge ⊢
      have : ((i / 256 : Nat) : Int) ≤ (ly0 : Int) := by exact_mod_cast hle
      omega

theorem surface_result_metadata (L : GenEnv) (st : GenState) (cpos : ChunkCoord)
    (md0 : Metadata) (v : VoxelStorage) :
    (surface_result L st cpos md0 v).1 = (terrain_result L st cpos md0 v).1 := by
  unfold surface_result
  cases st.enable_surface
  · rewrite [if_neg Bool.false_ne_true]
    with_reducible rfl
  · rewrite [if_pos rfl]
    with_reducible rfl

theorem carvers_result_eq (L : GenEnv) (st : GenState) (cpos : ChunkCoord) (md0 : Metadata)
    (v : VoxelStorage) :
    carvers_result L st cpos md0 v
      = if st.enable_carvers = true then
          (List.range CHUNK_VOLUME).foldl (carvers_step L st cpos)
            ((surface_result L st cpos md0 v).1, (surface_result L st cpos md0 v).2)
        else surface_result L st cpos md0 v := rfl

/-- The heightmap the passes leave on metadata that starts unset. -/
theorem carvers_result_heightmap (L : GenEnv) (st : GenState) (cpos : ChunkCoord)
    (md0 : Metadata) (hmd : md0.heightmap = fun _ => INT64_MIN) (v : VoxelStorage) (h : Nat)
    (hh : h < CHUNK_AREA) (hrep : INT64_MIN < cpos.y * 16) :
    (carvers_result L st cpos md0 v).1.heightmap h = recorded_height L st cpos h
    ∧ (carvers_result L st cpos md0 v).1.entropy = md0.entropy := by
  have hterrain := terrain_heightmap_fresh L st cpos md0 hmd v h hh hrep
  have hent : (terrain_result L st cpos md0 v).1.entropy = md0.entropy := by
    rewrite [terrain_result_eq]
    exact (terrain_fold_spec L st cpos (List.range CHUNK_VOLUME) md0 v).1
  have hlow : ∀ i, cell_y cpos i ≠ INT64_MIN := by
    intro i
    rw [cell_y_eq]
    omega
  rewrite [carvers_result_eq]
  unfold recorded_height
  by_cases hc : st.enable_carvers = true
  · rewrite [if_pos hc]
    obtain ⟨c1, c2⟩ := carvers_fold_heightmap L st cpos h (List.range CHUNK_VOLUME)
      (surface_result L st cpos md0 v).1 (surface_result L st cpos md0 v).2 (fun i _ => hlow i)
    refine ⟨?_, ?_⟩
    · rewrite [c1, surface_result_metadata, hterrain]
      cases ht : terrain_top L st cpos h with
      | none =>
        simp only []
        split
        · rfl
        · rfl
      | some i0 =>
        simp only []
        obtain ⟨ly0, hly0, hi0, hsol0, htop⟩ := terrain_top_some L st cpos h i0 ht
        obtain ⟨hy0, hc0⟩ := cell_y_column_cell cpos ly0 h hh
        by_cases hhit : carvers_hit L st cpos i0 = true
        · have hex : ∃ i, i ∈ List.range CHUNK_VOLUME ∧ carvers_hit L st cpos i = true
              ∧ column_index (LocalCoord.from_index i) = h ∧ cell_y cpos i = cell_y cpos i0 := by
            refine ⟨i0, ?_, hhit, by rw [hi0]; exact hc0, rfl⟩
            rw [List.mem_range, hi0, column_cell_eq, CHUNK_VOLUME_eq]
            have : h < 256 := hh
            omega
          rw [if_pos hex, if_pos ⟨hc, hhit⟩]
        · have hnex : ¬ ∃ i, i ∈ List.range CHUNK_VOLUME ∧ carvers_hit L st cpos i = true
              ∧ column_index (LocalCoord.from_index i) = h ∧ cell_y cpos i = cell_y cpos i0 := by
            rintro ⟨i, hi, hhiti, hcol, hy⟩
            obtain ⟨hly, hidx⟩ := column_cell_of_index i h (List.mem_range.mp hi) hcol
            have e1 : cell_y cpos i = cpos.y * 16 + ((i / 256 : Nat) : Int) := cell_y_eq cpos i
            rw [e1, hi0, hy0] at hy
            have : i / 256 = ly0 := by omega
            rw [this, ← hi0] at hidx
            rw [hidx] at hhiti
            exact hhit hhiti
          rw [if_neg hnex, if_neg (fun hand => hhit hand.2)]
    · rewrite [c2, surface_result_metadata]
      exact hent
  · rewrite [if_neg hc]
    refine ⟨?_, ?_⟩
    · rewrite [surface_result_metadata, hterrain]
      cases ht : terrain_top L st cpos h with
      | none => rfl
      | some i0 =>
        simp only []
        rw [if_neg (fun hand => hc hand.1)]
    · rewrite [surface_result_metadata]
      exact hent
theorem after_features_state (L : GenEnv) (st : GenState) (cpos : ChunkCoord)
    (v : VoxelStorage) :
    (after_features L st cpos v).1 = (after_carvers L st cpos v).1 := by
  obtain ⟨_, _, hC, _⟩ := generate_stages L st cpos v
  unfold after_features
  rewrite [hC]
  cases hb : (put_metadata (get_metadata L st ⟨cpos.x, cpos.z⟩).1 ⟨cpos.x, cpos.z⟩
      (carvers_result L st cpos (get_metadata L st ⟨cpos.x, cpos.z⟩).2 v).1).enable_features
  · rewrite [if_neg Bool.false_ne_true]
    with_reducible rfl
  · rewrite [if_pos rfl, generate_features_some L _ cpos _ _ (put_metadata_map _ _ _)]
    with_reducible rfl

/-- What `generate` leaves for a chunk row it accepts: the metadata of the
column is the one the carver pass leaves, and the grid is `passes_grid`. -/
theorem generate_result (L : GenEnv) (st : GenState) (cpos : ChunkCoord) (v : VoxelStorage)
    (hrow : ¬ (cpos.y < st.bottommost_chunk
      ∨ cpos.y > (CHUNK_SIZE : Int) * st.terrain_variation)) :
    (generate L st cpos v).1 = true
    ∧ (generate L st cpos v).2.1.metadata_map ⟨cpos.x, cpos.z⟩
        = some (carvers_result L st cpos (get_metadata L st ⟨cpos.x, cpos.z⟩).2 v).1
    ∧ (generate L st cpos v).2.2
        = passes_grid L st cpos (get_metadata L st ⟨cpos.x, cpos.z⟩).2 v := by
  obtain ⟨_, _, hC, hF⟩ := generate_stages L st cpos v
  rewrite [generate_eq L st cpos v hrow]
  refine ⟨rfl, ?_, ?_⟩
  · show (after_features L st cpos v).1.metadata_map ⟨cpos.x, cpos.z⟩ = _
    rewrite [after_features_state, hC]
    exact put_metadata_map _ _ _
  · exact hF

theorem get_metadata_fresh (L : GenEnv) (st : GenState) (c : ChunkCoord2D)
    (h : st.metadata_map c = none) :
    (get_metadata L st c).2.heightmap = (fun _ => INT64_MIN)
    ∧ (get_metadata L st c).2.entropy
        = (draw_entropy L CHUNK_AREA 0 st.twister (fun _ => 0)).2 := by
  unfold get_metadata
  rw [h]
  exact ⟨rfl, rfl⟩

theorem grid_top_ge (cpos : ChunkCoord) (voxels : VoxelStorage) (h ly : Nat)
    (hh : h < CHUNK_AREA) (hly : ly < 16) (hv : voxels (column_cell ly h) ≠ NULL_VOXEL) :
    cell_y cpos (column_cell ly h) ≤ grid_top cpos voxels h := by
  unfold grid_top
  obtain ⟨s1, s2⟩ := top_layer_spec
    (fun ly => decide (voxels (column_cell ly h) ≠ NULL_VOXEL)) CHUNK_SIZE
  cases ht : top_layer (fun ly => decide (voxels (column_cell ly h) ≠ NULL_VOXEL)) CHUNK_SIZE with
  | none =>
    have := s2 ht ly (by rw [CHUNK_SIZE_eq]; exact hly)
    simp [hv] at this
  | some k =>
    simp only []
    obtain ⟨_, _, c⟩ := s1 k ht
    have hle := c ly (by rw [CHUNK_SIZE_eq]; exact hly) (by simp [hv])
    rw [(cell_y_column_cell cpos ly h hh).1, (cell_y_column_cell cpos k h hh).1]
    have : (ly : Int) ≤ (k : Int) := by exact_mod_cast hle
    omega

theorem low_terrain_solid (st : GenState) (h1 : st.terrain_variation = 64)
    (h2 : st.fnl_terrain.noise_type = fnl_noise_type.FNL_NOISE_OPENSIMPLEX2S)
    (cpos : ChunkCoord) (i : Nat) :
    terrain_solid sample_env_low st cpos i = decide (cell_y cpos i < -8) := by
  have hnoise : ∀ vpos : VoxelCoord,
      sample_env_low.lt (sample_env_low.lit 0) (get_noise sample_env_low st vpos 64)
        = decide (vpos.y < -8) := by
    intro vpos
    have hval : get_noise sample_env_low st vpos 64
        = (((64 : Int) : ℚ) * (-1 / 8) - (vpos.y : ℚ) : ℚ) := by
      unfold get_noise
      simp only [sample_env_low, h2]
      rfl
    rw [hval]
    show decide ((0 : ℚ) < ((64 : Int) : ℚ) * (-1 / 8) - (vpos.y : ℚ)) = decide (vpos.y < -8)
    by_cases hy : vpos.y < -8
    · have hq : (vpos.y : ℚ) < -8 := by exact_mod_cast hy
      rw [decide_eq_true hy, decide_eq_true]
      push_cast
      linarith
    · have hq : ¬ (vpos.y : ℚ) < -8 := by exact_mod_cast hy
      rw [decide_eq_false hy, decide_eq_false]
      push_cast
      linarith
  unfold terrain_solid cell_y
  simp only []
  rw [h1, hnoise]
  generalize (ChunkCoord.to_voxel cpos (LocalCoord.from_index i)).y = y
  unfold cxpr.abs
  by_cases hy : y < -8
  · simp [hy]
  · have hneg : ¬ ((if y < 0 then -y else y) ≥ 64 + 1 ∧ y < 0) := by
      rintro ⟨ha, hb⟩
      rw [if_pos hb] at ha
      omega
    rw [decide_eq_false hy, Bool.or_false]
    rw [← Bool.decide_and, decide_eq_false hneg]

theorem low_carvers_hit (st : GenState)
    (h7 : st.fnl_caves_a.noise_type = fnl_noise_type.FNL_NOISE_PERLIN)
    (h8 : st.fnl_caves_b.noise_type = fnl_noise_type.FNL_NOISE_PERLIN)
    (cpos : ChunkCoord) (i : Nat) :
    carvers_hit sample_env_low st cpos i = false := by
  unfold carvers_hit carver_test
  simp only [sample_env_low, h7, h8]
  have hq : decide ((1 : ℚ) * 1 + 1 * 1 ≤ 1 / 1024) = false := by
    rw [decide_eq_false_iff_not]
    norm_num
  simp only [if_true, hq, Bool.and_false]

theorem low_session_metadata (c : ChunkCoord2D) :
    (get_metadata sample_env_low low_session c).2.heightmap = (fun _ => INT64_MIN)
    ∧ ∀ j, j < CHUNK_AREA → (get_metadata sample_env_low low_session c).2.entropy j = 3 + j := by
  have hnone : low_session.metadata_map c = none := rfl
  have htw : low_session.twister = ⟨0, 3⟩ := rfl
  obtain ⟨g1, g2⟩ := get_metadata_fresh sample_env_low low_session c hnone
  refine ⟨g1, fun j hj => ?_⟩
  rw [g2, (draw_entropy_spec sample_env_low CHUNK_AREA 0 low_session.twister (fun _ => 0)).2 j,
    if_pos ⟨Nat.zero_le j, by omega⟩, htw]
  show 0 + (3 + (j - 0)) = 3 + j
  omega

theorem low_terrain_top :
    terrain_top sample_env_low low_session ⟨0, -1, 0⟩ 67 = some (column_cell 7 67) := by
  unfold terrain_top
  have hf : (fun ly => terrain_solid sample_env_low low_session ⟨0, -1, 0⟩ (column_cell ly 67))
      = fun ly => decide (cell_y ⟨0, -1, 0⟩ (column_cell ly 67) < -8) := by
    funext ly
    exact low_terrain_solid low_session rfl rfl _ _
  rw [hf]
  decide

theorem low_features_hit (md : Metadata) (h0 : md.entropy 0 = 3) (h1 : md.entropy 1 = 4)
    (h2 : md.entropy 2 = 5) (hm : md.heightmap 67 = -9) :
    features_hit md ⟨0, -1, 0⟩ (column_cell 11 67) = true := by
  unfold features_hit
  have hl : LocalCoord.from_index (column_cell 11 67) = ⟨3, 11, 4⟩ := by decide
  have hv : ChunkCoord.to_voxel ⟨0, -1, 0⟩ ⟨3, 11, 4⟩ = ⟨3, -5, 4⟩ := by decide
  have hc : column_index ⟨3, 11, 4⟩ = 67 := by decide
  rw [hl, hv, hc]
  have hx : feature_lx md 0 = 3 := by unfold feature_lx; rw [h0]; decide
  have hz : feature_lz md 0 = 4 := by unfold feature_lz; rw [h1]; decide
  have hh : feature_height md 0 = 4 := by unfold feature_height; rw [h2]; decide
  show (if (3 : Int) = feature_lx md 0 ∧ (4 : Int) = feature_lz md 0 then
      cxpr.range (wrap64 (-5 - md.heightmap 67)) 1 (feature_height md 0)
    else features_scan_hit md ⟨3, 11, 4⟩ ⟨3, -5, 4⟩ 67 4 1) = _
  rw [hx, hz, hh, if_pos ⟨rfl, rfl⟩, hm]
  decide
theorem surface_step_null (L : GenEnv) (st : GenState) (cpos : ChunkCoord) (v : VoxelStorage)
    (x j : Nat) (hg : L.grass ≠ NULL_VOXEL) (hd : L.dirt ≠ NULL_VOXEL) :
    surface_step L st cpos v x j = NULL_VOXEL ↔ v j = NULL_VOXEL := by
  unfold surface_step
  simp only []
  split
  · exact Iff.rfl
  · split
    · exact Iff.rfl
    · next hx =>
      split
      · split
        · by_cases hj : j = x
          · subst hj
            simp [hg, hx]
          · simp [Function.update_noteq hj]
        · by_cases hj : j = x
          · subst hj
            simp [hd, hx]
          · simp [Function.update_noteq hj]
      · exact Iff.rfl

theorem surface_fold_null (L : GenEnv) (st : GenState) (cpos : ChunkCoord) (j : Nat)
    (hg : L.grass ≠ NULL_VOXEL) (hd : L.dirt ≠ NULL_VOXEL) :
    ∀ (l : List Nat) (v : VoxelStorage),
      (l.foldl (surface_step L st cpos) v) j = NULL_VOXEL ↔ v j = NULL_VOXEL := by
  intro l
  induction l with
  | nil => intro v; exact Iff.rfl
  | cons x xs ih =>
    intro v
    simp only [List.foldl_cons]
    rw [ih, surface_step_null L st cpos v x j hg hd]

theorem top_layer_congr (p q : Nat → Bool) :
    ∀ n, (∀ k, k < n → p k = q k) → top_layer p n = top_layer q n := by
  intro n
  induction n with
  | zero => intro _; rfl
  | succ n ih =>
    intro h
    unfold top_layer
    rw [h n (Nat.lt_succ_self n), ih (fun k hk => h k (Nat.lt_succ_of_lt hk))]

theorem surface_result_voxels (L : GenEnv) (st : GenState) (cpos : ChunkCoord)
    (md0 : Metadata) (v : VoxelStorage) :
    (surface_result L st cpos md0 v).2
      = if st.enable_surface = true then
          (List.range CHUNK_VOLUME).foldl (surface_step L st cpos)
            (terrain_result L st cpos md0 v).2
        else (terrain_result L st cpos md0 v).2 := by
  unfold surface_result
  cases st.enable_surface
  · rewrite [if_neg Bool.false_ne_true, if_neg Bool.false_ne_true]
    with_reducible rfl
  · rewrite [if_pos rfl, if_pos rfl]
    with_reducible rfl

theorem passes_grid_plain (L : GenEnv) (st : GenState) (cpos : ChunkCoord) (md0 : Metadata)
    (v : VoxelStorage) (hc : st.enable_carvers = false) (hf : st.enable_features = false) :
    passes_grid L st cpos md0 v = (surface_result L st cpos md0 v).2 := by
  unfold passes_grid
  rewrite [if_neg (by rw [hf]; exact Bool.false_ne_true), carvers_result_eq,
    if_neg (by rw [hc]; exact Bool.false_ne_true)]
  with_reducible rfl

/-- With the carver pass and the feature pass disabled, the non-empty cells of
the grid the passes build from an empty grid are the cells the terrain pass
marked solid. -/
theorem plain_grid_solid (L : GenEnv) (st : GenState) (cpos : ChunkCoord) (md0 : Metadata)
    (hc : st.enable_carvers = false) (hf : st.enable_features = false)
    (hs : L.stone ≠ NULL_VOXEL) (hg : L.grass ≠ NULL_VOXEL) (hd : L.dirt ≠ NULL_VOXEL)
    (j : Nat) (hj : j < CHUNK_VOLUME) :
    decide (passes_grid L st cpos md0 empty_grid j ≠ NULL_VOXEL) = terrain_solid L st cpos j := by
  have hterrain : (terrain_result L st cpos md0 empty_grid).2 j = NULL_VOXEL
      ↔ terrain_solid L st cpos j = false := by
    rewrite [terrain_result_eq, terrain_fold_voxels]
    by_cases hsol : terrain_solid L st cpos j = true
    · rw [if_pos ⟨List.mem_range.mpr hj, hsol⟩]
      simp [hs, hsol]
    · rw [if_neg (fun h => hsol h.2)]
      simp [empty_grid, hsol]
  have hsurface : (surface_result L st cpos md0 empty_grid).2 j = NULL_VOXEL
      ↔ terrain_solid L st cpos j = false := by
    rewrite [surface_result_voxels]
    cases st.enable_surface
    · rewrite [if_neg Bool.false_ne_true]
      exact hterrain
    · rewrite [if_pos rfl, surface_fold_null L st cpos j hg hd]
      exact hterrain
  rewrite [passes_grid_plain L st cpos md0 empty_grid hc hf]
  cases hsol : terrain_solid L st cpos j
  · rw [decide_eq_false_iff_not, not_not]
    exact hsurface.mpr hsol
  · rw [decide_eq_true_iff]
    intro hnull
    have := hsurface.mp hnull
    rw [hsol] at this
    cases this

theorem plain_grid_top (L : GenEnv) (st : GenState) (cpos : ChunkCoord) (md0 : Metadata)
    (hc : st.enable_carvers = false) (hf : st.enable_features = false)
    (hs : L.stone ≠ NULL_VOXEL) (hg : L.grass ≠ NULL_VOXEL) (hd : L.dirt ≠ NULL_VOXEL)
    (h : Nat) (hh : h < CHUNK_AREA) :
    grid_top cpos (passes_grid L st cpos md0 empty_grid) h = recorded_height L st cpos h := by
  have hcong := top_layer_congr
    (fun ly => decide (passes_grid L st cpos md0 empty_grid (column_cell ly h) ≠ NULL_VOXEL))
    (fun ly => terrain_solid L st cpos (column_cell ly h)) CHUNK_SIZE
    (fun k hk => by
      apply plain_grid_solid L st cpos md0 hc hf hs hg hd
      rw [CHUNK_SIZE_eq] at hk
      have hh' : h < 256 := hh
      rw [column_cell_eq, CHUNK_VOLUME_eq]
      omega)
  unfold grid_top recorded_height terrain_top
  rewrite [hcong]
  cases top_layer (fun ly => terrain_solid L st cpos (column_cell ly h)) CHUNK_SIZE with
  | none => rfl
  | some ly =>
    simp only [Option.map_some']
    rw [if_neg (fun hand => by rw [hc] at hand; exact Bool.false_ne_true hand.1)]

/-- Counterexample to C19 as stated: in the session of `sample_env_low` the
chunk `(0, -1, 0)` is generated on a column without metadata, and no cell is
carved.  The terrain is solid up to world y `-9`, and the heightmap entry of the
column cell 67 is `-9`; but the feature pass has put a voxel into that column
cell at world y `-5`, so the entry is not the world y of the topmost non-empty
voxel of the generated grid. -/
theorem heightmap_counterexample :
    low_session.metadata_map ⟨0, 0⟩ = none
    ∧ (∀ i, carvers_hit sample_env_low low_session ⟨0, -1, 0⟩ i = false)
    ∧ (generate sample_env_low low_session ⟨0, -1, 0⟩ empty_grid).1 = true
    ∧ ∃ md, (generate sample_env_low low_session ⟨0, -1, 0⟩ empty_grid).2.1.metadata_map ⟨0, 0⟩
          = some md
        ∧ md.heightmap 67 = -9
        ∧ (generate sample_env_low low_session ⟨0, -1, 0⟩ empty_grid).2.2 (column_cell 11 67) = 4
        ∧ cell_y ⟨0, -1, 0⟩ (column_cell 11 67) = -5
        ∧ md.heightmap 67
            ≠ grid_top ⟨0, -1, 0⟩
                (generate sample_env_low low_session ⟨0, -1, 0⟩ empty_grid).2.2 67 := by
  have hrow : ¬ ((⟨0, -1, 0⟩ : ChunkCoord).y < low_session.bottommost_chunk
      ∨ (⟨0, -1, 0⟩ : ChunkCoord).y > (CHUNK_SIZE : Int) * low_session.terrain_variation) := by
    decide
  obtain ⟨g1, g2', g3'⟩ := generate_result sample_env_low low_session ⟨0, -1, 0⟩ empty_grid hrow
  have g2 : (generate sample_env_low low_session ⟨0, -1, 0⟩ empty_grid).2.1.metadata_map ⟨0, 0⟩
      = some (carvers_result sample_env_low low_session ⟨0, -1, 0⟩
          (get_metadata sample_env_low low_session ⟨0, 0⟩).2 empty_grid).1 := g2'
  have g3 : (generate sample_env_low low_session ⟨0, -1, 0⟩ empty_grid).2.2
      = passes_grid sample_env_low low_session ⟨0, -1, 0⟩
          (get_metadata sample_env_low low_session ⟨0, 0⟩).2 empty_grid := g3'
  obtain ⟨m1, m2⟩ := low_session_metadata ⟨0, 0⟩
  obtain ⟨c1, c2⟩ := carvers_result_heightmap sample_env_low low_session ⟨0, -1, 0⟩
    (get_metadata sample_env_low low_session ⟨0, 0⟩).2 m1 empty_grid 67 (by decide) (by decide)
  have hhit := low_carvers_hit low_session rfl rfl ⟨0, -1, 0⟩
  have hheight : (carvers_result sample_env_low low_session ⟨0, -1, 0⟩
      (get_metadata sample_env_low low_session ⟨0, 0⟩).2 empty_grid).1.heightmap 67 = -9 := by
    rewrite [c1]
    unfold recorded_height
    rewrite [low_terrain_top]
    simp only []
    rw [if_neg (fun hand => by rw [hhit] at hand; exact Bool.false_ne_true hand.2)]
    decide
  have hcell : (generate sample_env_low low_session ⟨0, -1, 0⟩ empty_grid).2.2
      (column_cell 11 67) = 4 := by
    rewrite [g3]
    unfold passes_grid
    rewrite [if_pos (show low_session.enable_features = true from rfl), features_fold_spec]
    have hf := low_features_hit
      (carvers_result sample_env_low low_session ⟨0, -1, 0⟩
        (get_metadata sample_env_low low_session ⟨0, 0⟩).2 empty_grid).1
      (by rw [c2]; exact m2 0 (by decide)) (by rw [c2]; exact m2 1 (by decide))
      (by rw [c2]; exact m2 2 (by decide)) hheight
    rw [if_pos ⟨List.mem_range.mpr (by decide), hf⟩]
    exact rfl
  have hy : cell_y ⟨0, -1, 0⟩ (column_cell 11 67) = -5 := by decide
  refine ⟨rfl, hhit, g1, (carvers_result sample_env_low low_session ⟨0, -1, 0⟩
    (get_metadata sample_env_low low_session ⟨0, 0⟩).2 empty_grid).1, g2, hheight, hcell, hy, ?_⟩
  have hge := grid_top_ge ⟨0, -1, 0⟩
    (generate sample_env_low low_session ⟨0, -1, 0⟩ empty_grid).2.2 67 11 (by decide) (by decide)
    (by rw [hcell]; decide)
  rw [hy] at hge
  rw [hheight]
  omega

/-- C19, amended: after `generate` has returned true for a chunk on a column
whose metadata it created, the heightmap entry of a column cell is the world y
of the topmost cell of that column cell that the terrain pass marked solid in
this chunk, or the unset sentinel when the terrain pass marked none or when the
carver pass (if enabled) emptied that very cell.  The voxels the feature pass
adds above it are not recorded, and a carved topmost cell is not replaced by the
next solid cell below it.  With the carver pass and the feature pass disabled
(and stone, grass and dirt other than the empty voxel) the entry is the world y
of the topmost non-empty voxel of the grid generated from an empty one. -/
theorem heightmap_records_terrain_top (L : GenEnv) (st : GenState) (cpos : ChunkCoord)
    (voxels : VoxelStorage) (h : Nat)
    (hfresh : st.metadata_map ⟨cpos.x, cpos.z⟩ = none)
    (hrow : ¬ (cpos.y < st.bottommost_chunk
      ∨ cpos.y > (CHUNK_SIZE : Int) * st.terrain_variation))
    (hrep : INT64_MIN < cpos.y * 16) (hh : h < CHUNK_AREA) :
    (generate L st cpos voxels).1 = true
    ∧ (∃ md, (generate L st cpos voxels).2.1.metadata_map ⟨cpos.x, cpos.z⟩ = some md
        ∧ md.heightmap h
            = match terrain_top L st cpos h with
              | none => INT64_MIN
              | some i =>
                if st.enable_carvers = true ∧ carvers_hit L st cpos i = true then INT64_MIN
                else cell_y cpos i)
    ∧ (∀ i, terrain_top L st cpos h = some i →
        i < CHUNK_VOLUME ∧ column_index (LocalCoord.from_index i) = h
        ∧ terrain_solid L st cpos i = true
        ∧ ∀ j, j < CHUNK_VOLUME → column_index (LocalCoord.from_index j) = h →
            terrain_solid L st cpos j = true → cell_y cpos j ≤ cell_y cpos i)
    ∧ (terrain_top L st cpos h = none →
        ∀ j, j < CHUNK_VOLUME → column_index (LocalCoord.from_index j) = h →
          terrain_solid L st cpos j = false)
    ∧ (st.enable_carvers = false → st.enable_features = false →
        L.stone ≠ NULL_VOXEL → L.grass ≠ NULL_VOXEL → L.dirt ≠ NULL_VOXEL →
        ∃ md, (generate L st cpos empty_grid).2.1.metadata_map ⟨cpos.x, cpos.z⟩ = some md
          ∧ md.heightmap h = grid_top cpos (generate L st cpos empty_grid).2.2 h) := by
  obtain ⟨g1, g2, _⟩ := generate_result L st cpos voxels hrow
  obtain ⟨m1, _⟩ := get_metadata_fresh L st ⟨cpos.x, cpos.z⟩ hfresh
  obtain ⟨c1, _⟩ := carvers_result_heightmap L st cpos (get_metadata L st ⟨cpos.x, cpos.z⟩).2 m1
    voxels h hh hrep
  refine ⟨g1, ⟨_, g2, c1⟩, ?_, ?_, ?_⟩
  rotate_left 2
  · intro hc hf hs hg hd
    obtain ⟨_, e2, e3⟩ := generate_result L st cpos empty_grid hrow
    obtain ⟨d1, _⟩ := carvers_result_heightmap L st cpos
      (get_metadata L st ⟨cpos.x, cpos.z⟩).2 m1 empty_grid h hh hrep
    refine ⟨_, e2, ?_⟩
    rewrite [d1, e3, plain_grid_top L st cpos _ hc hf hs hg hd h hh]
    rfl
  · intro i hi
    obtain ⟨ly, hly, hidx, hsol, htop⟩ := terrain_top_some L st cpos h i hi
    obtain ⟨hy, hc⟩ := cell_y_column_cell cpos ly h hh
    have hh' : h < 256 := hh
    refine ⟨?_, by rw [hidx]; exact hc, hsol, ?_⟩
    · rw [hidx, column_cell_eq, CHUNK_VOLUME_eq]
      omega
    · intro j hj hcj hsj
      obtain ⟨hlj, hjdx⟩ := column_cell_of_index j h hj hcj
      have hle := htop (j / 256) hlj (by rw [← hjdx]; exact hsj)
      rw [hidx, hy, cell_y_eq]
      have : ((j / 256 : Nat) : Int) ≤ (ly : Int) := by exact_mod_cast hle
      omega
  · intro hnone j hj hcj
    obtain ⟨hlj, hjdx⟩ := column_cell_of_index j h hj hcj
    have := terrain_top_none L st cpos h hnone (j / 256) hlj
    rw [← hjdx] at this
    exact this

/-- Witness of C19: the chunk `(0, -1, 0)` of the session of `sample_env_low`;
the entry of the column cell 67 is `-9`, the top of the terrain. -/
theorem heightmap_records_terrain_top_witness :
    low_session.metadata_map ⟨0, 0⟩ = none
    ∧ terrain_top sample_env_low low_session ⟨0, -1, 0⟩ 67 = some (column_cell 7 67)
    ∧ ∃ md, (generate sample_env_low low_session ⟨0, -1, 0⟩ empty_grid).2.1.metadata_map ⟨0, 0⟩
          = some md
        ∧ md.heightmap 67
            = match terrain_top sample_env_low low_session ⟨0, -1, 0⟩ 67 with
              | none => INT64_MIN
              | some i =>
                if low_session.enable_carvers = true
                    ∧ carvers_hit sample_env_low low_session ⟨0, -1, 0⟩ i = true then INT64_MIN
                else cell_y ⟨0, -1, 0⟩ i :=
  ⟨rfl, low_terrain_top,
    (heightmap_records_terrain_top sample_env_low low_session ⟨0, -1, 0⟩ empty_grid 67 rfl
      (by decide) (by decide) (by decide)).2.1⟩

end overworld


/-! ## The task of a worker and `process` -/

theorem task_loop_spec (G : Services) :
    ∀ (n i : Nat) (w : WorkerEntry), w.future = TaskFuture.running i →
      w.ctx.is_cancelled = false → i + n ≤ CHUNK_VOLUME →
      (task_steps G n w).ctx = process_loop G never_cancelled n i w.ctx
      ∧ (task_steps G n w).future = TaskFuture.running (i + n)
      ∧ (task_steps G n w).ctx.is_cancelled = false := by
  intro n
  induction n with
  | zero => intro i w hf hc _; exact ⟨rfl, hf, hc⟩
  | succ n ih =>
    intro i w hf hc hle
    have hi : i < CHUNK_VOLUME := by omega
    have hstep : task_step G w
        = { w with ctx := process_voxel G w.ctx i, future := TaskFuture.running (i + 1) } := by
      unfold task_step
      rw [hf]
      simp only [hi, if_true, hc, Bool.false_eq_true, if_false]
    have hc' : (task_step G w).ctx.is_cancelled = false := by
      rw [hstep]
      exact (process_voxel_is_cancelled G w.ctx i).trans hc
    obtain ⟨a, b, c⟩ := ih (i + 1) (task_step G w) (by rw [hstep]) hc' (by omega)
    refine ⟨?_, ?_, c⟩
    · show (task_steps G n (task_step G w)).ctx = _
      rw [a, hstep]
      rfl
    · show (task_steps G n (task_step G w)).future = _
      rw [b]
      congr 1
      omega

/-- A task that is never cancelled: after the step that starts it, one step per
cell and the step that returns, the future is ready and the context is the one
`process` builds without cancellation. -/
theorem task_runs_process (G : Services) (w : WorkerEntry) (hq : w.future = TaskFuture.queued)
    (hc : w.ctx.is_cancelled = false) :
    (task_steps G (CHUNK_VOLUME + 2) w).ctx = process G never_cancelled w.ctx
    ∧ (task_steps G (CHUNK_VOLUME + 2) w).future = TaskFuture.ready := by
  have hstart : task_step G w
      = { w with ctx := w.ctx.resized G, future := TaskFuture.running 0 } := by
    unfold task_step
    rw [hq]
  have hsplit : ∀ (m : Nat) (v : WorkerEntry),
      task_steps G (m + 1) v = task_step G (task_steps G m v) := by
    intro m
    induction m with
    | zero => intro v; rfl
    | succ m ih => intro v; exact ih (task_step G v)
  obtain ⟨a, b, _⟩ := task_loop_spec G CHUNK_VOLUME 0 (task_step G w) (by rw [hstart])
    (by rw [hstart]; exact hc) (by omega)
  have hsucc : ∀ (m : Nat) (v : WorkerEntry),
      task_steps G (m + 1) v = task_steps G m (task_step G v) := fun _ _ => rfl
  have hmid := hsucc CHUNK_VOLUME w
  have hlast : task_steps G (CHUNK_VOLUME + 2) w
      = task_step G (task_steps G CHUNK_VOLUME (task_step G w)) := by
    rw [hsplit (CHUNK_VOLUME + 1) w, hmid]
  have hdone : ∀ (v : WorkerEntry) (i : Nat), v.future = TaskFuture.running i →
      ¬ i < CHUNK_VOLUME → task_step G v = { v with future := TaskFuture.ready } := by
    intro v i hv hi
    unfold task_step
    rw [hv]
    simp only [hi, if_false]
  have hend := hdone (task_steps G CHUNK_VOLUME (task_step G w)) (0 + CHUNK_VOLUME) b
    (by omega)
  have hctx : ∀ v : WorkerEntry,
      ({ v with future := TaskFuture.ready } : WorkerEntry).ctx = v.ctx := fun _ => rfl
  have hfut : ∀ v : WorkerEntry,
      ({ v with future := TaskFuture.ready } : WorkerEntry).future = TaskFuture.ready :=
    fun _ => rfl
  rewrite [hlast, hend, hctx, hfut, a, hstart, process_eq]
  exact ⟨rfl, rfl⟩

/-! ## The terrain pass: the heightmap as a maximum -/

namespace overworld

theorem column_index_lt (index : Nat) :
    column_index (LocalCoord.from_index index) < CHUNK_AREA := by
  rw [column_index_from_index]
  show index % 256 < 256
  omega

theorem terrain_step_mono (L : GenEnv) (st : GenState) (cpos : ChunkCoord) (md : Metadata)
    (v : VoxelStorage) (x h : Nat) :
    md.heightmap h ≤ (terrain_step L st cpos (md, v) x).1.heightmap h := by
  rw [(terrain_step_spec L st cpos md v x).1 h]
  split
  · next hc => exact le_of_lt hc.2.2
  · exact le_refl _

/-- C21: the terrain pass leaves, for every column cell `h`, a heightmap entry
that is at least the entry before the pass and at least the world y of every
cell of the column cell that the pass marked solid, and that is one of those
values: the maximum of the previous entry and the greatest y marked solid (for
`h < CHUNK_AREA`, the y of the topmost marked cell, when there is one).  The
entropy is kept, the cells marked solid are the cells the pass writes stone to,
no iteration of the loop lowers an entry, and the index of the column cell is
below `CHUNK_AREA` for every array index. -/
theorem terrain_pass_heightmap_max (L : GenEnv) (st : GenState) (cpos : ChunkCoord)
    (voxels : VoxelStorage) :
    (∃ md, (generate_terrain L st cpos voxels).1.metadata_map ⟨cpos.x, cpos.z⟩ = some md
      ∧ md.entropy = (get_metadata L st ⟨cpos.x, cpos.z⟩).2.entropy
      ∧ ∀ h,
          (get_metadata L st ⟨cpos.x, cpos.z⟩).2.heightmap h ≤ md.heightmap h
          ∧ (∀ i, i < CHUNK_VOLUME → column_index (LocalCoord.from_index i) = h →
              terrain_solid L st cpos i = true → cell_y cpos i ≤ md.heightmap h)
          ∧ (md.heightmap h = (get_metadata L st ⟨cpos.x, cpos.z⟩).2.heightmap h
              ∨ ∃ i, i < CHUNK_VOLUME ∧ column_index (LocalCoord.from_index i) = h
                  ∧ terrain_solid L st cpos i = true ∧ md.heightmap h = cell_y cpos i)
          ∧ (h < CHUNK_AREA →
              md.heightmap h
                = match terrain_top L st cpos h with
                  | none => (get_metadata L st ⟨cpos.x, cpos.z⟩).2.heightmap h
                  | some i => max ((get_metadata L st ⟨cpos.x, cpos.z⟩).2.heightmap h)
                      (cell_y cpos i)))
    ∧ (∀ i, (generate_terrain L st cpos voxels).2 i
        = if i < CHUNK_VOLUME ∧ terrain_solid L st cpos i = true then L.stone else voxels i)
    ∧ (∀ (s : GenState) (md : Metadata) (v : VoxelStorage) (index h : Nat),
        md.heightmap h ≤ (terrain_step L s cpos (md, v) index).1.heightmap h)
    ∧ (∀ index, column_index (LocalCoord.from_index index) < CHUNK_AREA) := by
  refine ⟨?_, ?_, fun s md v index h => terrain_step_mono L s cpos md v index h,
    column_index_lt⟩
  · refine ⟨(terrain_result L st cpos (get_metadata L st ⟨cpos.x, cpos.z⟩).2 voxels).1, ?_, ?_, ?_⟩
    · rewrite [(generate_stages L st cpos voxels).1]
      exact put_metadata_map _ _ _
    · rewrite [terrain_result_eq]
      exact (terrain_fold_spec L st cpos (List.range CHUNK_VOLUME) _ voxels).1
    · intro h
      rewrite [terrain_result_eq]
      obtain ⟨_, f2, f3, f4⟩ := terrain_fold_spec L st cpos (List.range CHUNK_VOLUME)
        (get_metadata L st ⟨cpos.x, cpos.z⟩).2 voxels
      have h3 : ∀ i, i < CHUNK_VOLUME → column_index (LocalCoord.from_index i) = h →
          terrain_solid L st cpos i = true →
          cell_y cpos i ≤ ((List.range CHUNK_VOLUME).foldl (terrain_step L st cpos)
            ((get_metadata L st ⟨cpos.x, cpos.z⟩).2, voxels)).1.heightmap h :=
        fun i hi hc hs => f3 h i (List.mem_range.mpr hi) hs hc
      refine ⟨f2 h, h3, ?_, ?_⟩
      · rcases f4 h with heq | ⟨i, hi, hs, hc, heq⟩
        · exact Or.inl heq
        · exact Or.inr ⟨i, List.mem_range.mp hi, hc, hs, heq⟩
      · intro hh
        have h2 := f2 h
        have h4 := f4 h
        revert h2 h3 h4
        generalize ((List.range CHUNK_VOLUME).foldl (terrain_step L st cpos)
            ((get_metadata L st ⟨cpos.x, cpos.z⟩).2, voxels)).1.heightmap h = r
        generalize (get_metadata L st ⟨cpos.x, cpos.z⟩).2.heightmap h = e
        intro h3 h2 h4
        cases ht : terrain_top L st cpos h with
        | none =>
          simp only []
          rcases h4 with heq | ⟨i, hi, hsol, hcol, _⟩
          · exact heq
          · obtain ⟨hly, hidx⟩ := column_cell_of_index i h (List.mem_range.mp hi) hcol
            have := terrain_top_none L st cpos h ht (i / 256) hly
            rw [← hidx, hsol] at this
            cases this
        | some i0 =>
          simp only []
          obtain ⟨ly0, hly0, hi0, hsol0, htop⟩ := terrain_top_some L st cpos h i0 ht
          obtain ⟨hy0, hc0⟩ := cell_y_column_cell cpos ly0 h hh
          have hlt0 : i0 < CHUNK_VOLUME := by
            rw [hi0, column_cell_eq, CHUNK_VOLUME_eq]
            have : h < 256 := hh
            omega
          have hge := h3 i0 hlt0 (by rw [hi0]; exact hc0) hsol0
          rcases h4 with heq | ⟨i, hi, hsol, hcol, heq⟩
          · rw [heq] at hge ⊢
            exact (max_eq_left hge).symm
          · obtain ⟨hly, hidx⟩ := column_cell_of_index i h (List.mem_range.mp hi) hcol
            have hle := htop (i / 256) hly (by rw [← hidx]; exact hsol)
            have hyi : cell_y cpos i = cpos.y * 16 + ((i / 256 : Nat) : Int) := cell_y_eq cpos i
            have hy00 : cell_y cpos i0 = cpos.y * 16 + (ly0 : Int) := by rw [hi0]; exact hy0
            have : ((i / 256 : Nat) : Int) ≤ (ly0 : Int) := by exact_mod_cast hle
            have hr : r = cell_y cpos i0 := by omega
            rw [hr]
            rw [hr] at h2
            exact (max_eq_right h2).symm
  · intro i
    rewrite [generate_terrain_voxels, terrain_result_eq, terrain_fold_voxels]
    by_cases hi : i < CHUNK_VOLUME
    · by_cases hs : terrain_solid L st cpos i = true
      · rw [if_pos ⟨List.mem_range.mpr hi, hs⟩, if_pos ⟨hi, hs⟩]
      · rw [if_neg (fun h => hs h.2), if_neg (fun h => hs h.2)]
    · rw [if_neg (fun h => hi (List.mem_range.mp h.1)), if_neg (fun h => hi h.1)]

end overworld

/-! ## The surface pass -/

namespace overworld

theorem surface_probe_spec (L : GenEnv) (st : GenState) (cpos : ChunkCoord)
    (g v : VoxelStorage) (index : Nat) (hg : ∀ j, index < j → g j = v j) :
    ∀ (n k depth : Nat),
      surface_probe L st cpos g (LocalCoord.from_index index) n ((k : Nat) : Int) depth
        = depth + ((List.range' k n).takeWhile (probe_solid L st cpos v index)).length := by
  intro n
  induction n with
  | zero => intro k depth; simp [surface_probe]
  | succ n ih =>
    intro k depth
    have hidx : LocalCoord.to_index
        ⟨(LocalCoord.from_index index).x, (LocalCoord.from_index index).y + (k : Int) + 1,
          (LocalCoord.from_index index).z⟩ = index + (k + 1) * CHUNK_AREA := by
      simp only [LocalCoord.to_index, LocalCoord.from_index, CHUNK_AREA, CHUNK_SIZE_eq]
      omega
    have hvox : ChunkCoord.to_voxel cpos
        ⟨(LocalCoord.from_index index).x, (LocalCoord.from_index index).y + (k : Int) + 1,
          (LocalCoord.from_index index).z⟩
        = ⟨(ChunkCoord.to_voxel cpos (LocalCoord.from_index index)).x,
            cell_y cpos index + ((k : Nat) : Int) + 1,
            (ChunkCoord.to_voxel cpos (LocalCoord.from_index index)).z⟩ := by
      simp only [ChunkCoord.to_voxel, cell_y, Vec3i.mk.injEq, true_and, and_true]
      omega
    have htop : ((LocalCoord.from_index index).y + (k : Int) + 1 ≥ (CHUNK_SIZE : Int))
        ↔ index / CHUNK_AREA + k + 1 ≥ CHUNK_SIZE := by
      simp only [LocalCoord.from_index, CHUNK_AREA, CHUNK_SIZE_eq]
      omega
    have hnext : (((k : Nat) : Int) + 1) = ((k + 1 : Nat) : Int) := by push_cast; rfl
    have hunf : surface_probe L st cpos g (LocalCoord.from_index index) (n + 1) ((k : Nat) : Int)
          depth
        = if (LocalCoord.from_index index).y + (k : Int) + 1 ≥ (CHUNK_SIZE : Int) then
            if L.le (get_noise L st (ChunkCoord.to_voxel cpos
                ⟨(LocalCoord.from_index index).x, (LocalCoord.from_index index).y + (k : Int) + 1,
                  (LocalCoord.from_index index).z⟩) st.terrain_variation) (L.lit 0) = true
            then depth
            else surface_probe L st cpos g (LocalCoord.from_index index) n ((k : Int) + 1)
              (depth + 1)
          else
            if g (LocalCoord.to_index
                ⟨(LocalCoord.from_index index).x, (LocalCoord.from_index index).y + (k : Int) + 1,
                  (LocalCoord.from_index index).z⟩) = NULL_VOXEL
            then depth
            else surface_probe L st cpos g (LocalCoord.from_index index) n ((k : Int) + 1)
              (depth + 1) := rfl
    rw [hunf, hidx, hvox, hnext, ih (k + 1) (depth + 1), List.range'_succ, List.takeWhile_cons]
    have hgv : g (index + (k + 1) * CHUNK_AREA) = v (index + (k + 1) * CHUNK_AREA) := by
      apply hg
      show index < index + (k + 1) * 256
      omega
    rw [hgv]
    by_cases ht : index / CHUNK_AREA + k + 1 ≥ CHUNK_SIZE
    · rw [if_pos (htop.mpr ht)]
      have hp : probe_solid L st cpos v index k
          = !L.le (get_noise L st
              ⟨(ChunkCoord.to_voxel cpos (LocalCoord.from_index index)).x,
                cell_y cpos index + ((k : Nat) : Int) + 1,
                (ChunkCoord.to_voxel cpos (LocalCoord.from_index index)).z⟩ st.terrain_variation)
              (L.lit 0) := by
        unfold probe_solid
        rw [if_pos ht]
      rw [hp]
      cases L.le (get_noise L st
              ⟨(ChunkCoord.to_voxel cpos (LocalCoord.from_index index)).x,
                cell_y cpos index + ((k : Nat) : Int) + 1,
                (ChunkCoord.to_voxel cpos (LocalCoord.from_index index)).z⟩ st.terrain_variation)
              (L.lit 0)
      · simp
        omega
      · simp
    · rw [if_neg (fun h => ht (htop.mp h))]
      have hp : probe_solid L st cpos v index k
          = decide (v (index + (k + 1) * CHUNK_AREA) ≠ NULL_VOXEL) := by
        unfold probe_solid
        rw [if_neg ht]
      rw [hp]
      by_cases hz : v (index + (k + 1) * CHUNK_AREA) = NULL_VOXEL
      · simp [hz]
      · simp [hz]
        omega

theorem takeWhile_range_length (p : Nat → Bool) :
    ∀ (n s d : Nat), ((List.range' s n).takeWhile p).length = d
      ↔ (d ≤ n ∧ (∀ k, k < d → p (s + k) = true) ∧ (d < n → p (s + d) = false)) := by
  intro n
  induction n with
  | zero =>
    intro s d
    simp only [List.range'_zero, List.takeWhile_nil, List.length_nil]
    constructor
    · intro h
      subst h
      exact ⟨Nat.le_refl 0, fun k hk => absurd hk (Nat.not_lt_zero k),
        fun h => absurd h (Nat.lt_irrefl 0)⟩
    · intro h
      omega
  | succ n ih =>
    intro s d
    rw [List.range'_succ]
    cases hp : p s with
    | false =>
      rw [List.takeWhile_cons_of_neg (by rw [hp]; exact Bool.false_ne_true)]
      simp only [List.length_nil]
      constructor
      · intro h
        subst h
        exact ⟨Nat.zero_le _, fun k hk => absurd hk (Nat.not_lt_zero k), fun _ => hp⟩
      · intro h
        cases d with
        | zero => rfl
        | succ d =>
          have := h.2.1 0 (Nat.succ_pos d)
          rw [Nat.add_zero, hp] at this
          cases this
    | true =>
      rw [List.takeWhile_cons_of_pos hp]
      simp only [List.length_cons]
      cases d with
      | zero =>
        constructor
        · intro h
          omega
        · intro h
          have := h.2.2 (Nat.succ_pos n)
          rw [Nat.add_zero, hp] at this
          cases this
      | succ d =>
        rw [Nat.add_right_cancel_iff, ih (s + 1) d]
        constructor
        · rintro ⟨a, b, c⟩
          refine ⟨Nat.succ_le_succ a, fun k hk => ?_, fun h => ?_⟩
          · cases k with
            | zero => exact hp
            | succ k =>
              have := b k (Nat.lt_of_succ_lt_succ hk)
              rw [show s + (k + 1) = s + 1 + k by omega]
              exact this
          · have := c (Nat.lt_of_succ_lt_succ h)
            rw [show s + (d + 1) = s + 1 + d by omega]
            exact this
        · rintro ⟨a, b, c⟩
          refine ⟨Nat.le_of_succ_le_succ a, fun k hk => ?_, fun h => ?_⟩
          · have := b (k + 1) (Nat.succ_lt_succ hk)
            rw [show s + 1 + k = s + (k + 1) by omega]
            exact this
          · have := c (Nat.succ_lt_succ h)
            rw [show s + 1 + d = s + (d + 1) by omega]
            exact this

theorem surface_depth_le (L : GenEnv) (st : GenState) (cpos : ChunkCoord)
    (voxels : VoxelStorage) (index : Nat) : surface_depth L st cpos voxels index ≤ 5 := by
  unfold surface_depth
  exact (List.takeWhile_prefix _).length_le.trans (by simp)

theorem surface_step_cell (L : GenEnv) (st : GenState) (cpos : ChunkCoord)
    (g v : VoxelStorage) (x : Nat) (hg : ∀ j, x ≤ j → g j = v j) :
    surface_step L st cpos g x = Function.update g x (surface_cell L st cpos v x) := by
  have hstep : surface_step L st cpos g x
      = if cxpr.abs (cell_y cpos x) ≥ st.terrain_variation + 1 then g
        else if g x = NULL_VOXEL then g
        else
          if surface_probe L st cpos g (LocalCoord.from_index x) 5 0 0 < 5 then
            if surface_probe L st cpos g (LocalCoord.from_index x) 5 0 0 = 0 then
              Function.update g x L.grass
            else Function.update g x L.dirt
          else g := rfl
  have hprobe : surface_probe L st cpos g (LocalCoord.from_index x) 5 0 0
      = surface_depth L st cpos v x := by
    have := surface_probe_spec L st cpos g v x (fun j hj => hg j (Nat.le_of_lt hj)) 5 0 0
    rw [Nat.zero_add] at this
    rw [surface_depth, List.range_eq_range']
    exact this
  rw [hstep, hprobe, hg x (Nat.le_refl x)]
  unfold surface_cell
  have hle := surface_depth_le L st cpos v x
  have hself : Function.update g x (v x) = g := by
    rw [← hg x (Nat.le_refl x)]
    exact Function.update_eq_self x g
  by_cases h1 : cxpr.abs (cell_y cpos x) ≥ st.terrain_variation + 1
  · have h1' : ¬ (cxpr.abs (cell_y cpos x) < st.terrain_variation + 1 ∧ v x ≠ NULL_VOXEL) :=
      fun h => absurd h1 (not_le.mpr h.1)
    rw [if_pos h1, if_neg h1', hself]
  · rw [if_neg h1]
    by_cases h2 : v x = NULL_VOXEL
    · have h2' : ¬ (cxpr.abs (cell_y cpos x) < st.terrain_variation + 1 ∧ v x ≠ NULL_VOXEL) :=
        fun h => h.2 h2
      rw [if_pos h2, if_neg h2', hself]
    · have h2' : cxpr.abs (cell_y cpos x) < st.terrain_variation + 1 ∧ v x ≠ NULL_VOXEL :=
        ⟨not_le.mp h1, h2⟩
      rw [if_neg h2]
      simp only [if_pos h2']
      by_cases h3 : surface_depth L st cpos v x = 0
      · have h4 : surface_depth L st cpos v x < 5 := by omega
        simp only [if_pos h3, if_pos h4]
      · simp only [if_neg h3]
        by_cases h4 : surface_depth L st cpos v x < 5
        · simp only [if_pos h4]
        · simp only [if_neg h4, hself]

theorem surface_fold_cells (L : GenEnv) (st : GenState) (cpos : ChunkCoord) (v : VoxelStorage) :
    ∀ n, (List.range n).foldl (surface_step L st cpos) v
      = fun j => if j < n then surface_cell L st cpos v j else v j := by
  intro n
  induction n with
  | zero => simp
  | succ n ih =>
    rw [List.range_succ, List.foldl_append, ih]
    simp only [List.foldl_cons, List.foldl_nil]
    rw [surface_step_cell L st cpos _ v n
      (fun j hj => if_neg (by omega))]
    funext j
    by_cases hj : j = n
    · subst hj
      simp
    · rw [Function.update_noteq hj]
      by_cases hlt : j < n
      · rw [if_pos hlt, if_pos (by omega)]
      · rw [if_neg hlt, if_neg (by omega)]

theorem generate_surface_voxels (L : GenEnv) (st : GenState) (cpos : ChunkCoord)
    (v : VoxelStorage) :
    (generate_surface L st cpos v).2
      = (List.range CHUNK_VOLUME).foldl (surface_step L st cpos) v := by
  obtain ⟨_, h1, _, _, _, _, h2, _, _⟩ := get_metadata_spec L st ⟨cpos.x, cpos.z⟩
  unfold generate_surface
  simp only []
  rewrite [surface_step_congr L _ st cpos h1 h2]
  rfl

/-- C22: after the surface pass a cell of the chunk that was not empty and
whose world y has `|y| < terrain_variation + 1` holds grass when its depth is
0, dirt when its depth is 1 to 4, and what it held when its depth is 5; empty
cells, cells outside the envelope and everything outside the chunk hold what
they held.  The depth is the number of the probes 0, 1, .. (at most five) that
find a solid cell before the first one that finds none; probe `k` looks at the
cell `k + 1` layers above in the grid the pass started from (solid when not
`NULL_VOXEL`) or, beyond the top of the chunk, at the terrain noise of that
position (solid when the test `≤ 0` fails, that is when the noise is `> 0` for a
float that is a number). -/
theorem surface_pass_by_depth (L : GenEnv) (st : GenState) (cpos : ChunkCoord)
    (voxels : VoxelStorage) (index : Nat) :
    (generate_surface L st cpos voxels).2 index
        = (if index < CHUNK_VOLUME
              ∧ cxpr.abs (ChunkCoord.to_voxel cpos (LocalCoord.from_index index)).y
                  < st.terrain_variation + 1
              ∧ voxels index ≠ NULL_VOXEL then
            if surface_depth L st cpos voxels index = 0 then L.grass
            else if surface_depth L st cpos voxels index < 5 then L.dirt
            else voxels index
          else voxels index)
    ∧ (∀ d, surface_depth L st cpos voxels index = d
        ↔ (d ≤ 5 ∧ (∀ k, k < d → probe_solid L st cpos voxels index k = true)
            ∧ (d < 5 → probe_solid L st cpos voxels index d = false)))
    ∧ (∀ k, index / CHUNK_AREA + k + 1 < CHUNK_SIZE →
        (probe_solid L st cpos voxels index k = true
          ↔ voxels (index + (k + 1) * CHUNK_AREA) ≠ NULL_VOXEL)
        ∧ LocalCoord.from_index (index + (k + 1) * CHUNK_AREA)
            = ⟨(LocalCoord.from_index index).x, (LocalCoord.from_index index).y + (k : Int) + 1,
                (LocalCoord.from_index index).z⟩)
    ∧ (∀ k, index / CHUNK_AREA + k + 1 ≥ CHUNK_SIZE →
        (probe_solid L st cpos voxels index k = true
          ↔ L.le (get_noise L st
                (ChunkCoord.to_voxel cpos
                  ⟨(LocalCoord.from_index index).x,
                    (LocalCoord.from_index index).y + (k : Int) + 1,
                    (LocalCoord.from_index index).z⟩) st.terrain_variation) (L.lit 0) = false)
        ∧ ((∀ a, L.le a (L.lit 0) = !L.lt (L.lit 0) a) →
            probe_solid L st cpos voxels index k
              = L.lt (L.lit 0) (get_noise L st
                  (ChunkCoord.to_voxel cpos
                    ⟨(LocalCoord.from_index index).x,
                      (LocalCoord.from_index index).y + (k : Int) + 1,
                      (LocalCoord.from_index index).z⟩) st.terrain_variation))) := by
  have hvox : ∀ k : Nat, ChunkCoord.to_voxel cpos
        ⟨(LocalCoord.from_index index).x, (LocalCoord.from_index index).y + (k : Int) + 1,
          (LocalCoord.from_index index).z⟩
        = ⟨(ChunkCoord.to_voxel cpos (LocalCoord.from_index index)).x,
            cell_y cpos index + ((k : Nat) : Int) + 1,
            (ChunkCoord.to_voxel cpos (LocalCoord.from_index index)).z⟩ := by
    intro k
    simp only [ChunkCoord.to_voxel, cell_y, Vec3i.mk.injEq, true_and, and_true]
    omega
  refine ⟨?_, ?_, ?_, ?_⟩
  · rewrite [generate_surface_voxels, surface_fold_cells]
    show (if index < CHUNK_VOLUME then surface_cell L st cpos voxels index else voxels index) = _
    unfold surface_cell
    by_cases hi : index < CHUNK_VOLUME
    · rw [if_pos hi]
      by_cases hc : cxpr.abs (cell_y cpos index) < st.terrain_variation + 1
          ∧ voxels index ≠ NULL_VOXEL
      · have hc' : index < CHUNK_VOLUME
            ∧ cxpr.abs (ChunkCoord.to_voxel cpos (LocalCoord.from_index index)).y
                < st.terrain_variation + 1
            ∧ voxels index ≠ NULL_VOXEL := ⟨hi, hc⟩
        rw [if_pos hc, if_pos hc']
      · have hc' : ¬ (index < CHUNK_VOLUME
            ∧ cxpr.abs (ChunkCoord.to_voxel cpos (LocalCoord.from_index index)).y
                < st.terrain_variation + 1
            ∧ voxels index ≠ NULL_VOXEL) := fun h => hc h.2
        rw [if_neg hc, if_neg hc']
    · rw [if_neg hi, if_neg (fun h => hi h.1)]
  · intro d
    unfold surface_depth
    rw [List.range_eq_range', takeWhile_range_length]
    simp only [Nat.zero_add]
  · intro k hk
    refine ⟨?_, ?_⟩
    · unfold probe_solid
      rw [if_neg (by omega)]
      simp
    · simp only [LocalCoord.from_index, CHUNK_AREA, CHUNK_SIZE_eq, Vec3i.mk.injEq]
      omega
  · intro k hk
    rw [hvox k]
    have hp : probe_solid L st cpos voxels index k
          = !L.le (get_noise L st
              ⟨(ChunkCoord.to_voxel cpos (LocalCoord.from_index index)).x,
                cell_y cpos index + ((k : Nat) : Int) + 1,
                (ChunkCoord.to_voxel cpos (LocalCoord.from_index index)).z⟩ st.terrain_variation)
              (L.lit 0) := by
      unfold probe_solid
      rw [if_pos hk]
    refine ⟨?_, fun hcmp => ?_⟩
    · rw [hp]
      simp
    · rw [hp, hcmp]
      simp

end overworld

/-! ## The carver pass -/

namespace overworld

theorem carvers_step_grid (L : GenEnv) (st : GenState) (cpos : ChunkCoord) (md : Metadata)
    (v : VoxelStorage) (x : Nat) :
    (carvers_step L st cpos (md, v) x).2
      = if carvers_hit L st cpos x = true then Function.update v x NULL_VOXEL else v := by
  have hstep : carvers_step L st cpos (md, v) x
      = if cell_y cpos x > st.terrain_variation + 1 then (md, v)
        else if carver_test L st (ChunkCoord.to_voxel cpos (LocalCoord.from_index x)) = true then
          ((if cell_y cpos x = md.heightmap (column_index (LocalCoord.from_index x)) then
              ⟨md.entropy,
                Function.update md.heightmap (column_index (LocalCoord.from_index x)) INT64_MIN⟩
            else md), Function.update v x NULL_VOXEL)
        else (md, v) := rfl
  have hhit : carvers_hit L st cpos x
      = (!decide (cell_y cpos x > st.terrain_variation + 1)
          && carver_test L st (ChunkCoord.to_voxel cpos (LocalCoord.from_index x))) := rfl
  rw [hstep, hhit]
  generalize cell_y cpos x = y
  generalize carver_test L st (ChunkCoord.to_voxel cpos (LocalCoord.from_index x)) = t
  by_cases h1 : y > st.terrain_variation + 1
  · simp [h1]
  · cases t with
    | false => simp [h1]
    | true => simp [h1]

theorem carvers_fold_grid (L : GenEnv) (st : GenState) (cpos : ChunkCoord) :
    ∀ (l : List Nat) (md : Metadata) (v : VoxelStorage) (j : Nat),
      (l.foldl (carvers_step L st cpos) (md, v)).2 j
        = if j ∈ l ∧ carvers_hit L st cpos j = true then NULL_VOXEL else v j := by
  intro l
  induction l with
  | nil => intro md v j; simp
  | cons x xs ih =>
    intro md v j
    simp only [List.foldl_cons]
    rw [ih (carvers_step L st cpos (md, v) x).1 (carvers_step L st cpos (md, v) x).2 j,
      carvers_step_grid]
    by_cases hx : carvers_hit L st cpos x = true
    · rw [if_pos hx]
      by_cases hj : j = x
      · subst hj
        simp [hx]
      · simp [hj, Function.update_noteq hj]
    · rw [if_neg hx]
      by_cases hj : j = x
      · subst hj
        simp [hx]
      · simp [hj]

theorem carvers_fold_reset (L : GenEnv) (st : GenState) (cpos : ChunkCoord) (h : Nat) :
    ∀ (l : List Nat) (md : Metadata) (v : VoxelStorage),
      ((l.foldl (carvers_step L st cpos) (md, v)).1.heightmap h
          = if ∃ i, i ∈ l ∧ carvers_hit L st cpos i = true
                ∧ column_index (LocalCoord.from_index i) = h ∧ cell_y cpos i = md.heightmap h
            then INT64_MIN else md.heightmap h)
      ∧ (l.foldl (carvers_step L st cpos) (md, v)).1.entropy = md.entropy := by
  intro l
  induction l with
  | nil => intro md v; simp
  | cons x xs ih =>
    intro md v
    obtain ⟨s1, s2⟩ := carvers_step_spec L st cpos md v x
    obtain ⟨i1, i2⟩ := ih (carvers_step L st cpos (md, v) x).1 (carvers_step L st cpos (md, v) x).2
    simp only [List.foldl_cons]
    refine ⟨?_, i2.trans s2⟩
    rw [i1, s1 h]
    by_cases hx : carvers_hit L st cpos x = true ∧ column_index (LocalCoord.from_index x) = h
        ∧ cell_y cpos x = md.heightmap h
    · have hex0 : ∃ i, i ∈ x :: xs ∧ carvers_hit L st cpos i = true
          ∧ column_index (LocalCoord.from_index i) = h ∧ cell_y cpos i = md.heightmap h :=
        ⟨x, List.mem_cons_self x xs, hx⟩
      rw [if_pos hx, if_pos hex0]
      split
      · rfl
      · rfl
    · rw [if_neg hx]
      by_cases hex : ∃ i, i ∈ xs ∧ carvers_hit L st cpos i = true
          ∧ column_index (LocalCoord.from_index i) = h ∧ cell_y cpos i = md.heightmap h
      · rw [if_pos hex]
        obtain ⟨i, hi, hrest⟩ := hex
        have hex1 : ∃ i, i ∈ x :: xs ∧ carvers_hit L st cpos i = true
            ∧ column_index (LocalCoord.from_index i) = h ∧ cell_y cpos i = md.heightmap h :=
          ⟨i, List.mem_cons_of_mem x hi, hrest⟩
        rw [if_pos hex1]
      · rw [if_neg hex, if_neg]
        rintro ⟨i, hi, hrest⟩
        rcases List.mem_cons.mp hi with rfl | hi'
        · exact hx hrest
        · exact hex ⟨i, hi', hrest⟩

theorem generate_carvers_eq (L : GenEnv) (st : GenState) (cpos : ChunkCoord)
    (v : VoxelStorage) :
    generate_carvers L st cpos v
      = (put_metadata (get_metadata L st ⟨cpos.x, cpos.z⟩).1 ⟨cpos.x, cpos.z⟩
          ((List.range CHUNK_VOLUME).foldl (carvers_step L st cpos)
            ((get_metadata L st ⟨cpos.x, cpos.z⟩).2, v)).1,
        ((List.range CHUNK_VOLUME).foldl (carvers_step L st cpos)
            ((get_metadata L st ⟨cpos.x, cpos.z⟩).2, v)).2) := by
  obtain ⟨_, h1, _, _, _, _, _, h2, h3⟩ := get_metadata_spec L st ⟨cpos.x, cpos.z⟩
  unfold generate_carvers
  simp only []
  rewrite [carvers_step_congr L _ st cpos h1 h2 h3]
  rfl

theorem carvers_hit_iff (L : GenEnv) (st : GenState) (cpos : ChunkCoord) (i : Nat) :
    carvers_hit L st cpos i = true
      ↔ (cell_y cpos i ≤ st.terrain_variation + 1
          ∧ carver_test L st (ChunkCoord.to_voxel cpos (LocalCoord.from_index i)) = true) := by
  have hhit : carvers_hit L st cpos i
      = (!decide (cell_y cpos i > st.terrain_variation + 1)
          && carver_test L st (ChunkCoord.to_voxel cpos (LocalCoord.from_index i))) := rfl
  rw [hhit]
  simp

theorem shallow_carvers_hit (cpos : ChunkCoord) (i : Nat) :
    carvers_hit sample_env_caves shallow_session cpos i = decide (cell_y cpos i ≤ 5) := by
  have hhit : carvers_hit sample_env_caves shallow_session cpos i
      = (!decide (cell_y cpos i > shallow_session.terrain_variation + 1)
          && carver_test sample_env_caves shallow_session
              (ChunkCoord.to_voxel cpos (LocalCoord.from_index i))) := rfl
  have htest : carver_test sample_env_caves shallow_session
      (ChunkCoord.to_voxel cpos (LocalCoord.from_index i)) = true := by
    simp [carver_test, sample_env_caves]
  have htv : shallow_session.terrain_variation = 4 := rfl
  rw [hhit, htest, htv]
  by_cases h : cell_y cpos i ≤ 5
  · simp [h]
  · simp [h]
    omega

/-- Counterexample to C23 as stated: in the session `shallow_session` (terrain
variation 4) the cell 0 of the chunk `(0, -1, 0)`, which `generate` accepts,
has world y `-16`, outside the envelope `|y| ≤ 5`; the carver pass empties it
all the same. -/
theorem carver_envelope_counterexample :
    shallow_session.terrain_variation = 4
    ∧ ¬ ((-1 : Int) < shallow_session.bottommost_chunk
        ∨ (-1 : Int) > (CHUNK_SIZE : Int) * shallow_session.terrain_variation)
    ∧ cell_y ⟨0, -1, 0⟩ 0 = -16
    ∧ ¬ (cxpr.abs (cell_y ⟨0, -1, 0⟩ 0) ≤ shallow_session.terrain_variation + 1)
    ∧ stone_grid 0 ≠ NULL_VOXEL
    ∧ (generate_carvers sample_env_caves shallow_session ⟨0, -1, 0⟩ stone_grid).2 0
        = NULL_VOXEL := by
  refine ⟨rfl, by decide, by decide, by decide, by decide, ?_⟩
  rewrite [generate_carvers_eq, carvers_fold_grid, shallow_carvers_hit]
  have h0 : (0 : Nat) ∈ List.range CHUNK_VOLUME := List.mem_range.mpr (by decide)
  have hy : cell_y ⟨0, -1, 0⟩ 0 ≤ 5 := by decide
  rw [if_pos ⟨h0, by simpa using hy⟩]

/-- C23, amended: the carver pass acts on every cell of the chunk whose world y
is at most `terrain_variation + 1` (the loop tests no lower bound): such a cell
becomes empty exactly when its two cave noise samples `na`, `nb`, taken at
`(x, 1.5 * y, z)`, satisfy `na * na + nb * nb ≤ 1 / 1024`; every other cell
holds what it held.  A heightmap entry becomes the unset sentinel exactly when
a cell the pass empties lies in its column cell and has the entry (as it was
before the pass) as world y; every other entry and the entropy are unchanged.
For a chunk that does not reach below `-(terrain_variation + 1)` the cells the
pass acts on are those with `|y| ≤ terrain_variation + 1`. -/
theorem carver_pass_cells (L : GenEnv) (st : GenState) (cpos : ChunkCoord)
    (voxels : VoxelStorage) :
    (∀ index, (generate_carvers L st cpos voxels).2 index
        = if index < CHUNK_VOLUME
              ∧ (ChunkCoord.to_voxel cpos (LocalCoord.from_index index)).y
                  ≤ st.terrain_variation + 1
              ∧ carver_test L st (ChunkCoord.to_voxel cpos (LocalCoord.from_index index)) = true
          then NULL_VOXEL else voxels index)
    ∧ (∀ vpos : VoxelCoord, carver_test L st vpos
        = L.le
            (L.add
              (L.mul
                (L.fnlGetNoise3D st.fnl_caves_a (L.of_int vpos.x)
                  (L.mul (L.lit (3 / 2)) (L.of_int vpos.y)) (L.of_int vpos.z))
                (L.fnlGetNoise3D st.fnl_caves_a (L.of_int vpos.x)
                  (L.mul (L.lit (3 / 2)) (L.of_int vpos.y)) (L.of_int vpos.z)))
              (L.mul
                (L.fnlGetNoise3D st.fnl_caves_b (L.of_int vpos.x)
                  (L.mul (L.lit (3 / 2)) (L.of_int vpos.y)) (L.of_int vpos.z))
                (L.fnlGetNoise3D st.fnl_caves_b (L.of_int vpos.x)
                  (L.mul (L.lit (3 / 2)) (L.of_int vpos.y)) (L.of_int vpos.z))))
            (L.div (L.lit 1) (L.lit 1024)))
    ∧ (∃ md, (generate_carvers L st cpos voxels).1.metadata_map ⟨cpos.x, cpos.z⟩ = some md
        ∧ md.entropy = (get_metadata L st ⟨cpos.x, cpos.z⟩).2.entropy
        ∧ ∀ h, md.heightmap h
            = if ∃ i, i < CHUNK_VOLUME
                  ∧ ((ChunkCoord.to_voxel cpos (LocalCoord.from_index i)).y
                      ≤ st.terrain_variation + 1
                    ∧ carver_test L st (ChunkCoord.to_voxel cpos (LocalCoord.from_index i))
                        = true)
                  ∧ column_index (LocalCoord.from_index i) = h
                  ∧ (ChunkCoord.to_voxel cpos (LocalCoord.from_index i)).y
                      = (get_metadata L st ⟨cpos.x, cpos.z⟩).2.heightmap h
              then INT64_MIN
              else (get_metadata L st ⟨cpos.x, cpos.z⟩).2.heightmap h)
    ∧ (-(st.terrain_variation + 1) ≤ cpos.y * 16 →
        ∀ index,
          ((ChunkCoord.to_voxel cpos (LocalCoord.from_index index)).y ≤ st.terrain_variation + 1
            ↔ cxpr.abs (ChunkCoord.to_voxel cpos (LocalCoord.from_index index)).y
                ≤ st.terrain_variation + 1)) := by
  refine ⟨fun index => ?_, fun _ => rfl, ?_, ?_⟩
  · rewrite [generate_carvers_eq, carvers_fold_grid]
    have hiff := carvers_hit_iff L st cpos index
    by_cases hc : index < CHUNK_VOLUME ∧ carvers_hit L st cpos index = true
    · rw [if_pos ⟨List.mem_range.mpr hc.1, hc.2⟩, if_pos ⟨hc.1, hiff.mp hc.2⟩]
    · rw [if_neg (fun h => hc ⟨List.mem_range.mp h.1, h.2⟩),
        if_neg (fun h => hc ⟨h.1, hiff.mpr h.2⟩)]
  · refine ⟨((List.range CHUNK_VOLUME).foldl (carvers_step L st cpos)
        ((get_metadata L st ⟨cpos.x, cpos.z⟩).2, voxels)).1, ?_, ?_, fun h => ?_⟩
    · rewrite [generate_carvers_eq]
      exact put_metadata_map _ _ _
    · exact (carvers_fold_reset L st cpos 0 (List.range CHUNK_VOLUME) _ voxels).2
    · rw [(carvers_fold_reset L st cpos h (List.range CHUNK_VOLUME) _ voxels).1]
      have hex : (∃ i, i ∈ List.range CHUNK_VOLUME ∧ carvers_hit L st cpos i = true
            ∧ column_index (LocalCoord.from_index i) = h
            ∧ cell_y cpos i = (get_metadata L st ⟨cpos.x, cpos.z⟩).2.heightmap h)
          ↔ (∃ i, i < CHUNK_VOLUME
              ∧ ((ChunkCoord.to_voxel cpos (LocalCoord.from_index i)).y
                  ≤ st.terrain_variation + 1
                ∧ carver_test L st (ChunkCoord.to_voxel cpos (LocalCoord.from_index i)) = true)
              ∧ column_index (LocalCoord.from_index i) = h
              ∧ (ChunkCoord.to_voxel cpos (LocalCoord.from_index i)).y
                  = (get_metadata L st ⟨cpos.x, cpos.z⟩).2.heightmap h) := by
        constructor
        · rintro ⟨i, a, b, c, d⟩
          exact ⟨i, List.mem_range.mp a, (carvers_hit_iff L st cpos i).mp b, c, d⟩
        · rintro ⟨i, a, b, c, d⟩
          exact ⟨i, List.mem_range.mpr a, (carvers_hit_iff L st cpos i).mpr b, c, d⟩
      by_cases hx : ∃ i, i ∈ List.range CHUNK_VOLUME ∧ carvers_hit L st cpos i = true
            ∧ column_index (LocalCoord.from_index i) = h
            ∧ cell_y cpos i = (get_metadata L st ⟨cpos.x, cpos.z⟩).2.heightmap h
      · rw [if_pos hx, if_pos (hex.mp hx)]
      · rw [if_neg hx, if_neg (fun h => hx (hex.mpr h))]
  · intro hlow index
    have hy : (ChunkCoord.to_voxel cpos (LocalCoord.from_index index)).y
        = cpos.y * 16 + ((index / 256 : Nat) : Int) := cell_y_eq cpos index
    rw [hy]
    unfold cxpr.abs
    split <;> omega

end overworld

/-! ## The feature pass -/

namespace overworld

theorem features_scan_hit_find (md : Metadata) (lpos : LocalCoord) (vpos : VoxelCoord)
    (hdx : Nat) :
    ∀ (n tc : Nat), features_scan_hit md lpos vpos hdx n tc
      = match (List.range' tc n).find?
            (fun t => decide (lpos.x = feature_lx md t ∧ lpos.z = feature_lz md t)) with
        | some t => cxpr.range (wrap64 (vpos.y - md.heightmap hdx)) 1 (feature_height md t)
        | none => false := by
  intro n
  induction n with
  | zero => intro tc; rfl
  | succ n ih =>
    intro tc
    rw [List.range'_succ]
    by_cases hm : lpos.x = feature_lx md tc ∧ lpos.z = feature_lz md tc
    · rw [List.find?_cons_of_pos _ (by simpa using hm)]
      simp only [features_scan_hit, if_pos hm]
    · rw [List.find?_cons_of_neg _ (by simpa using hm), ← ih (tc + 1)]
      simp only [features_scan_hit, if_neg hm]

theorem wrap64_sub_range (y h H : Int) (hy1 : INT64_MIN + 6 < y) (hy2 : y ≤ INT64_MAX)
    (hh1 : INT64_MIN ≤ h) (hh2 : h ≤ INT64_MAX) (hH : H ≤ 6) :
    cxpr.range (wrap64 (y - h)) 1 H = decide (h + 1 ≤ y ∧ y ≤ h + H) := by
  have e1 : INT64_MIN = -9223372036854775808 := by unfold INT64_MIN; norm_num
  have e2 : INT64_MAX = 9223372036854775807 := by unfold INT64_MAX; norm_num
  rw [e1] at hy1 hh1
  rw [e2] at hy2 hh2
  have hw : wrap64 (y - h)
      = (y - h + 9223372036854775808) % 18446744073709551616 - 9223372036854775808 := by
    unfold wrap64; norm_num
  rw [hw]
  unfold cxpr.range
  by_cases hc : h + 1 ≤ y ∧ y ≤ h + H
  · rw [decide_eq_true hc]
    simp only [Bool.and_eq_true, decide_eq_true_eq]
    omega
  · rw [decide_eq_false hc]
    simp only [Bool.and_eq_false_iff, decide_eq_false_iff_not]
    omega

theorem feature_triple_range (md : Metadata) (tc : Nat) :
    (0 ≤ feature_lx md tc ∧ feature_lx md tc ≤ 15)
    ∧ (0 ≤ feature_lz md tc ∧ feature_lz md tc ≤ 15)
    ∧ (3 ≤ feature_height md tc ∧ feature_height md tc ≤ 6) := by
  simp only [feature_lx, feature_lz, feature_height, CHUNK_SIZE_eq]
  omega

theorem generate_features_voxels (L : GenEnv) (st : GenState) (cpos : ChunkCoord)
    (v : VoxelStorage) :
    (generate_features L st cpos v).2
      = (List.range CHUNK_VOLUME).foldl
          (features_step L (get_metadata L st ⟨cpos.x, cpos.z⟩).2 cpos) v := by
  unfold generate_features
  simp only []

theorem find_range_some (p : Nat → Bool) :
    ∀ (n s t : Nat), (List.range' s n).find? p = some t
      ↔ (s ≤ t ∧ t < s + n ∧ p t = true ∧ ∀ k, s ≤ k → k < t → p k = false) := by
  intro n
  induction n with
  | zero =>
    intro s t
    simp only [List.range'_zero, List.find?_nil]
    constructor
    · intro h; cases h
    · intro h; omega
  | succ n ih =>
    intro s t
    rw [List.range'_succ]
    cases hp : p s with
    | true =>
      rw [List.find?_cons_of_pos _ hp]
      constructor
      · intro h
        cases h
        exact ⟨Nat.le_refl _, by omega, hp, fun k h1 h2 => absurd h1 (by omega)⟩
      · rintro ⟨a, b, c, d⟩
        rcases Nat.eq_or_lt_of_le a with heq | hlt
        · rw [heq]
        · have := d s (Nat.le_refl s) hlt
          rw [hp] at this
          cases this
    | false =>
      rw [List.find?_cons_of_neg _ (by rw [hp]; exact Bool.false_ne_true), ih (s + 1) t]
      constructor
      · rintro ⟨a, b, c, d⟩
        refine ⟨by omega, by omega, c, fun k h1 h2 => ?_⟩
        rcases Nat.eq_or_lt_of_le h1 with heq | hlt
        · rw [← heq]; exact hp
        · exact d k hlt h2
      · rintro ⟨a, b, c, d⟩
        have hne : s ≠ t := by
          intro h
          rw [← h, hp] at c
          cases c
        exact ⟨by omega, by omega, c, fun k h1 h2 => d k (by omega) h2⟩

theorem first_feature_spec (md : Metadata) (lx lz : Int) (tc : Nat) :
    first_feature md lx lz = some tc
      ↔ (tc < COUNT ∧ (lx = feature_lx md tc ∧ lz = feature_lz md tc)
          ∧ ∀ t, t < tc → ¬ (lx = feature_lx md t ∧ lz = feature_lz md t)) := by
  unfold first_feature
  rw [List.range_eq_range', find_range_some]
  simp only [Nat.zero_le, true_and, Nat.zero_add, decide_eq_true_eq, decide_eq_false_iff_not,
    forall_const]

theorem features_hit_first (md : Metadata) (cpos : ChunkCoord) (index : Nat) :
    features_hit md cpos index
      = match first_feature md (LocalCoord.from_index index).x (LocalCoord.from_index index).z with
        | some t =>
          cxpr.range
            (wrap64 (cell_y cpos index - md.heightmap (column_index (LocalCoord.from_index index))))
            1 (feature_height md t)
        | none => false := by
  unfold features_hit first_feature
  rw [features_scan_hit_find, List.range_eq_range']
  rfl

/-- C24: the feature pass derives `COUNT = 5` triples from the entropy of the
column, triple `t` being `(e[3t] mod CHUNK_SIZE, e[3t + 1] mod CHUNK_SIZE,
3 + e[3t + 2] mod 4)`, with the first two components in `0 .. 15` and the third
in `3 .. 6`.  A cell of the chunk (whose world y and recorded height are 64-bit
values, the world y above `INT64_MIN + 6`) holds cobblestone after the pass
exactly when some triple has its column, and the first such triple has a height
with `h + 1 ≤ y ≤ h + height`, `h` being the recorded height of the column cell;
every other cell holds what it held, and the pass leaves the metadata alone. -/
theorem feature_pass_columns (L : GenEnv) (st : GenState) (cpos : ChunkCoord)
    (voxels : VoxelStorage) (index : Nat)
    (hy1 : INT64_MIN + 6 < (ChunkCoord.to_voxel cpos (LocalCoord.from_index index)).y)
    (hy2 : (ChunkCoord.to_voxel cpos (LocalCoord.from_index index)).y ≤ INT64_MAX)
    (hh1 : INT64_MIN ≤ (get_metadata L st ⟨cpos.x, cpos.z⟩).2.heightmap
      (column_index (LocalCoord.from_index index)))
    (hh2 : (get_metadata L st ⟨cpos.x, cpos.z⟩).2.heightmap
      (column_index (LocalCoord.from_index index)) ≤ INT64_MAX) :
    (COUNT = 5
      ∧ ∀ (md : Metadata) (tc : Nat),
        feature_lx md tc = ((md.entropy (tc * 3 + 0) % CHUNK_SIZE : Nat) : Int)
        ∧ feature_lz md tc = ((md.entropy (tc * 3 + 1) % CHUNK_SIZE : Nat) : Int)
        ∧ feature_height md tc = 3 + ((md.entropy (tc * 3 + 2) % 4 : Nat) : Int)
        ∧ (0 ≤ feature_lx md tc ∧ feature_lx md tc ≤ 15)
        ∧ (0 ≤ feature_lz md tc ∧ feature_lz md tc ≤ 15)
        ∧ (3 ≤ feature_height md tc ∧ feature_height md tc ≤ 6))
    ∧ (generate_features L st cpos voxels).2 index
        = (if index < CHUNK_VOLUME
              ∧ ∃ tc, first_feature (get_metadata L st ⟨cpos.x, cpos.z⟩).2
                    (LocalCoord.from_index index).x (LocalCoord.from_index index).z = some tc
                ∧ (get_metadata L st ⟨cpos.x, cpos.z⟩).2.heightmap
                      (column_index (LocalCoord.from_index index)) + 1
                    ≤ (ChunkCoord.to_voxel cpos (LocalCoord.from_index index)).y
                ∧ (ChunkCoord.to_voxel cpos (LocalCoord.from_index index)).y
                    ≤ (get_metadata L st ⟨cpos.x, cpos.z⟩).2.heightmap
                        (column_index (LocalCoord.from_index index))
                      + feature_height (get_metadata L st ⟨cpos.x, cpos.z⟩).2 tc
            then L.cobblestone else voxels index)
    ∧ (∀ (md : Metadata) (lx lz : Int) (tc : Nat),
        first_feature md lx lz = some tc
          ↔ (tc < COUNT ∧ (lx = feature_lx md tc ∧ lz = feature_lz md tc)
              ∧ ∀ t, t < tc → ¬ (lx = feature_lx md t ∧ lz = feature_lz md t)))
    ∧ (generate_features L st cpos voxels).1 = (get_metadata L st ⟨cpos.x, cpos.z⟩).1 := by
  refine ⟨⟨rfl, fun md tc => ⟨rfl, rfl, rfl, feature_triple_range md tc⟩⟩, ?_,
    first_feature_spec, rfl⟩
  rewrite [generate_features_voxels, features_fold_spec, features_hit_first]
  generalize (get_metadata L st ⟨cpos.x, cpos.z⟩).2 = md at hh1 hh2 ⊢
  have hy : cell_y cpos index = (ChunkCoord.to_voxel cpos (LocalCoord.from_index index)).y := rfl
  rw [hy]
  cases hf : first_feature md (LocalCoord.from_index index).x (LocalCoord.from_index index).z with
  | none =>
    simp only []
    rw [if_neg (fun h => Bool.false_ne_true h.2), if_neg]
    rintro ⟨_, tc, htc, _⟩
    cases htc
  | some t =>
    simp only []
    have hw := wrap64_sub_range _ _ _ hy1 hy2 hh1 hh2 (feature_triple_range md t).2.2.2
    by_cases hc : index < CHUNK_VOLUME
        ∧ (md.heightmap (column_index (LocalCoord.from_index index)) + 1
              ≤ (ChunkCoord.to_voxel cpos (LocalCoord.from_index index)).y
            ∧ (ChunkCoord.to_voxel cpos (LocalCoord.from_index index)).y
              ≤ md.heightmap (column_index (LocalCoord.from_index index)) + feature_height md t)
    · rw [if_pos ⟨List.mem_range.mpr hc.1, hw.trans (decide_eq_true hc.2)⟩,
        if_pos ⟨hc.1, t, rfl, hc.2⟩]
    · rw [if_neg (fun h => hc ⟨List.mem_range.mp h.1, of_decide_eq_true (hw.symm.trans h.2)⟩),
        if_neg]
      rintro ⟨h1, tc, htc, h2⟩
      cases htc
      exact hc ⟨h1, h2⟩

/-- Witness of C24: the column `(0, 0)` of `used_state` has entropy `e[i] = i`
and recorded height 12, so the first triple is `(0, 1, 5)`; the cell of the
chunk `(0, 0, 0)` at local `(0, 13, 1)` (index 3344, world y 13) takes the
marker. -/
theorem feature_pass_columns_witness :
    (INT64_MIN + 6 < (ChunkCoord.to_voxel ⟨0, 0, 0⟩ (LocalCoord.from_index 3344)).y
      ∧ (get_metadata sample_env used_state ⟨0, 0⟩).2.heightmap
          (column_index (LocalCoord.from_index 3344)) = 12
      ∧ first_feature (get_metadata sample_env used_state ⟨0, 0⟩).2
          (LocalCoord.from_index 3344).x (LocalCoord.from_index 3344).z = some 0)
    ∧ (generate_features sample_env used_state ⟨0, 0, 0⟩ empty_grid).2 3344
        = (if 3344 < CHUNK_VOLUME
              ∧ ∃ tc, first_feature (get_metadata sample_env used_state ⟨0, 0⟩).2
                    (LocalCoord.from_index 3344).x (LocalCoord.from_index 3344).z = some tc
                ∧ (get_metadata sample_env used_state ⟨0, 0⟩).2.heightmap
                      (column_index (LocalCoord.from_index 3344)) + 1
                    ≤ (ChunkCoord.to_voxel ⟨0, 0, 0⟩ (LocalCoord.from_index 3344)).y
                ∧ (ChunkCoord.to_voxel ⟨0, 0, 0⟩ (LocalCoord.from_index 3344)).y
                    ≤ (get_metadata sample_env used_state ⟨0, 0⟩).2.heightmap
                        (column_index (LocalCoord.from_index 3344))
                      + feature_height (get_metadata sample_env used_state ⟨0, 0⟩).2 tc
            then sample_env.cobblestone else empty_grid 3344) :=
  ⟨⟨by decide, by decide, by decide⟩,
    (feature_pass_columns sample_env used_state ⟨0, 0, 0⟩ empty_grid 3344
      (by decide) (by decide) (by decide) (by decide)).2.1⟩

end overworld

/-! ## The feature pass on an unset heightmap entry -/

namespace overworld

theorem wrap64_sub_min (y : Int) (hy1 : INT64_MIN + 6 < y) (hy2 : y ≤ INT64_MAX) :
    wrap64 (y - INT64_MIN) = (if y < 0 then y + 2 ^ 63 else y - 2 ^ 63)
    ∧ (wrap64 (y - INT64_MIN) < 1 ∨ 6 < wrap64 (y - INT64_MIN)) := by
  have e1 : INT64_MIN = -9223372036854775808 := by unfold INT64_MIN; norm_num
  have e2 : INT64_MAX = 9223372036854775807 := by unfold INT64_MAX; norm_num
  rw [e1] at hy1 ⊢
  rw [e2] at hy2
  have hw : wrap64 (y - -9223372036854775808)
      = (y - -9223372036854775808 + 9223372036854775808) % 18446744073709551616
          - 9223372036854775808 := by
    unfold wrap64; norm_num
  have hp : (2 : Int) ^ 63 = 9223372036854775808 := by norm_num
  rw [hw, hp]
  constructor
  · split <;> omega
  · omega

/-- C29: when the heightmap entry of the column cell of a cell is the unset
sentinel `INT64_MIN`, and the world y of the cell is a 64-bit value above
`INT64_MIN + 6`, the difference `y - INT64_MIN` reduced to the signed 64-bit
range (`y + 2^63` for negative y, `y - 2^63` otherwise) lies outside `[1, 6]`,
so the range test fails for every feature height (all are at most 6) and the
feature pass leaves the cell as it was. -/
theorem unset_height_no_marker (L : GenEnv) (st : GenState) (cpos : ChunkCoord)
    (voxels : VoxelStorage) (index : Nat)
    (hunset : (get_metadata L st ⟨cpos.x, cpos.z⟩).2.heightmap
      (column_index (LocalCoord.from_index index)) = INT64_MIN)
    (hy1 : INT64_MIN + 6 < (ChunkCoord.to_voxel cpos (LocalCoord.from_index index)).y)
    (hy2 : (ChunkCoord.to_voxel cpos (LocalCoord.from_index index)).y ≤ INT64_MAX) :
    (wrap64 ((ChunkCoord.to_voxel cpos (LocalCoord.from_index index)).y - INT64_MIN)
        = (if (ChunkCoord.to_voxel cpos (LocalCoord.from_index index)).y < 0 then
            (ChunkCoord.to_voxel cpos (LocalCoord.from_index index)).y + 2 ^ 63
          else (ChunkCoord.to_voxel cpos (LocalCoord.from_index index)).y - 2 ^ 63))
    ∧ (wrap64 ((ChunkCoord.to_voxel cpos (LocalCoord.from_index index)).y - INT64_MIN) < 1
        ∨ 6 < wrap64 ((ChunkCoord.to_voxel cpos (LocalCoord.from_index index)).y - INT64_MIN))
    ∧ (∀ tc, feature_height (get_metadata L st ⟨cpos.x, cpos.z⟩).2 tc ≤ 6
        ∧ cxpr.range
            (wrap64 ((ChunkCoord.to_voxel cpos (LocalCoord.from_index index)).y
              - (get_metadata L st ⟨cpos.x, cpos.z⟩).2.heightmap
                  (column_index (LocalCoord.from_index index))))
            1 (feature_height (get_metadata L st ⟨cpos.x, cpos.z⟩).2 tc) = false)
    ∧ (∀ v : VoxelStorage,
        features_step L (get_metadata L st ⟨cpos.x, cpos.z⟩).2 cpos v index = v)
    ∧ (generate_features L st cpos voxels).2 index = voxels index := by
  obtain ⟨w1, w2⟩ := wrap64_sub_min _ hy1 hy2
  have hrange : ∀ tc, cxpr.range
      (wrap64 ((ChunkCoord.to_voxel cpos (LocalCoord.from_index index)).y
        - (get_metadata L st ⟨cpos.x, cpos.z⟩).2.heightmap
            (column_index (LocalCoord.from_index index))))
      1 (feature_height (get_metadata L st ⟨cpos.x, cpos.z⟩).2 tc) = false := by
    intro tc
    have h6 := (feature_triple_range (get_metadata L st ⟨cpos.x, cpos.z⟩).2 tc).2.2.2
    rw [hunset]
    unfold cxpr.range
    simp only [Bool.and_eq_false_iff, decide_eq_false_iff_not]
    omega
  have hhit : features_hit (get_metadata L st ⟨cpos.x, cpos.z⟩).2 cpos index = false := by
    rw [features_hit_first]
    cases first_feature (get_metadata L st ⟨cpos.x, cpos.z⟩).2 (LocalCoord.from_index index).x
        (LocalCoord.from_index index).z with
    | none => rfl
    | some t => exact hrange t
  refine ⟨w1, w2, fun tc => ⟨(feature_triple_range _ tc).2.2.2, hrange tc⟩, fun v => ?_, ?_⟩
  · rw [features_step_spec, hhit]
    simp
  · rewrite [generate_features_voxels, features_fold_spec, hhit]
    simp

/-- Witness of C29: in the session of `sample_env` right after `setup_late(0)`
the column `(0, 0)` has no metadata, so every entry is read as unset; the cell 67
of the chunk `(0, 0, 0)` (world y 0) stays empty. -/
theorem unset_height_no_marker_witness :
    ((get_metadata sample_env session_start ⟨0, 0⟩).2.heightmap
          (column_index (LocalCoord.from_index 67)) = INT64_MIN
      ∧ (ChunkCoord.to_voxel ⟨0, 0, 0⟩ (LocalCoord.from_index 67)).y = 0)
    ∧ wrap64 ((ChunkCoord.to_voxel ⟨0, 0, 0⟩ (LocalCoord.from_index 67)).y - INT64_MIN)
        = -(2 ^ 63)
    ∧ (generate_features sample_env session_start ⟨0, 0, 0⟩ empty_grid).2 67 = empty_grid 67 :=
  ⟨⟨rfl, by decide⟩,
    (unset_height_no_marker sample_env session_start ⟨0, 0, 0⟩ empty_grid 67 rfl
      (by decide) (by decide)).1,
    (unset_height_no_marker sample_env session_start ⟨0, 0, 0⟩ empty_grid 67 rfl
      (by decide) (by decide)).2.2.2.2⟩

end overworld

/-! ## The speculative branch of the terrain pass -/

namespace overworld

theorem raise_heightmap_idem (md : Metadata) (h : Nat) (y : Int) :
    raise_heightmap (raise_heightmap md h y) h y = raise_heightmap md h y := by
  unfold raise_heightmap
  by_cases hc : y > md.heightmap h
  · simp [hc]
  · simp [hc]

theorem exact_noise_low (L : GenEnv) (noise : fnl_state → ℚ → ℚ → ℚ → ℚ) (st : GenState)
    (htv : 0 ≤ st.terrain_variation)
    (hnoise : ∀ x y z, -1 ≤ noise st.fnl_terrain x y z ∧ noise st.fnl_terrain x y z ≤ 1)
    (vpos : VoxelCoord) :
    (vpos.y ≤ -(st.terrain_variation + 1) →
      (exact_env L noise).lt ((exact_env L noise).lit 0)
        (get_noise (exact_env L noise) st vpos st.terrain_variation) = true)
    ∧ (vpos.y ≥ st.terrain_variation →
      (exact_env L noise).lt ((exact_env L noise).lit 0)
        (get_noise (exact_env L noise) st vpos st.terrain_variation) = false) := by
  have hval : get_noise (exact_env L noise) st vpos st.terrain_variation
      = ((st.terrain_variation : ℚ) * noise st.fnl_terrain (vpos.x : ℚ) (vpos.y : ℚ) (vpos.z : ℚ)
          - (vpos.y : ℚ) : ℚ) := rfl
  have hlt : ∀ a : ℚ, (exact_env L noise).lt ((exact_env L noise).lit 0) a = decide ((0 : ℚ) < a) :=
    fun _ => rfl
  obtain ⟨n1, n2⟩ := hnoise (vpos.x : ℚ) (vpos.y : ℚ) (vpos.z : ℚ)
  have htq : (0 : ℚ) ≤ (st.terrain_variation : ℚ) := by exact_mod_cast htv
  constructor
  · intro hy
    rw [hlt, hval, decide_eq_true_eq]
    have hyq : (vpos.y : ℚ) ≤ -((st.terrain_variation : ℚ) + 1) := by exact_mod_cast hy
    nlinarith
  · intro hy
    rw [hlt, hval, decide_eq_false_iff_not]
    have hyq : (vpos.y : ℚ) ≥ (st.terrain_variation : ℚ) := by exact_mod_cast hy
    nlinarith

theorem exact_terrain_step (L : GenEnv) (noise : fnl_state → ℚ → ℚ → ℚ → ℚ) (st : GenState)
    (htv : 0 ≤ st.terrain_variation)
    (hnoise : ∀ x y z, -1 ≤ noise st.fnl_terrain x y z ∧ noise st.fnl_terrain x y z ≤ 1)
    (cpos : ChunkCoord) :
    terrain_step (exact_env L noise) st cpos = noise_rule_step (exact_env L noise) st cpos := by
  funext s index
  have hlow := (exact_noise_low L noise st htv hnoise
    (ChunkCoord.to_voxel cpos (LocalCoord.from_index index))).1
  unfold terrain_step noise_rule_step
  simp only []
  by_cases h1 : cxpr.abs (ChunkCoord.to_voxel cpos (LocalCoord.from_index index)).y
      ≥ st.terrain_variation + 1
  · by_cases h2 : (ChunkCoord.to_voxel cpos (LocalCoord.from_index index)).y < 0
    · have hy : (ChunkCoord.to_voxel cpos (LocalCoord.from_index index)).y
          ≤ -(st.terrain_variation + 1) := by
        unfold cxpr.abs at h1
        rw [if_pos h2] at h1
        omega
      rw [if_pos h1, if_pos h2, if_pos (hlow hy), if_pos (hlow hy), raise_heightmap_idem,
        Function.update_idem]
    · rw [if_pos h1, if_neg h2]
  · rw [if_neg h1]

theorem exact_terrain_solid (L : GenEnv) (noise : fnl_state → ℚ → ℚ → ℚ → ℚ) (st : GenState)
    (htv : 0 ≤ st.terrain_variation)
    (hnoise : ∀ x y z, -1 ≤ noise st.fnl_terrain x y z ∧ noise st.fnl_terrain x y z ≤ 1)
    (cpos : ChunkCoord) (index : Nat) :
    terrain_solid (exact_env L noise) st cpos index
      = (exact_env L noise).lt ((exact_env L noise).lit 0)
          (get_noise (exact_env L noise) st
            (ChunkCoord.to_voxel cpos (LocalCoord.from_index index)) st.terrain_variation) := by
  have hlow := (exact_noise_low L noise st htv hnoise
    (ChunkCoord.to_voxel cpos (LocalCoord.from_index index))).1
  unfold terrain_solid
  simp only []
  by_cases h1 : cxpr.abs (ChunkCoord.to_voxel cpos (LocalCoord.from_index index)).y
      ≥ st.terrain_variation + 1
  · by_cases h2 : (ChunkCoord.to_voxel cpos (LocalCoord.from_index index)).y < 0
    · have hy : (ChunkCoord.to_voxel cpos (LocalCoord.from_index index)).y
          ≤ -(st.terrain_variation + 1) := by
        unfold cxpr.abs at h1
        rw [if_pos h2] at h1
        omega
      rw [hlow hy]
      simp
    · simp [h2]
  · simp [h1]

/-- C28: with exact arithmetic, a terrain variation that is not negative and a
terrain noise within `[-1, 1]`, the terrain pass gives the state (hence the
heightmap) and the grid of the pass that applies the noise rule alone; a cell
of the chunk holds stone afterwards exactly when
`terrain_variation * noise - y > 0`.  Every position with
`y ≤ -(terrain_variation + 1)` meets the noise rule, and no cell with
`y ≥ terrain_variation` is marked solid. -/
theorem speculative_branch_is_optimisation (L : GenEnv) (noise : fnl_state → ℚ → ℚ → ℚ → ℚ)
    (st : GenState) (cpos : ChunkCoord) (voxels : VoxelStorage)
    (htv : 0 ≤ st.terrain_variation)
    (hnoise : ∀ x y z, -1 ≤ noise st.fnl_terrain x y z ∧ noise st.fnl_terrain x y z ≤ 1) :
    generate_terrain (exact_env L noise) st cpos voxels
        = terrain_by_noise_rule (exact_env L noise) st cpos voxels
    ∧ (∀ index, (generate_terrain (exact_env L noise) st cpos voxels).2 index
        = if index < CHUNK_VOLUME
              ∧ (0 : ℚ) < (st.terrain_variation : ℚ)
                    * noise st.fnl_terrain
                        ((ChunkCoord.to_voxel cpos (LocalCoord.from_index index)).x : ℚ)
                        ((ChunkCoord.to_voxel cpos (LocalCoord.from_index index)).y : ℚ)
                        ((ChunkCoord.to_voxel cpos (LocalCoord.from_index index)).z : ℚ)
                  - ((ChunkCoord.to_voxel cpos (LocalCoord.from_index index)).y : ℚ)
          then L.stone else voxels index)
    ∧ (∀ vpos : VoxelCoord, vpos.y ≤ -(st.terrain_variation + 1) →
        (exact_env L noise).lt ((exact_env L noise).lit 0)
          (get_noise (exact_env L noise) st vpos st.terrain_variation) = true)
    ∧ (∀ index, (ChunkCoord.to_voxel cpos (LocalCoord.from_index index)).y
          ≥ st.terrain_variation →
        terrain_solid (exact_env L noise) st cpos index = false) := by
  refine ⟨?_, fun index => ?_, fun vpos => (exact_noise_low L noise st htv hnoise vpos).1,
    fun index hy => ?_⟩
  · obtain ⟨_, h1, _, _, _, _, h2, _, _⟩ :=
      get_metadata_spec (exact_env L noise) st ⟨cpos.x, cpos.z⟩
    have hstep := exact_terrain_step L noise
      (get_metadata (exact_env L noise) st ⟨cpos.x, cpos.z⟩).1
      (by rw [h1]; exact htv) (by rw [h2]; exact hnoise) cpos
    unfold generate_terrain terrain_by_noise_rule
    simp only []
    rewrite [hstep]
    rfl
  · rewrite [generate_terrain_voxels, terrain_result_eq, terrain_fold_voxels,
      exact_terrain_solid L noise st htv hnoise cpos index]
    have hval : (exact_env L noise).lt ((exact_env L noise).lit 0)
          (get_noise (exact_env L noise) st
            (ChunkCoord.to_voxel cpos (LocalCoord.from_index index)) st.terrain_variation)
        = decide ((0 : ℚ) < (st.terrain_variation : ℚ)
                    * noise st.fnl_terrain
                        ((ChunkCoord.to_voxel cpos (LocalCoord.from_index index)).x : ℚ)
                        ((ChunkCoord.to_voxel cpos (LocalCoord.from_index index)).y : ℚ)
                        ((ChunkCoord.to_voxel cpos (LocalCoord.from_index index)).z : ℚ)
                  - ((ChunkCoord.to_voxel cpos (LocalCoord.from_index index)).y : ℚ)) := rfl
    rw [hval]
    have hstone : (exact_env L noise).stone = L.stone := rfl
    rw [hstone]
    by_cases hc : index < CHUNK_VOLUME
        ∧ (0 : ℚ) < (st.terrain_variation : ℚ)
                    * noise st.fnl_terrain
                        ((ChunkCoord.to_voxel cpos (LocalCoord.from_index index)).x : ℚ)
                        ((ChunkCoord.to_voxel cpos (LocalCoord.from_index index)).y : ℚ)
                        ((ChunkCoord.to_voxel cpos (LocalCoord.from_index index)).z : ℚ)
                  - ((ChunkCoord.to_voxel cpos (LocalCoord.from_index index)).y : ℚ)
    · rw [if_pos ⟨List.mem_range.mpr hc.1, decide_eq_true hc.2⟩, if_pos hc]
    · rw [if_neg (fun h => hc ⟨List.mem_range.mp h.1, of_decide_eq_true h.2⟩), if_neg hc]
  · rw [exact_terrain_solid L noise st htv hnoise cpos index]
    exact (exact_noise_low L noise st htv hnoise _).2 hy

/-- Witness of C28: the initial configuration (terrain variation 64) with the
noise of `sample_env`, which is 0 or 1 everywhere; the chunk `(0, -5, 0)` lies
below the envelope, so the speculative branch fills it. -/
theorem speculative_branch_is_optimisation_witness :
    (0 ≤ initial_state.terrain_variation
      ∧ ∀ x y z, -1 ≤ sample_noise initial_state.fnl_terrain x y z
          ∧ sample_noise initial_state.fnl_terrain x y z ≤ 1)
    ∧ (cxpr.abs (cell_y ⟨0, -5, 0⟩ 0) ≥ initial_state.terrain_variation + 1
      ∧ cell_y ⟨0, -5, 0⟩ 0 < 0)
    ∧ generate_terrain (exact_env sample_env sample_noise) initial_state ⟨0, -5, 0⟩ empty_grid
        = terrain_by_noise_rule (exact_env sample_env sample_noise) initial_state ⟨0, -5, 0⟩
            empty_grid :=
  ⟨⟨by decide, fun _ _ _ => by simp [sample_noise, initial_state]⟩, by decide,
    (speculative_branch_is_optimisation sample_env sample_noise initial_state ⟨0, -5, 0⟩ empty_grid
      (by decide) (fun _ _ _ => by simp [sample_noise, initial_state])).1⟩

end overworld

/-! ## The slot of a cached chunk -/

theorem clamp_unit (d : Int) :
    cxpr.clamp d (-1) 1 = if d < 0 then -1 else if 0 < d then 1 else 0 := by
  unfold cxpr.clamp
  split <;> split <;> (try split) <;> (try split) <;> omega

theorem get_cached_cpos_eq (pivot cpos : ChunkCoord) :
    get_cached_cpos pivot cpos
      = if pivot = cpos then CPOS_ITSELF
        else if pivot.x < cpos.x then CPOS_WEST
        else if cpos.x < pivot.x then CPOS_EAST
        else if pivot.y < cpos.y then CPOS_BOTTOM
        else if cpos.y < pivot.y then CPOS_TOP
        else if pivot.z < cpos.z then CPOS_NORTH
        else CPOS_SOUTH := by
  obtain ⟨px, py, pz⟩ := pivot
  obtain ⟨cx, cy, cz⟩ := cpos
  by_cases he : (⟨px, py, pz⟩ : Vec3i) = ⟨cx, cy, cz⟩
  · rw [if_pos he]
    simp [get_cached_cpos, he]
  · rw [if_neg he]
    have hne : ¬ (px = cx ∧ py = cy ∧ pz = cz) := by
      intro h
      exact he (by rw [h.1, h.2.1, h.2.2])
    simp only [get_cached_cpos, ne_eq, he, not_false_eq_true, if_true, Vec3i.sub, clamp_unit]
    by_cases h1 : px < cx
    · have : px - cx < 0 := by omega
      simp [this, h1]
    · by_cases h2 : cx < px
      · have a : ¬ px - cx < 0 := by omega
        have b : 0 < px - cx := by omega
        simp [a, b, h1, h2]
      · have a : ¬ px - cx < 0 := by omega
        have b : ¬ 0 < px - cx := by omega
        by_cases h3 : py < cy
        · have : py - cy < 0 := by omega
          simp [a, b, h1, h2, this, h3]
        · by_cases h4 : cy < py
          · have c : ¬ py - cy < 0 := by omega
            have d : 0 < py - cy := by omega
            simp [a, b, h1, h2, c, d, h3, h4]
          · have c : ¬ py - cy < 0 := by omega
            have d : ¬ 0 < py - cy := by omega
            by_cases h5 : pz < cz
            · have : pz - cz < 0 := by omega
              simp [a, b, h1, h2, c, d, h3, h4, this, h5]
            · have e : ¬ pz - cz < 0 := by omega
              have f : 0 < pz - cz := by omega
              simp [a, b, h1, h2, c, d, h3, h4, e, f, h5]

theorem get_cached_cpos_adjacent (pivot a : ChunkCoord) (ha : face_adjacent pivot a) :
    (1 ≤ get_cached_cpos pivot a ∧ get_cached_cpos pivot a ≤ 6)
    ∧ ∀ b, face_adjacent pivot b → get_cached_cpos pivot a = get_cached_cpos pivot b → a = b := by
  obtain ⟨px, py, pz⟩ := pivot
  obtain ⟨ax, ay, az⟩ := a
  have hcases := (face_adjacent_iff ⟨px, py, pz⟩ ⟨ax, ay, az⟩).mpr ha
  obtain ⟨g1, g2, g3, g4, g6, g5⟩ := get_cached_cpos_step ⟨px, py, pz⟩
  have hd : LocalCoord.dir_north = ChunkCoord.dir_north ∧ LocalCoord.dir_south = ChunkCoord.dir_south
      ∧ LocalCoord.dir_east = ChunkCoord.dir_east ∧ LocalCoord.dir_west = ChunkCoord.dir_west
      ∧ LocalCoord.dir_up = ChunkCoord.dir_up ∧ LocalCoord.dir_down = ChunkCoord.dir_down :=
    ⟨rfl, rfl, rfl, rfl, rfl, rfl⟩
  rw [hd.1] at g1
  rw [hd.2.1] at g2
  rw [hd.2.2.1] at g3
  rw [hd.2.2.2.1] at g4
  rw [hd.2.2.2.2.1] at g6
  rw [hd.2.2.2.2.2] at g5
  have hval : ∀ c : ChunkCoord, face_adjacent ⟨px, py, pz⟩ c →
      (c = Vec3i.add ⟨px, py, pz⟩ ChunkCoord.dir_north ∧ get_cached_cpos ⟨px, py, pz⟩ c = 1)
      ∨ (c = Vec3i.add ⟨px, py, pz⟩ ChunkCoord.dir_south ∧ get_cached_cpos ⟨px, py, pz⟩ c = 2)
      ∨ (c = Vec3i.add ⟨px, py, pz⟩ ChunkCoord.dir_east ∧ get_cached_cpos ⟨px, py, pz⟩ c = 3)
      ∨ (c = Vec3i.add ⟨px, py, pz⟩ ChunkCoord.dir_west ∧ get_cached_cpos ⟨px, py, pz⟩ c = 4)
      ∨ (c = Vec3i.add ⟨px, py, pz⟩ ChunkCoord.dir_up ∧ get_cached_cpos ⟨px, py, pz⟩ c = 6)
      ∨ (c = Vec3i.add ⟨px, py, pz⟩ ChunkCoord.dir_down ∧ get_cached_cpos ⟨px, py, pz⟩ c = 5) := by
    intro c hc
    have hm := (face_adjacent_iff ⟨px, py, pz⟩ c).mpr hc
    simp only [List.mem_cons, List.mem_singleton, List.not_mem_nil, or_false] at hm
    rcases hm with h | h | h | h | h | h
    · exact Or.inl ⟨h, by rw [h]; exact g1⟩
    · exact Or.inr (Or.inl ⟨h, by rw [h]; exact g2⟩)
    · exact Or.inr (Or.inr (Or.inl ⟨h, by rw [h]; exact g3⟩))
    · exact Or.inr (Or.inr (Or.inr (Or.inl ⟨h, by rw [h]; exact g4⟩)))
    · exact Or.inr (Or.inr (Or.inr (Or.inr (Or.inl ⟨h, by rw [h]; exact g6⟩))))
    · exact Or.inr (Or.inr (Or.inr (Or.inr (Or.inr ⟨h, by rw [h]; exact g5⟩))))
  refine ⟨?_, fun b hb heq => ?_⟩
  · rcases hval _ ha with h | h | h | h | h | h <;> rw [h.2] <;> decide
  · rcases hval _ ha with h | h | h | h | h | h <;>
      rcases hval _ hb with k | k | k | k | k | k <;>
      first
      | (rw [h.2, k.2] at heq; exact absurd heq (by decide))
      | (rw [h.1, k.1])

/-- C25: `get_cached_cpos(pivot, cpos)` is one of the seven slots `0 .. 6`; it
is the slot of the first axis, in the order x, y, z, on which the clamped
difference `pivot - cpos` is not zero (two slots per axis, by the sign), and
`CPOS_ITSELF` (slot 0) exactly when `cpos = pivot`.  The six face-adjacent
coordinates get six slots in `1 .. 6`, no two the same, so the grid
`cache_chunk` stores for the chunk itself or a face neighbour is still in that
slot in the worker `update` creates, and it is the grid `vis_test` reads for a
position that lies in that chunk. -/
theorem cached_slot_of_neighbour (pivot cpos : ChunkCoord) :
    get_cached_cpos pivot cpos < NUM_CACHED_CPOS
    ∧ (get_cached_cpos pivot cpos = CPOS_ITSELF ↔ cpos = pivot)
    ∧ (cxpr.clamp (pivot.x - cpos.x) (-1) 1 ≠ 0 →
        get_cached_cpos pivot cpos = if pivot.x < cpos.x then CPOS_WEST else CPOS_EAST)
    ∧ (cxpr.clamp (pivot.x - cpos.x) (-1) 1 = 0 → cxpr.clamp (pivot.y - cpos.y) (-1) 1 ≠ 0 →
        get_cached_cpos pivot cpos = if pivot.y < cpos.y then CPOS_BOTTOM else CPOS_TOP)
    ∧ (cxpr.clamp (pivot.x - cpos.x) (-1) 1 = 0 → cxpr.clamp (pivot.y - cpos.y) (-1) 1 = 0 →
        cxpr.clamp (pivot.z - cpos.z) (-1) 1 ≠ 0 →
        get_cached_cpos pivot cpos = if pivot.z < cpos.z then CPOS_NORTH else CPOS_SOUTH)
    ∧ (∀ a, face_adjacent pivot a →
        (1 ≤ get_cached_cpos pivot a ∧ get_cached_cpos pivot a ≤ 6)
        ∧ ∀ b, face_adjacent pivot b → get_cached_cpos pivot a = get_cached_cpos pivot b → a = b)
    ∧ (∀ (world : World) (ctx : WorkerContext) (chunk : Chunk), world cpos = some chunk →
        (cache_chunk world ctx cpos).cache (get_cached_cpos ctx.coord cpos) = chunk.voxels)
    ∧ (∀ world : World, cpos = pivot ∨ face_adjacent pivot cpos →
        (new_worker world pivot).cache (get_cached_cpos pivot cpos) = snapshot world cpos)
    ∧ (∀ (world : World) (lpos : LocalCoord),
        VoxelCoord.to_chunk (ChunkCoord.to_voxel pivot lpos) = cpos →
        cpos = pivot ∨ face_adjacent pivot cpos →
        adjacent_voxel (new_worker world pivot) lpos
            = snapshot world cpos
                (LocalCoord.to_index (VoxelCoord.to_local (ChunkCoord.to_voxel pivot lpos)))
        ∧ ∀ (G : Services) (voxel : VoxelID) (info : VoxelInfo),
            vis_test G (new_worker world pivot) voxel info lpos
              = if snapshot world cpos
                    (LocalCoord.to_index (VoxelCoord.to_local (ChunkCoord.to_voxel pivot lpos)))
                  = NULL_VOXEL then true
                else if snapshot world cpos
                    (LocalCoord.to_index (VoxelCoord.to_local (ChunkCoord.to_voxel pivot lpos)))
                  = voxel then false
                else
                  match G.find (snapshot world cpos
                    (LocalCoord.to_index (VoxelCoord.to_local (ChunkCoord.to_voxel pivot lpos))))
                  with
                  | some neighbour_info =>
                    if neighbour_info.blending ≠ info.blending then neighbour_info.blending
                    else false
                  | none => false) := by
  have hslot : ∀ world : World, cpos = pivot ∨ face_adjacent pivot cpos →
      (new_worker world pivot).cache (get_cached_cpos pivot cpos) = snapshot world cpos := by
    intro world hc
    obtain ⟨_, _, s0, s1, s2, s3, s4, s6, s5⟩ := new_worker_spec world pivot
    obtain ⟨g1, g2, g3, g4, g6, g5⟩ := get_cached_cpos_step pivot
    rcases hc with h | h
    · rw [h, get_cached_cpos_itself]
      exact s0
    · have hm := (face_adjacent_iff pivot cpos).mpr h
      simp only [List.mem_cons, List.mem_singleton, List.not_mem_nil, or_false] at hm
      rcases hm with k | k | k | k | k | k
      · rw [k]; exact (congrArg _ g1).trans s1
      · rw [k]; exact (congrArg _ g2).trans s2
      · rw [k]; exact (congrArg _ g3).trans s3
      · rw [k]; exact (congrArg _ g4).trans s4
      · rw [k]; exact (congrArg _ g6).trans s6
      · rw [k]; exact (congrArg _ g5).trans s5
  have hx : cxpr.clamp (pivot.x - cpos.x) (-1) 1 = 0 ↔ pivot.x = cpos.x := by
    rw [clamp_unit]; split <;> (try split) <;> omega
  have hy : cxpr.clamp (pivot.y - cpos.y) (-1) 1 = 0 ↔ pivot.y = cpos.y := by
    rw [clamp_unit]; split <;> (try split) <;> omega
  have hz : cxpr.clamp (pivot.z - cpos.z) (-1) 1 = 0 ↔ pivot.z = cpos.z := by
    rw [clamp_unit]; split <;> (try split) <;> omega
  have hne : ∀ {p c : Vec3i}, (p.x ≠ c.x ∨ p.y ≠ c.y ∨ p.z ≠ c.z) → p ≠ c := by
    intro p c h he
    rw [he] at h
    simp at h
  refine ⟨?_, ?_, ?_, ?_, ?_, fun a ha => get_cached_cpos_adjacent pivot a ha, ?_, hslot, ?_⟩
  · rw [get_cached_cpos_eq]
    repeat' split
    all_goals decide
  · rw [get_cached_cpos_eq]
    constructor
    · intro h
      by_contra hc
      rw [if_neg (fun e => hc e.symm)] at h
      revert h
      repeat' split
      all_goals decide
    · intro h
      rw [if_pos h.symm]
  · intro h
    have h' : pivot.x ≠ cpos.x := fun e => h (hx.mpr e)
    rw [get_cached_cpos_eq, if_neg (hne (Or.inl h'))]
    by_cases hl : pivot.x < cpos.x
    · rw [if_pos hl, if_pos hl]
    · rw [if_neg hl, if_neg hl, if_pos (by omega)]
  · intro h1 h
    have h1' := hx.mp h1
    have h' : pivot.y ≠ cpos.y := fun e => h (hy.mpr e)
    rw [get_cached_cpos_eq, if_neg (hne (Or.inr (Or.inl h'))), if_neg (by omega),
      if_neg (by omega)]
    by_cases hl : pivot.y < cpos.y
    · rw [if_pos hl, if_pos hl]
    · rw [if_neg hl, if_neg hl, if_pos (by omega)]
  · intro h1 h2 h
    have h1' := hx.mp h1
    have h2' := hy.mp h2
    have h' : pivot.z ≠ cpos.z := fun e => h (hz.mpr e)
    rw [get_cached_cpos_eq, if_neg (hne (Or.inr (Or.inr h'))), if_neg (by omega),
      if_neg (by omega), if_neg (by omega), if_neg (by omega)]
  · intro world ctx chunk hw
    unfold cache_chunk
    rw [hw]
    simp
  · intro world lpos hchunk hc
    have := hslot world hc
    have hadj : adjacent_voxel (new_worker world pivot) lpos
        = (new_worker world pivot).cache
            (get_cached_cpos (new_worker world pivot).coord
              (VoxelCoord.to_chunk (ChunkCoord.to_voxel (new_worker world pivot).coord lpos)))
            (LocalCoord.to_index (VoxelCoord.to_local
              (ChunkCoord.to_voxel (new_worker world pivot).coord lpos))) := rfl
    have hval : adjacent_voxel (new_worker world pivot) lpos
        = snapshot world cpos
            (LocalCoord.to_index (VoxelCoord.to_local (ChunkCoord.to_voxel pivot lpos))) := by
      rw [hadj, (new_worker_spec world pivot).1, hchunk, this]
    refine ⟨hval, fun G voxel info => ?_⟩
    rewrite [vis_test_eq, hval]
    rfl

/-! ## The texture of a quad -/

/-- C30: take a voxel `a` of a processed chunk and the voxel `b` of a processed
chunk (the same or another) that lies next to it, each being the cell the other
one sees through the shared face, both other than `NULL_VOXEL` and `a ≠ b`.
When both have a definition and the two definitions have the same blending
class, `vis_test` returns false from both sides and neither build holds a quad
for the shared face.  When `a` has a definition and `b` has none, `vis_test`
returns false for `a`, and neither build holds a quad for the shared face
(the build skips a voxel without definition). -/
theorem same_class_face_hidden (G : Services) (flag flag' : Nat → Bool)
    (ctx ctx' : WorkerContext) (hnb : ctx.quads_nb = []) (hb : ctx.quads_b = [])
    (hnb' : ctx'.quads_nb = []) (hb' : ctx'.quads_b = []) (i j : Nat)
    (fd fd' : VoxelFace × LocalCoord × VoxelVis) (hfd : fd ∈ cube_faces) (hfd' : fd' ∈ cube_faces)
    (hadj : adjacent_voxel ctx (Vec3i.add (LocalCoord.from_index i) fd.2.1)
      = ctx'.cache CPOS_ITSELF j)
    (hadj' : adjacent_voxel ctx' (Vec3i.add (LocalCoord.from_index j) fd'.2.1)
      = ctx.cache CPOS_ITSELF i)
    (ha : ctx.cache CPOS_ITSELF i ≠ NULL_VOXEL) (hb0 : ctx'.cache CPOS_ITSELF j ≠ NULL_VOXEL)
    (hne : ctx.cache CPOS_ITSELF i ≠ ctx'.cache CPOS_ITSELF j) :
    (∀ info info' : VoxelInfo, G.find (ctx.cache CPOS_ITSELF i) = some info →
        G.find (ctx'.cache CPOS_ITSELF j) = some info' → info.blending = info'.blending →
        vis_test G ctx (ctx.cache CPOS_ITSELF i) info
            (Vec3i.add (LocalCoord.from_index i) fd.2.1) = false
        ∧ vis_test G ctx' (ctx'.cache CPOS_ITSELF j) info'
            (Vec3i.add (LocalCoord.from_index j) fd'.2.1) = false
        ∧ (process G flag ctx).quads_of_face (LocalCoord.from_index i) fd.1 = 0
        ∧ (process G flag' ctx').quads_of_face (LocalCoord.from_index j) fd'.1 = 0)
    ∧ (∀ info : VoxelInfo, G.find (ctx.cache CPOS_ITSELF i) = some info →
        G.find (ctx'.cache CPOS_ITSELF j) = none →
        vis_test G ctx (ctx.cache CPOS_ITSELF i) info
            (Vec3i.add (LocalCoord.from_index i) fd.2.1) = false
        ∧ (process G flag ctx).quads_of_face (LocalCoord.from_index i) fd.1 = 0
        ∧ (process G flag' ctx').quads_of_face (LocalCoord.from_index j) fd'.1 = 0) := by
  constructor
  · intro info info' hfind hfind' hclass
    have hvis : vis_test G ctx (ctx.cache CPOS_ITSELF i) info
        (Vec3i.add (LocalCoord.from_index i) fd.2.1) = false := by
      rw [vis_test_eq, hadj, if_neg hb0, if_neg (Ne.symm hne), hfind']
      simp only [ne_eq, hclass.symm, not_true_eq_false, if_false]
    have hvis' : vis_test G ctx' (ctx'.cache CPOS_ITSELF j) info'
        (Vec3i.add (LocalCoord.from_index j) fd'.2.1) = false := by
      rw [vis_test_eq, hadj', if_neg ha, if_neg hne, hfind]
      simp only [ne_eq, hclass, not_true_eq_false, if_false]
    refine ⟨hvis, hvis', hidden_face_count G flag ctx hnb hb i fd hfd ?_,
      hidden_face_count G flag' ctx' hnb' hb' j fd' hfd' ?_⟩
    · intro k hk
      rw [hfind] at hk
      cases hk
      exact hvis
    · intro k hk
      rw [hfind'] at hk
      cases hk
      exact hvis'
  · intro info hfind hnone
    have hvis : vis_test G ctx (ctx.cache CPOS_ITSELF i) info
        (Vec3i.add (LocalCoord.from_index i) fd.2.1) = false := by
      rw [vis_test_eq, hadj, if_neg hb0, if_neg (Ne.symm hne), hnone]
    refine ⟨hvis, hidden_face_count G flag ctx hnb hb i fd hfd ?_,
      hidden_face_count G flag' ctx' hnb' hb' j fd' hfd' ?_⟩
    · intro k hk
      rw [hfind] at hk
      cases hk
      exact hvis
    · intro k hk
      rw [hnone] at hk
      cases hk

/-- Witness of C30: in `sample_row_context` the stone of cell 0 and the dirt of
cell 1 are both opaque and hide the face they share; the dirt of cell 1 hides
its face towards cell 2, whose id has no definition. -/
theorem same_class_face_hidden_witness :
    (sample_services_three.find (sample_row_context.cache CPOS_ITSELF 0) = some sample_stone
      ∧ sample_services_three.find (sample_row_context.cache CPOS_ITSELF 1) = some sample_dirt
      ∧ sample_services_three.find (sample_row_context.cache CPOS_ITSELF 2) = none
      ∧ sample_stone.blending = sample_dirt.blending)
    ∧ (vis_test sample_services_three sample_row_context
            (sample_row_context.cache CPOS_ITSELF 0) sample_stone
            (Vec3i.add (LocalCoord.from_index 0) LocalCoord.dir_west) = false
        ∧ vis_test sample_services_three sample_row_context
            (sample_row_context.cache CPOS_ITSELF 1) sample_dirt
            (Vec3i.add (LocalCoord.from_index 1) LocalCoord.dir_east) = false
        ∧ (process sample_services_three never_cancelled sample_row_context).quads_of_face
            (LocalCoord.from_index 0) VoxelFace.CubeWest = 0
        ∧ (process sample_services_three never_cancelled sample_row_context).quads_of_face
            (LocalCoord.from_index 1) VoxelFace.CubeEast = 0)
    ∧ (vis_test sample_services_three sample_row_context
            (sample_row_context.cache CPOS_ITSELF 1) sample_dirt
            (Vec3i.add (LocalCoord.from_index 1) LocalCoord.dir_west) = false
        ∧ (process sample_services_three never_cancelled sample_row_context).quads_of_face
            (LocalCoord.from_index 1) VoxelFace.CubeWest = 0
        ∧ (process sample_services_three never_cancelled sample_row_context).quads_of_face
            (LocalCoord.from_index 2) VoxelFace.CubeEast = 0) :=
  ⟨⟨rfl, rfl, rfl, rfl⟩,
    (same_class_face_hidden sample_services_three never_cancelled never_cancelled
      sample_row_context sample_row_context rfl rfl rfl rfl 0 1
      (VoxelFace.CubeWest, LocalCoord.dir_west, VIS_WEST)
      (VoxelFace.CubeEast, LocalCoord.dir_east, VIS_EAST) (by decide) (by decide)
      (by decide) (by decide) (by decide) (by decide) (by decide)).1
        sample_stone sample_dirt rfl rfl rfl,
    (same_class_face_hidden sample_services_three never_cancelled never_cancelled
      sample_row_context sample_row_context rfl rfl rfl rfl 1 2
      (VoxelFace.CubeWest, LocalCoord.dir_west, VIS_WEST)
      (VoxelFace.CubeEast, LocalCoord.dir_east, VIS_EAST) (by decide) (by decide)
      (by decide) (by decide) (by decide) (by decide) (by decide)).2
        sample_dirt rfl rfl⟩

/-! ## Two consecutive calls of generate -/

namespace overworld

theorem terrain_solid_at (L : GenEnv) (st : GenState) (cpos : ChunkCoord) (i : Nat) :
    terrain_solid L st cpos i
      = solid_at L st
          ⟨((column_index (LocalCoord.from_index i) % CHUNK_SIZE : Nat) : Int) + cpos.x * 16,
            cell_y cpos i,
            ((column_index (LocalCoord.from_index i) / CHUNK_SIZE : Nat) : Int) + cpos.z * 16⟩ := by
  have hpos : ChunkCoord.to_voxel cpos (LocalCoord.from_index i)
      = ⟨((column_index (LocalCoord.from_index i) % CHUNK_SIZE : Nat) : Int) + cpos.x * 16,
          cell_y cpos i,
          ((column_index (LocalCoord.from_index i) / CHUNK_SIZE : Nat) : Int) + cpos.z * 16⟩ := by
    rw [column_index_from_index]
    simp only [ChunkCoord.to_voxel, LocalCoord.from_index, cell_y, CHUNK_SIZE_eq, two_pow_log2,
      Vec3i.mk.injEq]
    refine ⟨by omega, trivial, by omega⟩
  rw [← hpos]
  rfl

theorem solid_at_congr (L : GenEnv) (s1 s2 : GenState)
    (h1 : s1.terrain_variation = s2.terrain_variation) (h2 : s1.fnl_terrain = s2.fnl_terrain) :
    solid_at L s1 = solid_at L s2 := by
  funext vpos
  unfold solid_at get_noise
  rw [h1, h2]

/-- Two runs of the terrain and carver passes on one column cell: the second
run, started from the entry the first run left, leaves that entry again. -/
theorem rerun_entry (L : GenEnv) (st : GenState) (cpos : ChunkCoord) (h : Nat)
    (e a1 b1 a2 : Int)
    (hsound : e = INT64_MIN
      ∨ solid_at L st ⟨((h % CHUNK_SIZE : Nat) : Int) + cpos.x * 16, e,
          ((h / CHUNK_SIZE : Nat) : Int) + cpos.z * 16⟩ = true)
    (hA1 : terrain_raised L st cpos h e a1) (hB1 : carver_reset L st cpos h a1 b1)
    (hA2 : terrain_raised L st cpos h b1 a2) :
    a2 = a1 ∨ (b1 = INT64_MIN ∧ a2 = INT64_MIN) := by
  obtain ⟨r1, r2, r3⟩ := hA1
  obtain ⟨t1, t2, t3⟩ := hA2
  rcases hB1 with ⟨hc, hb⟩ | ⟨_, hb⟩
  · -- the first run reset the entry
    rcases t3 with heq | ⟨k, hk, hkc, hks, hka⟩
    · exact Or.inr ⟨hb, by rw [heq, hb]⟩
    · left
      have hk1 := r2 k hk hkc hks
      rcases r3 with he | ⟨m, hm, hmc, hms, hma⟩
      · -- the entry before the first run was the value carved
        obtain ⟨_, i0, hi0, _, hi0c, hi0y⟩ := hc
        rcases hsound with hmin | hsol
        · rw [he, hmin] at hk1 ⊢
          rw [hb] at t1
          rw [hka] at t1 ⊢
          omega
        · have hs0 : terrain_solid L st cpos i0 = true := by
            rw [terrain_solid_at, hi0c, hi0y, he]
            exact hsol
          have := t2 i0 hi0 hi0c hs0
          rw [hi0y] at this
          rw [hka] at this ⊢
          omega
      · have := t2 m hm hmc hms
        rw [hka] at this ⊢
        rw [hma] at hk1 ⊢
        omega
  · -- the first run kept the entry
    left
    rw [hb] at t1 t3
    rcases t3 with heq | ⟨k, hk, hkc, hks, hka⟩
    · exact heq
    · have := r2 k hk hkc hks
      rw [hka] at t1 ⊢
      omega

theorem rerun_entry_result (L : GenEnv) (st : GenState) (cpos : ChunkCoord) (h : Nat)
    (e a1 b1 a2 b2 : Int)
    (hsound : e = INT64_MIN
      ∨ solid_at L st ⟨((h % CHUNK_SIZE : Nat) : Int) + cpos.x * 16, e,
          ((h / CHUNK_SIZE : Nat) : Int) + cpos.z * 16⟩ = true)
    (hA1 : terrain_raised L st cpos h e a1) (hB1 : carver_reset L st cpos h a1 b1)
    (hA2 : terrain_raised L st cpos h b1 a2) (hB2 : carver_reset L st cpos h a2 b2) :
    b2 = b1 := by
  rcases rerun_entry L st cpos h e a1 b1 a2 hsound hA1 hB1 hA2 with heq | ⟨hb, ha⟩
  · rw [heq] at hB2
    rcases hB1 with ⟨hc, hb⟩ | ⟨hc, hb⟩
    · rcases hB2 with ⟨_, hb'⟩ | ⟨hc', _⟩
      · rw [hb, hb']
      · exact absurd hc hc'
    · rcases hB2 with ⟨hc', _⟩ | ⟨_, hb'⟩
      · exact absurd hc' hc
      · rw [hb, hb']
  · rw [ha] at hB2
    rcases hB2 with ⟨_, hb'⟩ | ⟨_, hb'⟩
    · rw [hb, hb']
    · rw [hb, hb']

theorem terrain_result_raised (L : GenEnv) (st : GenState) (cpos : ChunkCoord) (md : Metadata)
    (v : VoxelStorage) :
    (terrain_result L st cpos md v).1.entropy = md.entropy
    ∧ ∀ h, terrain_raised L st cpos h (md.heightmap h)
        ((terrain_result L st cpos md v).1.heightmap h) := by
  rewrite [terrain_result_eq]
  obtain ⟨f1, f2, f3, f4⟩ := terrain_fold_spec L st cpos (List.range CHUNK_VOLUME) md v
  refine ⟨f1, fun h => ⟨f2 h, fun i hi hc hs => f3 h i (List.mem_range.mpr hi) hs hc, ?_⟩⟩
  rcases f4 h with heq | ⟨i, hi, hs, hc, heq⟩
  · exact Or.inl heq
  · exact Or.inr ⟨i, List.mem_range.mp hi, hc, hs, heq⟩

theorem carvers_result_reset (L : GenEnv) (st : GenState) (cpos : ChunkCoord) (md : Metadata)
    (v : VoxelStorage) :
    (carvers_result L st cpos md v).1.entropy = md.entropy
    ∧ ∀ h, carver_reset L st cpos h ((terrain_result L st cpos md v).1.heightmap h)
        ((carvers_result L st cpos md v).1.heightmap h) := by
  have hent := (terrain_result_raised L st cpos md v).1
  rewrite [carvers_result_eq]
  by_cases hc : st.enable_carvers = true
  · rewrite [if_pos hc]
    refine ⟨?_, fun h => ?_⟩
    · rewrite [(carvers_fold_reset L st cpos 0 (List.range CHUNK_VOLUME) _ _).2,
        surface_result_metadata]
      exact hent
    · rewrite [(carvers_fold_reset L st cpos h (List.range CHUNK_VOLUME) _ _).1,
        surface_result_metadata]
      by_cases hex : ∃ i, i ∈ List.range CHUNK_VOLUME ∧ carvers_hit L st cpos i = true
          ∧ column_index (LocalCoord.from_index i) = h
          ∧ cell_y cpos i = (terrain_result L st cpos md v).1.heightmap h
      · rw [if_pos hex]
        obtain ⟨i, hi, hrest⟩ := hex
        exact Or.inl ⟨⟨hc, i, List.mem_range.mp hi, hrest⟩, rfl⟩
      · rw [if_neg hex]
        refine Or.inr ⟨?_, rfl⟩
        rintro ⟨_, i, hi, hrest⟩
        exact hex ⟨i, List.mem_range.mpr hi, hrest⟩
  · rewrite [if_neg hc]
    refine ⟨?_, fun h => ?_⟩
    · rewrite [surface_result_metadata]
      exact hent
    · rewrite [surface_result_metadata]
      exact Or.inr ⟨fun hx => hc hx.1, rfl⟩

/-- The passes run a second time on the metadata they left give the same
metadata and the same voxels, when the metadata they first started from is
sound. -/
theorem carvers_result_rerun (L : GenEnv) (st : GenState) (cpos : ChunkCoord) (md : Metadata)
    (v : VoxelStorage) (hsound : entry_sound L st ⟨cpos.x, cpos.z⟩ md) :
    carvers_result L st cpos (carvers_result L st cpos md v).1 v
      = carvers_result L st cpos md v := by
  have hv := carvers_result_voxels L st cpos (carvers_result L st cpos md v).1 md v
  obtain ⟨e1, c1⟩ := carvers_result_reset L st cpos md v
  obtain ⟨e2, c2⟩ := carvers_result_reset L st cpos (carvers_result L st cpos md v).1 v
  obtain ⟨_, t1⟩ := terrain_result_raised L st cpos md v
  obtain ⟨_, t2⟩ := terrain_result_raised L st cpos (carvers_result L st cpos md v).1 v
  have hh : (carvers_result L st cpos (carvers_result L st cpos md v).1 v).1.heightmap
      = (carvers_result L st cpos md v).1.heightmap := by
    funext h
    exact rerun_entry_result L st cpos h _ _ _ _ _ (hsound h) (t1 h) (c1 h) (t2 h) (c2 h)
  have hm : (carvers_result L st cpos (carvers_result L st cpos md v).1 v).1
      = (carvers_result L st cpos md v).1 := by
    generalize (carvers_result L st cpos (carvers_result L st cpos md v).1 v).1 = x at e2 hh ⊢
    generalize (carvers_result L st cpos md v).1 = y at e1 e2 hh ⊢
    obtain ⟨xe, xh⟩ := x
    obtain ⟨ye, yh⟩ := y
    simp only at e1 e2 hh
    rw [hh, e2]
  exact Prod.ext hm hv

theorem generate_state (L : GenEnv) (st : GenState) (cpos : ChunkCoord) (v : VoxelStorage)
    (hrow : ¬ (cpos.y < st.bottommost_chunk
      ∨ cpos.y > (CHUNK_SIZE : Int) * st.terrain_variation)) :
    (generate L st cpos v).2.1
      = put_metadata (get_metadata L st ⟨cpos.x, cpos.z⟩).1 ⟨cpos.x, cpos.z⟩
          (carvers_result L st cpos (get_metadata L st ⟨cpos.x, cpos.z⟩).2 v).1 := by
  obtain ⟨_, _, hC, _⟩ := generate_stages L st cpos v
  rewrite [generate_eq L st cpos v hrow]
  show (after_features L st cpos v).1 = _
  rewrite [after_features_state, hC]
  rfl

theorem generate_rejected (L : GenEnv) (st : GenState) (cpos : ChunkCoord) (v : VoxelStorage)
    (hrow : cpos.y < st.bottommost_chunk
      ∨ cpos.y > (CHUNK_SIZE : Int) * st.terrain_variation) :
    generate L st cpos v = (false, st, v) := by
  unfold generate
  rewrite [if_pos hrow]
  rfl

theorem get_metadata_map_other (L : GenEnv) (st : GenState) (c c' : ChunkCoord2D)
    (hne : c' ≠ c) :
    (get_metadata L st c).1.metadata_map c' = st.metadata_map c' := by
  unfold get_metadata
  cases st.metadata_map c with
  | none => exact Function.update_noteq hne _ _
  | some md => rfl

theorem get_metadata_sound (L : GenEnv) (st : GenState) (c : ChunkCoord2D)
    (hinv : heights_sound L st) : entry_sound L st c (get_metadata L st c).2 := by
  cases hm : st.metadata_map c with
  | none =>
    intro h
    left
    rw [(get_metadata_fresh L st c hm).1]
  | some md =>
    rw [get_metadata_some L st c md hm]
    exact hinv c md hm

theorem carvers_result_sound (L : GenEnv) (st : GenState) (cpos : ChunkCoord) (md : Metadata)
    (v : VoxelStorage) (hsound : entry_sound L st ⟨cpos.x, cpos.z⟩ md) :
    entry_sound L st ⟨cpos.x, cpos.z⟩ (carvers_result L st cpos md v).1 := by
  intro h
  obtain ⟨_, c1⟩ := carvers_result_reset L st cpos md v
  obtain ⟨_, t1⟩ := terrain_result_raised L st cpos md v
  rcases c1 h with ⟨_, hb⟩ | ⟨_, hb⟩
  · exact Or.inl hb
  · rw [hb]
    obtain ⟨_, _, r3⟩ := t1 h
    rcases r3 with heq | ⟨i, _, hic, his, hia⟩
    · rw [heq]
      exact hsound h
    · right
      rw [hia]
      rw [terrain_solid_at, hic] at his
      exact his

theorem generate_frame (L : GenEnv) (st : GenState) (cpos : ChunkCoord) (v : VoxelStorage) :
    same_config st (generate L st cpos v).2.1 ∧ same_noise st (generate L st cpos v).2.1 := by
  by_cases hrow : cpos.y < st.bottommost_chunk
      ∨ cpos.y > (CHUNK_SIZE : Int) * st.terrain_variation
  · rw [generate_rejected L st cpos v hrow]
    exact ⟨⟨rfl, rfl, rfl, rfl, rfl⟩, ⟨rfl, rfl, rfl⟩⟩
  · rw [generate_state L st cpos v hrow]
    obtain ⟨_, g1, g2, g3, g4, g5, g6, g7, g8⟩ := get_metadata_spec L st ⟨cpos.x, cpos.z⟩
    exact ⟨⟨g1.symm, g2.symm, g3.symm, g4.symm, g5.symm⟩, ⟨g6.symm, g7.symm, g8.symm⟩⟩

theorem generate_sound (L : GenEnv) (st : GenState) (cpos : ChunkCoord) (v : VoxelStorage)
    (hinv : heights_sound L st) : heights_sound L (generate L st cpos v).2.1 := by
  obtain ⟨hcfg, hnoise⟩ := generate_frame L st cpos v
  have hsolid : solid_at L (generate L st cpos v).2.1 = solid_at L st :=
    solid_at_congr L _ st hcfg.1.symm hnoise.1.symm
  intro c md hmap
  have hgoal : entry_sound L st c md := by
    by_cases hrow : cpos.y < st.bottommost_chunk
        ∨ cpos.y > (CHUNK_SIZE : Int) * st.terrain_variation
    · rw [generate_rejected L st cpos v hrow] at hmap
      exact hinv c md hmap
    · rw [generate_state L st cpos v hrow] at hmap
      by_cases hc : c = ⟨cpos.x, cpos.z⟩
      · rw [hc, put_metadata_map] at hmap
        cases hmap
        rw [hc]
        exact carvers_result_sound L st cpos _ v (get_metadata_sound L st _ hinv)
      · have hm : (put_metadata (get_metadata L st ⟨cpos.x, cpos.z⟩).1 ⟨cpos.x, cpos.z⟩
            (carvers_result L st cpos (get_metadata L st ⟨cpos.x, cpos.z⟩).2 v).1).metadata_map c
            = st.metadata_map c := by
          unfold put_metadata
          simp only []
          rw [Function.update_noteq hc, get_metadata_map_other L st _ c hc]
        rw [hm] at hmap
        exact hinv c md hmap
  intro h
  have := hgoal h
  rw [hsolid]
  exact this

theorem setup_late_sound (L : GenEnv) (seed : Nat) (s0 : GenState) :
    heights_sound L (setup_late L seed s0) := by
  intro c md hmap
  have : (setup_late L seed s0).metadata_map c = none := rfl
  rw [this] at hmap
  cases hmap

theorem generate_calls_sound (L : GenEnv) :
    ∀ (calls : List (ChunkCoord × VoxelStorage)) (st : GenState), heights_sound L st →
      heights_sound L (generate_calls L st calls) := by
  intro calls
  induction calls with
  | nil => intro st h; exact h
  | cons c cs ih =>
    intro st h
    exact ih _ (generate_sound L st c.1 c.2 h)

theorem carvers_result_congr (L : GenEnv) (s1 s2 : GenState) (cpos : ChunkCoord) (md : Metadata)
    (v : VoxelStorage) (hcfg : same_config s1 s2) (hnoise : same_noise s1 s2) :
    carvers_result L s1 cpos md v = carvers_result L s2 cpos md v := by
  obtain ⟨c1, _, c3, c4, _⟩ := hcfg
  obtain ⟨n1, n2, n3⟩ := hnoise
  unfold carvers_result surface_result terrain_result
  rewrite [terrain_step_congr L s1 s2 cpos c1 n1, surface_step_congr L s1 s2 cpos c1 n1,
    carvers_step_congr L s1 s2 cpos c1 n2 n3, c3, c4]
  rfl

theorem passes_grid_rerun (L : GenEnv) (st : GenState) (cpos : ChunkCoord) (md : Metadata)
    (v : VoxelStorage) (hsound : entry_sound L st ⟨cpos.x, cpos.z⟩ md) :
    passes_grid L st cpos (carvers_result L st cpos md v).1 v = passes_grid L st cpos md v := by
  unfold passes_grid
  rewrite [carvers_result_rerun L st cpos md v hsound]
  rfl

/-- A second call of `generate` right after a first one, for the same chunk and
on the same storage, in a state whose cache is sound: it returns what the first
call returned and leaves the state the first call left. -/
theorem generate_rerun (L : GenEnv) (st : GenState) (cpos : ChunkCoord) (v : VoxelStorage)
    (hinv : heights_sound L st) :
    generate L (generate L st cpos v).2.1 cpos v = generate L st cpos v := by
  by_cases hrow : cpos.y < st.bottommost_chunk
      ∨ cpos.y > (CHUNK_SIZE : Int) * st.terrain_variation
  · rw [generate_rejected L st cpos v hrow]
    exact generate_rejected L st cpos v hrow
  · obtain ⟨hcfg, hnoise⟩ := generate_frame L st cpos v
    have hrow1 : ¬ (cpos.y < (generate L st cpos v).2.1.bottommost_chunk
        ∨ cpos.y > (CHUNK_SIZE : Int) * (generate L st cpos v).2.1.terrain_variation) := by
      rw [← hcfg.1, ← hcfg.2.1]
      exact hrow
    obtain ⟨a1, a2, a3⟩ := generate_result L st cpos v hrow
    obtain ⟨b1, _, b3⟩ := generate_result L (generate L st cpos v).2.1 cpos v hrow1
    have hsound := get_metadata_sound L st ⟨cpos.x, cpos.z⟩ hinv
    have hget : get_metadata L (generate L st cpos v).2.1 ⟨cpos.x, cpos.z⟩
        = ((generate L st cpos v).2.1,
            (carvers_result L st cpos (get_metadata L st ⟨cpos.x, cpos.z⟩).2 v).1) :=
      get_metadata_some L _ _ _ a2
    have hres : carvers_result L (generate L st cpos v).2.1 cpos
          (carvers_result L st cpos (get_metadata L st ⟨cpos.x, cpos.z⟩).2 v).1 v
        = carvers_result L st cpos (get_metadata L st ⟨cpos.x, cpos.z⟩).2 v := by
      rw [← carvers_result_congr L st _ cpos _ v hcfg hnoise]
      exact carvers_result_rerun L st cpos _ v hsound
    have hstate : (generate L (generate L st cpos v).2.1 cpos v).2.1
        = (generate L st cpos v).2.1 := by
      rw [generate_state L (generate L st cpos v).2.1 cpos v hrow1, hget]
      simp only []
      rw [hres]
      exact put_metadata_self _ _ _ a2
    have hgrid : (generate L (generate L st cpos v).2.1 cpos v).2.2
        = (generate L st cpos v).2.2 := by
      rw [b3, hget, a3]
      simp only []
      rw [← passes_grid_congr L st _ cpos _ v hcfg hnoise]
      exact passes_grid_rerun L st cpos _ v hsound
    exact Prod.ext (b1.trans a1.symm) (Prod.ext hstate hgrid)

/-- C27: in every state a session reaches from `setup_late(seed)` through calls
of `generate` (any chunks, any storages; none at all for a column without
metadata), a call of `generate` for a chunk followed at once by a second call
for the same chunk on the same storage (an empty one, for instance): the second
call returns the same value and the same voxel grid as the first and leaves
the state, hence the heightmap and the entropy of the column, as the first call
left it. -/
theorem consecutive_generate_same (L : GenEnv) (seed : Nat) (s0 : GenState)
    (calls : List (ChunkCoord × VoxelStorage)) (cpos : ChunkCoord) (voxels : VoxelStorage) :
    (generate L
        (generate L (generate_calls L (setup_late L seed s0) calls) cpos voxels).2.1
        cpos voxels).1
      = (generate L (generate_calls L (setup_late L seed s0) calls) cpos voxels).1
    ∧ (generate L
        (generate L (generate_calls L (setup_late L seed s0) calls) cpos voxels).2.1
        cpos voxels).2.2
      = (generate L (generate_calls L (setup_late L seed s0) calls) cpos voxels).2.2
    ∧ (generate L
        (generate L (generate_calls L (setup_late L seed s0) calls) cpos empty_grid).2.1
        cpos empty_grid).2.2
      = (generate L (generate_calls L (setup_late L seed s0) calls) cpos empty_grid).2.2
    ∧ (generate L
        (generate L (generate_calls L (setup_late L seed s0) calls) cpos voxels).2.1
        cpos voxels).2.1
      = (generate L (generate_calls L (setup_late L seed s0) calls) cpos voxels).2.1
    ∧ (∀ md, (generate L (generate_calls L (setup_late L seed s0) calls) cpos voxels).2.1.metadata_map
          ⟨cpos.x, cpos.z⟩ = some md →
        ∃ md', (generate L
            (generate L (generate_calls L (setup_late L seed s0) calls) cpos voxels).2.1
            cpos voxels).2.1.metadata_map ⟨cpos.x, cpos.z⟩ = some md'
          ∧ md'.heightmap = md.heightmap ∧ md'.entropy = md.entropy)
    ∧ ((generate L (generate_calls L (setup_late L seed s0) calls) cpos voxels).1 = true →
        ∃ md, (generate L (generate_calls L (setup_late L seed s0) calls) cpos voxels).2.1.metadata_map
          ⟨cpos.x, cpos.z⟩ = some md) := by
  have hinv := generate_calls_sound L calls _ (setup_late_sound L seed s0)
  have h := generate_rerun L _ cpos voxels hinv
  have h0 := generate_rerun L _ cpos empty_grid hinv
  refine ⟨congrArg (fun r => r.1) h, congrArg (fun r => r.2.2) h, congrArg (fun r => r.2.2) h0,
    congrArg (fun r => r.2.1) h, fun md hmd => ?_, fun hacc => ?_⟩
  · refine ⟨md, ?_, rfl, rfl⟩
    rw [congrArg (fun r => r.2.1) h]
    exact hmd
  · by_cases hrow : cpos.y < (generate_calls L (setup_late L seed s0) calls).bottommost_chunk
        ∨ cpos.y > (CHUNK_SIZE : Int)
            * (generate_calls L (setup_late L seed s0) calls).terrain_variation
    · rw [generate_rejected L _ cpos voxels hrow] at hacc
      cases hacc
    · exact ⟨_, (generate_result L _ cpos voxels hrow).2.1⟩

end overworld

end Voxelius
